import Mathlib

/-!
# Desktop application lookup: a shallow embedding of `gio/gdesktopappinfo.c`

The C code keeps a process-wide chain `desktop_file_dirs` of `DesktopFileDir`
records and a set of static scratch arrays used while searching.  Here the
chain is a `List DesktopFileDir`, a `DesktopFileDir *` is the index of the
record in that list (pointer equality is index equality), a `GHashTable` with
string keys is an association list in iteration order, a `GPtrArray` or a
`NULL`-terminated string vector is a `List`, and a nullable pointer is an
`Option`.  Everything outside the file (the key-file parser, the tokenizer,
the program search path, the MIME database, the environment and the file
system) is a field of `Env`; a key file that the code rewrites is the record of
its typed getters, and a setter updates that record.

All functions below describe the chain as `desktop_file_dirs_lock ()` leaves
it: every record has been through `desktop_file_dir_init`.
-/

namespace DesktopAppInfo

/-! ## Hash tables with string keys -/

/-- A `GHashTable` keyed by strings: the entries in iteration order.  A table
built with `g_hash_table_insert` never holds a key twice (`HashKeysOk`). -/
abbrev GHashTable (V : Type) := List (String × V)

/-- The C function `g_hash_table_lookup`: the value stored under `key`, if any. -/
def g_hash_table_lookup {V : Type} (t : GHashTable V) (key : String) : Option V :=
  match t with
  | [] => none
  | (k, v) :: rest => if k = key then some v else g_hash_table_lookup rest key

/-- The C function `g_hash_table_contains`. -/
def g_hash_table_contains {V : Type} (t : GHashTable V) (key : String) : Bool :=
  (g_hash_table_lookup t key).isSome

/-- The C function `g_hash_table_insert`: an existing key keeps its place and
gets the new value, a new key is added. -/
def g_hash_table_insert {V : Type} (t : GHashTable V) (key : String) (value : V) :
    GHashTable V :=
  match t with
  | [] => [(key, value)]
  | (k, v) :: rest =>
    if k = key then (k, value) :: rest else (k, v) :: g_hash_table_insert rest key value

/-- The invariant of a hash table: no key occurs twice. -/
def HashKeysOk {V : Type} (t : GHashTable V) : Prop :=
  (t.map Prod.fst).Nodup

instance {V : Type} (t : GHashTable V) : Decidable (HashKeysOk t) := by
  unfold HashKeysOk
  infer_instance

/-! ## The external collaborators -/

/-- A parsed key file, seen only through the typed getters this code calls
(`g_key_file_get_string` and friends, each taking a group and a key). -/
structure GKeyFile where
  start_group : Option String
  get_string : String → String → Option String
  get_locale_string : String → String → Option String
  get_boolean : String → String → Bool
  get_string_list : String → String → Option (List String)
  get_locale_string_list : String → String → Option (List String)
  get_keys : String → Option (List String)

/-- Everything this file consumes from outside. -/
structure Env where
  /-- The C function `g_key_file_load_from_file`: the parsed document at a path, `none` on failure. -/
  g_key_file_load_from_file : String → Option GKeyFile
  /-- The C function `g_find_program_for_path`: program, search path and working directory. -/
  g_find_program_for_path : String → Option String → Option String → Option String
  /-- The C function `g_shell_parse_argv`: the argument vector, `none` on a parse error. -/
  g_shell_parse_argv : String → Option (List String)
  /-- The C function `g_str_tokenize_and_fold`: the tokens and the alternates. -/
  g_str_tokenize_and_fold : String → List String × List String
  /-- The C function `g_path_get_basename`. -/
  g_path_get_basename : String → String
  /-- The C function `_g_unix_content_type_unalias`. -/
  g_unix_content_type_unalias : String → String
  /-- The C function `_g_unix_content_type_get_parents`. -/
  g_unix_content_type_get_parents : String → List String
  /-- The C function `g_getenv`: the value of an environment variable, if set. -/
  g_getenv : String → Option String
  /-- The C function `g_strsplit` with no limit on the number of pieces: string, delimiter. -/
  g_strsplit : String → String → List String
  /-- The C function `g_ascii_isalnum`. -/
  g_ascii_isalnum : Char → Bool
  /-- The C function `g_ascii_tolower`. -/
  g_ascii_tolower : Char → Char
  /-- The C function `g_get_user_config_dir`. -/
  g_get_user_config_dir : String
  /-- The C function `g_get_user_data_dir`. -/
  g_get_user_data_dir : String
  /-- The C function `g_build_filename` on the list of its path elements. -/
  g_build_filename : List String → String
  /-- The C function `g_mkdir_with_parents` with mode `0700`: `true` when it returns `0`. -/
  g_mkdir_with_parents : String → Bool
  /-- The C function `g_file_set_contents_full`: `true` when the file at the path can be
  written. -/
  g_file_set_contents_full : String → Bool
  /-- The C function `g_get_system_config_dirs`. -/
  g_get_system_config_dirs : List String
  /-- The C function `g_get_system_data_dirs`. -/
  g_get_system_data_dirs : List String
  /-- The C function `g_access` with mode `R_OK | X_OK`: `true` when it returns `0`. -/
  g_access : String → Bool
  /-- The C function `g_path_get_dirname`. -/
  g_path_get_dirname : String → String
  /-- The C functions `g_dir_open` and `g_dir_read_name`: the names that the directory
  yields, in order, `none` when it cannot be opened. -/
  g_dir_open : String → Option (List String)
  /-- The C function `g_file_test` with `G_FILE_TEST_IS_DIR`. -/
  g_file_test_is_dir : String → Bool
  /-- The C function `g_local_file_monitor_new_in_worker`: `true` when a monitor is
  installed on the path. -/
  g_local_file_monitor_new_in_worker : String → Bool
  /-- The C functions `g_file_new_for_uri` and `g_file_get_path`: the local path of a URI,
  if it has one. -/
  g_file_get_path : String → Option String
  /-- The C function `g_shell_quote`. -/
  g_shell_quote : String → String
  /-- The C function `g_path_is_absolute`. -/
  g_path_is_absolute : String → Bool
  /-- The C function `g_file_test` with `G_FILE_TEST_IS_EXECUTABLE`. -/
  g_file_test_is_executable : String → Bool
  /-- The C function `g_spawn_async_with_fds` at the flags, set-up function and file
  descriptors of the launch: number of earlier calls, working directory, argument vector
  and environment; the process id, `none` on failure. -/
  g_spawn_async_with_fds : Nat → Option String → List String → List String → Option Nat
  /-- The C function `g_get_environ`. -/
  g_get_environ : List String
  /-- The C function `g_environ_getenv`. -/
  g_environ_getenv : List String → String → Option String
  /-- The C function `g_environ_setenv` with `overwrite = TRUE`. -/
  g_environ_setenv : List String → String → String → List String
  /-- The private C function `g_check_setuid`. -/
  g_check_setuid : Bool
  /-- The build-time macro `GIO_LAUNCH_DESKTOP`. -/
  GIO_LAUNCH_DESKTOP : String

/-! ## The data model -/

/-- The fields of `struct _GDesktopAppInfo` that come from the key file. -/
structure GDesktopAppInfo where
  desktop_id : Option String
  filename : Option String
  name : Option String
  generic_name : Option String
  fullname : Option String
  comment : Option String
  icon_name : Option String
  keywords : Option (List String)
  only_show_in : Option (List String)
  not_show_in : Option (List String)
  try_exec : Option String
  exec : Option String
  path : Option String
  categories : Option String
  startup_wm_class : Option String
  mime_types : Option (List String)
  actions : List String
  nodisplay : Bool
  hidden : Bool
  terminal : Bool
  startup_notify : Bool
  no_fuse : Bool
  deriving DecidableEq, Repr

/-- The C type `UnindexedMimeTweaks`: three nullable string vectors. -/
structure UnindexedMimeTweaks where
  additions : Option (List String)
  removals : Option (List String)
  defaults : Option (List String)
  deriving DecidableEq, Repr

/-- The C type `MemoryIndexEntry`, one posting; the `next` pointer is the tail of
the list the entry sits in. -/
structure MemoryIndexEntry where
  app_name : String
  match_category : Int
  token_pos : Int
  deriving DecidableEq, Repr

/-- The C type `MemoryIndex`: token to chain of postings. -/
abbrev MemoryIndex := GHashTable (List MemoryIndexEntry)

/-- The C type `DesktopFileDir`; `monitor` records only whether a monitor is installed. -/
structure DesktopFileDir where
  path : String
  alternatively_watching : Option String
  is_config : Bool
  is_setup : Bool
  monitor : Bool
  app_names : Option (GHashTable String)
  mime_tweaks : Option (GHashTable UnindexedMimeTweaks)
  memory_index : Option MemoryIndex
  memory_implementations : Option MemoryIndex
  deriving DecidableEq, Repr

/-- Every id table of the chain satisfies the hash-table invariant. -/
def ChainOk (desktop_file_dirs : List DesktopFileDir) : Prop :=
  ∀ d ∈ desktop_file_dirs, HashKeysOk (d.app_names.getD [])

instance (desktop_file_dirs : List DesktopFileDir) : Decidable (ChainOk desktop_file_dirs) := by
  unfold ChainOk
  infer_instance

/-! ## Masking -/

/-- The loop of `desktop_file_dir_app_name_is_masked`, from index `i` on, over the
records `rest` not yet visited. -/
def desktop_file_dir_app_name_is_masked_loop (dir : Nat) (app_name : String) :
    Nat → List DesktopFileDir → Bool
  | _, [] => false
  | i, i_dir :: rest =>
    if dir = i then false
    else if (match i_dir.app_names with
             | some t => g_hash_table_contains t app_name
             | none => false) then true
    else desktop_file_dir_app_name_is_masked_loop dir app_name (i + 1) rest

/-- The C function `desktop_file_dir_app_name_is_masked`; `dir` is the index of the
record in the chain. -/
def desktop_file_dir_app_name_is_masked (desktop_file_dirs : List DesktopFileDir)
    (dir : Nat) (app_name : String) : Bool :=
  desktop_file_dir_app_name_is_masked_loop dir app_name 0 desktop_file_dirs

/-- The record at index `i` of the chain maps `id` to `path` in its id table. -/
def IdTableEntry (desktop_file_dirs : List DesktopFileDir) (i : Nat) (id path : String) : Prop :=
  ∃ d t, desktop_file_dirs[i]? = some d ∧ d.app_names = some t ∧
    g_hash_table_lookup t id = some path

/-- The record at index `i` of the chain has `id` in its id table. -/
def HasId (desktop_file_dirs : List DesktopFileDir) (i : Nat) (id : String) : Prop :=
  ∃ path, IdTableEntry desktop_file_dirs i id path

/-- The record at index `i` is the highest-precedence record that has `id` in its id table. -/
def IsTopDir (desktop_file_dirs : List DesktopFileDir) (i : Nat) (id : String) : Prop :=
  HasId desktop_file_dirs i id ∧ ∀ j, j < i → ¬ HasId desktop_file_dirs j id

/-! ## Loading one entry -/

/-- The inner loop of `g_desktop_app_info_get_desktop_id_for_filename`: the first key
of the table whose value is `filename`. -/
def desktop_id_in_table (filename : String) : GHashTable String → Option String
  | [] => none
  | (key, value) :: rest =>
    if value = filename then some key else desktop_id_in_table filename rest

/-- The C function `g_desktop_app_info_get_desktop_id_for_filename`. -/
def g_desktop_app_info_get_desktop_id_for_filename (env : Env)
    (desktop_file_dirs : List DesktopFileDir) (filename : String) : String :=
  match desktop_file_dirs.findSome? (fun dir =>
      match dir.app_names with
      | none => none
      | some app_names => desktop_id_in_table filename app_names) with
  | some desktop_id => desktop_id
  | none => env.g_path_get_basename filename

/-- The C function `g_desktop_app_info_load_from_keyfile` for an entry that has a
file name; `none` is the `FALSE` return. -/
def g_desktop_app_info_load_from_keyfile (env : Env)
    (desktop_file_dirs : List DesktopFileDir) (filename : String) (key_file : GKeyFile) :
    Option GDesktopAppInfo :=
  if key_file.start_group ≠ some "Desktop Entry" then none
  else if key_file.get_string "Desktop Entry" "Type" ≠ some "Application" then none
  else
    let path := key_file.get_string "Desktop Entry" "Path"
    let try_exec := key_file.get_string "Desktop Entry" "TryExec"
    let try_exec_ok : Bool :=
      match try_exec with
      | some t => if t ≠ "" then (env.g_find_program_for_path t none path).isSome else true
      | none => true
    if !try_exec_ok then none
    else
      let exec := key_file.get_string "Desktop Entry" "Exec"
      let exec_ok : Bool :=
        match exec with
        | some e =>
          if e ≠ "" then
            match env.g_shell_parse_argv e with
            | none => false
            | some argv =>
              match argv.head? with
              | some argv0 => (env.g_find_program_for_path argv0 none path).isSome
              | none => false
          else true
        | none => true
      if !exec_ok then none
      else
        some {
          desktop_id := some (g_desktop_app_info_get_desktop_id_for_filename env
                                desktop_file_dirs filename)
          filename := some filename
          name := key_file.get_locale_string "Desktop Entry" "Name"
          generic_name := key_file.get_locale_string "Desktop Entry" "GenericName"
          fullname := key_file.get_locale_string "Desktop Entry" "X-GNOME-FullName"
          comment := key_file.get_locale_string "Desktop Entry" "Comment"
          icon_name := key_file.get_locale_string "Desktop Entry" "Icon"
          keywords := key_file.get_locale_string_list "Desktop Entry" "Keywords"
          only_show_in := key_file.get_string_list "Desktop Entry" "OnlyShowIn"
          not_show_in := key_file.get_string_list "Desktop Entry" "NotShowIn"
          try_exec := try_exec
          exec := exec
          path := if path = some "" then none else path
          categories := key_file.get_string "Desktop Entry" "Categories"
          startup_wm_class := key_file.get_string "Desktop Entry" "StartupWMClass"
          mime_types := key_file.get_string_list "Desktop Entry" "MimeType"
          actions := (key_file.get_string_list "Desktop Entry" "Actions").getD []
          nodisplay := key_file.get_boolean "Desktop Entry" "NoDisplay"
          hidden := key_file.get_boolean "Desktop Entry" "Hidden"
          terminal := key_file.get_boolean "Desktop Entry" "Terminal"
          startup_notify := key_file.get_boolean "Desktop Entry" "StartupNotify"
          no_fuse := key_file.get_boolean "Desktop Entry" "X-GIO-NoFuse" }

/-- The C functions `g_desktop_app_info_new_from_filename_unlocked` and
`g_desktop_app_info_load_file`: `none` when the file does not parse or the
entry is unusable. -/
def g_desktop_app_info_new_from_filename_unlocked (env : Env)
    (desktop_file_dirs : List DesktopFileDir) (filename : String) : Option GDesktopAppInfo :=
  match env.g_key_file_load_from_file filename with
  | none => none
  | some key_file => g_desktop_app_info_load_from_keyfile env desktop_file_dirs filename key_file

/-- The C function `desktop_file_dir_unindexed_get_app`. -/
def desktop_file_dir_unindexed_get_app (env : Env) (desktop_file_dirs : List DesktopFileDir)
    (app_names : GHashTable String) (desktop_id : String) : Option GDesktopAppInfo :=
  match g_hash_table_lookup app_names desktop_id with
  | none => none
  | some filename => g_desktop_app_info_new_from_filename_unlocked env desktop_file_dirs filename

/-- The C function `desktop_file_dir_get_app`; `dir` is the index of the record. -/
def desktop_file_dir_get_app (env : Env) (desktop_file_dirs : List DesktopFileDir)
    (dir : Nat) (desktop_id : String) : Option GDesktopAppInfo :=
  match desktop_file_dirs[dir]? with
  | none => none
  | some d =>
    match d.app_names with
    | none => none
    | some app_names =>
      desktop_file_dir_unindexed_get_app env desktop_file_dirs app_names desktop_id

/-! ## Resolving an id and listing all entries -/

/-- The C function `g_desktop_app_info_new`: the first record that yields an entry is
used, and a hidden entry is dropped. -/
def g_desktop_app_info_new (env : Env) (desktop_file_dirs : List DesktopFileDir)
    (desktop_id : String) : Option GDesktopAppInfo :=
  match (List.range desktop_file_dirs.length).findSome?
      (fun i => desktop_file_dir_get_app env desktop_file_dirs i desktop_id) with
  | none => none
  | some appinfo =>
    let appinfo := { appinfo with desktop_id := some desktop_id }
    if appinfo.hidden then none else some appinfo

/-- The C function `add_to_table_if_appropriate`. -/
def add_to_table_if_appropriate (apps : GHashTable GDesktopAppInfo) (app_name : String)
    (info : Option GDesktopAppInfo) : GHashTable GDesktopAppInfo :=
  match info with
  | none => apps
  | some info =>
    if info.hidden then apps
    else g_hash_table_insert apps app_name { info with desktop_id := some app_name }

/-- The C function `desktop_file_dir_unindexed_get_all`; `dir` is the index of the record. -/
def desktop_file_dir_unindexed_get_all (env : Env) (desktop_file_dirs : List DesktopFileDir)
    (dir : Nat) (apps : GHashTable GDesktopAppInfo) : GHashTable GDesktopAppInfo :=
  match desktop_file_dirs[dir]? with
  | none => apps
  | some d =>
    match d.app_names with
    | none => apps
    | some app_names =>
      app_names.foldl (fun apps entry =>
        if desktop_file_dir_app_name_is_masked desktop_file_dirs dir entry.1 then apps
        else add_to_table_if_appropriate apps entry.1
          (g_desktop_app_info_new_from_filename_unlocked env desktop_file_dirs entry.2)) apps

/-- The table `apps` that `g_app_info_get_all_impl` fills before it is turned into a list. -/
def g_app_info_get_all_table (env : Env) (desktop_file_dirs : List DesktopFileDir) :
    GHashTable GDesktopAppInfo :=
  (List.range desktop_file_dirs.length).foldl
    (fun apps i => desktop_file_dir_unindexed_get_all env desktop_file_dirs i apps) []

/-- The C function `g_app_info_get_all_impl`: every value of the table, prepended one by one. -/
def g_app_info_get_all_impl (env : Env) (desktop_file_dirs : List DesktopFileDir) :
    List GDesktopAppInfo :=
  (g_app_info_get_all_table env desktop_file_dirs).foldl (fun infos entry => entry.2 :: infos) []

/-! ## Type associations -/

/-- The C function `array_contains` on a `GPtrArray` of strings. -/
def array_contains (array : List String) (str : String) : Bool :=
  array.any (fun s => decide (s = str))

/-- The first loop of `desktop_file_dir_unindexed_mime_lookup`: one step per entry of
`tweaks->additions`, on the pair `(hits, blocklist)`. -/
def mime_lookup_additions (desktop_file_dirs : List DesktopFileDir) (dir : Nat)
    (additions : List String) (hb : List String × List String) : List String × List String :=
  additions.foldl (fun hb app_name =>
    if !desktop_file_dir_app_name_is_masked desktop_file_dirs dir app_name &&
        !array_contains hb.2 app_name && !array_contains hb.1 app_name
    then (hb.1 ++ [app_name], hb.2) else hb) hb

/-- The second loop of `desktop_file_dir_unindexed_mime_lookup`: one step per entry of
`tweaks->removals`. -/
def mime_lookup_removals (desktop_file_dirs : List DesktopFileDir) (dir : Nat)
    (removals : List String) (hb : List String × List String) : List String × List String :=
  removals.foldl (fun hb app_name =>
    if !desktop_file_dir_app_name_is_masked desktop_file_dirs dir app_name &&
        !array_contains hb.2 app_name && !array_contains hb.1 app_name
    then (hb.1, hb.2 ++ [app_name]) else hb) hb

/-- The lookup `g_hash_table_lookup (dir->mime_tweaks, mime_type)` of the record at index `dir`. -/
def desktop_file_dir_tweaks (desktop_file_dirs : List DesktopFileDir) (dir : Nat)
    (mime_type : String) : Option UnindexedMimeTweaks :=
  match desktop_file_dirs[dir]? with
  | none => none
  | some d =>
    match d.mime_tweaks with
    | none => none
    | some mime_tweaks => g_hash_table_lookup mime_tweaks mime_type

/-- The C function `desktop_file_dir_unindexed_mime_lookup` (and its wrapper
`desktop_file_dir_mime_lookup`) on the pair `(hits, blocklist)`. -/
def desktop_file_dir_unindexed_mime_lookup (desktop_file_dirs : List DesktopFileDir)
    (dir : Nat) (mime_type : String) (hb : List String × List String) :
    List String × List String :=
  match desktop_file_dir_tweaks desktop_file_dirs dir mime_type with
  | none => hb
  | some tweaks =>
    let hb :=
      match tweaks.additions with
      | some additions => mime_lookup_additions desktop_file_dirs dir additions hb
      | none => hb
    match tweaks.removals with
    | some removals => mime_lookup_removals desktop_file_dirs dir removals hb
    | none => hb

/-- The loop of `get_list_of_mimetypes` that walks the array while it grows; `fuel`
bounds the number of iterations and `none` means the bound was too small. -/
def get_list_of_mimetypes_loop (env : Env) : Nat → Nat → List String → Option (List String)
  | 0, _, _ => none
  | fuel + 1, i, array =>
    match array[i]? with
    | none => some array
    | some ty =>
      get_list_of_mimetypes_loop env fuel (i + 1)
        ((env.g_unix_content_type_get_parents ty).foldl
          (fun array parent => if array_contains array parent then array else array ++ [parent])
          array)

/-- The C function `get_list_of_mimetypes`. -/
def get_list_of_mimetypes (env : Env) (fuel : Nat) (content_type : String)
    (include_fallback : Bool) : Option (List String) :=
  let array := [env.g_unix_content_type_unalias content_type]
  if include_fallback then get_list_of_mimetypes_loop env fuel 0 array else some array

/-- The inner loop of `g_desktop_app_info_get_desktop_ids_for_content_type`: one type
looked up in the records `0 .. n-1` of the chain, in order. -/
def mime_lookup_dirs (desktop_file_dirs : List DesktopFileDir) (mime_type : String) (n : Nat)
    (hb : List String × List String) : List String × List String :=
  (List.range n).foldl
    (fun hb j => desktop_file_dir_unindexed_mime_lookup desktop_file_dirs j mime_type hb) hb

/-- The two nested loops of `g_desktop_app_info_get_desktop_ids_for_content_type`. -/
def mime_lookup_types (desktop_file_dirs : List DesktopFileDir) (types : List String)
    (hb : List String × List String) : List String × List String :=
  types.foldl
    (fun hb ty => mime_lookup_dirs desktop_file_dirs ty desktop_file_dirs.length hb) hb

/-- The C function `g_desktop_app_info_get_desktop_ids_for_content_type`: the hits. -/
def g_desktop_app_info_get_desktop_ids_for_content_type (env : Env) (fuel : Nat)
    (desktop_file_dirs : List DesktopFileDir) (content_type : String)
    (include_fallback : Bool) : Option (List String) :=
  (get_list_of_mimetypes env fuel content_type include_fallback).map
    (fun types => (mime_lookup_types desktop_file_dirs types ([], [])).1)

/-- The C function `g_app_info_get_recommended_for_type_impl`. -/
def g_app_info_get_recommended_for_type_impl (env : Env) (fuel : Nat)
    (desktop_file_dirs : List DesktopFileDir) (content_type : String) :
    Option (List GDesktopAppInfo) :=
  (g_desktop_app_info_get_desktop_ids_for_content_type env fuel desktop_file_dirs
      content_type false).map
    (fun desktop_ids => desktop_ids.filterMap (g_desktop_app_info_new env desktop_file_dirs))

/-! ## Searching -/

/-- The C type `struct search_result`. -/
structure search_result where
  app_name : String
  category : Int
  match_type : Int
  token_pos : Int
  deriving DecidableEq, Repr

/-- The static scratch arrays, each up to its `_size`. -/
structure SearchState where
  static_token_results : List search_result
  static_search_results : List search_result
  static_total_results : List search_result
  deriving DecidableEq, Repr

/-- The state of the scratch arrays at program start: all sizes are zero. -/
def SearchState.initial : SearchState := ⟨[], [], []⟩

/-- Between two searches the token and per-directory arrays are empty. -/
def SearchState.Idle (st : SearchState) : Prop :=
  st.static_token_results = [] ∧ st.static_search_results = []

instance (st : SearchState) : Decidable st.Idle := by
  unfold SearchState.Idle
  infer_instance

/-- The enumerator `MATCH_TYPE_PREFIX`. -/
def MATCH_TYPE_PREFIX : Int := 1

/-- The enumerator `MATCH_TYPE_SUBSTRING`. -/
def MATCH_TYPE_SUBSTRING : Int := 2

/-- Pointer order on application names.  The names in the scratch arrays are pointer-unique
keys of one id table, and the code only needs some total order on them; the order of the
character lists stands for the order of the addresses. -/
def app_name_lt (a b : String) : Prop := a.data < b.data

instance (a b : String) : Decidable (app_name_lt a b) := by
  unfold app_name_lt
  infer_instance

/-- The C function `compare_results`. -/
def compare_results (ra rb : search_result) : Int :=
  if app_name_lt ra.app_name rb.app_name then -1
  else if app_name_lt rb.app_name ra.app_name then 1
  else if ra.match_type ≠ rb.match_type then ra.match_type - rb.match_type
  else ra.category - rb.category

/-- The C function `compare_categories`. -/
def compare_categories (ra rb : search_result) : Int :=
  if ra.match_type ≠ rb.match_type then ra.match_type - rb.match_type
  else if ra.category ≠ rb.category then ra.category - rb.category
  else ra.token_pos - rb.token_pos

/-- The libc function `qsort` with comparator `compar`: the array sorted by the comparator.
Insertion sort fixes the order of elements that compare equal, which libc leaves open. -/
def qsort {α : Type} (compar : α → α → Int) (base : List α) : List α :=
  base.insertionSort (fun a b => compar a b ≤ 0)

/-- Conversion of a `gint` argument to the `guint16` parameter type. -/
def to_guint16 (x : Int) : Int := x % 65536

/-- The C function `add_token_result`. -/
def add_token_result (st : SearchState) (app_name : String)
    (category match_type token_pos : Int) : SearchState :=
  { st with static_token_results := st.static_token_results ++
      [{ app_name := app_name, category := to_guint16 category,
         match_type := to_guint16 match_type, token_pos := to_guint16 token_pos }] }

/-- The loop of the `first` branch of `merge_token_results`: `last_name`, the token
results still to visit, and `static_search_results`. -/
def merge_first_loop : Option String → List search_result → List search_result →
    List search_result
  | _, [], search_results => search_results
  | last_name, t :: rest, search_results =>
    if some t.app_name = last_name then merge_first_loop last_name rest search_results
    else merge_first_loop (some t.app_name) rest (search_results ++ [t])

/-- The inner `while` loop of the second branch of `merge_token_results`: starting at `k`,
with `pending` the search results from `k` on, skip the ones below `app_name`. -/
def merge_skip (app_name : String) : List search_result → Nat → Nat
  | [], k => k
  | s :: pending, k =>
    if app_name_lt s.app_name app_name then merge_skip app_name pending (k + 1) else k

/-- The loop of the second branch of `merge_token_results`: `last_name`, the token results
still to visit, and the triple `static_search_results`, `j`, `k`.  The four field
assignments to `static_search_results[j]` read `static_search_results[k]` field by field,
so they amount to one record assignment also when `j = k`. -/
def merge_next_loop : Option String → List search_result →
    List search_result × Nat × Nat → List search_result × Nat × Nat
  | _, [], s => s
  | last_name, t :: rest, (search_results, j, k) =>
    if some t.app_name = last_name then merge_next_loop last_name rest (search_results, j, k)
    else
      let k := merge_skip t.app_name (search_results.drop k) k
      match search_results[k]? with
      | some s =>
        if s.app_name = t.app_name then
          merge_next_loop (some t.app_name) rest
            (search_results.set j
              { app_name := s.app_name,
                category := max s.category t.category,
                match_type := max s.match_type t.match_type,
                token_pos := max s.token_pos t.token_pos }, j + 1, k)
        else merge_next_loop (some t.app_name) rest (search_results, j, k)
      | none => merge_next_loop (some t.app_name) rest (search_results, j, k)

/-- The C function `merge_token_results`. -/
def merge_token_results (first : Bool) (st : SearchState) : SearchState :=
  let token_results :=
    if st.static_token_results.length ≠ 0 then qsort compare_results st.static_token_results
    else st.static_token_results
  let search_results :=
    if first then merge_first_loop none token_results st.static_search_results
    else
      let r := merge_next_loop none token_results (st.static_search_results, 0, 0)
      r.1.take r.2.1
  { st with static_token_results := [], static_search_results := search_results }

/-- The C function `reset_total_search_results`. -/
def reset_total_search_results (st : SearchState) : SearchState :=
  { st with static_total_results := [] }

/-- The C function `sort_total_search_results`. -/
def sort_total_search_results (st : SearchState) : SearchState :=
  if st.static_total_results.length ≠ 0 then
    { st with static_total_results := qsort compare_categories st.static_total_results }
  else st

/-- The C function `merge_directory_results`. -/
def merge_directory_results (st : SearchState) : SearchState :=
  { st with
    static_total_results := st.static_total_results ++ st.static_search_results,
    static_search_results := [] }

/-! ## The in-memory token index -/

/-- The C function `strstr` on the characters of two strings: the offset of the first
occurrence of `needle` in `haystack` counted from `offset`, `none` for the `NULL` return. -/
def strstr_from (needle : List Char) : List Char → Nat → Option Nat
  | [], offset => if needle.isPrefixOf [] then some offset else none
  | c :: haystack, offset =>
    if needle.isPrefixOf (c :: haystack) then some offset
    else strstr_from needle haystack (offset + 1)

/-- The C function `strstr`. -/
def strstr (haystack needle : String) : Option Nat :=
  strstr_from needle.data haystack.data 0

/-- The C function `memory_index_add_token`: a new posting goes right behind the first
posting of its token, or starts the chain of a new token. -/
def memory_index_add_token (mi : MemoryIndex) (token : String)
    (match_category token_pos : Int) (app_name : String) : MemoryIndex :=
  let mie : MemoryIndexEntry :=
    { app_name := app_name, match_category := match_category, token_pos := token_pos }
  match g_hash_table_lookup mi token with
  | some (first :: rest) => g_hash_table_insert mi token (first :: mie :: rest)
  | _ => g_hash_table_insert mi token [mie]

/-- One loop of `memory_index_add_string`: the tokens get the positions `start`,
`start + 1`, ... -/
def memory_index_add_tokens (mi : MemoryIndex) (match_category : Int) (app_name : String) :
    List String → Nat → MemoryIndex
  | [], _ => mi
  | token :: tokens, start =>
    memory_index_add_tokens
      (memory_index_add_token mi token match_category start app_name)
      match_category app_name tokens (start + 1)

/-- The C function `memory_index_add_string`. -/
def memory_index_add_string (env : Env) (mi : MemoryIndex) (string : String)
    (match_category : Int) (app_name : String) : MemoryIndex :=
  let tokens := (env.g_str_tokenize_and_fold string).1
  let alternates := (env.g_str_tokenize_and_fold string).2
  memory_index_add_tokens
    (memory_index_add_tokens mi match_category app_name tokens 0)
    match_category app_name alternates tokens.length

/-- The table `exec_key_match_blocklist`. -/
def exec_key_match_blocklist : List String :=
  ["bash", "env", "flatpak", "gjs", "pkexec", "python", "python2", "python3", "sh", "wine",
   "wine64"]

/-- The keys of the enumeration `DESKTOP_KEY_Exec .. DESKTOP_KEY_X_GNOME_FullName` in
their order: whether the key is `Exec`, its name (`desktop_key_get_name`) and its entry
in `desktop_key_match_category`. -/
def desktop_keys : List (Bool × String × Int) :=
  [(true, "Exec", 2), (false, "GenericName", 4), (false, "Keywords", 3), (false, "Name", 1),
   (false, "X-GNOME-FullName", 5)]

/-- The text after the last slash of a string, as `strrchr (raw, '/')` plus one; `none`
when there is no slash. -/
def after_last_slash : List Char → Option (List Char)
  | [] => none
  | c :: rest =>
    match after_last_slash rest with
    | some tail => some tail
    | none => if c = '/' then some rest else none

/-- The special handling of the `Exec` value in `desktop_file_dir_unindexed_setup_search`:
cut at the first blank, tab or newline, keep what follows the last slash, and drop a value
that is on the blocklist. -/
def exec_index_value (raw : String) : Option String :=
  let cut := raw.data.takeWhile (fun c => c ≠ ' ' ∧ c ≠ '\t' ∧ c ≠ '\n')
  let value := String.mk ((after_last_slash cut).getD cut)
  if exec_key_match_blocklist.contains value then none else some value

/-- The loop over the keys in `desktop_file_dir_unindexed_setup_search` for one entry. -/
def memory_index_add_keys (env : Env) (key_file : GKeyFile) (app : String)
    (mi : MemoryIndex) : MemoryIndex :=
  desktop_keys.foldl (fun mi key =>
    if key.2.2 = 0 then mi
    else
      let raw := key_file.get_locale_string "Desktop Entry" key.2.1
      let value := if key.1 then raw.bind exec_index_value else raw
      match value with
      | some value => memory_index_add_string env mi value key.2.2 app
      | none => mi) mi

/-- The loop that notes the `Implements` line of one entry. -/
def memory_index_add_implements (app : String) (mi : MemoryIndex) :
    List String → Nat → MemoryIndex
  | [], _ => mi
  | interface :: implements, i =>
    memory_index_add_implements app (memory_index_add_token mi interface i 0 app)
      implements (i + 1)

/-- The C function `desktop_file_dir_unindexed_setup_search`: the new `memory_index` and
`memory_implementations` of the record at index `dir`. -/
def desktop_file_dir_unindexed_setup_search (env : Env)
    (desktop_file_dirs : List DesktopFileDir) (dir : Nat) : MemoryIndex × MemoryIndex :=
  match (desktop_file_dirs[dir]?).bind (fun d => d.app_names) with
  | none => ([], [])
  | some app_names =>
    app_names.foldl (fun mis entry =>
      if desktop_file_dir_app_name_is_masked desktop_file_dirs dir entry.1 then mis
      else
        match env.g_key_file_load_from_file entry.2 with
        | none => mis
        | some key_file =>
          if key_file.get_boolean "Desktop Entry" "Hidden" then mis
          else
            (memory_index_add_keys env key_file entry.1 mis.1,
             memory_index_add_implements entry.1 mis.2
               ((key_file.get_string_list "Desktop Entry" "Implements").getD []) 0))
      ([], [])

/-- The lazy set-up at the head of `desktop_file_dir_unindexed_search`: the chain after
`if (!dir->memory_index) desktop_file_dir_unindexed_setup_search (dir)`. -/
def desktop_file_dir_ensure_index (env : Env) (desktop_file_dirs : List DesktopFileDir)
    (dir : Nat) : List DesktopFileDir :=
  match desktop_file_dirs[dir]? with
  | none => desktop_file_dirs
  | some d =>
    match d.memory_index with
    | some _ => desktop_file_dirs
    | none =>
      let mis := desktop_file_dir_unindexed_setup_search env desktop_file_dirs dir
      desktop_file_dirs.set dir
        { d with memory_index := some mis.1, memory_implementations := some mis.2 }

/-- The index that `desktop_file_dir_unindexed_search` iterates for the record `dir`. -/
def desktop_file_dir_index (env : Env) (desktop_file_dirs : List DesktopFileDir)
    (dir : Nat) : MemoryIndex :=
  (((desktop_file_dir_ensure_index env desktop_file_dirs dir)[dir]?).bind
    (fun d => d.memory_index)).getD []

/-- The body of the iteration in `desktop_file_dir_unindexed_search` for one key of the
index and its chain of postings. -/
def search_index_key (search_token : String) (st : SearchState)
    (entry : String × List MemoryIndexEntry) : SearchState :=
  match strstr entry.1 search_token with
  | none => st
  | some p =>
    let match_type :=
      if p = 0 ∧ search_token ≠ "" then MATCH_TYPE_PREFIX else MATCH_TYPE_SUBSTRING
    entry.2.foldl (fun st mie =>
      add_token_result st mie.app_name mie.match_category match_type mie.token_pos) st

/-- The C function `desktop_file_dir_unindexed_search` (and its wrapper
`desktop_file_dir_search`): the chain with the index of `dir` in place, and the scratch
arrays with the matches of `search_token` appended. -/
def desktop_file_dir_unindexed_search (env : Env) (desktop_file_dirs : List DesktopFileDir)
    (dir : Nat) (search_token : String) (st : SearchState) :
    List DesktopFileDir × SearchState :=
  (desktop_file_dir_ensure_index env desktop_file_dirs dir,
   (desktop_file_dir_index env desktop_file_dirs dir).foldl (search_index_key search_token) st)

/-! ## The search entry point -/

/-- The loop over the search tokens for the record `k`; `j` is the index of the token. -/
def search_tokens_loop (env : Env) (k : Nat) :
    List String → Nat → List DesktopFileDir × SearchState → List DesktopFileDir × SearchState
  | [], _, s => s
  | token :: tokens, j, (desktop_file_dirs, st) =>
    let r := desktop_file_dir_unindexed_search env desktop_file_dirs k token st
    search_tokens_loop env k tokens (j + 1) (r.1, merge_token_results (j == 0) r.2)

/-- The loop over the records of the chain in `g_desktop_app_info_search`. -/
def search_dirs_loop (env : Env) (search_tokens : List String) :
    List Nat → List DesktopFileDir × SearchState → List DesktopFileDir × SearchState
  | [], s => s
  | k :: ks, s =>
    let r := search_tokens_loop env k search_tokens 0 s
    search_dirs_loop env search_tokens ks (r.1, merge_directory_results r.2)

/-- The counting loop of `g_desktop_app_info_search`: the number of places where the key
differs from the one before, given `last_category`, `last_match_type`, `last_token_pos`. -/
def count_groups : Int × Int × Int → List search_result → Nat
  | _, [] => 0
  | last, r :: rest =>
    if r.category ≠ last.1 ∨ r.match_type ≠ last.2.1 ∨ r.token_pos ≠ last.2.2 then
      count_groups (r.category, r.match_type, r.token_pos) rest + 1
    else count_groups last rest

/-- The inner `while` loop of the filling loop: the number of leading records of
`pending` (the total results from `start_of_group` on) that carry the given key. -/
def n_items_in_group (this_category this_match_type this_token_pos : Int) :
    List search_result → Nat
  | [] => 0
  | r :: pending =>
    if r.category = this_category ∧ r.match_type = this_match_type ∧
        r.token_pos = this_token_pos then
      n_items_in_group this_category this_match_type this_token_pos pending + 1
    else 0

/-- The filling loop of `g_desktop_app_info_search`: `n` groups still to fill, starting
at `start_of_group`. -/
def fill_groups (total_results : List search_result) : Nat → Nat → List (List String)
  | 0, _ => []
  | n + 1, start_of_group =>
    match total_results[start_of_group]? with
    | none => [] :: fill_groups total_results n start_of_group
    | some r =>
      let n_items := n_items_in_group r.category r.match_type r.token_pos
        (total_results.drop start_of_group)
      ((total_results.drop start_of_group).take n_items).map (fun x => x.app_name) ::
        fill_groups total_results n (start_of_group + n_items)

/-- The scratch arrays of `g_desktop_app_info_search` after the loops over the chain and
the final sort, together with the chain. -/
def search_collect (env : Env) (desktop_file_dirs : List DesktopFileDir) (st : SearchState)
    (search_string : String) : List DesktopFileDir × SearchState :=
  let search_tokens := (env.g_str_tokenize_and_fold search_string).1
  let r := search_dirs_loop env search_tokens (List.range desktop_file_dirs.length)
    (desktop_file_dirs, reset_total_search_results st)
  (r.1, sort_total_search_results r.2)

/-- The C function `g_desktop_app_info_search`: the groups of application names. -/
def g_desktop_app_info_search (env : Env) (desktop_file_dirs : List DesktopFileDir)
    (st : SearchState) (search_string : String) : List (List String) :=
  let total_results := (search_collect env desktop_file_dirs st search_string).2.static_total_results
  fill_groups total_results (count_groups (-1, -1, -1) total_results) 0

/-! ## Notions used to state the properties of the search -/

/-- The three rank fields of a record are not negative, as for every record that
`add_token_result` stores. -/
def search_result.NonNeg (r : search_result) : Prop :=
  0 ≤ r.category ∧ 0 ≤ r.match_type ∧ 0 ≤ r.token_pos

/-- Two records carry the same rank key (match kind, category, position). -/
def rank_key_eq (x y : search_result) : Prop :=
  x.match_type = y.match_type ∧ x.category = y.category ∧ x.token_pos = y.token_pos

/-- The rank key (match kind, category, position) of `x` is lexicographically below the
one of `y`. -/
def rank_key_lt (x y : search_result) : Prop :=
  x.match_type < y.match_type ∨
    (x.match_type = y.match_type ∧
      (x.category < y.category ∨ (x.category = y.category ∧ x.token_pos < y.token_pos)))

/-- The global accumulator `static_total_results` of a search, after the loops over the
chain and before the final sort. -/
def search_accumulator (env : Env) (desktop_file_dirs : List DesktopFileDir) (st : SearchState)
    (search_string : String) : List search_result :=
  (search_dirs_loop env (env.g_str_tokenize_and_fold search_string).1
    (List.range desktop_file_dirs.length)
    (desktop_file_dirs, reset_total_search_results st)).2.static_total_results

/-- All three scratch arrays hold records with non-negative rank fields. -/
def StateNonNeg (st : SearchState) : Prop :=
  (∀ r ∈ st.static_token_results, r.NonNeg) ∧ (∀ r ∈ st.static_search_results, r.NonNeg) ∧
    (∀ r ∈ st.static_total_results, r.NonNeg)

/-! ## Notions used to describe the merge of token results -/

/-- The record that the second branch of `merge_token_results` stores for a kept
application: the name of the accumulator record `s` and, field by field, the larger of the
values of `s` and of the token record `t`. -/
def merged_result (s t : search_result) : search_result :=
  { app_name := s.app_name,
    category := max s.category t.category,
    match_type := max s.match_type t.match_type,
    token_pos := max s.token_pos t.token_pos }

/-- The token results that the loops of `merge_token_results` do not skip: the first record
of every run of equal names, given the `last_name` at the start. -/
def token_runs : Option String → List search_result → List search_result
  | _, [] => []
  | last_name, t :: rest =>
    if some t.app_name = last_name then token_runs last_name rest
    else t :: token_runs (some t.app_name) rest

/-- The body of the loop of the second branch of `merge_token_results` for one token result
`t` that is not skipped, on the triple `static_search_results`, `j`, `k`. -/
def merge_step (state : List search_result × Nat × Nat) (t : search_result) :
    List search_result × Nat × Nat :=
  let k := merge_skip t.app_name (state.1.drop state.2.2) state.2.2
  match state.1[k]? with
  | some s =>
    if s.app_name = t.app_name then (state.1.set state.2.1 (merged_result s t), state.2.1 + 1, k)
    else (state.1, state.2.1, k)
  | none => (state.1, state.2.1, k)

/-- What becomes of the accumulator record `s` when the token results `tokens` are merged:
it is combined with the first token result of the same application, and dropped when there
is none. -/
def merge_lookup (tokens : List search_result) (s : search_result) : Option search_result :=
  (tokens.find? (fun t => decide (t.app_name = s.app_name))).map (merged_result s)

/-- The accumulator records are strictly increasing in application identity. -/
def StrictlySorted (results : List search_result) : Prop :=
  results.Pairwise (fun x y => app_name_lt x.app_name y.app_name)

instance (results : List search_result) : Decidable (StrictlySorted results) := by
  unfold StrictlySorted
  infer_instance

/-- The token results that `desktop_file_dir_unindexed_search` appends for one key of the
index and its chain of postings. -/
def index_key_results (search_token : String) (entry : String × List MemoryIndexEntry) :
    List search_result :=
  match strstr entry.1 search_token with
  | none => []
  | some p =>
    entry.2.map (fun mie =>
      { app_name := mie.app_name,
        category := to_guint16 mie.match_category,
        match_type := to_guint16
          (if p = 0 ∧ search_token ≠ "" then MATCH_TYPE_PREFIX else MATCH_TYPE_SUBSTRING),
        token_pos := to_guint16 mie.token_pos })

/-- The application `app` has a posting under a key of `index` that contains
`search_token` as a substring. -/
def HasPosting (index : MemoryIndex) (search_token app : String) : Prop :=
  ∃ key chain mie, (key, chain) ∈ index ∧ search_token.data <:+: key.data ∧ mie ∈ chain ∧
    mie.app_name = app

/-! ## Notions used to state the properties of the type associations -/

/-- The additions that the record at index `dir` holds for `mime_type` (empty when the
record has no tweaks for the type or no additions). -/
def additions_for (desktop_file_dirs : List DesktopFileDir) (dir : Nat) (mime_type : String) :
    List String :=
  ((desktop_file_dir_tweaks desktop_file_dirs dir mime_type).bind (fun t => t.additions)).getD []

/-- The removals that the record at index `dir` holds for `mime_type`. -/
def removals_for (desktop_file_dirs : List DesktopFileDir) (dir : Nat) (mime_type : String) :
    List String :=
  ((desktop_file_dir_tweaks desktop_file_dirs dir mime_type).bind (fun t => t.removals)).getD []

/-- The elements of `l` that are not in `seen`, each at its first occurrence only. -/
def first_occurrences : List String → List String → List String
  | _, [] => []
  | seen, x :: l =>
    if array_contains seen x then first_occurrences seen l
    else x :: first_occurrences (seen ++ [x]) l

/-- The additions for `mime_type` of the first `n` records of the chain, one list after the
other in chain order. -/
def addition_candidates (desktop_file_dirs : List DesktopFileDir) (mime_type : String)
    (n : Nat) : List String :=
  (List.range n).flatMap (fun d => additions_for desktop_file_dirs d mime_type)

/-- The condition of the specification on an id `x`: the first record of the chain that
lists `x` in its additions for the type with `x` not masked there exists, and no record of
strictly higher precedence lists `x` in its removals for the type. -/
def recommended_ok (desktop_file_dirs : List DesktopFileDir) (mime_type : String)
    (x : String) : Bool :=
  match (List.range desktop_file_dirs.length).find? (fun d =>
      array_contains (additions_for desktop_file_dirs d mime_type) x &&
        !desktop_file_dir_app_name_is_masked desktop_file_dirs d x) with
  | some d =>
    (List.range d).all (fun h => !array_contains (removals_for desktop_file_dirs h mime_type) x)
  | none => false

/-- The recommended id list as the specification describes it: the ids that satisfy
`recommended_ok`, in chain order and without duplicates. -/
def recommended_spec (desktop_file_dirs : List DesktopFileDir) (mime_type : String) :
    List String :=
  (first_occurrences []
    (addition_candidates desktop_file_dirs mime_type desktop_file_dirs.length)).filter
    (recommended_ok desktop_file_dirs mime_type)

/-- Among the first `n` records, one lists `x` in its additions for the type with `x` not
masked there, and no record before it lists `x` in its removals for the type. -/
def AddedBefore (desktop_file_dirs : List DesktopFileDir) (mime_type : String) (n : Nat)
    (x : String) : Prop :=
  ∃ d, d < n ∧ x ∈ additions_for desktop_file_dirs d mime_type ∧
    desktop_file_dir_app_name_is_masked desktop_file_dirs d x = false ∧
    ∀ h, h < d → x ∉ removals_for desktop_file_dirs h mime_type

/-- Among the first `n` records, one lists `x` in its removals for the type with `x` not
masked there, and `x` was not added by that record or a record before it. -/
def RemovedBefore (desktop_file_dirs : List DesktopFileDir) (mime_type : String) (n : Nat)
    (x : String) : Prop :=
  ∃ h, h < n ∧ x ∈ removals_for desktop_file_dirs h mime_type ∧
    desktop_file_dir_app_name_is_masked desktop_file_dirs h x = false ∧
    ¬ AddedBefore desktop_file_dirs mime_type (h + 1) x


/-! ## Recommended, fallback and all entries of a type -/

/-- The C function `g_app_info_get_all_for_type_impl`. -/
def g_app_info_get_all_for_type_impl (env : Env) (fuel : Nat)
    (desktop_file_dirs : List DesktopFileDir) (content_type : String) :
    Option (List GDesktopAppInfo) :=
  (g_desktop_app_info_get_desktop_ids_for_content_type env fuel desktop_file_dirs
      content_type true).map
    (fun desktop_ids => desktop_ids.filterMap (g_desktop_app_info_new env desktop_file_dirs))

/-- The C function `g_app_info_get_fallback_for_type_impl`: the ids of the list with
ancestors that are not on the recommended list, resolved in order. -/
def g_app_info_get_fallback_for_type_impl (env : Env) (fuel : Nat)
    (desktop_file_dirs : List DesktopFileDir) (content_type : String) :
    Option (List GDesktopAppInfo) :=
  match g_desktop_app_info_get_desktop_ids_for_content_type env fuel desktop_file_dirs
      content_type false with
  | none => none
  | some recommended_ids =>
    match g_desktop_app_info_get_desktop_ids_for_content_type env fuel desktop_file_dirs
        content_type true with
    | none => none
    | some all_ids =>
      some ((all_ids.filter (fun id => !recommended_ids.any (fun r => decide (id = r)))).filterMap
        (g_desktop_app_info_new env desktop_file_dirs))

/-- A finite set of types that holds `content_type` after alias resolution and the
parents of each of its members: the part of the MIME database that the walk of
`get_list_of_mimetypes` can reach. -/
def TypesClosed (env : Env) (universe_types : List String) (content_type : String) : Prop :=
  env.g_unix_content_type_unalias content_type ∈ universe_types ∧
  ∀ t ∈ universe_types, ∀ p ∈ env.g_unix_content_type_get_parents t, p ∈ universe_types

instance (env : Env) (universe_types : List String) (content_type : String) :
    Decidable (TypesClosed env universe_types content_type) := by
  unfold TypesClosed
  infer_instance

/-! ## Reading the association files of a directory -/

/-- The macro `DEFAULT_APPLICATIONS_GROUP`. -/
def DEFAULT_APPLICATIONS_GROUP : String := "Default Applications"

/-- The macro `ADDED_ASSOCIATIONS_GROUP`. -/
def ADDED_ASSOCIATIONS_GROUP : String := "Added Associations"

/-- The macro `REMOVED_ASSOCIATIONS_GROUP`. -/
def REMOVED_ASSOCIATIONS_GROUP : String := "Removed Associations"

/-- The macro `MIME_CACHE_GROUP`. -/
def MIME_CACHE_GROUP : String := "MIME Cache"

/-- The macro `G_SEARCHPATH_SEPARATOR_S` on Unix. -/
def G_SEARCHPATH_SEPARATOR_S : String := ":"

/-- The C function `validate_xdg_desktop`: every character is `-`, `_` or alphanumeric,
and the name is not empty. -/
def validate_xdg_desktop (env : Env) (desktop : String) : Bool :=
  if desktop.data.any (fun c => c != '-' && c != '_' && !env.g_ascii_isalnum c) then false
  else if desktop.data.length = 0 then false
  else true

/-- The C function `get_valid_current_desktops`. -/
def get_valid_current_desktops (env : Env) (value : Option String) : List String :=
  let value := match value with
    | some value => some value
    | none => env.g_getenv "XDG_CURRENT_DESKTOP"
  let value := value.getD ""
  (env.g_strsplit value G_SEARCHPATH_SEPARATOR_S).filter (validate_xdg_desktop env)

/-- The C function `get_lowercase_current_desktops` (the value it caches at its first call). -/
def get_lowercase_current_desktops (env : Env) : List String :=
  (get_valid_current_desktops env none).map
    (fun desktop => String.mk (desktop.data.map env.g_ascii_tolower))

/-- The C function `expand_strv` on the vector behind `strv_ptr`: a vector that is still
`NULL` becomes `to_add` as it is; otherwise each string of `to_add` is appended unless it
is on the blocklist or already in the vector. -/
def expand_strv (strv : Option (List String)) (to_add : List String)
    (blocklist : Option (List String)) : Option (List String) :=
  match strv with
  | none => some to_add
  | some strv =>
    some (to_add.foldl (fun strv s =>
      if (match blocklist with
          | some blocklist => blocklist.any (fun b => decide (s = b))
          | none => false) then strv
      else if strv.any (fun t => decide (s = t)) then strv
      else strv ++ [s]) strv)

/-- The C function `desktop_file_dir_unindexed_get_tweaks` on the table `dir->mime_tweaks`:
the record of the type after alias resolution, zeroed when the table has none yet.  The
caller writes through the returned pointer; here it stores the record back with
`g_hash_table_insert` under the same key. -/
def desktop_file_dir_unindexed_get_tweaks (env : Env)
    (mime_tweaks : GHashTable UnindexedMimeTweaks) (mime_type : String) : UnindexedMimeTweaks :=
  match g_hash_table_lookup mime_tweaks (env.g_unix_content_type_unalias mime_type) with
  | none => { additions := none, removals := none, defaults := none }
  | some tweaks => tweaks

/-- One of the three loops of `desktop_file_dir_unindexed_read_mimeapps_list` over the keys
`mime_types` of `group`; `expand` is the call of `expand_strv` of that loop. -/
def read_mimeapps_group (env : Env) (key_file : GKeyFile) (group : String)
    (expand : UnindexedMimeTweaks → List String → UnindexedMimeTweaks)
    (mime_types : List String) (mime_tweaks : GHashTable UnindexedMimeTweaks) :
    GHashTable UnindexedMimeTweaks :=
  mime_types.foldl (fun mime_tweaks mime_type =>
    match key_file.get_string_list group mime_type with
    | none => mime_tweaks
    | some desktop_file_ids =>
      let tweaks := desktop_file_dir_unindexed_get_tweaks env mime_tweaks mime_type
      g_hash_table_insert mime_tweaks (env.g_unix_content_type_unalias mime_type)
        (expand tweaks desktop_file_ids)) mime_tweaks

/-- The call `expand_strv (&tweaks->additions, desktop_file_ids, tweaks->removals)`. -/
def expand_additions (tweaks : UnindexedMimeTweaks) (desktop_file_ids : List String) :
    UnindexedMimeTweaks :=
  { tweaks with additions := expand_strv tweaks.additions desktop_file_ids tweaks.removals }

/-- The call `expand_strv (&tweaks->removals, desktop_file_ids, tweaks->additions)`. -/
def expand_removals (tweaks : UnindexedMimeTweaks) (desktop_file_ids : List String) :
    UnindexedMimeTweaks :=
  { tweaks with removals := expand_strv tweaks.removals desktop_file_ids tweaks.additions }

/-- The call `expand_strv (&tweaks->defaults, desktop_file_ids, NULL)`. -/
def expand_defaults (tweaks : UnindexedMimeTweaks) (desktop_file_ids : List String) :
    UnindexedMimeTweaks :=
  { tweaks with defaults := expand_strv tweaks.defaults desktop_file_ids none }

/-- The C function `desktop_file_dir_unindexed_read_mimeapps_list` on the table
`dir->mime_tweaks`. -/
def desktop_file_dir_unindexed_read_mimeapps_list (env : Env)
    (mime_tweaks : GHashTable UnindexedMimeTweaks) (filename added_group : String)
    (tweaks_permitted : Bool) : GHashTable UnindexedMimeTweaks :=
  match env.g_key_file_load_from_file filename with
  | none => mime_tweaks
  | some key_file =>
    let mime_types := key_file.get_keys added_group
    let mime_types := if mime_types.isSome && !tweaks_permitted then none else mime_types
    let mime_tweaks :=
      match mime_types with
      | some mime_types =>
        read_mimeapps_group env key_file added_group expand_additions mime_types mime_tweaks
      | none => mime_tweaks
    let mime_types := key_file.get_keys REMOVED_ASSOCIATIONS_GROUP
    let mime_types := if mime_types.isSome && !tweaks_permitted then none else mime_types
    let mime_tweaks :=
      match mime_types with
      | some mime_types =>
        read_mimeapps_group env key_file REMOVED_ASSOCIATIONS_GROUP expand_removals mime_types
          mime_tweaks
      | none => mime_tweaks
    let mime_types := key_file.get_keys DEFAULT_APPLICATIONS_GROUP
    match mime_types with
    | some mime_types =>
      read_mimeapps_group env key_file DEFAULT_APPLICATIONS_GROUP expand_defaults mime_types
        mime_tweaks
    | none => mime_tweaks

/-- The first loop of `desktop_file_dir_unindexed_read_mimeapps_lists`: the files
`<desktop>-mimeapps.list` of the current desktops, in order, read into an empty table. -/
def read_desktop_mimeapps_lists (env : Env) (dir : DesktopFileDir) :
    GHashTable UnindexedMimeTweaks :=
  (get_lowercase_current_desktops env).foldl (fun mime_tweaks desktop =>
    desktop_file_dir_unindexed_read_mimeapps_list env mime_tweaks
      (dir.path ++ "/" ++ desktop ++ "-mimeapps.list") ADDED_ASSOCIATIONS_GROUP false) []

/-- The C function `desktop_file_dir_unindexed_read_mimeapps_lists`. -/
def desktop_file_dir_unindexed_read_mimeapps_lists (env : Env) (dir : DesktopFileDir) :
    DesktopFileDir :=
  let mime_tweaks := read_desktop_mimeapps_lists env dir
  let mime_tweaks := desktop_file_dir_unindexed_read_mimeapps_list env mime_tweaks
    (dir.path ++ "/mimeapps.list") ADDED_ASSOCIATIONS_GROUP true
  if dir.is_config then { dir with mime_tweaks := some mime_tweaks }
  else
    let mime_tweaks := desktop_file_dir_unindexed_read_mimeapps_list env mime_tweaks
      (dir.path ++ "/defaults.list") ADDED_ASSOCIATIONS_GROUP false
    let mime_tweaks := desktop_file_dir_unindexed_read_mimeapps_list env mime_tweaks
      (dir.path ++ "/mimeinfo.cache") MIME_CACHE_GROUP true
    { dir with mime_tweaks := some mime_tweaks }

/-- The additions recorded for a type in a table of tweaks (`none`: no vector). -/
def tweaks_additions (mime_tweaks : GHashTable UnindexedMimeTweaks) (mime_type : String) :
    Option (List String) :=
  (g_hash_table_lookup mime_tweaks mime_type).bind (fun tweaks => tweaks.additions)

/-- The removals recorded for a type in a table of tweaks. -/
def tweaks_removals (mime_tweaks : GHashTable UnindexedMimeTweaks) (mime_type : String) :
    Option (List String) :=
  (g_hash_table_lookup mime_tweaks mime_type).bind (fun tweaks => tweaks.removals)

/-- The defaults recorded for a type in a table of tweaks. -/
def tweaks_defaults (mime_tweaks : GHashTable UnindexedMimeTweaks) (mime_type : String) :
    Option (List String) :=
  (g_hash_table_lookup mime_tweaks mime_type).bind (fun tweaks => tweaks.defaults)

/-! ## Rewriting the user's `mimeapps.list` -/

/-- Modelled from the spec: the C function `g_key_file_new`, a key file without groups. -/
def g_key_file_new : GKeyFile :=
  { start_group := none
    get_string := fun _ _ => none
    get_locale_string := fun _ _ => none
    get_boolean := fun _ _ => false
    get_string_list := fun _ _ => none
    get_locale_string_list := fun _ _ => none
    get_keys := fun _ => none }

/-- Modelled from the spec: the C function `g_key_file_has_group`; a group exists when
`g_key_file_get_keys` has an answer for it. -/
def g_key_file_has_group (key_file : GKeyFile) (group_name : String) : Bool :=
  (key_file.get_keys group_name).isSome

/-- Modelled from the spec: the pieces of a raw value read as a list: the value is cut at
every `;`, and a last piece that is empty is dropped.  `piece` holds the characters of the
current piece in reverse. -/
def g_key_file_value_pieces : List Char → List Char → List String
  | [], piece => if piece = [] then [] else [String.mk piece.reverse]
  | c :: cs, piece =>
    if c = ';' then String.mk piece.reverse :: g_key_file_value_pieces cs []
    else g_key_file_value_pieces cs (c :: piece)

/-- Modelled from the spec: the C function `g_key_file_set_string`.  The key gets the
value in the string view and the pieces of the value in the list view; a new key goes to
the end of its group and a new group is created.  The localized and boolean views are not
read by the association code and stay as they are. -/
def g_key_file_set_string (key_file : GKeyFile) (group_name key string : String) : GKeyFile :=
  { key_file with
    start_group :=
      match key_file.start_group with
      | none => some group_name
      | some start_group => some start_group
    get_string := fun g k =>
      if g = group_name ∧ k = key then some string else key_file.get_string g k
    get_string_list := fun g k =>
      if g = group_name ∧ k = key then some (g_key_file_value_pieces string.data [])
      else key_file.get_string_list g k
    get_keys := fun g =>
      if g = group_name then
        match key_file.get_keys g with
        | none => some [key]
        | some keys => if key ∈ keys then some keys else some (keys ++ [key])
      else key_file.get_keys g }

/-- Modelled from the spec: the C function `g_key_file_set_string_list`.  The key gets the
list in the list view and the strings, each followed by `;`, in the string view. -/
def g_key_file_set_string_list (key_file : GKeyFile) (group_name key : String)
    (list : List String) : GKeyFile :=
  { key_file with
    start_group :=
      match key_file.start_group with
      | none => some group_name
      | some start_group => some start_group
    get_string := fun g k =>
      if g = group_name ∧ k = key then some (String.join (list.map (fun s => s ++ ";")))
      else key_file.get_string g k
    get_string_list := fun g k =>
      if g = group_name ∧ k = key then some list else key_file.get_string_list g k
    get_keys := fun g =>
      if g = group_name then
        match key_file.get_keys g with
        | none => some [key]
        | some keys => if key ∈ keys then some keys else some (keys ++ [key])
      else key_file.get_keys g }

/-- Modelled from the spec: the C function `g_key_file_remove_key`.  The key has no value
any more and is not among the keys of its group; the group stays. -/
def g_key_file_remove_key (key_file : GKeyFile) (group_name key : String) : GKeyFile :=
  { key_file with
    get_string := fun g k =>
      if g = group_name ∧ k = key then none else key_file.get_string g k
    get_string_list := fun g k =>
      if g = group_name ∧ k = key then none else key_file.get_string_list g k
    get_keys := fun g =>
      if g = group_name then (key_file.get_keys g).map (fun keys => keys.filter (fun k => k ≠ key))
      else key_file.get_keys g }

/-- The enumerator `UPDATE_MIME_NONE` of `UpdateMimeFlags`. -/
def UPDATE_MIME_NONE : Nat := 1 <<< 0

/-- The enumerator `UPDATE_MIME_SET_DEFAULT`. -/
def UPDATE_MIME_SET_DEFAULT : Nat := 1 <<< 1

/-- The enumerator `UPDATE_MIME_SET_NON_DEFAULT`. -/
def UPDATE_MIME_SET_NON_DEFAULT : Nat := 1 <<< 2

/-- The enumerator `UPDATE_MIME_REMOVE`. -/
def UPDATE_MIME_REMOVE : Nat := 1 <<< 3

/-- The enumerator `UPDATE_MIME_SET_LAST_USED`. -/
def UPDATE_MIME_SET_LAST_USED : Nat := 1 <<< 4

/-- The C type `DirType`. -/
inductive DirType where
  | CONF_DIR
  | APP_DIR
  | MIMETYPE_DIR
  deriving DecidableEq, Repr

/-- The C function `ensure_dir`: the path, or `none` when the directory cannot be made. -/
def ensure_dir (env : Env) (type : DirType) : Option String :=
  let path :=
    match type with
    | DirType.CONF_DIR => env.g_build_filename [env.g_get_user_config_dir]
    | DirType.APP_DIR => env.g_build_filename [env.g_get_user_data_dir, "applications"]
    | DirType.MIMETYPE_DIR => env.g_build_filename [env.g_get_user_data_dir, "mime", "packages"]
  if env.g_mkdir_with_parents path then some path else none

/-- The body of the first loop of `update_mimeapps_list` (`Default Applications`) for one
type, on the key file and the flags. -/
def update_default_applications (desktop_id : Option String) (state : GKeyFile × Nat)
    (content_type : String) : GKeyFile × Nat :=
  let string := state.1.get_string DEFAULT_APPLICATIONS_GROUP content_type
  let string_flags : Option String × Nat :=
    if string ≠ desktop_id ∧ state.2 &&& UPDATE_MIME_SET_DEFAULT ≠ 0 then
      (desktop_id, state.2 ||| UPDATE_MIME_SET_NON_DEFAULT)
    else (string, state.2)
  match string_flags.1, desktop_id with
  | some string, some _ =>
    (g_key_file_set_string state.1 DEFAULT_APPLICATIONS_GROUP content_type string, string_flags.2)
  | _, _ => (g_key_file_remove_key state.1 DEFAULT_APPLICATIONS_GROUP content_type, string_flags.2)

/-- The vector `list` and the flags of the second loop of `update_mimeapps_list` when the
old list has been walked; an element is what `g_strdup` returned. -/
def update_added_list (desktop_id : Option String) (old_list : Option (List String))
    (flags : Nat) : List (Option String) × Nat :=
  let list_flags : List (Option String) × Nat :=
    if flags &&& UPDATE_MIME_SET_LAST_USED ≠ 0 then
      ([desktop_id],
        if flags &&& UPDATE_MIME_SET_NON_DEFAULT ≠ 0 then flags ^^^ UPDATE_MIME_SET_NON_DEFAULT
        else flags)
    else ([], flags)
  let list_flags := (old_list.getD []).foldl (fun list_flags old =>
    if some old ≠ desktop_id then (list_flags.1 ++ [some old], list_flags.2)
    else if list_flags.2 &&& UPDATE_MIME_SET_NON_DEFAULT ≠ 0 then
      (list_flags.1 ++ [some old], list_flags.2 ^^^ UPDATE_MIME_SET_NON_DEFAULT)
    else list_flags) list_flags
  if list_flags.2 &&& UPDATE_MIME_SET_NON_DEFAULT ≠ 0 then
    (list_flags.1 ++ [desktop_id], list_flags.2)
  else list_flags

/-- The body of the second loop of `update_mimeapps_list` (`Added Associations`) for one
type. -/
def update_added_associations (desktop_id : Option String) (state : GKeyFile × Nat)
    (content_type : String) : GKeyFile × Nat :=
  let old_list := state.1.get_string_list ADDED_ASSOCIATIONS_GROUP content_type
  let list_flags := update_added_list desktop_id old_list state.2
  if (list_flags.1.headD none).isNone || desktop_id.isNone then
    (g_key_file_remove_key state.1 ADDED_ASSOCIATIONS_GROUP content_type, list_flags.2)
  else
    (g_key_file_set_string_list state.1 ADDED_ASSOCIATIONS_GROUP content_type
      list_flags.1.reduceOption, list_flags.2)

/-- The vector `list` of the third loop of `update_mimeapps_list`. -/
def update_removed_list (desktop_id : Option String) (old_list : Option (List String))
    (flags : Nat) : List (Option String) :=
  let list : List (Option String) :=
    if flags &&& UPDATE_MIME_REMOVE ≠ 0 then [desktop_id] else []
  (old_list.getD []).foldl (fun list old =>
    if some old ≠ desktop_id then list ++ [some old] else list) list

/-- The body of the third loop of `update_mimeapps_list` (`Removed Associations`) for one
type. -/
def update_removed_associations (desktop_id : Option String) (state : GKeyFile × Nat)
    (content_type : String) : GKeyFile × Nat :=
  let old_list := state.1.get_string_list REMOVED_ASSOCIATIONS_GROUP content_type
  let list := update_removed_list desktop_id old_list state.2
  if (list.headD none).isNone || desktop_id.isNone then
    (g_key_file_remove_key state.1 REMOVED_ASSOCIATIONS_GROUP content_type, state.2)
  else
    (g_key_file_set_string_list state.1 REMOVED_ASSOCIATIONS_GROUP content_type
      list.reduceOption, state.2)

/-- The key file that `update_mimeapps_list` starts from: the document at `filename`, or a
new key file when it does not load or has none of the three groups. -/
def update_mimeapps_list_load (env : Env) (filename : String) : GKeyFile :=
  match env.g_key_file_load_from_file filename with
  | none => g_key_file_new
  | some key_file =>
    if !g_key_file_has_group key_file ADDED_ASSOCIATIONS_GROUP &&
        !g_key_file_has_group key_file REMOVED_ASSOCIATIONS_GROUP &&
        !g_key_file_has_group key_file DEFAULT_APPLICATIONS_GROUP then g_key_file_new
    else key_file

/-- The three loops of `update_mimeapps_list`: the key file that is handed to
`g_key_file_to_data`.  With a `content_type` each loop runs for that type, without one it
runs for the keys of its group. -/
def update_mimeapps_list_key_file (key_file : GKeyFile) (desktop_id content_type : Option String)
    (flags : Nat) : GKeyFile :=
  let state : GKeyFile × Nat := (key_file, flags)
  let content_types :=
    match content_type with
    | some content_type => some [content_type]
    | none => state.1.get_keys DEFAULT_APPLICATIONS_GROUP
  let state := (content_types.getD []).foldl (update_default_applications desktop_id) state
  let content_types :=
    match content_type with
    | some content_type => some [content_type]
    | none => state.1.get_keys ADDED_ASSOCIATIONS_GROUP
  let state := (content_types.getD []).foldl (update_added_associations desktop_id) state
  let content_types :=
    match content_type with
    | some content_type => some [content_type]
    | none => state.1.get_keys REMOVED_ASSOCIATIONS_GROUP
  let state := (content_types.getD []).foldl (update_removed_associations desktop_id) state
  state.1

/-- The C function `desktop_file_dir_reset`. -/
def desktop_file_dir_reset (dir : DesktopFileDir) : DesktopFileDir :=
  { dir with
    alternatively_watching := none
    monitor := false
    app_names := none
    memory_index := none
    mime_tweaks := none
    memory_implementations := none
    is_setup := false }

/-- The C function `desktop_file_dirs_invalidate_user_config`: the record
`desktop_file_dir_user_config` is the first of the chain. -/
def desktop_file_dirs_invalidate_user_config (desktop_file_dirs : List DesktopFileDir) :
    List DesktopFileDir :=
  match desktop_file_dirs with
  | [] => []
  | desktop_file_dir_user_config :: rest =>
    desktop_file_dir_reset desktop_file_dir_user_config :: rest

/-- The file system after a key file has been written to `filename`: a later
`g_key_file_load_from_file` of that path gives the document that was written. -/
def file_written (env : Env) (filename : String) (key_file : GKeyFile) : Env :=
  { env with
    g_key_file_load_from_file := fun path =>
      if path = filename then some key_file else env.g_key_file_load_from_file path }

/-- The C function `update_mimeapps_list`: the return value, the file system and the chain
after the call.  The callers never pass `UPDATE_MIME_SET_DEFAULT` together with
`UPDATE_MIME_SET_NON_DEFAULT` (the assertion at the start). -/
def update_mimeapps_list (env : Env) (desktop_file_dirs : List DesktopFileDir)
    (desktop_id content_type : Option String) (flags : Nat) :
    Bool × Env × List DesktopFileDir :=
  match ensure_dir env DirType.CONF_DIR with
  | none => (false, env, desktop_file_dirs)
  | some dirname =>
    let filename := env.g_build_filename [dirname, "mimeapps.list"]
    let key_file := update_mimeapps_list_load env filename
    let key_file := update_mimeapps_list_key_file key_file desktop_id content_type flags
    let res := env.g_file_set_contents_full filename
    (res, if res then file_written env filename key_file else env,
      desktop_file_dirs_invalidate_user_config desktop_file_dirs)

/-! ## The default application of a type -/

/-- The C function `g_desktop_app_info_supports_uris`. -/
def g_desktop_app_info_supports_uris (info : GDesktopAppInfo) : Bool :=
  match info.exec with
  | none => false
  | some exec => (strstr exec "%u").isSome || (strstr exec "%U").isSome

/-- The C function `desktop_file_dir_unindexed_default_lookup` (and its wrapper
`desktop_file_dir_default_lookup`); `dir` is the index of the record. -/
def desktop_file_dir_unindexed_default_lookup (desktop_file_dirs : List DesktopFileDir)
    (dir : Nat) (mime_type : String) (results : List String) : List String :=
  match desktop_file_dir_tweaks desktop_file_dirs dir mime_type with
  | none => results
  | some tweaks =>
    match tweaks.defaults with
    | none => results
    | some defaults =>
      defaults.foldl (fun results app_name =>
        if !array_contains results app_name then results ++ [app_name] else results) results

/-- The first inner loop of `g_app_info_get_default_for_type_impl`: the defaults of one
type in the records `0 .. n-1` of the chain, in order. -/
def default_lookup_dirs (desktop_file_dirs : List DesktopFileDir) (mime_type : String)
    (n : Nat) (results : List String) : List String :=
  (List.range n).foldl
    (fun results j =>
      desktop_file_dir_unindexed_default_lookup desktop_file_dirs j mime_type results) results

/-- The loop over `k` of `g_app_info_get_default_for_type_impl` for one collected id: the
first record whose `desktop_file_dir_get_app` gives an entry that meets the URI
constraint. -/
def default_for_type_app (env : Env) (desktop_file_dirs : List DesktopFileDir)
    (must_support_uris : Bool) (desktop_id : String) : Option GDesktopAppInfo :=
  (List.range desktop_file_dirs.length).findSome? (fun k =>
    match desktop_file_dir_get_app env desktop_file_dirs k desktop_id with
    | none => none
    | some info =>
      if !must_support_uris || g_desktop_app_info_supports_uris info then some info else none)

/-- The loop over the types of `g_app_info_get_default_for_type_impl`; `results` starts
empty for every type and `blocklist` is kept. -/
def default_for_types (env : Env) (desktop_file_dirs : List DesktopFileDir)
    (must_support_uris : Bool) : List String → List String → Option GDesktopAppInfo
  | [], _ => none
  | ty :: types, blocklist =>
    let results := default_lookup_dirs desktop_file_dirs ty desktop_file_dirs.length []
    let results_blocklist :=
      mime_lookup_dirs desktop_file_dirs ty desktop_file_dirs.length (results, blocklist)
    match results_blocklist.1.findSome?
        (default_for_type_app env desktop_file_dirs must_support_uris) with
    | some info => some info
    | none => default_for_types env desktop_file_dirs must_support_uris types results_blocklist.2

/-- The C function `g_app_info_get_default_for_type_impl`; the outer `none` means that the
fuel for the list of types was too small. -/
def g_app_info_get_default_for_type_impl (env : Env) (fuel : Nat)
    (desktop_file_dirs : List DesktopFileDir) (content_type : String)
    (must_support_uris : Bool) : Option (Option GDesktopAppInfo) :=
  (get_list_of_mimetypes env fuel content_type true).map
    (fun types => default_for_types env desktop_file_dirs must_support_uris types [])

/-! ## Setting up the records of the chain -/

/-- The loop of `desktop_file_dir_get_alternative_dir` over the parent directories; `fuel`
bounds the number of iterations and `none` means the bound was too small. -/
def get_alternative_dir_loop (env : Env) : Nat → String → Option String
  | 0, _ => none
  | fuel + 1, parent =>
    if env.g_access parent then some parent
    else
      let tmp := parent
      let parent := env.g_path_get_dirname tmp
      if parent = tmp then some parent else get_alternative_dir_loop env fuel parent

/-- The C function `desktop_file_dir_get_alternative_dir`: `some none` is the `NULL`
return for a directory that exists. -/
def desktop_file_dir_get_alternative_dir (env : Env) (fuel : Nat) (dir : DesktopFileDir) :
    Option (Option String) :=
  if env.g_access dir.path then some none
  else (get_alternative_dir_loop env fuel (env.g_path_get_dirname dir.path)).map some

/-- The C function `get_apps_from_dir` on the table behind `apps`; `fuel` bounds the depth
of the directory tree and `none` means the bound was too small.  The argument `pfx` is the
prefix of the ids. -/
def get_apps_from_dir (env : Env) :
    Nat → Option (GHashTable String) → String → String → Option (Option (GHashTable String))
  | 0, _, _, _ => none
  | fuel + 1, apps, dirname, pfx =>
    match env.g_dir_open dirname with
    | none => some apps
    | some names =>
      names.foldl (fun (apps : Option (Option (GHashTable String))) basename =>
        match apps with
        | none => none
        | some apps =>
          let filename := env.g_build_filename [dirname, basename]
          if ".desktop".data.isSuffixOf basename.data then
            some (some (g_hash_table_insert (apps.getD []) (pfx ++ basename) filename))
          else if env.g_file_test_is_dir filename then
            get_apps_from_dir env fuel apps filename (pfx ++ basename ++ "-")
          else some apps) (some apps)

/-- The C function `desktop_file_dir_unindexed_init`. -/
def desktop_file_dir_unindexed_init (env : Env) (fuel : Nat) (dir : DesktopFileDir) :
    Option DesktopFileDir :=
  if !dir.is_config then
    (get_apps_from_dir env fuel dir.app_names dir.path "").map (fun app_names =>
      desktop_file_dir_unindexed_read_mimeapps_lists env { dir with app_names := app_names })
  else some (desktop_file_dir_unindexed_read_mimeapps_lists env dir)

/-- The C function `desktop_file_dir_init`, for a record that is not set up. -/
def desktop_file_dir_init (env : Env) (fuel : Nat) (dir : DesktopFileDir) :
    Option DesktopFileDir :=
  match desktop_file_dir_get_alternative_dir env fuel dir with
  | none => none
  | some alternatively_watching =>
    let watch_dir :=
      match alternatively_watching with
      | some alternative_dir => alternative_dir
      | none => dir.path
    let dir := { dir with
      alternatively_watching := alternatively_watching
      monitor := env.g_local_file_monitor_new_in_worker watch_dir }
    (desktop_file_dir_unindexed_init env fuel dir).map (fun dir => { dir with is_setup := true })

/-- A record as `g_new0` leaves it, with the given path. -/
def desktop_file_dir_zero (path : String) : DesktopFileDir :=
  { path := path
    alternatively_watching := none
    is_config := false
    is_setup := false
    monitor := false
    app_names := none
    mime_tweaks := none
    memory_index := none
    memory_implementations := none }

/-- The C function `desktop_file_dir_new`. -/
def desktop_file_dir_new (env : Env) (data_dir : String) : DesktopFileDir :=
  desktop_file_dir_zero (env.g_build_filename [data_dir, "applications"])

/-- The C function `desktop_file_dir_new_for_config`. -/
def desktop_file_dir_new_for_config (config_dir : String) : DesktopFileDir :=
  { desktop_file_dir_zero config_dir with is_config := true }

/-- The C function `desktop_file_dirs_lock` on the chain: an empty chain is created (the
user's configuration directory first), then every record that is not set up goes through
`desktop_file_dir_init`.  The user configuration directory is the same during the life of
the chain, so the branch that drops the chain when it has changed is not taken. -/
def desktop_file_dirs_lock (env : Env) (fuel : Nat) (desktop_file_dirs : List DesktopFileDir) :
    Option (List DesktopFileDir) :=
  let desktop_file_dirs :=
    if desktop_file_dirs.length = 0 then
      [desktop_file_dir_new_for_config env.g_get_user_config_dir] ++
        env.g_get_system_config_dirs.map desktop_file_dir_new_for_config ++
        [desktop_file_dir_new env env.g_get_user_data_dir] ++
        env.g_get_system_data_dirs.map (desktop_file_dir_new env)
    else desktop_file_dirs
  desktop_file_dirs.mapM (fun dir =>
    if !dir.is_setup then desktop_file_dir_init env fuel dir else some dir)
/-! ## Small concrete chains used to evaluate the code -/

/-- A key file whose `Desktop Entry` group holds `Type`, `Name` and `Hidden` and nothing else. -/
def sample_key_file (type name : String) (hidden : Bool) : GKeyFile :=
  { start_group := some "Desktop Entry"
    get_string := fun group key =>
      if group = "Desktop Entry" ∧ key = "Type" then some type else none
    get_locale_string := fun group key =>
      if group = "Desktop Entry" ∧ key = "Name" then some name else none
    get_boolean := fun group key => if group = "Desktop Entry" ∧ key = "Hidden" then hidden else false
    get_string_list := fun _ _ => none
    get_locale_string_list := fun _ _ => none
    get_keys := fun _ => none }

/-- The words of a character list, cut at blanks; `word` holds the characters of the
current word in reverse. -/
def split_blanks : List Char → List Char → List String
  | [], word => if word = [] then [] else [String.mk word.reverse]
  | c :: cs, word =>
    if c = ' ' then
      if word = [] then split_blanks cs [] else String.mk word.reverse :: split_blanks cs []
    else split_blanks cs (c :: word)

/-- The pieces of a character list, cut at every `sep`; `piece` holds the characters of the
current piece in reverse. -/
def split_at (sep : Char) : List Char → List Char → List String
  | [], piece => [String.mk piece.reverse]
  | c :: cs, piece =>
    if c = sep then String.mk piece.reverse :: split_at sep cs [] else split_at sep cs (c :: piece)

/-- An environment whose file system holds the key files `files` (path, document) and whose
tokenizer splits at blanks; no environment variable is set, every path is accessible and
can be written, no directory can be listed, no program is installed, a `file://` URI has
the rest of the URI as local path, and quoting puts a string between apostrophes. -/
def sample_env (files : List (String × GKeyFile)) : Env :=
  { g_key_file_load_from_file := fun path => (files.find? (fun f => f.1 = path)).map Prod.snd
    g_find_program_for_path := fun _ _ _ => none
    g_shell_parse_argv := fun _ => none
    g_str_tokenize_and_fold := fun s => (split_blanks s.data [], [])
    g_path_get_basename := fun s => s
    g_unix_content_type_unalias := fun s => s
    g_unix_content_type_get_parents := fun _ => []
    g_getenv := fun _ => none
    g_strsplit := fun s delimiter =>
      match delimiter.data with
      | [sep] => if s = "" then [] else split_at sep s.data []
      | _ => [s]
    g_ascii_isalnum := fun c => c.isAlphanum
    g_ascii_tolower := fun c => c.toLower
    g_get_user_config_dir := "/home/u/.config"
    g_get_user_data_dir := "/home/u/.local/share"
    g_build_filename := fun elements => String.intercalate "/" elements
    g_mkdir_with_parents := fun _ => true
    g_file_set_contents_full := fun _ => true
    g_get_system_config_dirs := ["/etc/xdg"]
    g_get_system_data_dirs := ["/usr"]
    g_access := fun _ => true
    g_path_get_dirname := fun s => s
    g_dir_open := fun _ => none
    g_file_test_is_dir := fun _ => false
    g_local_file_monitor_new_in_worker := fun _ => true
    g_file_get_path := fun uri =>
      if "file://".data.isPrefixOf uri.data then some (String.mk (uri.data.drop 7)) else none
    g_shell_quote := fun s => "'" ++ s ++ "'"
    g_path_is_absolute := fun s => "/".data.isPrefixOf s.data
    g_file_test_is_executable := fun _ => false
    g_spawn_async_with_fds := fun _ _ _ _ => none
    g_get_environ := []
    g_environ_getenv := fun envp name =>
      (envp.find? (fun s => (name ++ "=").data.isPrefixOf s.data)).map
        (fun s => String.mk (s.data.drop (name.length + 1)))
    g_environ_setenv := fun envp name value =>
      (name ++ "=" ++ value) :: envp.filter (fun s => !(name ++ "=").data.isPrefixOf s.data)
    g_check_setuid := false
    GIO_LAUNCH_DESKTOP := "/usr/libexec/gio-launch-desktop" }

/-- A record that went through `desktop_file_dir_init` with the given id table and tweaks. -/
def sample_dir (path : String) (app_names : Option (GHashTable String))
    (mime_tweaks : GHashTable UnindexedMimeTweaks) : DesktopFileDir :=
  { path := path
    alternatively_watching := none
    is_config := false
    is_setup := true
    monitor := true
    app_names := app_names
    mime_tweaks := some mime_tweaks
    memory_index := none
    memory_implementations := none }

/-- Two records that both hold `foo.desktop`. -/
def foo_dirs : List DesktopFileDir :=
  [sample_dir "/home/u/applications" (some [("foo.desktop", "/home/u/applications/foo.desktop")]) [],
   sample_dir "/usr/applications" (some [("foo.desktop", "/usr/applications/foo.desktop")]) []]

/-- The document of the first record is not an application (it fails the `Type` check of
`g_desktop_app_info_load_from_keyfile`), the one of the second record is valid. -/
def foo_env_unloadable : Env :=
  sample_env [("/home/u/applications/foo.desktop", sample_key_file "Link" "Foo" false),
              ("/usr/applications/foo.desktop", sample_key_file "Application" "Foo" false)]

/-- The document of the first record is hidden, the one of the second record is visible. -/
def foo_env_hidden : Env :=
  sample_env [("/home/u/applications/foo.desktop", sample_key_file "Application" "Foo" true),
              ("/usr/applications/foo.desktop", sample_key_file "Application" "Foo" false)]

/-- A key file of an application whose `Desktop Entry` group holds the given localized
strings (key, value) and nothing else. -/
def sample_app_key_file (strings : List (String × String)) : GKeyFile :=
  { start_group := some "Desktop Entry"
    get_string := fun group key =>
      if group = "Desktop Entry" ∧ key = "Type" then some "Application" else none
    get_locale_string := fun group key =>
      if group = "Desktop Entry" then (strings.find? (fun s => s.1 = key)).map Prod.snd else none
    get_boolean := fun _ _ => false
    get_string_list := fun _ _ => none
    get_locale_string_list := fun _ _ => none
    get_keys := fun _ => none }

/-- One record with two applications: `xterm.desktop` is named `xterm`, and
`console.desktop` is named `console` and has the keyword `terminal`. -/
def term_dirs : List DesktopFileDir :=
  [sample_dir "/usr/applications"
    (some [("xterm.desktop", "/usr/applications/xterm.desktop"),
           ("console.desktop", "/usr/applications/console.desktop")]) []]

/-- The documents of `term_dirs`. -/
def term_env : Env :=
  sample_env [("/usr/applications/xterm.desktop", sample_app_key_file [("Name", "xterm")]),
              ("/usr/applications/console.desktop",
                sample_app_key_file [("Name", "console"), ("Keywords", "terminal")])]

/-- Scratch arrays in the middle of a search: the accumulator holds `a.desktop` and
`b.desktop`, the token buffer holds two records of `b.desktop` and one of `c.desktop`. -/
def merge_sample_state : SearchState :=
  { static_token_results :=
      [⟨"b.desktop", 1, 2, 0⟩, ⟨"c.desktop", 1, 1, 0⟩, ⟨"b.desktop", 2, 1, 5⟩]
    static_search_results := [⟨"a.desktop", 1, 1, 0⟩, ⟨"b.desktop", 3, 1, 2⟩]
    static_total_results := [] }

/-- The scenario of the specification for a type `T`: the first record adds `firefox` and
removes `geany`, the second record adds `geany` and `emacs` and holds the three
applications. -/
def assoc_dirs : List DesktopFileDir :=
  [sample_dir "/home/u/applications" none
    [("T", { additions := some ["firefox.desktop"], removals := some ["geany.desktop"],
             defaults := none })],
   sample_dir "/usr/applications"
    (some [("firefox.desktop", "/usr/applications/firefox.desktop"),
           ("geany.desktop", "/usr/applications/geany.desktop"),
           ("emacs.desktop", "/usr/applications/emacs.desktop")])
    [("T", { additions := some ["geany.desktop", "emacs.desktop"], removals := none,
             defaults := none })]]

/-- The documents of `assoc_dirs`. -/
def assoc_env : Env :=
  sample_env [("/usr/applications/firefox.desktop", sample_app_key_file [("Name", "firefox")]),
              ("/usr/applications/geany.desktop", sample_app_key_file [("Name", "geany")]),
              ("/usr/applications/emacs.desktop", sample_app_key_file [("Name", "emacs")])]


/-- The scenario of `assoc_dirs` with one more application and a parent type: the second
record also lists associations for `P`. -/
def parent_dirs : List DesktopFileDir :=
  [sample_dir "/home/u/applications" none
    [("T", { additions := some ["firefox.desktop"], removals := some ["geany.desktop"],
             defaults := none })],
   sample_dir "/usr/applications"
    (some [("firefox.desktop", "/usr/applications/firefox.desktop"),
           ("geany.desktop", "/usr/applications/geany.desktop"),
           ("emacs.desktop", "/usr/applications/emacs.desktop"),
           ("gedit.desktop", "/usr/applications/gedit.desktop")])
    [("T", { additions := some ["geany.desktop", "emacs.desktop"], removals := none,
             defaults := none }),
     ("P", { additions := some ["emacs.desktop", "gedit.desktop", "geany.desktop"],
             removals := none, defaults := none })]]

/-- The documents of `parent_dirs`, and a MIME database in which `P` is the parent of `T`. -/
def parent_env : Env :=
  { sample_env [("/usr/applications/firefox.desktop", sample_app_key_file [("Name", "firefox")]),
                ("/usr/applications/geany.desktop", sample_app_key_file [("Name", "geany")]),
                ("/usr/applications/emacs.desktop", sample_app_key_file [("Name", "emacs")]),
                ("/usr/applications/gedit.desktop", sample_app_key_file [("Name", "gedit")])] with
    g_unix_content_type_get_parents := fun t => if t = "T" then ["P"] else [] }

/-- A key file seen through its string lists: `groups` gives, per group, the keys and the
list stored under each; the string view of a key is the list joined with `;`. -/
def sample_list_key_file (groups : List (String × List (String × List String))) : GKeyFile :=
  { start_group := groups.head?.map Prod.fst
    get_string := fun group key =>
      ((groups.find? (fun g => g.1 = group)).bind
        (fun g => g.2.find? (fun k => k.1 = key))).map (fun k => String.intercalate ";" k.2)
    get_locale_string := fun _ _ => none
    get_boolean := fun _ _ => false
    get_string_list := fun group key =>
      ((groups.find? (fun g => g.1 = group)).bind
        (fun g => g.2.find? (fun k => k.1 = key))).map Prod.snd
    get_locale_string_list := fun _ _ => none
    get_keys := fun group =>
      (groups.find? (fun g => g.1 = group)).map (fun g => g.2.map Prod.fst) }

/-- A configuration record before its association files are read. -/
def config_dir : DesktopFileDir :=
  { path := "/home/u/.config"
    alternatively_watching := none
    is_config := true
    is_setup := false
    monitor := false
    app_names := none
    mime_tweaks := none
    memory_index := none
    memory_implementations := none }

/-- The user's `mimeapps.list` adds `a.desktop` for `T` and removes it again. -/
def add_remove_env : Env :=
  sample_env [("/home/u/.config/mimeapps.list",
    sample_list_key_file [("Added Associations", [("T", ["a.desktop"])]),
                          ("Removed Associations", [("T", ["a.desktop"])])])]

/-- The user's `mimeapps.list` adds `a.desktop` for `T` twice. -/
def add_twice_env : Env :=
  sample_env [("/home/u/.config/mimeapps.list",
    sample_list_key_file [("Added Associations", [("T", ["a.desktop", "a.desktop"])])])]

/-- The current desktop is `GNOME`, and `gnome-mimeapps.list` of the user adds `a.desktop`
for `T`, removes `c.desktop` and makes `b.desktop` the default. -/
def gnome_env : Env :=
  { sample_env [("/home/u/.config/gnome-mimeapps.list",
      sample_list_key_file [("Added Associations", [("T", ["a.desktop"])]),
                            ("Removed Associations", [("T", ["c.desktop"])]),
                            ("Default Applications", [("T", ["b.desktop"])])])] with
    g_getenv := fun name => if name = "XDG_CURRENT_DESKTOP" then some "GNOME" else none }

/-- A user's `mimeapps.list` in which `id.desktop` is the default for `T` and the first of
two added associations. -/
def default_key_file : GKeyFile :=
  sample_list_key_file [("Default Applications", [("T", ["id.desktop"])]),
                        ("Added Associations", [("T", ["id.desktop", "other.desktop"])])]

/-- The chain `foo_dirs` in which the first record declares `foo.desktop` the default of
`T`. -/
def default_foo_dirs : List DesktopFileDir :=
  [sample_dir "/home/u/applications" (some [("foo.desktop", "/home/u/applications/foo.desktop")])
    [("T", { additions := none, removals := none, defaults := some ["foo.desktop"] })],
   sample_dir "/usr/applications" (some [("foo.desktop", "/usr/applications/foo.desktop")]) []]

/-- The user's configuration record, set up, when the only association file is a
`gnome-mimeapps.list` that makes `other.desktop` the default of `U`. -/
def set_default_config : DesktopFileDir :=
  { config_dir with
    is_setup := true, monitor := true,
    mime_tweaks := some [("U", { additions := none, removals := none,
                                 defaults := some ["other.desktop"] })] }

/-- A chain of two records that are set up: the user's configuration directory and an
application directory that holds `id.desktop` and `other.desktop`. -/
def set_default_dirs : List DesktopFileDir :=
  [set_default_config,
   sample_dir "/usr/applications"
    (some [("id.desktop", "/usr/applications/id.desktop"),
           ("other.desktop", "/usr/applications/other.desktop")]) []]

/-- The documents of `set_default_dirs`: the current desktop is `GNOME`, the user's
`gnome-mimeapps.list` declares a default for the type `U` only, and the user has no
`mimeapps.list` yet. -/
def set_default_env : Env :=
  { sample_env [("/usr/applications/id.desktop", sample_app_key_file [("Name", "id")]),
                ("/usr/applications/other.desktop", sample_app_key_file [("Name", "other")]),
                ("/home/u/.config/gnome-mimeapps.list",
                  sample_list_key_file [("Default Applications", [("U", ["other.desktop"])])])] with
    g_getenv := fun name => if name = "XDG_CURRENT_DESKTOP" then some "GNOME" else none }

/-- The chain of `set_default_dirs` when the current desktop is `GNOME` and the user's
`gnome-mimeapps.list` makes `other.desktop` the default of `T`. -/
def gnome_default_dirs : List DesktopFileDir :=
  [{ config_dir with
      is_setup := true, monitor := true,
      mime_tweaks := some [("T", { additions := none, removals := none,
                                   defaults := some ["other.desktop"] })] },
   sample_dir "/usr/applications"
    (some [("id.desktop", "/usr/applications/id.desktop"),
           ("other.desktop", "/usr/applications/other.desktop")]) []]

/-- The documents of `gnome_default_dirs`. -/
def gnome_default_env : Env :=
  { sample_env [("/usr/applications/id.desktop", sample_app_key_file [("Name", "id")]),
                ("/usr/applications/other.desktop", sample_app_key_file [("Name", "other")]),
                ("/home/u/.config/gnome-mimeapps.list",
                  sample_list_key_file [("Default Applications", [("T", ["other.desktop"])])])] with
    g_getenv := fun name => if name = "XDG_CURRENT_DESKTOP" then some "GNOME" else none }

/-- The entry that `/usr/applications/id.desktop` of `set_default_env` loads as. -/
def id_desktop_entry : GDesktopAppInfo :=
  { desktop_id := some "id.desktop"
    filename := some "/usr/applications/id.desktop"
    name := some "id"
    generic_name := none
    fullname := none
    comment := none
    icon_name := none
    keywords := none
    only_show_in := none
    not_show_in := none
    try_exec := none
    exec := none
    path := none
    categories := none
    startup_wm_class := none
    mime_types := none
    actions := []
    nodisplay := false
    hidden := false
    terminal := false
    startup_notify := false
    no_fuse := false }

/-! ## Object paths, visibility, and reference counts -/

/-- The C function `object_path_from_appid`: the loop runs over `"/"` followed by the
name and rewrites one `char` at a time (`.` and `-` are ASCII, so the characters of the
string are rewritten in the same way). -/
def object_path_from_appid (appid : String) : String :=
  String.mk (("/" ++ appid).data.map (fun c =>
    let c := if c = '.' then '/' else c
    if c = '-' then '_' else c))

/-- The character that `object_path_from_appid` is specified to write for `c`. -/
def object_path_char (c : Char) : Char :=
  if c = '.' then '/' else if c = '-' then '_' else c

/-- The C function `get_current_desktops`; `result` is the static variable of the
function, `none` before the first call. -/
def get_current_desktops (env : Env) (result : Option (List String)) (value : Option String) :
    List String :=
  match result with
  | some result => result
  | none => get_valid_current_desktops env value

/-- The loop of `g_desktop_app_info_get_show_in` over the environments `envs`, with the
return after the loop. -/
def get_show_in_loop (info : GDesktopAppInfo) : List String → Bool
  | [] => info.only_show_in.isNone
  | e :: envs =>
    if (match info.only_show_in with
        | some only_show_in => only_show_in.any (fun s => decide (s = e))
        | none => false) then true
    else if (match info.not_show_in with
        | some not_show_in => not_show_in.any (fun s => decide (s = e))
        | none => false) then false
    else get_show_in_loop info envs

/-- The C function `g_desktop_app_info_get_show_in`; `result` is the static variable of
`get_current_desktops`. -/
def g_desktop_app_info_get_show_in (env : Env) (result : Option (List String))
    (info : GDesktopAppInfo) (desktop_env : Option String) : Bool :=
  let envs :=
    match desktop_env with
    | some desktop_env => [desktop_env]
    | none => get_current_desktops env result none
  get_show_in_loop info envs

/-- The C function `g_desktop_app_info_should_show`. -/
def g_desktop_app_info_should_show (env : Env) (result : Option (List String))
    (info : GDesktopAppInfo) : Bool :=
  if info.nodisplay then false
  else g_desktop_app_info_get_show_in env result info none

/-- The macro `G_MININT`, for a 32-bit `gint`. -/
def G_MININT : Int := -2147483648

/-- The macro `G_MAXINT`, for a 32-bit `gint`. -/
def G_MAXINT : Int := 2147483647

/-- The value of an integer expression stored in a `gint`: reduced to 32 bits, two's
complement. -/
def to_gint (x : Int) : Int := (x + 2147483648) % 4294967296 - 2147483648

/-- The C function `g_ref_count_init`: the stored value of a new counter. -/
def g_ref_count_init : Int := -1

/-- The C function `g_ref_count_inc` on the stored value `*rc`. -/
def g_ref_count_inc (rc : Int) : Int :=
  let rrc := rc
  if ¬ rrc < 0 then rc
  else if rrc = G_MININT then rc
  else to_gint (rrc - 1)

/-- The C function `g_ref_count_dec` on the stored value `*rc`: the return value and the
value stored afterwards. -/
def g_ref_count_dec (rc : Int) : Bool × Int :=
  let rrc := rc
  if ¬ rrc < 0 then (false, rc)
  else
    let rrc := to_gint (rrc + 1)
    if rrc = 0 then (true, rc) else (false, rrc)

/-- The C function `g_ref_count_compare` on the stored value `*rc`. -/
def g_ref_count_compare (rc val : Int) : Bool :=
  let rrc := rc
  if ¬ val ≥ 0 then false
  else if val = G_MAXINT then decide (rrc = G_MININT)
  else decide (rrc = to_gint (-val))

/-- The number of references that a stored value stands for: the counter runs through
the negative range, so the count is the negated stored value. -/
def ref_count_value (rc : Int) : Int := -rc

/-- A valid counter: its stored value is in the negative range of `gint`. -/
def ref_count_valid (rc : Int) : Prop := G_MININT ≤ rc ∧ rc < 0

instance (rc : Int) : Decidable (ref_count_valid rc) := by
  unfold ref_count_valid
  infer_instance

/-! ## Launching: the command line and the spawn loop

A `GString` is the list of its characters, and a `GList *` of targets is the list from
that element on: `uris->next` is the tail, and two pointers into the same list are equal
when the lists have the same length. -/

/-- The C function `expand_macro_single`. -/
def expand_macro_single (env : Env) (macro_char : Char) (uri : String) : Option String :=
  if macro_char = 'u' ∨ macro_char = 'U' then some (env.g_shell_quote uri)
  else if macro_char = 'f' ∨ macro_char = 'F' then
    match env.g_file_get_path uri with
    | some path => some (env.g_shell_quote path)
    | none => none
  else if macro_char = 'd' ∨ macro_char = 'D' then
    match env.g_file_get_path uri with
    | some path => some (env.g_shell_quote (env.g_path_get_dirname path))
    | none => none
  else if macro_char = 'n' ∨ macro_char = 'N' then
    match env.g_file_get_path uri with
    | some path => some (env.g_shell_quote (env.g_path_get_basename path))
    | none => none
  else none

/-- The C function `expand_macro_uri`. -/
def expand_macro_uri (env : Env) (macro_char : Char) (uri : String) (force_file_uri : Bool)
    (force_file_uri_char : Char) : Option String :=
  if !force_file_uri || decide ('#' ∈ uri.data) then expand_macro_single env macro_char uri
  else
    match expand_macro_single env force_file_uri_char uri with
    | some expanded => some expanded
    | none => expand_macro_single env macro_char uri

/-- The `while (uris)` loop of `expand_macro` for the plural macros: the string after all
targets have been appended. -/
def expand_macro_plural (env : Env) (macro_char : Char) (force_file_uri : Bool)
    (force_file_uri_char : Char) : List Char → List String → List Char
  | exec, [] => exec
  | exec, uri :: uris =>
    let expanded := expand_macro_uri env macro_char uri force_file_uri force_file_uri_char
    let exec :=
      match expanded with
      | some expanded => exec ++ expanded.data
      | none => exec
    let exec := if uris ≠ [] ∧ expanded.isSome then exec ++ [' '] else exec
    expand_macro_plural env macro_char force_file_uri force_file_uri_char exec uris

/-- The C function `expand_macro`: the string `exec` and the list `*uri_list` after the
call. -/
def expand_macro (env : Env) (macro_char : Char) (exec : List Char) (info : GDesktopAppInfo)
    (uris : List String) : List Char × List String :=
  let force : Char × Bool :=
    if !info.no_fuse then
      if macro_char = 'u' then ('f', true)
      else if macro_char = 'U' then ('F', true)
      else (macro_char, false)
    else (macro_char, false)
  if macro_char = 'u' ∨ macro_char = 'f' ∨ macro_char = 'd' ∨ macro_char = 'n' then
    match uris with
    | [] => (exec, [])
    | uri :: uris =>
      match expand_macro_uri env macro_char uri force.2 force.1 with
      | some expanded => (exec ++ expanded.data, uris)
      | none => (exec, uris)
  else if macro_char = 'U' ∨ macro_char = 'F' ∨ macro_char = 'D' ∨ macro_char = 'N' then
    (expand_macro_plural env macro_char force.2 force.1 exec uris, [])
  else if macro_char = 'i' then
    match info.icon_name with
    | some icon_name => (exec ++ "--icon ".data ++ (env.g_shell_quote icon_name).data, uris)
    | none => (exec, uris)
  else if macro_char = 'c' then
    match info.name with
    | some name => (exec ++ (env.g_shell_quote name).data, uris)
    | none => (exec, uris)
  else if macro_char = 'k' then
    match info.filename with
    | some filename => (exec ++ (env.g_shell_quote filename).data, uris)
    | none => (exec, uris)
  else if macro_char = 'm' then (exec, uris)
  else if macro_char = '%' then (exec ++ ['%'], uris)
  else (exec, uris)

/-- The `while (*p)` loop of `expand_application_parameters` over the characters of the
command template from `p` on. -/
def expand_exec_line (env : Env) (info : GDesktopAppInfo) :
    List Char → List Char → List String → List Char × List String
  | [], expanded_exec, uris => (expanded_exec, uris)
  | c :: p, expanded_exec, uris =>
    if c = '%' then
      match p with
      | [] => (expanded_exec ++ [c], uris)
      | macro_char :: p =>
        let r := expand_macro env macro_char expanded_exec info uris
        expand_exec_line env info p r.1 r.2
    else expand_exec_line env info p (expanded_exec ++ [c]) uris

/-- The string `expanded_exec` of `expand_application_parameters` when it is handed to
`g_shell_parse_argv`, and the list `*uris` at that point. -/
def expand_application_parameters_line (env : Env) (info : GDesktopAppInfo)
    (exec_line : String) (uris : List String) : List Char × List String :=
  let uri_list := uris
  let r := expand_exec_line env info exec_line.data [] uris
  if uri_list.length = r.2.length ∧ uri_list ≠ [] then
    expand_macro env 'f' (r.1 ++ [' ']) info r.2
  else r

/-- The C function `expand_application_parameters`: the argument vector (`none` for the
`FALSE` return) and the list `*uris` after the call. -/
def expand_application_parameters (env : Env) (info : GDesktopAppInfo)
    (exec_line : Option String) (uris : List String) : Option (List String) × List String :=
  match exec_line with
  | none => (none, uris)
  | some exec_line =>
    let r := expand_application_parameters_line env info exec_line uris
    (env.g_shell_parse_argv (String.mk r.1), r.2)

/-- The table `known_terminals` of `prepend_terminal_to_vector`: program and the argument
that separates the command, if the terminal takes one. -/
def known_terminals : List (String × Option String) :=
  [("xdg-terminal-exec", none),
   ("kgx", some "-e"),
   ("gnome-terminal", some "--"),
   ("mate-terminal", some "-x"),
   ("xfce4-terminal", some "-x"),
   ("tilix", some "-e"),
   ("konsole", some "-e"),
   ("nxterm", some "-e"),
   ("color-xterm", some "-e"),
   ("rxvt", some "-e"),
   ("dtterm", some "-e"),
   ("xterm", some "-e")]

/-- The search loop of `prepend_terminal_to_vector` over (the rest of) the table: the
path of the first terminal that is found, and its separator argument. -/
def find_terminal (env : Env) (path working_dir : Option String) :
    List (String × Option String) → Option (String × Option String)
  | [] => none
  | terminal :: rest =>
    match env.g_find_program_for_path terminal.1 path working_dir with
    | some found_terminal => some (found_terminal, terminal.2)
    | none => find_terminal env path working_dir rest

/-- The C function `prepend_terminal_to_vector` (not on Windows): the new `*argc` and
`*argv`, `none` for the `FALSE` return. -/
def prepend_terminal_to_vector (env : Env) (argc : Int) (argv : Option (List String))
    (path working_dir : Option String) : Option (Int × List String) :=
  let argc := if argv.isNone then 0 else argc
  let the_argv := argv.getD []
  let argc := if argc < 0 then (the_argv.length : Int) else argc
  match find_terminal env path working_dir known_terminals with
  | none => none
  | some (found_terminal, term_arg) =>
    let term_argc : Int := if term_arg.isSome then 2 else 1
    let real_argc := term_argc + argc
    let real_argv :=
      [found_terminal] ++
      (match term_arg with
       | some term_arg => [term_arg]
       | none => []) ++
      the_argv.take argc.toNat
    some (real_argc, real_argv)

/-- A launch context, seen through the two methods the spawn loop calls:
`g_app_launch_context_get_environment` and `g_app_launch_context_get_startup_notify_id`
(entry and targets of the batch). -/
structure GAppLaunchContext where
  get_environment : List String
  get_startup_notify_id : GDesktopAppInfo → List String → Option String

/-- What a launch does to the outside: the signals on the launch context, the processes
it starts, the callback and the message on the session bus.  A `spawn` is a successful
`g_spawn_async_with_fds` call, noted with the targets of its batch. -/
inductive LaunchEvent where
  | launch_started (sn_id : Option String)
  | launch_failed (sn_id : String)
  | spawn (working_dir : Option String) (wrapped_argv envp launched_uris : List String)
      (pid : Nat)
  | pid_callback (pid : Nat)
  | launched (pid : Nat) (sn_id : Option String)
  | notify_desktop_launch (desktop_file_id : String) (pid : Nat) (sn_id : Option String)
      (launched_uris : List String)
  deriving DecidableEq, Repr

/-- The variables of `g_desktop_app_info_launch_uris_with_spawn` that live across the
iterations of its loop, the number of iterations done and the events so far. -/
structure LaunchState where
  dup_uris : List String
  envp : List String
  batch : Nat
  events : List LaunchEvent
  deriving DecidableEq, Repr

/-- How one iteration of the spawn loop ends: `goto out`, the end of the loop body, or
the failed assertion `g_assert (argc > 0)`. -/
inductive BatchResult where
  | failed (st : LaunchState)
  | spawned (st : LaunchState)
  | aborted
  deriving DecidableEq, Repr

/-- The value that the spawn loop stores in `gio_launch_desktop_path` at its first use. -/
def gio_launch_desktop_path (env : Env) : String :=
  let tmp : Option String := none
  let is_setuid := env.g_check_setuid
  let tmp := if !is_setuid then env.g_getenv "GIO_LAUNCH_DESKTOP" else tmp
  let tmp :=
    if tmp.isNone && env.g_file_test_is_executable env.GIO_LAUNCH_DESKTOP then
      some env.GIO_LAUNCH_DESKTOP
    else tmp
  match tmp with
  | some tmp => tmp
  | none => "gio-launch-desktop"

/-- The name under which `notify_desktop_launch` announces the entry. -/
def notify_desktop_file_id (info : GDesktopAppInfo) : String :=
  match info.filename with
  | some filename => filename
  | none =>
    match info.desktop_id with
    | some desktop_id => desktop_id
    | none => ""

/-- The body of the `do ... while` loop of `g_desktop_app_info_launch_uris_with_spawn`:
one batch.  `session_bus` and `pid_callback` say whether the arguments of these names are
given (not `NULL`). -/
def launch_batch (env : Env) (info : GDesktopAppInfo) (session_bus : Bool)
    (exec_line : Option String) (launch_context : Option GAppLaunchContext)
    (pid_callback : Bool) (st : LaunchState) : BatchResult :=
  let old_uris := st.dup_uris
  let expanded := expand_application_parameters env info exec_line st.dup_uris
  let dup_uris := expanded.2
  match expanded.1 with
  | none => BatchResult.failed { st with dup_uris := dup_uris }
  | some argv =>
    let launched_uris := old_uris.take (old_uris.length - dup_uris.length)
    let with_terminal : Option (List String) :=
      if info.terminal then
        (prepend_terminal_to_vector env argv.length (some argv)
          (env.g_environ_getenv st.envp "PATH") info.path).map Prod.snd
      else some argv
    match with_terminal with
    | none => BatchResult.failed { st with dup_uris := dup_uris }
    | some argv =>
      let envp :=
        match info.filename with
        | some filename => env.g_environ_setenv st.envp "GIO_LAUNCHED_DESKTOP_FILE" filename
        | none => st.envp
      let sn_id : Option String :=
        match launch_context with
        | some launch_context =>
          if info.startup_notify then launch_context.get_startup_notify_id info launched_uris
          else none
        | none => none
      let envp :=
        match sn_id with
        | some sn_id =>
          env.g_environ_setenv (env.g_environ_setenv envp "DESKTOP_STARTUP_ID" sn_id)
            "XDG_ACTIVATION_TOKEN" sn_id
        | none => envp
      let events :=
        if launch_context.isSome then st.events ++ [LaunchEvent.launch_started sn_id]
        else st.events
      match argv with
      | [] => BatchResult.aborted
      | argv0 :: args =>
        let resolved : Option String :=
          if !env.g_path_is_absolute argv0 || !env.g_file_test_is_executable argv0 ||
              env.g_file_test_is_dir argv0 then
            let program := argv0
            if !env.g_path_is_absolute program then
              env.g_find_program_for_path program (env.g_environ_getenv envp "PATH") info.path
            else none
          else some argv0
        match resolved with
        | none =>
          BatchResult.failed
            { dup_uris := dup_uris, envp := envp, batch := st.batch
              events :=
                match sn_id with
                | some sn_id => events ++ [LaunchEvent.launch_failed sn_id]
                | none => events }
        | some argv0 =>
          let wrapped_argv := gio_launch_desktop_path env :: argv0 :: args
          match env.g_spawn_async_with_fds st.batch info.path wrapped_argv envp with
          | none =>
            BatchResult.failed
              { dup_uris := dup_uris, envp := envp, batch := st.batch
                events :=
                  match sn_id with
                  | some sn_id => events ++ [LaunchEvent.launch_failed sn_id]
                  | none => events }
          | some pid =>
            let events :=
              events ++ [LaunchEvent.spawn info.path wrapped_argv envp launched_uris pid]
            let events := if pid_callback then events ++ [LaunchEvent.pid_callback pid] else events
            let events :=
              if launch_context.isSome then events ++ [LaunchEvent.launched pid sn_id]
              else events
            let events :=
              if session_bus then
                events ++ [LaunchEvent.notify_desktop_launch (notify_desktop_file_id info) pid
                  sn_id launched_uris]
              else events
            BatchResult.spawned
              { dup_uris := dup_uris, envp := envp, batch := st.batch + 1, events := events }

/-- How `g_desktop_app_info_launch_uris_with_spawn` ends: with the return value
`completed` and the events of the call, with the failed assertion, or (in the model only)
with too little fuel for the loop. -/
inductive LaunchResult where
  | finished (completed : Bool) (events : List LaunchEvent)
  | aborted
  | out_of_fuel
  deriving DecidableEq, Repr

/-- The `do ... while (dup_uris != NULL)` loop of
`g_desktop_app_info_launch_uris_with_spawn`; `fuel` bounds the number of iterations. -/
def launch_loop (env : Env) (info : GDesktopAppInfo) (session_bus : Bool)
    (exec_line : Option String) (launch_context : Option GAppLaunchContext)
    (pid_callback : Bool) : Nat → LaunchState → LaunchResult
  | 0, _ => LaunchResult.out_of_fuel
  | fuel + 1, st =>
    match launch_batch env info session_bus exec_line launch_context pid_callback st with
    | BatchResult.failed st => LaunchResult.finished false st.events
    | BatchResult.aborted => LaunchResult.aborted
    | BatchResult.spawned st =>
      if st.dup_uris ≠ [] then
        launch_loop env info session_bus exec_line launch_context pid_callback fuel st
      else LaunchResult.finished true st.events

/-- The C function `g_desktop_app_info_launch_uris_with_spawn`. -/
def g_desktop_app_info_launch_uris_with_spawn (env : Env) (fuel : Nat)
    (info : GDesktopAppInfo) (session_bus : Bool) (exec_line : Option String)
    (uris : List String) (launch_context : Option GAppLaunchContext) (pid_callback : Bool) :
    LaunchResult :=
  let envp :=
    match launch_context with
    | some launch_context => launch_context.get_environment
    | none => env.g_get_environ
  launch_loop env info session_bus exec_line launch_context pid_callback fuel
    { dup_uris := uris, envp := envp, batch := 0, events := [] }

/-- The targets of the processes that a launch started, batch by batch. -/
def spawned_batches : List LaunchEvent → List (List String)
  | [] => []
  | LaunchEvent.spawn _ _ _ launched_uris _ :: events => launched_uris :: spawned_batches events
  | _ :: events => spawned_batches events

/-- The macros of `expand_macro` that consume targets. -/
def is_target_letter (c : Char) : Bool :=
  c = 'u' || c = 'f' || c = 'd' || c = 'n' || c = 'U' || c = 'F' || c = 'D' || c = 'N'

/-- The pieces that the loop of `expand_application_parameters` reads a command template
as: a character that is copied (`inl`), or the character of a macro (`inr`), which is the
one after a `%` that is not the last character. -/
def exec_tokens : List Char → List (Char ⊕ Char)
  | [] => []
  | c :: p =>
    if c = '%' then
      match p with
      | [] => [Sum.inl c]
      | m :: p => Sum.inr m :: exec_tokens p
    else Sum.inl c :: exec_tokens p

/-- The macros of a command template that consume targets, in order. -/
def target_macros (exec_line : List Char) : List Char :=
  (exec_tokens exec_line).filterMap (fun t =>
    match t with
    | Sum.inl _ => none
    | Sum.inr m => if is_target_letter m then some m else none)

/-- A piece of a command template consumes targets when it is one of the macros of
`is_target_letter`. -/
def token_consumes (t : Char ⊕ Char) : Bool :=
  match t with
  | Sum.inl _ => false
  | Sum.inr macro_char => is_target_letter macro_char

/-- What one piece of a command template does to the expanded string and the pending
targets: a character is copied, a macro goes through `expand_macro`. -/
def expand_token (env : Env) (info : GDesktopAppInfo) (r : List Char × List String)
    (t : Char ⊕ Char) : List Char × List String :=
  match t with
  | Sum.inl c => (r.1 ++ [c], r.2)
  | Sum.inr macro_char => expand_macro env macro_char r.1 info r.2

/-- The text that pieces of a command template expand to on their own, with no target
pending. -/
def expand_tokens (env : Env) (info : GDesktopAppInfo) (tokens : List (Char ⊕ Char)) :
    List Char :=
  (tokens.foldl (expand_token env info) ([], [])).1

/-- The shell-quoted local path of a target, and nothing for a target without one. -/
def quoted_path (env : Env) (uri : String) : List Char :=
  match env.g_file_get_path uri with
  | some path => (env.g_shell_quote path).data
  | none => []

/-- The state in which `g_desktop_app_info_launch_uris_with_spawn` enters its loop. -/
def launch_initial_state (env : Env) (uris : List String)
    (launch_context : Option GAppLaunchContext) : LaunchState :=
  { dup_uris := uris
    envp :=
      match launch_context with
      | some launch_context => launch_context.get_environment
      | none => env.g_get_environ
    batch := 0
    events := [] }

/-- The state of the spawn loop after `k` iterations that each spawned a process and left
targets pending, if the loop gets that far. -/
def launch_batches (env : Env) (info : GDesktopAppInfo) (session_bus : Bool)
    (exec_line : Option String) (launch_context : Option GAppLaunchContext)
    (pid_callback : Bool) : Nat → LaunchState → Option LaunchState
  | 0, st => some st
  | k + 1, st =>
    match launch_batch env info session_bus exec_line launch_context pid_callback st with
    | BatchResult.spawned st =>
      if st.dup_uris ≠ [] then
        launch_batches env info session_bus exec_line launch_context pid_callback k st
      else none
    | _ => none

/-- The return value of a launch and the targets of the processes it started, batch by
batch; `none` when the launch did not return. -/
def spawned_batches_of_result : LaunchResult → Option (Bool × List (List String))
  | LaunchResult.finished completed events => some (completed, spawned_batches events)
  | _ => none

/-! ## Small concrete launches -/

/-- The environment `sample_env` with a shell parser that cuts a line at blanks (and
rejects a line without words), the programs `installed` in `/usr/bin`, and a spawn call
that succeeds, with the process id `100 + n`, exactly when `spawn_ok n` holds of the number
`n` of processes spawned before. -/
def launch_env (installed : List String) (spawn_ok : Nat → Bool) : Env :=
  { sample_env [] with
    g_shell_parse_argv := fun s =>
      match split_blanks s.data [] with
      | [] => none
      | argv => some argv
    g_find_program_for_path := fun program _ _ =>
      if program ∈ installed then some ("/usr/bin/" ++ program) else none
    g_spawn_async_with_fds := fun n _ _ _ => if spawn_ok n then some (100 + n) else none }

/-- An entry without a file name whose command template is `exec`. -/
def launch_info (exec : String) ( terminal : Bool) : GDesktopAppInfo :=
  { id_desktop_entry with
    desktop_id := some "app.desktop", filename := none, name := some "app"
    exec := some exec, terminal := terminal }

/-- Three targets with local paths. -/
def launch_uris : List String := ["file:///a", "file:///b", "file:///c"]

/-- The state of the spawn loop for `app %f` and `launch_uris`, without launch context,
after the first batch. -/
def launch_state_one : LaunchState :=
  { dup_uris := ["file:///b", "file:///c"]
    envp := []
    batch := 1
    events := [LaunchEvent.spawn none ["gio-launch-desktop", "/usr/bin/app", "'/a'"] []
      ["file:///a"] 100] }

/-- The id table of `calc_dirs`, its entries in iteration order. -/
def calc_app_names : GHashTable String :=
  [("a.desktop", "/usr/applications/a.desktop"), ("b.desktop", "/usr/applications/b.desktop")]

/-- One record whose id table is `app_names`, before its token index is built. -/
def calc_dirs_of (app_names : GHashTable String) : List DesktopFileDir :=
  [sample_dir "/usr/applications" (some app_names) []]

/-- One record with two applications for a search by position. -/
def calc_dirs : List DesktopFileDir :=
  [sample_dir "/usr/applications"
    (some [("a.desktop", "/usr/applications/a.desktop"),
           ("b.desktop", "/usr/applications/b.desktop")]) []]

/-- The record of `calc_dirs` after `desktop_file_dir_unindexed_setup_search`, with the
table `mi` as its token index: the list gives the keys in the order in which
`g_hash_table_iter_next` visits them. -/
def calc_dirs_indexed (mi : MemoryIndex) : List DesktopFileDir :=
  [{ sample_dir "/usr/applications" (some calc_app_names) [] with
     memory_index := some mi
     memory_implementations := some [] }]

/-- The documents of `calc_dirs`: `a.desktop` is named `calc`, and `b.desktop` is named
`calculator calc`. -/
def calc_env : Env :=
  sample_env [("/usr/applications/a.desktop", sample_app_key_file [("Name", "calc")]),
              ("/usr/applications/b.desktop",
                sample_app_key_file [("Name", "calculator calc")])]

/-- The documents of `calc_dirs` with the two words of the second name the other way
round: `a.desktop` is named `calc`, and `b.desktop` is named `calc calculator`. -/
def calc_env_swapped : Env :=
  sample_env [("/usr/applications/a.desktop", sample_app_key_file [("Name", "calc")]),
              ("/usr/applications/b.desktop",
                sample_app_key_file [("Name", "calc calculator")])]

/-! ## Scanning a directory tree: what there is to find -/

/-- The directory that a scan starting in `dirname` reaches through the subdirectories
`dirs`: each step is a name that the directory lists, that does not end in `.desktop`
and that is a directory. -/
def scan_dir (env : Env) : String → List String → Option String
  | dirname, [] => some dirname
  | dirname, d :: dirs =>
    match env.g_dir_open dirname with
    | none => none
    | some names =>
      if d ∈ names ∧ ".desktop".data.isSuffixOf d.data = false ∧
          env.g_file_test_is_dir (env.g_build_filename [dirname, d]) = true then
        scan_dir env (env.g_build_filename [dirname, d]) dirs
      else none

/-- The id `d1-d2-...-dk-name` of the name `name` below the subdirectories `d1`, ..., `dk`. -/
def scan_id : List String → String → String
  | [], name => name
  | d :: dirs, name => d ++ "-" ++ scan_id dirs name

/-- A scan that starts in `dirname` with the id prefix `pfx` comes across an entry with
the id `id` and the full path `path`: a name ending in `.desktop` that is listed by a
directory the scan reaches. -/
def Scanned (env : Env) (dirname pfx id path : String) : Prop :=
  ∃ (dirs : List String) (name dir : String) (names : List String),
    scan_dir env dirname dirs = some dir ∧ env.g_dir_open dir = some names ∧ name ∈ names ∧
    ".desktop".data.isSuffixOf name.data = true ∧
    id = pfx ++ scan_id dirs name ∧ path = env.g_build_filename [dir, name]

/-- The entries that a scan comes across when it handles the names `ns` of the directory
`dirname`. -/
def ScannedVia (env : Env) (dirname pfx : String) (ns : List String) (id path : String) :
    Prop :=
  (∃ name ∈ ns, ".desktop".data.isSuffixOf name.data = true ∧ id = pfx ++ name ∧
    path = env.g_build_filename [dirname, name]) ∨
  (∃ d ∈ ns, ".desktop".data.isSuffixOf d.data = false ∧
    env.g_file_test_is_dir (env.g_build_filename [dirname, d]) = true ∧
    Scanned env (env.g_build_filename [dirname, d]) (pfx ++ d ++ "-") id path)

/-- A tree in which `/apps` holds `a-b.desktop`, the directory `a` with `b.desktop`, the
directory `old.desktop` with `c.desktop`, and `notes.txt`. -/
def scan_env : Env :=
  { sample_env [] with
    g_dir_open := fun dirname =>
      if dirname = "/apps" then some ["a-b.desktop", "a", "old.desktop", "notes.txt"]
      else if dirname = "/apps/a" then some ["b.desktop"]
      else if dirname = "/apps/old.desktop" then some ["c.desktop"]
      else none
    g_file_test_is_dir := fun filename =>
      decide (filename = "/apps/a") || decide (filename = "/apps/old.desktop") }

/-- A tree in which `/apps` holds `top.desktop`, the directory `sub` with `low.desktop`,
and `notes.txt`. -/
def scan_env_plain : Env :=
  { sample_env [] with
    g_dir_open := fun dirname =>
      if dirname = "/apps" then some ["top.desktop", "sub", "notes.txt"]
      else if dirname = "/apps/sub" then some ["low.desktop"]
      else none
    g_file_test_is_dir := fun filename => decide (filename = "/apps/sub") }

/-! ## The list that adding an id describes -/

/-- The `Added Associations` list after an id has been added, in the words of the
specification: the id stays where it first was and its later occurrences go, the other
strings keep their order, and an id that was not in the list goes to its end. -/
def added_list_spec (id : String) : List String → List String
  | [] => [id]
  | old :: rest =>
    if old = id then id :: rest.filter (fun s => decide (s ≠ id))
    else old :: added_list_spec id rest

/-! ## The states of the chain -/

/-- The chains that the program gets to: the chain does not exist at the start;
`desktop_file_dirs_lock` creates it and sets up every record that is not set up; a
search, which runs after `desktop_file_dirs_lock` on records that are set up, builds the
index of a record that has none; a change of the watched directory, or a write of the
user's association file, resets a record.  The file system may differ from step to
step.  Lookups leave the chain as it is. -/
inductive ReachableDirs : List DesktopFileDir → Prop
  | start : ReachableDirs []
  | lock (env : Env) (fuel : Nat) (dirs dirs2 : List DesktopFileDir) :
      ReachableDirs dirs → desktop_file_dirs_lock env fuel dirs = some dirs2 →
      ReachableDirs dirs2
  | search (env : Env) (dirs : List DesktopFileDir) (i : Nat) :
      ReachableDirs dirs → (∀ d ∈ dirs, d.is_setup = true) →
      ReachableDirs (desktop_file_dir_ensure_index env dirs i)
  | reset (dirs : List DesktopFileDir) (i : Nat) (d : DesktopFileDir) :
      ReachableDirs dirs → dirs[i]? = some d →
      ReachableDirs (dirs.set i (desktop_file_dir_reset d))

/-- What holds of the lazy tables of a record in every state: the association table is
there exactly when the record is set up; a record that is not set up has no id table and
no token index; the token index and the index of implementations are there together; a
configuration record has no id table. -/
def DirTablesOk (d : DesktopFileDir) : Prop :=
  d.mime_tweaks.isSome = d.is_setup ∧
  (d.is_setup = true ∨ (d.app_names = none ∧ d.memory_index = none)) ∧
  d.memory_implementations.isSome = d.memory_index.isSome ∧
  (d.is_config = false ∨ d.app_names = none)

/-- A file system in which `/usr/applications` holds `xterm.desktop`. -/
def lock_env : Env :=
  { sample_env [("/usr/applications/xterm.desktop", sample_app_key_file [("Name", "xterm")])] with
    g_dir_open := fun dirname =>
      if dirname = "/usr/applications" then some ["xterm.desktop"] else none }

/-- The chain that `desktop_file_dirs_lock` creates in `lock_env`. -/
def lock_dirs : List DesktopFileDir :=
  [{ config_dir with is_setup := true, monitor := true, mime_tweaks := some [] },
   { config_dir with path := "/etc/xdg", is_setup := true, monitor := true,
                     mime_tweaks := some [] },
   sample_dir "/home/u/.local/share/applications" none [],
   sample_dir "/usr/applications"
     (some [("xterm.desktop", "/usr/applications/xterm.desktop")]) []]

/-- The last record of `lock_dirs` after a search has built its index. -/
def lock_dir_searched : DesktopFileDir :=
  { sample_dir "/usr/applications"
      (some [("xterm.desktop", "/usr/applications/xterm.desktop")]) [] with
    memory_index := some [("xterm", [{ app_name := "xterm.desktop", match_category := 1,
                                       token_pos := 0 }])]
    memory_implementations := some [] }

/-! ## The candidate types of a default lookup, one after the other -/

/-- What one candidate type leaves behind in `g_app_info_get_default_for_type_impl`:
`defaults` is the array `results` after the first inner loop, `results` and `blocklist` are
the two arrays after the second inner loop. -/
structure DefaultLookup where
  defaults : List String
  results : List String
  blocklist : List String
  deriving DecidableEq, Repr

/-- The two inner loops of `g_app_info_get_default_for_type_impl` for each candidate type
in turn, as long as no collected id resolves: `results` is emptied before a type
(`g_ptr_array_set_size (results, 0)`) and `blocklist` goes on to the next type. -/
def default_for_lookups (desktop_file_dirs : List DesktopFileDir) :
    List String → List String → List DefaultLookup
  | [], _ => []
  | ty :: types, blocklist =>
    let results := default_lookup_dirs desktop_file_dirs ty desktop_file_dirs.length []
    let results_blocklist :=
      mime_lookup_dirs desktop_file_dirs ty desktop_file_dirs.length (results, blocklist)
    { defaults := results, results := results_blocklist.1, blocklist := results_blocklist.2 } ::
      default_for_lookups desktop_file_dirs types results_blocklist.2
/-! ## Facts about hash tables -/

theorem g_hash_table_lookup_eq_some_iff {V : Type} (t : GHashTable V) (hok : HashKeysOk t)
    (key : String) (v : V) : g_hash_table_lookup t key = some v ↔ (key, v) ∈ t := by
  induction t with
  | nil => simp [g_hash_table_lookup]
  | cons p rest ih =>
    obtain ⟨k, w⟩ := p
    have hok' : HashKeysOk rest := by
      unfold HashKeysOk at hok ⊢
      exact (List.nodup_cons.mp hok).2
    have hk : k ∉ rest.map Prod.fst := by
      unfold HashKeysOk at hok
      exact (List.nodup_cons.mp hok).1
    by_cases h : k = key
    · subst h
      simp only [g_hash_table_lookup, if_true, List.mem_cons, Prod.mk.injEq, true_and,
        Option.some.injEq]
      constructor
      · intro hw
        exact Or.inl hw.symm
      · rintro (hw | hmem)
        · exact hw.symm
        · exact absurd (List.mem_map_of_mem Prod.fst hmem) hk
    · simp only [g_hash_table_lookup, h, if_false, List.mem_cons, Prod.mk.injEq]
      rw [ih hok']
      constructor
      · intro hm
        exact Or.inr hm
      · rintro (⟨hkk, _⟩ | hm)
        · exact absurd hkk.symm h
        · exact hm

theorem g_hash_table_lookup_isSome_iff {V : Type} (t : GHashTable V) (key : String) :
    (g_hash_table_lookup t key).isSome = true ↔ key ∈ t.map Prod.fst := by
  induction t with
  | nil => simp [g_hash_table_lookup]
  | cons p rest ih =>
    obtain ⟨k, w⟩ := p
    by_cases h : k = key
    · simp [g_hash_table_lookup, h]
    · have h' : ¬ key = k := fun e => h e.symm
      simp [g_hash_table_lookup, h, h', ih]

theorem g_hash_table_contains_iff {V : Type} (t : GHashTable V) (key : String) :
    g_hash_table_contains t key = true ↔ key ∈ t.map Prod.fst := by
  unfold g_hash_table_contains
  exact g_hash_table_lookup_isSome_iff t key

theorem g_hash_table_lookup_insert {V : Type} (t : GHashTable V) (key : String) (value : V)
    (key' : String) :
    g_hash_table_lookup (g_hash_table_insert t key value) key' =
      if key = key' then some value else g_hash_table_lookup t key' := by
  induction t with
  | nil => simp [g_hash_table_insert, g_hash_table_lookup]
  | cons p rest ih =>
    obtain ⟨k, w⟩ := p
    by_cases h : k = key
    · subst h
      by_cases h' : k = key' <;> simp [g_hash_table_insert, g_hash_table_lookup, h']
    · by_cases h' : k = key'
      · subst h'
        have : ¬ key = k := fun e => h e.symm
        simp [g_hash_table_insert, g_hash_table_lookup, h, this]
      · simp [g_hash_table_insert, g_hash_table_lookup, h, h', ih]

theorem g_hash_table_insert_keys {V : Type} (t : GHashTable V) (key : String) (value : V) :
    (g_hash_table_insert t key value).map Prod.fst =
      if key ∈ t.map Prod.fst then t.map Prod.fst else t.map Prod.fst ++ [key] := by
  induction t with
  | nil => simp [g_hash_table_insert]
  | cons p rest ih =>
    obtain ⟨k, w⟩ := p
    by_cases h : k = key
    · subst h
      simp [g_hash_table_insert]
    · have h' : ¬ key = k := fun e => h e.symm
      simp only [g_hash_table_insert, h, if_false, List.map_cons, ih, List.mem_cons, h',
        false_or]
      split <;> simp

theorem g_hash_table_insert_ok {V : Type} (t : GHashTable V) (key : String) (value : V)
    (hok : HashKeysOk t) : HashKeysOk (g_hash_table_insert t key value) := by
  unfold HashKeysOk at hok ⊢
  rw [g_hash_table_insert_keys]
  split
  · exact hok
  · rename_i hk
    rw [List.nodup_append]
    refine ⟨hok, List.nodup_singleton _, ?_⟩
    intro a ha hb
    simp only [List.mem_singleton] at hb
    subst hb
    exact hk ha

/-! ## Facts about masking -/

theorem hasId_iff (desktop_file_dirs : List DesktopFileDir) (i : Nat) (id : String) :
    HasId desktop_file_dirs i id ↔
      ∃ d t, desktop_file_dirs[i]? = some d ∧ d.app_names = some t ∧
        g_hash_table_contains t id = true := by
  unfold HasId IdTableEntry g_hash_table_contains
  constructor
  · rintro ⟨path, d, t, hd, ht, hl⟩
    exact ⟨d, t, hd, ht, by simp [hl]⟩
  · rintro ⟨d, t, hd, ht, hl⟩
    obtain ⟨path, hp⟩ := Option.isSome_iff_exists.mp hl
    exact ⟨path, d, t, hd, ht, hp⟩

theorem is_masked_loop_iff (dir : Nat) (app_name : String) (rest : List DesktopFileDir) :
    ∀ i, i ≤ dir →
      (desktop_file_dir_app_name_is_masked_loop dir app_name i rest = true ↔
        ∃ n, i + n < dir ∧ ∃ d t, rest[n]? = some d ∧ d.app_names = some t ∧
          g_hash_table_contains t app_name = true) := by
  induction rest with
  | nil =>
    intro i _
    simp [desktop_file_dir_app_name_is_masked_loop]
  | cons i_dir rest ih =>
    intro i hi
    unfold desktop_file_dir_app_name_is_masked_loop
    by_cases hdi : dir = i
    · subst hdi
      simp only [if_true]
      constructor
      · intro h
        exact absurd h (by simp)
      · rintro ⟨n, hn, _⟩
        omega
    · have hlt : i < dir := by omega
      simp only [hdi, if_false]
      by_cases hc : (match i_dir.app_names with
          | some t => g_hash_table_contains t app_name
          | none => false) = true
      · rw [if_pos hc]
        simp only [true_iff]
        refine ⟨0, by omega, i_dir, ?_⟩
        cases hn : i_dir.app_names with
        | none => simp [hn] at hc
        | some t =>
          simp only [hn] at hc
          exact ⟨t, by simp, rfl, hc⟩
      · rw [if_neg hc, ih (i + 1) (by omega)]
        constructor
        · rintro ⟨n, hn, d, t, hd, ht, hcon⟩
          exact ⟨n + 1, by omega, d, t, by simpa using hd, ht, hcon⟩
        · rintro ⟨n, hn, d, t, hd, ht, hcon⟩
          cases n with
          | zero =>
            simp only [List.getElem?_cons_zero, Option.some.injEq] at hd
            subst hd
            simp [ht, hcon] at hc
          | succ m =>
            exact ⟨m, by omega, d, t, by simpa using hd, ht, hcon⟩

theorem is_masked_iff_hasId (desktop_file_dirs : List DesktopFileDir) (dir : Nat)
    (app_name : String) :
    desktop_file_dir_app_name_is_masked desktop_file_dirs dir app_name = true ↔
      ∃ i, i < dir ∧ HasId desktop_file_dirs i app_name := by
  unfold desktop_file_dir_app_name_is_masked
  rw [is_masked_loop_iff dir app_name desktop_file_dirs 0 (Nat.zero_le _)]
  constructor
  · rintro ⟨n, hn, d, t, hd, ht, hc⟩
    exact ⟨n, by omega, (hasId_iff _ _ _).mpr ⟨d, t, hd, ht, hc⟩⟩
  · rintro ⟨i, hi, h⟩
    obtain ⟨d, t, hd, ht, hc⟩ := (hasId_iff _ _ _).mp h
    exact ⟨i, by omega, d, t, hd, ht, hc⟩

theorem is_masked_mono (desktop_file_dirs : List DesktopFileDir) (dir dir' : Nat)
    (app_name : String) (hle : dir ≤ dir')
    (h : desktop_file_dir_app_name_is_masked desktop_file_dirs dir app_name = true) :
    desktop_file_dir_app_name_is_masked desktop_file_dirs dir' app_name = true := by
  rw [is_masked_iff_hasId] at h ⊢
  obtain ⟨i, hi, hh⟩ := h
  exact ⟨i, by omega, hh⟩

/-! ## Masking: the claim -/

/-- C3: for every position `dir` in the chain and every id,
`desktop_file_dir_app_name_is_masked` is true exactly when a record at a strictly smaller
index (strictly higher precedence) has the id in its id table; the id tables of `dir`
itself and of the records after it play no part in the answer. -/
theorem desktop_file_dir_app_name_is_masked_spec (desktop_file_dirs : List DesktopFileDir)
    (dir : Nat) (app_name : String) :
    (desktop_file_dir_app_name_is_masked desktop_file_dirs dir app_name = true ↔
      ∃ i, i < dir ∧ ∃ d t, desktop_file_dirs[i]? = some d ∧ d.app_names = some t ∧
        app_name ∈ t.map Prod.fst) ∧
    (∀ other : List DesktopFileDir, other.take dir = desktop_file_dirs.take dir →
      desktop_file_dir_app_name_is_masked other dir app_name =
        desktop_file_dir_app_name_is_masked desktop_file_dirs dir app_name) := by
  have key : ∀ dirs : List DesktopFileDir,
      (desktop_file_dir_app_name_is_masked dirs dir app_name = true ↔
        ∃ i, i < dir ∧ ∃ d t, (dirs.take dir)[i]? = some d ∧ d.app_names = some t ∧
          app_name ∈ t.map Prod.fst) := by
    intro dirs
    rw [is_masked_iff_hasId]
    constructor
    · rintro ⟨i, hi, h⟩
      obtain ⟨d, t, hd, ht, hc⟩ := (hasId_iff _ _ _).mp h
      refine ⟨i, hi, d, t, ?_, ht, (g_hash_table_contains_iff t app_name).mp hc⟩
      rw [List.getElem?_take_of_lt hi]
      exact hd
    · rintro ⟨i, hi, d, t, hd, ht, hm⟩
      rw [List.getElem?_take_of_lt hi] at hd
      exact ⟨i, hi, (hasId_iff _ _ _).mpr
        ⟨d, t, hd, ht, (g_hash_table_contains_iff t app_name).mpr hm⟩⟩
  constructor
  · rw [key desktop_file_dirs]
    constructor
    · rintro ⟨i, hi, d, t, hd, ht, hm⟩
      rw [List.getElem?_take_of_lt hi] at hd
      exact ⟨i, hi, d, t, hd, ht, hm⟩
    · rintro ⟨i, hi, d, t, hd, ht, hm⟩
      refine ⟨i, hi, d, t, ?_, ht, hm⟩
      rw [List.getElem?_take_of_lt hi]
      exact hd
  · intro other hother
    have h1 := key other
    have h2 := key desktop_file_dirs
    rw [hother] at h1
    exact Bool.eq_iff_iff.mpr (h1.trans h2.symm)

/-! ## Resolving an id -/

theorem findSome_range'_first {α : Type} (f : Nat → Option α) (i : Nat) (a : α)
    (hat : f i = some a) :
    ∀ m s, s ≤ i → i < s + m → (∀ j, s ≤ j → j < i → f j = none) →
      (List.range' s m).findSome? f = some a := by
  intro m
  induction m with
  | zero =>
    intro s h1 h2 _
    omega
  | succ m ih =>
    intro s h1 h2 hbefore
    rw [List.range'_succ, List.findSome?_cons]
    by_cases hs : s = i
    · subst hs
      rw [hat]
    · rw [hbefore s (Nat.le_refl _) (by omega)]
      exact ih (s + 1) (by omega) (by omega) (fun j hj hji => hbefore j (by omega) hji)

theorem findSome_range_first {α : Type} (f : Nat → Option α) (n i : Nat) (a : α)
    (hi : i < n) (hbefore : ∀ j, j < i → f j = none) (hat : f i = some a) :
    (List.range n).findSome? f = some a := by
  rw [List.range_eq_range']
  exact findSome_range'_first f i a hat n 0 (Nat.zero_le _) (by omega)
    (fun j _ hji => hbefore j hji)

theorem desktop_file_dir_get_app_of_entry (env : Env) (desktop_file_dirs : List DesktopFileDir)
    (i : Nat) (id path : String) (h : IdTableEntry desktop_file_dirs i id path) :
    desktop_file_dir_get_app env desktop_file_dirs i id =
      g_desktop_app_info_new_from_filename_unlocked env desktop_file_dirs path := by
  obtain ⟨d, t, hd, ht, hl⟩ := h
  simp [desktop_file_dir_get_app, desktop_file_dir_unindexed_get_app, hd, ht, hl]

theorem desktop_file_dir_get_app_of_not_hasId (env : Env)
    (desktop_file_dirs : List DesktopFileDir) (i : Nat) (id : String)
    (h : ¬ HasId desktop_file_dirs i id) :
    desktop_file_dir_get_app env desktop_file_dirs i id = none := by
  unfold desktop_file_dir_get_app
  cases hd : desktop_file_dirs[i]? with
  | none => rfl
  | some d =>
    cases ht : d.app_names with
    | none => simp [ht]
    | some t =>
      cases hl : g_hash_table_lookup t id with
      | none => simp [desktop_file_dir_unindexed_get_app, ht, hl]
      | some path => exact absurd ⟨path, d, t, hd, ht, hl⟩ h

theorem idTableEntry_lt_length (desktop_file_dirs : List DesktopFileDir) (i : Nat)
    (id path : String) (h : IdTableEntry desktop_file_dirs i id path) :
    i < desktop_file_dirs.length := by
  obtain ⟨d, t, hd, _, _⟩ := h
  by_contra hn
  rw [List.getElem?_eq_none (by omega)] at hd
  exact absurd hd (by simp)

theorem idTableEntry_unique (desktop_file_dirs : List DesktopFileDir) (i : Nat)
    (id path path' : String) (h : IdTableEntry desktop_file_dirs i id path)
    (h' : IdTableEntry desktop_file_dirs i id path') : path = path' := by
  obtain ⟨d, t, hd, ht, hl⟩ := h
  obtain ⟨d', t', hd', ht', hl'⟩ := h'
  rw [hd] at hd'
  cases hd'
  rw [ht] at ht'
  cases ht'
  rw [hl] at hl'
  exact Option.some.inj hl'

theorem isTopDir_unique (desktop_file_dirs : List DesktopFileDir) (i j : Nat) (id : String)
    (hi : IsTopDir desktop_file_dirs i id) (hj : IsTopDir desktop_file_dirs j id) : i = j := by
  rcases Nat.lt_trichotomy i j with h | h | h
  · exact absurd hi.1 (hj.2 i h)
  · exact h
  · exact absurd hj.1 (hi.2 j h)

/-- When the document of the highest-precedence record that has the id loads, the code
of `g_desktop_app_info_new` returns the entry built from it, or nothing if it is hidden. -/
theorem g_desktop_app_info_new_of_top_loads (env : Env)
    (desktop_file_dirs : List DesktopFileDir) (id path : String) (i : Nat)
    (info : GDesktopAppInfo) (htop : IsTopDir desktop_file_dirs i id)
    (hentry : IdTableEntry desktop_file_dirs i id path)
    (hload : g_desktop_app_info_new_from_filename_unlocked env desktop_file_dirs path =
      some info) :
    g_desktop_app_info_new env desktop_file_dirs id =
      if info.hidden then none else some { info with desktop_id := some id } := by
  unfold g_desktop_app_info_new
  rw [findSome_range_first _ desktop_file_dirs.length i info
    (idTableEntry_lt_length _ _ _ _ hentry)
    (fun j hj => desktop_file_dir_get_app_of_not_hasId env _ j id (htop.2 j hj))
    (by rw [desktop_file_dir_get_app_of_entry env _ i id path hentry, hload])]

/-- C1, the code at the failing input: both records hold `foo.desktop`, the document of
the first (highest-precedence) record does not load, and `g_desktop_app_info_new` returns
the entry built from the second record, whose id is masked there; the sibling
`g_app_info_get_all_impl` skips the masked id and returns nothing. -/
theorem g_desktop_app_info_new_returns_masked_entry :
    IsTopDir foo_dirs 0 "foo.desktop" ∧ HasId foo_dirs 1 "foo.desktop" ∧
    desktop_file_dir_app_name_is_masked foo_dirs 1 "foo.desktop" = true ∧
    g_desktop_app_info_new_from_filename_unlocked foo_env_unloadable foo_dirs
      "/home/u/applications/foo.desktop" = none ∧
    (g_desktop_app_info_new foo_env_unloadable foo_dirs "foo.desktop").map
      (fun info => info.filename) = some (some "/usr/applications/foo.desktop") ∧
    g_app_info_get_all_impl foo_env_unloadable foo_dirs = [] := by
  refine ⟨⟨⟨"/home/u/applications/foo.desktop", _, _, rfl, rfl, by decide⟩, ?_⟩,
    ⟨"/usr/applications/foo.desktop", _, _, rfl, rfl, by decide⟩, by decide, by decide,
    by decide, by decide⟩
  intro j hj
  omega

/-! ## Listing all entries -/

theorem add_to_table_if_appropriate_lookup (apps : GHashTable GDesktopAppInfo)
    (app_name : String) (info : Option GDesktopAppInfo) (id : String) :
    g_hash_table_lookup (add_to_table_if_appropriate apps app_name info) id =
      match info with
      | some i =>
        if i.hidden = false ∧ app_name = id then some { i with desktop_id := some app_name }
        else g_hash_table_lookup apps id
      | none => g_hash_table_lookup apps id := by
  cases info with
  | none => rfl
  | some i =>
    unfold add_to_table_if_appropriate
    by_cases hh : i.hidden = true
    · have hf : ¬ (i.hidden = false ∧ app_name = id) := by
        rintro ⟨h, _⟩
        rw [hh] at h
        exact absurd h (by simp)
      simp only
      rw [if_pos hh, if_neg hf]
    · have hf : i.hidden = false := by
        cases h : i.hidden with
        | true => exact absurd h hh
        | false => rfl
      simp only
      rw [if_neg hh, g_hash_table_lookup_insert]
      simp only [hf, true_and]

theorem add_to_table_if_appropriate_ok (apps : GHashTable GDesktopAppInfo)
    (app_name : String) (info : Option GDesktopAppInfo) (hok : HashKeysOk apps) :
    HashKeysOk (add_to_table_if_appropriate apps app_name info) := by
  unfold add_to_table_if_appropriate
  cases info with
  | none => exact hok
  | some i =>
    simp only
    split
    · exact hok
    · exact g_hash_table_insert_ok _ _ _ hok

/-- The step of the loop in `desktop_file_dir_unindexed_get_all`. -/
theorem get_all_fold_ok (masked : String → Bool) (load : String → Option GDesktopAppInfo)
    (es : GHashTable String) :
    ∀ apps : GHashTable GDesktopAppInfo, HashKeysOk apps →
      HashKeysOk (es.foldl (fun apps entry =>
        if masked entry.1 then apps
        else add_to_table_if_appropriate apps entry.1 (load entry.2)) apps) := by
  induction es with
  | nil =>
    intro apps hok
    exact hok
  | cons e es ih =>
    intro apps hok
    rw [List.foldl_cons]
    apply ih
    split
    · exact hok
    · exact add_to_table_if_appropriate_ok _ _ _ hok

theorem get_all_fold_lookup (masked : String → Bool) (load : String → Option GDesktopAppInfo)
    (es : GHashTable String) (hes : HashKeysOk es) (id : String) :
    ∀ apps : GHashTable GDesktopAppInfo,
      g_hash_table_lookup (es.foldl (fun apps entry =>
        if masked entry.1 then apps
        else add_to_table_if_appropriate apps entry.1 (load entry.2)) apps) id =
      match g_hash_table_lookup es id with
      | some path =>
        if masked id then g_hash_table_lookup apps id
        else
          match load path with
          | some i =>
            if i.hidden = false then some { i with desktop_id := some id }
            else g_hash_table_lookup apps id
          | none => g_hash_table_lookup apps id
      | none => g_hash_table_lookup apps id := by
  induction es with
  | nil =>
    intro apps
    rfl
  | cons e es ih =>
    intro apps
    obtain ⟨k, p⟩ := e
    have hes' : HashKeysOk es := by
      unfold HashKeysOk at hes ⊢
      exact (List.nodup_cons.mp hes).2
    have hk : k ∉ es.map Prod.fst := by
      unfold HashKeysOk at hes
      exact (List.nodup_cons.mp hes).1
    rw [List.foldl_cons, ih hes']
    by_cases hkid : k = id
    · subst hkid
      have hnone : g_hash_table_lookup es k = none := by
        cases hl : g_hash_table_lookup es k with
        | none => rfl
        | some v =>
          have : (g_hash_table_lookup es k).isSome = true := by simp [hl]
          exact absurd ((g_hash_table_lookup_isSome_iff es k).mp this) hk
      simp only [hnone, g_hash_table_lookup, if_true]
      cases hm : masked k with
      | true => simp
      | false =>
        simp only [Bool.false_eq_true, if_false, add_to_table_if_appropriate_lookup]
        cases load p with
        | none => rfl
        | some i => simp
    · have hstep : g_hash_table_lookup
          (if masked k = true then apps
            else add_to_table_if_appropriate apps k (load p)) id =
          g_hash_table_lookup apps id := by
        split
        · rfl
        · rw [add_to_table_if_appropriate_lookup]
          cases load p with
          | none => rfl
          | some i => simp [hkid]
      simp only [hstep, g_hash_table_lookup, hkid, if_false]

theorem chainOk_table (desktop_file_dirs : List DesktopFileDir) (hok : ChainOk desktop_file_dirs)
    (i : Nat) (d : DesktopFileDir) (t : GHashTable String)
    (hd : desktop_file_dirs[i]? = some d) (ht : d.app_names = some t) : HashKeysOk t := by
  have hmem : d ∈ desktop_file_dirs := List.getElem?_mem hd
  have := hok d hmem
  rw [ht] at this
  exact this

/-- What `desktop_file_dir_unindexed_get_all` leaves in the table for `id`: the entry
loaded from `path`, with its id set, unless it is missing or hidden. -/
theorem get_all_lookup (env : Env) (desktop_file_dirs : List DesktopFileDir)
    (hok : ChainOk desktop_file_dirs) (dir : Nat) (apps : GHashTable GDesktopAppInfo)
    (id : String) (e : GDesktopAppInfo)
    (hbefore : IsTopDir desktop_file_dirs dir id → g_hash_table_lookup apps id = none) :
    g_hash_table_lookup (desktop_file_dir_unindexed_get_all env desktop_file_dirs dir apps) id
        = some e ↔
      (g_hash_table_lookup apps id = some e ∨
        ∃ path info, IsTopDir desktop_file_dirs dir id ∧
          IdTableEntry desktop_file_dirs dir id path ∧
          g_desktop_app_info_new_from_filename_unlocked env desktop_file_dirs path = some info ∧
          info.hidden = false ∧ e = { info with desktop_id := some id }) := by
  unfold desktop_file_dir_unindexed_get_all
  cases hd : desktop_file_dirs[dir]? with
  | none =>
    simp only
    constructor
    · intro h
      exact Or.inl h
    · rintro (h | ⟨path, info, _, ⟨d, t, hd', _⟩, _⟩)
      · exact h
      · rw [hd] at hd'
        exact absurd hd' (by simp)
  | some d =>
    cases ht : d.app_names with
    | none =>
      simp only [ht]
      constructor
      · intro h
        exact Or.inl h
      · rintro (h | ⟨path, info, _, ⟨d', t, hd', ht', _⟩, _⟩)
        · exact h
        · rw [hd] at hd'
          cases hd'
          rw [ht] at ht'
          exact absurd ht' (by simp)
    | some t =>
      simp only [ht]
      rw [get_all_fold_lookup (desktop_file_dir_app_name_is_masked desktop_file_dirs dir)
        (g_desktop_app_info_new_from_filename_unlocked env desktop_file_dirs) t
        (chainOk_table _ hok dir d t hd ht) id apps]
      cases hl : g_hash_table_lookup t id with
      | none =>
        simp only
        constructor
        · intro h
          exact Or.inl h
        · rintro (h | ⟨path, info, _, ⟨d', t', hd', ht', hl'⟩, _⟩)
          · exact h
          · rw [hd] at hd'
            cases hd'
            rw [ht] at ht'
            cases ht'
            rw [hl] at hl'
            exact absurd hl' (by simp)
      | some path =>
        have hentry : IdTableEntry desktop_file_dirs dir id path := ⟨d, t, hd, ht, hl⟩
        simp only
        cases hm : desktop_file_dir_app_name_is_masked desktop_file_dirs dir id with
        | true =>
          simp only [if_true]
          constructor
          · intro h
            exact Or.inl h
          · rintro (h | ⟨path', info, htop, _⟩)
            · exact h
            · obtain ⟨j, hj, hhas⟩ := (is_masked_iff_hasId _ _ _).mp hm
              exact absurd hhas (htop.2 j hj)
        | false =>
          have htop : IsTopDir desktop_file_dirs dir id := by
            refine ⟨⟨path, hentry⟩, ?_⟩
            intro j hj hhas
            have : desktop_file_dir_app_name_is_masked desktop_file_dirs dir id = true :=
              (is_masked_iff_hasId _ _ _).mpr ⟨j, hj, hhas⟩
            rw [hm] at this
            exact absurd this (by simp)
          have hnone := hbefore htop
          simp only [Bool.false_eq_true, if_false, hnone]
          cases hload : g_desktop_app_info_new_from_filename_unlocked env desktop_file_dirs
              path with
          | none =>
            simp only
            constructor
            · intro h
              exact absurd h (by simp)
            · rintro (h | ⟨path', info, _, hentry', hload', _⟩)
              · exact absurd h (by simp)
              · rw [← idTableEntry_unique _ _ _ _ _ hentry hentry', hload] at hload'
                exact absurd hload' (by simp)
          | some info =>
            simp only
            by_cases hh : info.hidden = false
            · rw [if_pos hh]
              constructor
              · intro h
                right
                exact ⟨path, info, htop, hentry, hload, hh, (Option.some.inj h).symm⟩
              · rintro (h | ⟨path', info', _, hentry', hload', _, he⟩)
                · exact absurd h (by simp)
                · rw [← idTableEntry_unique _ _ _ _ _ hentry hentry', hload] at hload'
                  cases hload'
                  rw [he]
            · rw [if_neg hh]
              constructor
              · intro h
                exact absurd h (by simp)
              · rintro (h | ⟨path', info', _, hentry', hload', hh', _⟩)
                · exact absurd h (by simp)
                · rw [← idTableEntry_unique _ _ _ _ _ hentry hentry', hload] at hload'
                  cases hload'
                  exact absurd hh' hh

theorem get_all_ok (env : Env) (desktop_file_dirs : List DesktopFileDir) (dir : Nat)
    (apps : GHashTable GDesktopAppInfo) (hok : HashKeysOk apps) :
    HashKeysOk (desktop_file_dir_unindexed_get_all env desktop_file_dirs dir apps) := by
  unfold desktop_file_dir_unindexed_get_all
  cases desktop_file_dirs[dir]? with
  | none => exact hok
  | some d =>
    cases ht : d.app_names with
    | none =>
      simp only [ht]
      exact hok
    | some t =>
      simp only [ht]
      exact get_all_fold_ok _ _ t apps hok

/-- The table after the first `n` records of the chain have been visited. -/
theorem get_all_table_prefix (env : Env) (desktop_file_dirs : List DesktopFileDir)
    (hok : ChainOk desktop_file_dirs) (n : Nat) :
    HashKeysOk ((List.range n).foldl
      (fun apps i => desktop_file_dir_unindexed_get_all env desktop_file_dirs i apps) []) ∧
    ∀ id e, g_hash_table_lookup ((List.range n).foldl
      (fun apps i => desktop_file_dir_unindexed_get_all env desktop_file_dirs i apps) []) id
        = some e ↔
      ∃ i, i < n ∧ ∃ path info, IsTopDir desktop_file_dirs i id ∧
        IdTableEntry desktop_file_dirs i id path ∧
        g_desktop_app_info_new_from_filename_unlocked env desktop_file_dirs path = some info ∧
        info.hidden = false ∧ e = { info with desktop_id := some id } := by
  induction n with
  | zero =>
    refine ⟨by simp [HashKeysOk], ?_⟩
    intro id e
    simp [g_hash_table_lookup]
  | succ n ih =>
    obtain ⟨ihok, ihl⟩ := ih
    rw [List.range_succ, List.foldl_append, List.foldl_cons, List.foldl_nil]
    refine ⟨get_all_ok env _ n _ ihok, ?_⟩
    intro id e
    rw [get_all_lookup env desktop_file_dirs hok n _ id e]
    · rw [ihl]
      constructor
      · rintro (⟨i, hi, h⟩ | h)
        · exact ⟨i, by omega, h⟩
        · exact ⟨n, by omega, h⟩
      · rintro ⟨i, hi, h⟩
        by_cases hin : i = n
        · subst hin
          exact Or.inr h
        · exact Or.inl ⟨i, by omega, h⟩
    · intro htop
      cases hl : g_hash_table_lookup ((List.range n).foldl
          (fun apps i => desktop_file_dir_unindexed_get_all env desktop_file_dirs i apps) [])
          id with
      | none => rfl
      | some e' =>
        obtain ⟨i, hi, _, _, htop', _⟩ := (ihl id e').mp hl
        have := isTopDir_unique _ _ _ _ htop' htop
        omega

theorem foldl_prepend_eq {α β : Type} (f : α → β) (l : List α) :
    ∀ init : List β, l.foldl (fun infos entry => f entry :: infos) init =
      (l.map f).reverse ++ init := by
  induction l with
  | nil =>
    intro init
    rfl
  | cons a l ih =>
    intro init
    rw [List.foldl_cons, ih]
    simp

theorem g_app_info_get_all_impl_eq (env : Env) (desktop_file_dirs : List DesktopFileDir) :
    g_app_info_get_all_impl env desktop_file_dirs =
      ((g_app_info_get_all_table env desktop_file_dirs).map Prod.snd).reverse := by
  unfold g_app_info_get_all_impl
  rw [foldl_prepend_eq Prod.snd]
  simp

/-- Membership in the result of `g_app_info_get_all_impl`, entry by entry. -/
theorem mem_g_app_info_get_all_impl (env : Env) (desktop_file_dirs : List DesktopFileDir)
    (hok : ChainOk desktop_file_dirs) (e : GDesktopAppInfo) :
    e ∈ g_app_info_get_all_impl env desktop_file_dirs ↔
      ∃ id i path info, IsTopDir desktop_file_dirs i id ∧
        IdTableEntry desktop_file_dirs i id path ∧
        g_desktop_app_info_new_from_filename_unlocked env desktop_file_dirs path = some info ∧
        info.hidden = false ∧ e = { info with desktop_id := some id } := by
  obtain ⟨htok, hl⟩ := get_all_table_prefix env desktop_file_dirs hok desktop_file_dirs.length
  rw [g_app_info_get_all_impl_eq, List.mem_reverse, List.mem_map]
  unfold g_app_info_get_all_table
  constructor
  · rintro ⟨⟨k, e'⟩, hmem, he⟩
    simp only at he
    subst he
    obtain ⟨i, _, path, info, h⟩ :=
      (hl k e').mp ((g_hash_table_lookup_eq_some_iff _ htok k e').mpr hmem)
    exact ⟨k, i, path, info, h⟩
  · rintro ⟨id, i, path, info, htop, hentry, hload, hh, he⟩
    refine ⟨(id, e), ?_, rfl⟩
    apply (g_hash_table_lookup_eq_some_iff _ htok id e).mp
    exact (hl id e).mpr ⟨i, idTableEntry_lt_length _ _ _ _ hentry, path, info, htop, hentry,
      hload, hh, he⟩

/-- C2: for a chain whose id tables are hash tables, `g_app_info_get_all_impl` returns at
most one entry per id, and an id is in the result exactly when the document of the
highest-precedence record that has the id in its id table loads and is not hidden. -/
theorem g_app_info_get_all_impl_spec (env : Env) (desktop_file_dirs : List DesktopFileDir)
    (hok : ChainOk desktop_file_dirs) :
    ((g_app_info_get_all_impl env desktop_file_dirs).map
      (fun info => info.desktop_id)).Nodup ∧
    ∀ id : String,
      some id ∈ (g_app_info_get_all_impl env desktop_file_dirs).map
          (fun info => info.desktop_id) ↔
        ∃ i path info, IsTopDir desktop_file_dirs i id ∧
          IdTableEntry desktop_file_dirs i id path ∧
          g_desktop_app_info_new_from_filename_unlocked env desktop_file_dirs path = some info ∧
          info.hidden = false := by
  obtain ⟨htok, hl⟩ := get_all_table_prefix env desktop_file_dirs hok desktop_file_dirs.length
  constructor
  · rw [g_app_info_get_all_impl_eq, List.map_reverse, List.nodup_reverse, List.map_map]
    have hcongr : (g_app_info_get_all_table env desktop_file_dirs).map
        ((fun info : GDesktopAppInfo => info.desktop_id) ∘ Prod.snd) =
        ((g_app_info_get_all_table env desktop_file_dirs).map Prod.fst).map some := by
      rw [List.map_map]
      apply List.map_congr_left
      rintro ⟨k, e⟩ hmem
      obtain ⟨i, _, path, info, _, _, _, _, he⟩ :=
        (hl k e).mp ((g_hash_table_lookup_eq_some_iff _ htok k e).mpr hmem)
      simp only [Function.comp]
      rw [he]
    rw [hcongr]
    exact List.Nodup.map (Option.some_injective _) htok
  · intro id
    rw [List.mem_map]
    constructor
    · rintro ⟨e, hmem, he⟩
      obtain ⟨id', i, path, info, htop, hentry, hload, hh, he'⟩ :=
        (mem_g_app_info_get_all_impl env _ hok e).mp hmem
      rw [he'] at he
      simp only [Option.some.injEq] at he
      subst he
      exact ⟨i, path, info, htop, hentry, hload, hh⟩
    · rintro ⟨i, path, info, htop, hentry, hload, hh⟩
      exact ⟨{ info with desktop_id := some id },
        (mem_g_app_info_get_all_impl env _ hok _).mpr
          ⟨id, i, path, info, htop, hentry, hload, hh, rfl⟩, rfl⟩

/-- C2 at the scenario of the specification: both records declare `foo.desktop`, the
document of the first is hidden and the one of the second is visible; the result of
`g_app_info_get_all_impl` is empty, so `foo.desktop` is absent. -/
theorem g_app_info_get_all_impl_spec_witness :
    ChainOk foo_dirs ∧
    (((g_app_info_get_all_impl foo_env_hidden foo_dirs).map
      (fun info => info.desktop_id)).Nodup ∧
    ∀ id : String,
      some id ∈ (g_app_info_get_all_impl foo_env_hidden foo_dirs).map
          (fun info => info.desktop_id) ↔
        ∃ i path info, IsTopDir foo_dirs i id ∧
          IdTableEntry foo_dirs i id path ∧
          g_desktop_app_info_new_from_filename_unlocked foo_env_hidden foo_dirs path =
            some info ∧
          info.hidden = false) ∧
    g_app_info_get_all_impl foo_env_hidden foo_dirs = [] ∧
    (g_desktop_app_info_new_from_filename_unlocked foo_env_hidden foo_dirs
      "/usr/applications/foo.desktop").map (fun info => info.hidden) = some false :=
  ⟨by decide, g_app_info_get_all_impl_spec foo_env_hidden foo_dirs (by decide), by decide,
    by decide⟩

/-! ## The comparators and `qsort` -/

theorem app_name_lt_irrefl (a : String) : ¬ app_name_lt a a := by
  unfold app_name_lt
  exact lt_irrefl a.data

theorem app_name_lt_trans {a b c : String} (h1 : app_name_lt a b) (h2 : app_name_lt b c) :
    app_name_lt a c := by
  unfold app_name_lt at *
  exact lt_trans h1 h2

theorem app_name_lt_asymm {a b : String} (h1 : app_name_lt a b) : ¬ app_name_lt b a := by
  unfold app_name_lt at *
  exact lt_asymm h1

theorem app_name_eq_of_not_lt {a b : String} (h1 : ¬ app_name_lt a b)
    (h2 : ¬ app_name_lt b a) : a = b := by
  unfold app_name_lt at *
  apply String.ext
  rcases lt_trichotomy a.data b.data with h | h | h
  · exact absurd h h1
  · exact h
  · exact absurd h h2

theorem app_name_lt_of_not_lt_of_ne {a b : String} (h1 : ¬ app_name_lt b a) (h2 : a ≠ b) :
    app_name_lt a b := by
  by_contra h
  exact h2 (app_name_eq_of_not_lt h h1)

theorem compare_results_le_iff (a b : search_result) :
    compare_results a b ≤ 0 ↔
      app_name_lt a.app_name b.app_name ∨
        (a.app_name = b.app_name ∧
          (a.match_type < b.match_type ∨
            (a.match_type = b.match_type ∧ a.category ≤ b.category))) := by
  unfold compare_results
  by_cases h1 : app_name_lt a.app_name b.app_name
  · simp [h1]
  · by_cases h2 : app_name_lt b.app_name a.app_name
    · have hne : a.app_name ≠ b.app_name := by
        intro e
        rw [e] at h2
        exact app_name_lt_irrefl _ h2
      simp [h1, h2, hne]
    · have he : a.app_name = b.app_name := app_name_eq_of_not_lt h1 h2
      rw [if_neg h1, if_neg h2]
      by_cases h3 : a.match_type = b.match_type
      · rw [if_neg (by simpa using h3)]
        constructor
        · intro h
          exact Or.inr ⟨he, Or.inr ⟨h3, by omega⟩⟩
        · rintro (h | ⟨_, h | ⟨_, h⟩⟩)
          · exact absurd h h1
          · omega
          · omega
      · rw [if_pos (by simpa using h3)]
        constructor
        · intro h
          exact Or.inr ⟨he, Or.inl (by omega)⟩
        · rintro (h | ⟨_, h | ⟨h, _⟩⟩)
          · exact absurd h h1
          · omega
          · exact absurd h h3

theorem compare_categories_le_iff (a b : search_result) :
    compare_categories a b ≤ 0 ↔
      a.match_type < b.match_type ∨
        (a.match_type = b.match_type ∧
          (a.category < b.category ∨ (a.category = b.category ∧ a.token_pos ≤ b.token_pos))) := by
  unfold compare_categories
  by_cases h1 : a.match_type = b.match_type
  · by_cases h2 : a.category = b.category
    · simp only [ne_eq, h1, not_true_eq_false, if_false, h2, lt_self_iff_false, true_and,
        false_or]
      omega
    · simp only [ne_eq, h1, not_true_eq_false, if_false, h2, not_false_eq_true, if_true,
        lt_self_iff_false, true_and, false_and, or_false, false_or]
      omega
  · simp only [ne_eq, h1, not_false_eq_true, if_true, false_and, or_false]
    omega

theorem compare_categories_lt_iff (a b : search_result) :
    compare_categories a b < 0 ↔
      a.match_type < b.match_type ∨
        (a.match_type = b.match_type ∧
          (a.category < b.category ∨ (a.category = b.category ∧ a.token_pos < b.token_pos))) := by
  unfold compare_categories
  by_cases h1 : a.match_type = b.match_type
  · by_cases h2 : a.category = b.category
    · simp only [ne_eq, h1, not_true_eq_false, if_false, h2, lt_self_iff_false, true_and,
        false_or]
      omega
    · simp only [ne_eq, h1, not_true_eq_false, if_false, h2, not_false_eq_true, if_true,
        lt_self_iff_false, true_and, false_and, or_false, false_or]
      omega
  · simp only [ne_eq, h1, not_false_eq_true, if_true, false_and, or_false]
    omega

theorem compare_categories_eq_zero_iff (a b : search_result) :
    compare_categories a b = 0 ↔
      a.match_type = b.match_type ∧ a.category = b.category ∧ a.token_pos = b.token_pos := by
  unfold compare_categories
  by_cases h1 : a.match_type = b.match_type
  · by_cases h2 : a.category = b.category
    · simp only [ne_eq, h1, not_true_eq_false, if_false, h2, true_and]
      omega
    · simp only [ne_eq, h1, not_true_eq_false, if_false, h2, not_false_eq_true, if_true,
        true_and, false_and, iff_false]
      omega
  · simp only [ne_eq, h1, not_false_eq_true, if_true, false_and, iff_false]
    omega

theorem compare_results_total (a b : search_result) :
    compare_results a b ≤ 0 ∨ compare_results b a ≤ 0 := by
  simp only [compare_results_le_iff]
  by_cases h1 : app_name_lt a.app_name b.app_name
  · exact Or.inl (Or.inl h1)
  · by_cases h2 : app_name_lt b.app_name a.app_name
    · exact Or.inr (Or.inl h2)
    · have he : a.app_name = b.app_name := app_name_eq_of_not_lt h1 h2
      rcases lt_trichotomy a.match_type b.match_type with h | h | h
      · exact Or.inl (Or.inr ⟨he, Or.inl h⟩)
      · rcases le_total a.category b.category with hc | hc
        · exact Or.inl (Or.inr ⟨he, Or.inr ⟨h, hc⟩⟩)
        · exact Or.inr (Or.inr ⟨he.symm, Or.inr ⟨h.symm, hc⟩⟩)
      · exact Or.inr (Or.inr ⟨he.symm, Or.inl h⟩)

theorem compare_results_trans (a b c : search_result) :
    compare_results a b ≤ 0 → compare_results b c ≤ 0 → compare_results a c ≤ 0 := by
  simp only [compare_results_le_iff]
  rintro (h1 | ⟨e1, h1⟩) (h2 | ⟨e2, h2⟩)
  · exact Or.inl (app_name_lt_trans h1 h2)
  · rw [← e2]
    exact Or.inl h1
  · rw [e1]
    exact Or.inl h2
  · refine Or.inr ⟨e1.trans e2, ?_⟩
    rcases h1 with h1 | ⟨m1, c1⟩ <;> rcases h2 with h2 | ⟨m2, c2⟩
    · exact Or.inl (lt_trans h1 h2)
    · exact Or.inl (by omega)
    · exact Or.inl (by omega)
    · exact Or.inr ⟨by omega, by omega⟩

theorem compare_categories_total (a b : search_result) :
    compare_categories a b ≤ 0 ∨ compare_categories b a ≤ 0 := by
  simp only [compare_categories_le_iff]
  omega

theorem compare_categories_trans (a b c : search_result) :
    compare_categories a b ≤ 0 → compare_categories b c ≤ 0 → compare_categories a c ≤ 0 := by
  simp only [compare_categories_le_iff]
  omega

theorem qsort_perm {α : Type} (compar : α → α → Int) (base : List α) :
    (qsort compar base).Perm base := by
  unfold qsort
  exact List.perm_insertionSort _ base

theorem qsort_nil {α : Type} (compar : α → α → Int) : qsort compar ([] : List α) = [] := rfl

theorem qsort_compare_results_sorted (base : List search_result) :
    (qsort compare_results base).Pairwise (fun a b => compare_results a b ≤ 0) := by
  unfold qsort
  haveI : IsTotal search_result (fun a b => compare_results a b ≤ 0) :=
    ⟨compare_results_total⟩
  haveI : IsTrans search_result (fun a b => compare_results a b ≤ 0) :=
    ⟨compare_results_trans⟩
  exact List.sorted_insertionSort _ base

theorem qsort_compare_categories_sorted (base : List search_result) :
    (qsort compare_categories base).Pairwise (fun a b => compare_categories a b ≤ 0) := by
  unfold qsort
  haveI : IsTotal search_result (fun a b => compare_categories a b ≤ 0) :=
    ⟨compare_categories_total⟩
  haveI : IsTrans search_result (fun a b => compare_categories a b ≤ 0) :=
    ⟨compare_categories_trans⟩
  exact List.sorted_insertionSort _ base

/-! ## The grouping loops of `g_desktop_app_info_search` -/

theorem n_items_in_group_take (c m p : Int) (l : List search_result) :
    ∀ x ∈ l.take (n_items_in_group c m p l),
      x.category = c ∧ x.match_type = m ∧ x.token_pos = p := by
  induction l with
  | nil =>
    intro x hx
    simp [n_items_in_group] at hx
  | cons r rest ih =>
    intro x hx
    unfold n_items_in_group at hx
    by_cases h : r.category = c ∧ r.match_type = m ∧ r.token_pos = p
    · rw [if_pos h, List.take_succ_cons, List.mem_cons] at hx
      rcases hx with hx | hx
      · rw [hx]
        exact h
      · exact ih x hx
    · rw [if_neg h] at hx
      simp at hx

theorem n_items_in_group_drop_head (c m p : Int) (l : List search_result) :
    ∀ r, (l.drop (n_items_in_group c m p l)).head? = some r →
      (r.category ≠ c ∨ r.match_type ≠ m ∨ r.token_pos ≠ p) := by
  induction l with
  | nil =>
    intro r hr
    simp [n_items_in_group] at hr
  | cons a rest ih =>
    intro r hr
    unfold n_items_in_group at hr
    by_cases h : a.category = c ∧ a.match_type = m ∧ a.token_pos = p
    · rw [if_pos h, List.drop_succ_cons] at hr
      exact ih r hr
    · rw [if_neg h] at hr
      simp only [List.drop_zero, List.head?_cons, Option.some.injEq] at hr
      subst hr
      by_contra hcon
      apply h
      simp only [not_or, not_not] at hcon
      exact hcon

theorem count_groups_skip (c m p : Int) (l : List search_result) :
    count_groups (c, m, p) l = count_groups (c, m, p) (l.drop (n_items_in_group c m p l)) := by
  induction l with
  | nil => simp [n_items_in_group]
  | cons a rest ih =>
    unfold n_items_in_group
    by_cases h : a.category = c ∧ a.match_type = m ∧ a.token_pos = p
    · rw [if_pos h, List.drop_succ_cons, ← ih]
      have hn : ¬ (a.category ≠ c ∨ a.match_type ≠ m ∨ a.token_pos ≠ p) := by
        simp only [not_or, not_not]
        exact h
      rw [count_groups, if_neg hn]
    · rw [if_neg h]
      rfl

theorem fill_groups_shift :
    ∀ n (total_results : List search_result) start, fill_groups total_results n start =
      fill_groups (total_results.drop start) n 0 := by
  intro n
  induction n with
  | zero =>
    intro total_results start
    rfl
  | succ n ih =>
    intro total_results start
    unfold fill_groups
    have h0 : (total_results.drop start)[0]? = total_results[start]? := by
      rw [List.getElem?_drop]
      rfl
    rw [h0]
    cases hr : total_results[start]? with
    | none =>
      simp only
      rw [ih total_results start, ih (total_results.drop start) 0, List.drop_zero]
    | some r =>
      simp only [List.drop_zero]
      rw [ih total_results (start + _), ih (total_results.drop start) (0 + _), List.drop_drop,
        Nat.zero_add]

/-- The counting loop and the filling loop agree: started on records whose first key
differs from `last`, they cut the records into the maximal runs of equal key. -/
theorem fill_groups_runs :
    ∀ (n : Nat) (l : List search_result) (last : Int × Int × Int),
      (∀ r, l.head? = some r →
        (r.category ≠ last.1 ∨ r.match_type ≠ last.2.1 ∨ r.token_pos ≠ last.2.2)) →
      count_groups last l = n →
      ∃ gs : List (List search_result),
        gs.flatten = l ∧
        (∀ g ∈ gs, g ≠ [] ∧ ∀ x ∈ g, ∀ y ∈ g, compare_categories x y = 0) ∧
        gs.Chain' (fun g h => ∀ x ∈ g, ∀ y ∈ h, compare_categories x y ≠ 0) ∧
        (∀ g, gs.head? = some g → ∀ x ∈ g,
          (x.category ≠ last.1 ∨ x.match_type ≠ last.2.1 ∨ x.token_pos ≠ last.2.2)) ∧
        fill_groups l n 0 = gs.map (fun g => g.map (fun x => x.app_name)) := by
  intro n
  induction n with
  | zero =>
    intro l last hfresh hcount
    cases l with
    | nil => exact ⟨[], rfl, by simp, by simp, by simp, rfl⟩
    | cons r rest =>
      unfold count_groups at hcount
      rw [if_pos (hfresh r rfl)] at hcount
      omega
  | succ n ih =>
    intro l last hfresh hcount
    cases l with
    | nil =>
      simp [count_groups] at hcount
    | cons r rest =>
      have hr := hfresh r rfl
      unfold count_groups at hcount
      rw [if_pos hr] at hcount
      have hcount' : count_groups (r.category, r.match_type, r.token_pos) rest = n := by
        omega
      rw [count_groups_skip] at hcount'
      obtain ⟨gs, hflat, hgroups, hchain, hhead, hfill⟩ :=
        ih (rest.drop (n_items_in_group r.category r.match_type r.token_pos rest))
          (r.category, r.match_type, r.token_pos)
          (n_items_in_group_drop_head _ _ _ rest) hcount'
      have hsame : ∀ x ∈ r :: rest.take
          (n_items_in_group r.category r.match_type r.token_pos rest),
          x.category = r.category ∧ x.match_type = r.match_type ∧
            x.token_pos = r.token_pos := by
        intro x hx
        rw [List.mem_cons] at hx
        rcases hx with hx | hx
        · rw [hx]
          exact ⟨rfl, rfl, rfl⟩
        · exact n_items_in_group_take _ _ _ rest x hx
      refine ⟨(r :: rest.take (n_items_in_group r.category r.match_type r.token_pos rest))
        :: gs, ?_, ?_, ?_, ?_, ?_⟩
      · rw [List.flatten_cons, hflat, List.cons_append, List.take_append_drop]
      · intro g hg
        rw [List.mem_cons] at hg
        rcases hg with hg | hg
        · subst hg
          refine ⟨by simp, ?_⟩
          intro x hx y hy
          rw [compare_categories_eq_zero_iff]
          obtain ⟨a1, a2, a3⟩ := hsame x hx
          obtain ⟨b1, b2, b3⟩ := hsame y hy
          exact ⟨by rw [a2, b2], by rw [a1, b1], by rw [a3, b3]⟩
        · exact hgroups g hg
      · rw [List.chain'_cons']
        refine ⟨?_, hchain⟩
        intro h hh x hx y hy
        have hy' := hhead h hh y hy
        obtain ⟨a1, a2, a3⟩ := hsame x hx
        intro hzero
        rw [compare_categories_eq_zero_iff] at hzero
        obtain ⟨z1, z2, z3⟩ := hzero
        simp only at hy'
        rcases hy' with hy' | hy' | hy'
        · exact hy' (by rw [← z2, a1])
        · exact hy' (by rw [← z1, a2])
        · exact hy' (by rw [← z3, a3])
      · intro g hg x hx
        simp only [List.head?_cons, Option.some.injEq] at hg
        subst hg
        obtain ⟨a1, a2, a3⟩ := hsame x hx
        rw [a1, a2, a3]
        exact hr
      · unfold fill_groups
        simp only [List.getElem?_cons_zero, List.drop_zero]
        have hn : n_items_in_group r.category r.match_type r.token_pos (r :: rest) =
            n_items_in_group r.category r.match_type r.token_pos rest + 1 := by
          conv_lhs => unfold n_items_in_group
          simp
        rw [hn, fill_groups_shift, Nat.zero_add, List.drop_succ_cons, hfill]
        simp

theorem chain'_and_pairwise {α : Type} (R S : α → α → Prop) (l : List α)
    (hR : l.Chain' R) (hS : l.Pairwise S) : l.Chain' (fun a b => R a b ∧ S a b) := by
  induction l with
  | nil => simp
  | cons a l ih =>
    rw [List.chain'_cons'] at hR ⊢
    rw [List.pairwise_cons] at hS
    refine ⟨?_, ih hR.2 hS.2⟩
    intro b hb
    refine ⟨hR.1 b hb, hS.1 b ?_⟩
    cases l with
    | nil => simp at hb
    | cons c l =>
      simp only [List.head?_cons, Option.mem_def, Option.some.injEq] at hb
      subst hb
      simp

/-! ## The scratch arrays hold only records stored by `add_token_result` -/

theorem to_guint16_nonneg (x : Int) : 0 ≤ to_guint16 x := by
  unfold to_guint16
  exact Int.emod_nonneg x (by norm_num)

theorem add_token_result_nonneg (st : SearchState) (app_name : String) (c m p : Int)
    (h : StateNonNeg st) : StateNonNeg (add_token_result st app_name c m p) := by
  obtain ⟨h1, h2, h3⟩ := h
  refine ⟨?_, h2, h3⟩
  intro r hr
  unfold add_token_result at hr
  simp only [List.mem_append, List.mem_singleton] at hr
  rcases hr with hr | hr
  · exact h1 r hr
  · rw [hr]
    exact ⟨to_guint16_nonneg _, to_guint16_nonneg _, to_guint16_nonneg _⟩

theorem add_token_results_fold_nonneg (match_type : Int) (chain : List MemoryIndexEntry) :
    ∀ st, StateNonNeg st →
      StateNonNeg (chain.foldl (fun st mie =>
        add_token_result st mie.app_name mie.match_category match_type mie.token_pos) st) := by
  induction chain with
  | nil =>
    intro st h
    exact h
  | cons mie chain ih =>
    intro st h
    rw [List.foldl_cons]
    exact ih _ (add_token_result_nonneg st _ _ _ _ h)

theorem search_index_key_nonneg (search_token : String) (st : SearchState)
    (entry : String × List MemoryIndexEntry) (h : StateNonNeg st) :
    StateNonNeg (search_index_key search_token st entry) := by
  unfold search_index_key
  cases strstr entry.1 search_token with
  | none => exact h
  | some p => exact add_token_results_fold_nonneg _ entry.2 st h

theorem dir_search_nonneg (env : Env) (desktop_file_dirs : List DesktopFileDir) (dir : Nat)
    (search_token : String) (st : SearchState) (h : StateNonNeg st) :
    StateNonNeg (desktop_file_dir_unindexed_search env desktop_file_dirs dir search_token st).2
    := by
  unfold desktop_file_dir_unindexed_search
  simp only
  generalize desktop_file_dir_index env desktop_file_dirs dir = index
  induction index generalizing st with
  | nil => exact h
  | cons e index ih =>
    rw [List.foldl_cons]
    exact ih _ (search_index_key_nonneg search_token st e h)

theorem merge_first_loop_mem (ts : List search_result) :
    ∀ (last_name : Option String) (sr : List search_result) (r : search_result),
      r ∈ merge_first_loop last_name ts sr → r ∈ sr ∨ r ∈ ts := by
  induction ts with
  | nil =>
    intro last_name sr r hr
    exact Or.inl hr
  | cons t ts ih =>
    intro last_name sr r hr
    unfold merge_first_loop at hr
    split at hr
    · rcases ih _ _ r hr with h | h
      · exact Or.inl h
      · exact Or.inr (List.mem_cons_of_mem _ h)
    · rcases ih _ _ r hr with h | h
      · rw [List.mem_append, List.mem_singleton] at h
        rcases h with h | h
        · exact Or.inl h
        · exact Or.inr (by rw [h]; exact List.mem_cons_self _ _)
      · exact Or.inr (List.mem_cons_of_mem _ h)

theorem merge_next_loop_nonneg (ts : List search_result) :
    ∀ (last_name : Option String) (sr : List search_result) (j k : Nat),
      (∀ t ∈ ts, t.NonNeg) → (∀ s ∈ sr, s.NonNeg) →
      ∀ r ∈ (merge_next_loop last_name ts (sr, j, k)).1, r.NonNeg := by
  induction ts with
  | nil =>
    intro last_name sr j k _ hsr r hr
    exact hsr r hr
  | cons t ts ih =>
    intro last_name sr j k hts hsr
    have hts' : ∀ t ∈ ts, t.NonNeg := fun x hx => hts x (List.mem_cons_of_mem _ hx)
    unfold merge_next_loop
    split
    · exact ih _ sr j k hts' hsr
    · simp only
      split
      · rename_i s hs
        split
        · apply ih _ _ _ _ hts'
          intro x hx
          rcases List.mem_or_eq_of_mem_set hx with hx | hx
          · exact hsr x hx
          · have hsn := hsr s (List.getElem?_mem hs)
            have htn := hts t (List.mem_cons_self _ _)
            rw [hx]
            exact ⟨le_trans hsn.1 (le_max_left _ _), le_trans hsn.2.1 (le_max_left _ _),
              le_trans hsn.2.2 (le_max_left _ _)⟩
        · exact ih _ sr j _ hts' hsr
      · exact ih _ sr j _ hts' hsr

theorem merge_token_results_nonneg (first : Bool) (st : SearchState) (h : StateNonNeg st) :
    StateNonNeg (merge_token_results first st) := by
  obtain ⟨h1, h2, h3⟩ := h
  have hts : ∀ t ∈ (if st.static_token_results.length ≠ 0
      then qsort compare_results st.static_token_results else st.static_token_results),
      t.NonNeg := by
    intro t ht
    split at ht
    · exact h1 t ((qsort_perm _ _).mem_iff.mp ht)
    · exact h1 t ht
  refine ⟨by simp [merge_token_results], ?_, h3⟩
  intro r hr
  unfold merge_token_results at hr
  simp only at hr
  cases first with
  | true =>
    simp only [if_true] at hr
    rcases merge_first_loop_mem _ _ _ r hr with h | h
    · exact h2 r h
    · exact hts r h
  | false =>
    simp only [Bool.false_eq_true, if_false] at hr
    exact merge_next_loop_nonneg _ none _ 0 0 hts h2 r (List.mem_of_mem_take hr)

theorem merge_directory_results_nonneg (st : SearchState) (h : StateNonNeg st) :
    StateNonNeg (merge_directory_results st) := by
  obtain ⟨h1, h2, h3⟩ := h
  refine ⟨h1, by simp [merge_directory_results], ?_⟩
  intro r hr
  unfold merge_directory_results at hr
  simp only [List.mem_append] at hr
  rcases hr with hr | hr
  · exact h3 r hr
  · exact h2 r hr

theorem search_tokens_loop_nonneg (env : Env) (k : Nat) (tokens : List String) :
    ∀ (j : Nat) (s : List DesktopFileDir × SearchState), StateNonNeg s.2 →
      StateNonNeg (search_tokens_loop env k tokens j s).2 := by
  induction tokens with
  | nil =>
    intro j s h
    exact h
  | cons token tokens ih =>
    intro j s h
    obtain ⟨dirs, st⟩ := s
    unfold search_tokens_loop
    exact ih _ _ (merge_token_results_nonneg _ _ (dir_search_nonneg env dirs k token st h))

theorem search_dirs_loop_nonneg (env : Env) (tokens : List String) (ks : List Nat) :
    ∀ (s : List DesktopFileDir × SearchState), StateNonNeg s.2 →
      StateNonNeg (search_dirs_loop env tokens ks s).2 := by
  induction ks with
  | nil =>
    intro s h
    exact h
  | cons k ks ih =>
    intro s h
    unfold search_dirs_loop
    exact ih _ (merge_directory_results_nonneg _ (search_tokens_loop_nonneg env k tokens 0 s h))

theorem search_accumulator_nonneg (env : Env) (desktop_file_dirs : List DesktopFileDir)
    (st : SearchState) (search_string : String) (hidle : st.Idle) :
    ∀ r ∈ search_accumulator env desktop_file_dirs st search_string, r.NonNeg := by
  unfold search_accumulator
  apply (search_dirs_loop_nonneg env _ _ _ _).2.2
  obtain ⟨h1, h2⟩ := hidle
  refine ⟨?_, ?_, ?_⟩
  · intro r hr
    simp [reset_total_search_results, h1] at hr
  · intro r hr
    simp [reset_total_search_results, h2] at hr
  · intro r hr
    simp [reset_total_search_results] at hr

theorem search_collect_total (env : Env) (desktop_file_dirs : List DesktopFileDir)
    (st : SearchState) (search_string : String) :
    (search_collect env desktop_file_dirs st search_string).2.static_total_results =
      qsort compare_categories (search_accumulator env desktop_file_dirs st search_string) := by
  unfold search_collect search_accumulator sort_total_search_results
  simp only
  split
  · rfl
  · rename_i h
    simp only [ne_eq, not_not, List.length_eq_zero] at h
    rw [h]
    rfl

/-! ## The result of a search -/

theorem search_dirs_loop_no_tokens (env : Env) (ks : List Nat) :
    ∀ (s : List DesktopFileDir × SearchState), s.2.static_search_results = [] →
      (search_dirs_loop env [] ks s).2.static_total_results = s.2.static_total_results := by
  induction ks with
  | nil =>
    intro s _
    rfl
  | cons k ks ih =>
    intro s hs
    unfold search_dirs_loop
    simp only [search_tokens_loop]
    rw [ih _ (by simp [merge_directory_results])]
    simp [merge_directory_results, hs]

theorem merge_token_results_token_results (first : Bool) (st : SearchState) :
    (merge_token_results first st).static_token_results = [] := by
  simp [merge_token_results]

theorem search_tokens_loop_token_results (env : Env) (k : Nat) (tokens : List String) :
    ∀ (j : Nat) (s : List DesktopFileDir × SearchState), s.2.static_token_results = [] →
      (search_tokens_loop env k tokens j s).2.static_token_results = [] := by
  induction tokens with
  | nil =>
    intro j s h
    exact h
  | cons token tokens ih =>
    intro j s _
    obtain ⟨dirs, st⟩ := s
    unfold search_tokens_loop
    exact ih _ _ (merge_token_results_token_results _ _)

theorem search_dirs_loop_idle (env : Env) (tokens : List String) (ks : List Nat) :
    ∀ (s : List DesktopFileDir × SearchState), s.2.Idle →
      (search_dirs_loop env tokens ks s).2.Idle := by
  induction ks with
  | nil =>
    intro s h
    exact h
  | cons k ks ih =>
    intro s h
    unfold search_dirs_loop
    apply ih
    exact ⟨search_tokens_loop_token_results env k tokens 0 s h.1, rfl⟩

/-- The state between two searches is restored by every search, and it is the state at
program start. -/
theorem search_collect_idle (env : Env) (desktop_file_dirs : List DesktopFileDir)
    (st : SearchState) (search_string : String) (hidle : st.Idle) :
    (search_collect env desktop_file_dirs st search_string).2.Idle ∧
      SearchState.initial.Idle := by
  refine ⟨?_, rfl, rfl⟩
  unfold search_collect
  simp only
  have h := search_dirs_loop_idle env (env.g_str_tokenize_and_fold search_string).1
    (List.range desktop_file_dirs.length)
    (desktop_file_dirs, reset_total_search_results st) hidle
  unfold sort_total_search_results
  split
  · exact h
  · exact h

/-- C4: started between two searches (token and per-directory arrays empty), a search
whose query tokenizes to the empty token list returns no group at all, whatever the chain
and the indexes hold. -/
theorem g_desktop_app_info_search_no_tokens (env : Env)
    (desktop_file_dirs : List DesktopFileDir) (st : SearchState) (search_string : String)
    (hidle : st.Idle) (htokens : (env.g_str_tokenize_and_fold search_string).1 = []) :
    g_desktop_app_info_search env desktop_file_dirs st search_string = [] := by
  have hacc : search_accumulator env desktop_file_dirs st search_string = [] := by
    unfold search_accumulator
    rw [htokens, search_dirs_loop_no_tokens env _ _ (by simpa [reset_total_search_results]
      using hidle.2)]
    rfl
  unfold g_desktop_app_info_search
  simp only
  rw [search_collect_total, hacc]
  rfl

/-- C4 at the empty search string, on a chain with two applications, from the state of
the scratch arrays at program start. -/
theorem g_desktop_app_info_search_no_tokens_witness :
    SearchState.initial.Idle ∧ (foo_env_hidden.g_str_tokenize_and_fold "").1 = [] ∧
      g_desktop_app_info_search foo_env_hidden foo_dirs SearchState.initial "" = [] :=
  ⟨by decide, by decide,
    g_desktop_app_info_search_no_tokens foo_env_hidden foo_dirs SearchState.initial ""
      (by decide) (by decide)⟩

/-- The groups of a search as groups of records: the sorted accumulator cut into maximal
runs of equal rank key. -/
theorem search_groups_structure (env : Env) (desktop_file_dirs : List DesktopFileDir)
    (st : SearchState) (search_string : String) (hidle : st.Idle) :
    ∃ gs : List (List search_result),
      gs.flatten = qsort compare_categories
        (search_accumulator env desktop_file_dirs st search_string) ∧
      (∀ g ∈ gs, g ≠ [] ∧ ∀ x ∈ g, ∀ y ∈ g, compare_categories x y = 0) ∧
      gs.Chain' (fun g h => ∀ x ∈ g, ∀ y ∈ h, compare_categories x y < 0) ∧
      gs.Pairwise (fun g h => ∀ x ∈ g, ∀ y ∈ h, compare_categories x y ≤ 0) ∧
      g_desktop_app_info_search env desktop_file_dirs st search_string =
        gs.map (fun g => g.map (fun x => x.app_name)) := by
  have hfresh : ∀ r, (qsort compare_categories
      (search_accumulator env desktop_file_dirs st search_string)).head? = some r →
      (r.category ≠ (-1 : Int) ∨ r.match_type ≠ (-1 : Int) ∨ r.token_pos ≠ (-1 : Int)) := by
    intro r hr
    have hmem : r ∈ search_accumulator env desktop_file_dirs st search_string :=
      (qsort_perm _ _).mem_iff.mp (List.mem_of_mem_head? hr)
    have hn := search_accumulator_nonneg env desktop_file_dirs st search_string hidle r hmem
    left
    have := hn.1
    omega
  obtain ⟨gs, hflat, hgroups, hchain, _, hfill⟩ :=
    fill_groups_runs _ (qsort compare_categories
      (search_accumulator env desktop_file_dirs st search_string)) (-1, -1, -1) hfresh rfl
  have hsorted := qsort_compare_categories_sorted
    (search_accumulator env desktop_file_dirs st search_string)
  rw [← hflat, List.pairwise_flatten] at hsorted
  refine ⟨gs, hflat, hgroups, ?_, hsorted.2, ?_⟩
  · have hboth := chain'_and_pairwise _ _ gs hchain hsorted.2
    refine List.Chain'.imp ?_ hboth
    intro g h hgh x hx y hy
    have h1 := hgh.1 x hx y hy
    have h2 := hgh.2 x hx y hy
    omega
  · unfold g_desktop_app_info_search
    simp only
    rw [search_collect_total]
    exact hfill

theorem compare_categories_lt_iff_rank (x y : search_result) :
    compare_categories x y < 0 ↔ rank_key_lt x y := by
  unfold rank_key_lt
  exact compare_categories_lt_iff x y

theorem compare_categories_eq_iff_rank (x y : search_result) :
    compare_categories x y = 0 ↔ rank_key_eq x y := by
  unfold rank_key_eq
  exact compare_categories_eq_zero_iff x y

/-- C5: a record that is a prefix match sorts strictly before a record that is a substring
match in `compare_categories`, whatever their categories (so also when the substring match
is in the more relevant category) and whatever their token positions; and when both are in
the accumulator of a search, the name of the first is returned in a strictly earlier group
than the name of the second. -/
theorem prefix_match_before_substring_match (a b : search_result)
    (ha : a.match_type = MATCH_TYPE_PREFIX) (hb : b.match_type = MATCH_TYPE_SUBSTRING) :
    compare_categories a b < 0 ∧
    ∀ (env : Env) (desktop_file_dirs : List DesktopFileDir) (st : SearchState)
      (search_string : String), st.Idle →
      a ∈ search_accumulator env desktop_file_dirs st search_string →
      b ∈ search_accumulator env desktop_file_dirs st search_string →
      ∃ (i j : Nat) (gi gj : List String), i < j ∧
        (g_desktop_app_info_search env desktop_file_dirs st search_string)[i]? = some gi ∧
        (g_desktop_app_info_search env desktop_file_dirs st search_string)[j]? = some gj ∧
        a.app_name ∈ gi ∧ b.app_name ∈ gj := by
  have hlt : compare_categories a b < 0 := by
    rw [compare_categories_lt_iff]
    left
    rw [ha, hb]
    decide
  refine ⟨hlt, ?_⟩
  intro env desktop_file_dirs st search_string hidle hamem hbmem
  obtain ⟨gs, hflat, hgroups, _, hpair, hres⟩ :=
    search_groups_structure env desktop_file_dirs st search_string hidle
  have ha' : a ∈ gs.flatten := by
    rw [hflat]
    exact (qsort_perm _ _).mem_iff.mpr hamem
  have hb' : b ∈ gs.flatten := by
    rw [hflat]
    exact (qsort_perm _ _).mem_iff.mpr hbmem
  obtain ⟨ga, hga, haga⟩ := List.mem_flatten.mp ha'
  obtain ⟨gb, hgb, hbgb⟩ := List.mem_flatten.mp hb'
  obtain ⟨i, hi, hgi⟩ := List.getElem_of_mem hga
  obtain ⟨j, hj, hgj⟩ := List.getElem_of_mem hgb
  have hij : i < j := by
    rcases Nat.lt_trichotomy i j with h | h | h
    · exact h
    · exfalso
      subst h
      rw [hgi] at hgj
      subst hgj
      have := (hgroups ga hga).2 a haga b hbgb
      omega
    · exfalso
      have := (List.pairwise_iff_getElem.mp hpair) j i hj hi h
      rw [hgi, hgj] at this
      have hba := this b hbgb a haga
      rw [compare_categories_le_iff] at hba
      rw [ha, hb] at hba
      simp [MATCH_TYPE_PREFIX, MATCH_TYPE_SUBSTRING] at hba
  refine ⟨i, j, ga.map (fun x => x.app_name), gb.map (fun x => x.app_name), hij, ?_, ?_,
    List.mem_map_of_mem _ haga, List.mem_map_of_mem _ hbgb⟩
  · rw [hres, List.getElem?_map, List.getElem?_eq_getElem hi, hgi]
    rfl
  · rw [hres, List.getElem?_map, List.getElem?_eq_getElem hj, hgj]
    rfl

/-- C5 on a search for `term`: `console.desktop` matches by prefix through a keyword
(category 3), `xterm.desktop` matches by substring through its name (category 1). -/
theorem prefix_match_before_substring_match_witness :
    ((⟨"console.desktop", 3, 1, 0⟩ : search_result).match_type = MATCH_TYPE_PREFIX ∧
      (⟨"xterm.desktop", 1, 2, 0⟩ : search_result).match_type = MATCH_TYPE_SUBSTRING) ∧
    (compare_categories ⟨"console.desktop", 3, 1, 0⟩ ⟨"xterm.desktop", 1, 2, 0⟩ < 0 ∧
    ∀ (env : Env) (desktop_file_dirs : List DesktopFileDir) (st : SearchState)
      (search_string : String), st.Idle →
      (⟨"console.desktop", 3, 1, 0⟩ : search_result) ∈
        search_accumulator env desktop_file_dirs st search_string →
      (⟨"xterm.desktop", 1, 2, 0⟩ : search_result) ∈
        search_accumulator env desktop_file_dirs st search_string →
      ∃ (i j : Nat) (gi gj : List String), i < j ∧
        (g_desktop_app_info_search env desktop_file_dirs st search_string)[i]? = some gi ∧
        (g_desktop_app_info_search env desktop_file_dirs st search_string)[j]? = some gj ∧
        "console.desktop" ∈ gi ∧ "xterm.desktop" ∈ gj) ∧
    search_accumulator term_env term_dirs SearchState.initial "term" =
      [⟨"console.desktop", 3, 1, 0⟩, ⟨"xterm.desktop", 1, 2, 0⟩] ∧
    g_desktop_app_info_search term_env term_dirs SearchState.initial "term" =
      [["console.desktop"], ["xterm.desktop"]] :=
  ⟨⟨rfl, rfl⟩,
    prefix_match_before_substring_match ⟨"console.desktop", 3, 1, 0⟩ ⟨"xterm.desktop", 1, 2, 0⟩
      rfl rfl,
    by decide, by decide⟩

/-- C6: started between two searches, the groups returned by `g_desktop_app_info_search`
are the maximal runs of equal rank key of the sorted global accumulator: the groups are
the names of record groups `gs` whose concatenation is a permutation of the accumulator
(every record exactly once) sorted ascending by (match kind, category, position), every
group is non-empty and of one key, and the key strictly increases from each group to the
next. -/
theorem g_desktop_app_info_search_groups (env : Env)
    (desktop_file_dirs : List DesktopFileDir) (st : SearchState) (search_string : String)
    (hidle : st.Idle) :
    ∃ gs : List (List search_result),
      g_desktop_app_info_search env desktop_file_dirs st search_string =
        gs.map (fun g => g.map (fun x => x.app_name)) ∧
      gs.flatten = (search_collect env desktop_file_dirs st search_string).2.static_total_results ∧
      gs.flatten.Perm (search_accumulator env desktop_file_dirs st search_string) ∧
      gs.flatten.Pairwise (fun x y => rank_key_lt x y ∨ rank_key_eq x y) ∧
      (∀ g ∈ gs, g ≠ [] ∧ ∀ x ∈ g, ∀ y ∈ g, rank_key_eq x y) ∧
      gs.Chain' (fun g h => ∀ x ∈ g, ∀ y ∈ h, rank_key_lt x y) := by
  obtain ⟨gs, hflat, hgroups, hchain, _, hres⟩ :=
    search_groups_structure env desktop_file_dirs st search_string hidle
  refine ⟨gs, hres, ?_, ?_, ?_, ?_, ?_⟩
  · rw [hflat, search_collect_total]
  · rw [hflat]
    exact qsort_perm _ _
  · rw [hflat]
    refine List.Pairwise.imp ?_ (qsort_compare_categories_sorted _)
    intro x y hxy
    rcases lt_or_eq_of_le hxy with h | h
    · exact Or.inl ((compare_categories_lt_iff_rank x y).mp h)
    · exact Or.inr ((compare_categories_eq_iff_rank x y).mp h)
  · intro g hg
    refine ⟨(hgroups g hg).1, ?_⟩
    intro x hx y hy
    exact (compare_categories_eq_iff_rank x y).mp ((hgroups g hg).2 x hx y hy)
  · refine List.Chain'.imp ?_ hchain
    intro g h hgh x hx y hy
    exact (compare_categories_lt_iff_rank x y).mp (hgh x hx y hy)

/-- C6 on the search for `term` from the state at program start. -/
theorem g_desktop_app_info_search_groups_witness :
    SearchState.initial.Idle ∧
    (∃ gs : List (List search_result),
      g_desktop_app_info_search term_env term_dirs SearchState.initial "term" =
        gs.map (fun g => g.map (fun x => x.app_name)) ∧
      gs.flatten =
        (search_collect term_env term_dirs SearchState.initial "term").2.static_total_results ∧
      gs.flatten.Perm (search_accumulator term_env term_dirs SearchState.initial "term") ∧
      gs.flatten.Pairwise (fun x y => rank_key_lt x y ∨ rank_key_eq x y) ∧
      (∀ g ∈ gs, g ≠ [] ∧ ∀ x ∈ g, ∀ y ∈ g, rank_key_eq x y) ∧
      gs.Chain' (fun g h => ∀ x ∈ g, ∀ y ∈ h, rank_key_lt x y)) :=
  ⟨by decide,
    g_desktop_app_info_search_groups term_env term_dirs SearchState.initial "term" (by decide)⟩

/-! ## The merge of the token results into the per-directory accumulator -/

theorem merge_first_loop_eq (ts : List search_result) :
    ∀ (last_name : Option String) (sr : List search_result),
      merge_first_loop last_name ts sr = sr ++ token_runs last_name ts := by
  induction ts with
  | nil =>
    intro last_name sr
    simp [merge_first_loop, token_runs]
  | cons t ts ih =>
    intro last_name sr
    unfold merge_first_loop token_runs
    split
    · exact ih _ _
    · rw [ih]
      simp

theorem merge_next_loop_eq (ts : List search_result) :
    ∀ (last_name : Option String) (state : List search_result × Nat × Nat),
      merge_next_loop last_name ts state = (token_runs last_name ts).foldl merge_step state := by
  induction ts with
  | nil =>
    intro last_name state
    simp [merge_next_loop, token_runs]
  | cons t ts ih =>
    intro last_name state
    obtain ⟨sr, j, k⟩ := state
    unfold merge_next_loop token_runs
    split
    · exact ih _ _
    · rw [List.foldl_cons]
      simp only
      split
      · rename_i s hs
        split
        · rename_i hst
          rw [ih]
          congr 1
          simp only [merge_step, hs, hst, if_true, merged_result]
        · rename_i hst
          rw [ih]
          congr 1
          simp only [merge_step, hs, hst, if_false]
      · rename_i hs
        rw [ih]
        congr 1
        simp only [merge_step, hs]

/-- The names weakly increase along a list sorted by `compare_results`. -/
theorem names_sorted_of_compare_results (ts : List search_result)
    (h : ts.Pairwise (fun a b => compare_results a b ≤ 0)) :
    ts.Pairwise (fun a b => ¬ app_name_lt b.app_name a.app_name) := by
  refine List.Pairwise.imp ?_ h
  intro a b hab
  rw [compare_results_le_iff] at hab
  rcases hab with hab | ⟨hab, _⟩
  · exact app_name_lt_asymm hab
  · rw [hab]
    exact app_name_lt_irrefl _

theorem token_runs_mem (ts : List search_result) :
    ∀ (last_name : Option String) (t : search_result),
      t ∈ token_runs last_name ts → t ∈ ts := by
  induction ts with
  | nil =>
    intro last_name t ht
    simp [token_runs] at ht
  | cons a ts ih =>
    intro last_name t ht
    unfold token_runs at ht
    split at ht
    · exact List.mem_cons_of_mem _ (ih _ t ht)
    · rw [List.mem_cons] at ht
      rcases ht with ht | ht
      · rw [ht]
        exact List.mem_cons_self _ _
      · exact List.mem_cons_of_mem _ (ih _ t ht)

/-- On a list with weakly increasing names whose names are not below `last_name`, the runs
have strictly increasing names, all above `last_name`. -/
theorem token_runs_sorted (ts : List search_result) :
    ∀ (last_name : Option String),
      ts.Pairwise (fun a b => ¬ app_name_lt b.app_name a.app_name) →
      (∀ a, last_name = some a → ∀ t ∈ ts, ¬ app_name_lt t.app_name a) →
      StrictlySorted (token_runs last_name ts) ∧
      (∀ a, last_name = some a → ∀ t ∈ token_runs last_name ts, app_name_lt a t.app_name) := by
  induction ts with
  | nil =>
    intro last_name _ _
    simp [token_runs, StrictlySorted]
  | cons x ts ih =>
    intro last_name hsorted hlast
    rw [List.pairwise_cons] at hsorted
    have hlast' : ∀ a, last_name = some a → ∀ t ∈ ts, ¬ app_name_lt t.app_name a :=
      fun a ha t ht => hlast a ha t (List.mem_cons_of_mem _ ht)
    unfold token_runs
    split
    · exact ih last_name hsorted.2 hlast'
    · rename_i hne
      obtain ⟨ihs, ihl⟩ := ih (some x.app_name) hsorted.2 (by
        intro a ha t ht
        simp only [Option.some.injEq] at ha
        subst ha
        exact hsorted.1 t ht)
      constructor
      · unfold StrictlySorted
        rw [List.pairwise_cons]
        exact ⟨fun t ht => ihl x.app_name rfl t ht, ihs⟩
      · intro a ha t ht
        rw [List.mem_cons] at ht
        have hxa : app_name_lt a x.app_name := by
          apply app_name_lt_of_not_lt_of_ne (hlast a ha x (List.mem_cons_self _ _))
          intro e
          apply hne
          rw [ha, e]
        rcases ht with ht | ht
        · rw [ht]
          exact hxa
        · exact app_name_lt_trans hxa (ihl x.app_name rfl t ht)

/-- On a list with weakly increasing names, the first record of a given name is found in
the runs as well. -/
theorem token_runs_find (ts : List search_result) (name : String) :
    ∀ (last_name : Option String),
      ts.Pairwise (fun a b => ¬ app_name_lt b.app_name a.app_name) →
      (∀ a, last_name = some a → ∀ t ∈ ts, ¬ app_name_lt t.app_name a) →
      last_name ≠ some name →
      (token_runs last_name ts).find? (fun t => decide (t.app_name = name)) =
        ts.find? (fun t => decide (t.app_name = name)) := by
  induction ts with
  | nil =>
    intro last_name _ _ _
    simp [token_runs]
  | cons x ts ih =>
    intro last_name hsorted hlast hne
    rw [List.pairwise_cons] at hsorted
    have hlast' : ∀ a, last_name = some a → ∀ t ∈ ts, ¬ app_name_lt t.app_name a :=
      fun a ha t ht => hlast a ha t (List.mem_cons_of_mem _ ht)
    unfold token_runs
    split
    · rename_i heq
      have hx : x.app_name ≠ name := by
        intro e
        apply hne
        rw [← heq, e]
      rw [List.find?_cons_of_neg _ (by simpa using hx)]
      exact ih last_name hsorted.2 hlast' hne
    · by_cases hx : x.app_name = name
      · rw [List.find?_cons_of_pos _ (by simpa using hx),
          List.find?_cons_of_pos _ (by simpa using hx)]
      · rw [List.find?_cons_of_neg _ (by simpa using hx),
          List.find?_cons_of_neg _ (by simpa using hx)]
        apply ih (some x.app_name) hsorted.2
        · intro a ha t ht
          simp only [Option.some.injEq] at ha
          subst ha
          exact hsorted.1 t ht
        · intro e
          simp only [Option.some.injEq] at e
          exact hx e

theorem merge_skip_eq (app_name : String) (pending : List search_result) :
    ∀ k, merge_skip app_name pending k =
      k + (pending.takeWhile (fun s => decide (app_name_lt s.app_name app_name))).length := by
  induction pending with
  | nil =>
    intro k
    simp [merge_skip]
  | cons s pending ih =>
    intro k
    unfold merge_skip
    by_cases h : app_name_lt s.app_name app_name
    · rw [if_pos h, ih, List.takeWhile_cons_of_pos (by simpa using h)]
      simp only [List.length_cons]
      omega
    · rw [if_neg h, List.takeWhile_cons_of_neg (by simpa using h)]
      simp

theorem drop_takeWhile_length {α : Type} (p : α → Bool) (l : List α) :
    l.drop (l.takeWhile p).length = l.dropWhile p := by
  induction l with
  | nil => simp
  | cons a l ih =>
    by_cases h : p a = true
    · rw [List.takeWhile_cons_of_pos h, List.dropWhile_cons_of_pos h]
      simpa using ih
    · rw [List.takeWhile_cons_of_neg h, List.dropWhile_cons_of_neg h]
      simp

theorem filterMap_eq_nil_of_forall {α β : Type} (f : α → Option β) (l : List α)
    (h : ∀ a ∈ l, f a = none) : l.filterMap f = [] := by
  induction l with
  | nil => rfl
  | cons a l ih =>
    rw [List.filterMap_cons, h a (List.mem_cons_self _ _)]
    exact ih (fun b hb => h b (List.mem_cons_of_mem _ hb))

theorem merge_lookup_none (tokens : List search_result) (s : search_result)
    (h : ∀ t ∈ tokens, t.app_name ≠ s.app_name) : merge_lookup tokens s = none := by
  unfold merge_lookup
  have : tokens.find? (fun t => decide (t.app_name = s.app_name)) = none := by
    rw [List.find?_eq_none]
    intro t ht
    simpa using h t ht
  rw [this]
  rfl

theorem merge_lookup_cons_ne (t : search_result) (tokens : List search_result)
    (s : search_result) (h : t.app_name ≠ s.app_name) :
    merge_lookup (t :: tokens) s = merge_lookup tokens s := by
  unfold merge_lookup
  rw [List.find?_cons_of_neg _ (by simpa using h)]

theorem merge_lookup_cons_eq (t : search_result) (tokens : List search_result)
    (s : search_result) (h : t.app_name = s.app_name) :
    merge_lookup (t :: tokens) s = some (merged_result s t) := by
  unfold merge_lookup
  rw [List.find?_cons_of_pos _ (by simpa using h)]
  rfl

theorem take_succ_set {α : Type} (l : List α) (j : Nat) (a : α) (hj : j < l.length) :
    (l.set j a).take (j + 1) = l.take j ++ [a] := by
  have hlen : (l.take j).length = j := by
    rw [List.length_take]
    omega
  rw [List.set_eq_take_append_cons_drop, if_pos hj, List.take_append_eq_append_take, hlen,
    List.take_of_length_le (by omega)]
  simp

/-- One step of the merge, spelled out: the skip loop advances `k` over the pending records
below the name of `t`. -/
theorem merge_step_eq (sr : List search_result) (j k : Nat) (t : search_result) :
    merge_step (sr, j, k) t =
      match ((sr.drop k).dropWhile
          (fun s => decide (app_name_lt s.app_name t.app_name))).head? with
      | some s =>
        if s.app_name = t.app_name then
          (sr.set j (merged_result s t), j + 1,
            k + ((sr.drop k).takeWhile
              (fun s => decide (app_name_lt s.app_name t.app_name))).length)
        else (sr, j, k + ((sr.drop k).takeWhile
              (fun s => decide (app_name_lt s.app_name t.app_name))).length)
      | none => (sr, j, k + ((sr.drop k).takeWhile
              (fun s => decide (app_name_lt s.app_name t.app_name))).length) := by
  unfold merge_step
  simp only
  rw [merge_skip_eq, ← drop_takeWhile_length, List.drop_drop, List.head?_drop]

/-- The loop of the second branch of `merge_token_results` over token results with strictly
increasing names: the first `j` records of the array are kept, and each pending record
(from `k` on) is combined with the token result of its name or dropped.  The record at `k`
may already have been overwritten (`j = k + 1`) when its name is below all names to come. -/
theorem merge_fold_spec (tokens : List search_result) :
    ∀ (sr : List search_result) (j k : Nat),
      StrictlySorted tokens → StrictlySorted (sr.drop k) →
      (j ≤ k ∨ (j = k + 1 ∧ ∃ s, sr[k]? = some s ∧
        ∀ t ∈ tokens, app_name_lt s.app_name t.app_name)) →
      ((tokens.foldl merge_step (sr, j, k)).1).take (tokens.foldl merge_step (sr, j, k)).2.1 =
        sr.take j ++ (sr.drop k).filterMap (merge_lookup tokens) := by
  induction tokens with
  | nil =>
    intro sr j k _ _ _
    rw [List.foldl_nil, filterMap_eq_nil_of_forall]
    · simp
    · intro s _
      rfl
  | cons t tokens ih =>
    intro sr j k htok hpend hj
    unfold StrictlySorted at htok
    rw [List.pairwise_cons] at htok
    obtain ⟨htlt, htok'⟩ := htok
    rw [List.foldl_cons, merge_step_eq]
    -- the pending records split into those below `t` and the rest
    have hsplit := List.takeWhile_append_dropWhile
      (fun s => decide (app_name_lt s.app_name t.app_name)) (sr.drop k)
    have hdropk : sr.drop (k + ((sr.drop k).takeWhile
        (fun s => decide (app_name_lt s.app_name t.app_name))).length) =
        (sr.drop k).dropWhile (fun s => decide (app_name_lt s.app_name t.app_name)) := by
      rw [← List.drop_drop, drop_takeWhile_length]
    have hbelow : ((sr.drop k).takeWhile
        (fun s => decide (app_name_lt s.app_name t.app_name))).filterMap
        (merge_lookup (t :: tokens)) = [] := by
      apply filterMap_eq_nil_of_forall
      intro s hs
      have hlt : app_name_lt s.app_name t.app_name := by
        simpa using List.mem_takeWhile_imp hs
      apply merge_lookup_none
      intro x hx
      rw [List.mem_cons] at hx
      rcases hx with hx | hx
      · rw [hx]
        intro e
        rw [e] at hlt
        exact app_name_lt_irrefl _ hlt
      · intro e
        have := app_name_lt_trans hlt (htlt x hx)
        rw [e] at this
        exact app_name_lt_irrefl _ this
    have htarget : (sr.drop k).filterMap (merge_lookup (t :: tokens)) =
        ((sr.drop k).dropWhile
          (fun s => decide (app_name_lt s.app_name t.app_name))).filterMap
          (merge_lookup (t :: tokens)) := by
      conv_lhs => rw [← hsplit]
      rw [List.filterMap_append, hbelow, List.nil_append]
    have hjk : j ≤ k + ((sr.drop k).takeWhile
        (fun s => decide (app_name_lt s.app_name t.app_name))).length := by
      rcases hj with hj | ⟨hj, s0, hs0, hall⟩
      · omega
      · have hhead : (sr.drop k).head? = some s0 := by
          rw [List.head?_drop]
          exact hs0
        cases hd : sr.drop k with
        | nil => simp [hd] at hhead
        | cons a rest =>
          rw [hd] at hhead
          simp only [List.head?_cons, Option.some.injEq] at hhead
          subst hhead
          rw [List.takeWhile_cons_of_pos (by
            simpa using hall t (List.mem_cons_self _ _))]
          simp only [List.length_cons]
          omega
    have hpend' : StrictlySorted ((sr.drop k).dropWhile
        (fun s => decide (app_name_lt s.app_name t.app_name))) := by
      unfold StrictlySorted at hpend ⊢
      exact List.Pairwise.sublist (List.dropWhile_sublist _) hpend
    rw [htarget]
    cases hdw : (sr.drop k).dropWhile
        (fun s => decide (app_name_lt s.app_name t.app_name)) with
    | nil =>
      simp only [List.head?_nil, List.filterMap_nil, List.append_nil]
      rw [ih sr j _ htok' (by rw [hdropk, hdw]; simp [StrictlySorted]) (Or.inl hjk), hdropk,
        hdw]
      simp
    | cons s tail =>
      simp only [List.head?_cons]
      rw [hdw] at hpend'
      unfold StrictlySorted at hpend'
      rw [List.pairwise_cons] at hpend'
      obtain ⟨hstail, htailsorted⟩ := hpend'
      have hnotlt : ¬ app_name_lt s.app_name t.app_name := by
        have := List.head_dropWhile_not
          (fun s => decide (app_name_lt s.app_name t.app_name)) (sr.drop k)
          (by rw [hdw]; simp)
        simp only [hdw, List.head_cons] at this
        simpa using this
      have hsk : sr[k + ((sr.drop k).takeWhile
          (fun s => decide (app_name_lt s.app_name t.app_name))).length]? = some s := by
        rw [← List.head?_drop, hdropk, hdw]
        rfl
      have hklen : k + ((sr.drop k).takeWhile
          (fun s => decide (app_name_lt s.app_name t.app_name))).length < sr.length := by
        by_contra hcon
        rw [List.getElem?_eq_none (by omega)] at hsk
        exact absurd hsk (by simp)
      by_cases hst : s.app_name = t.app_name
      · rw [if_pos hst]
        have htail_ne : ∀ u ∈ tail, t.app_name ≠ u.app_name := by
          intro u hu e
          have := hstail u hu
          rw [hst, e] at this
          exact app_name_lt_irrefl _ this
        have htail_eq : tail.filterMap (merge_lookup (t :: tokens)) =
            tail.filterMap (merge_lookup tokens) := by
          apply List.filterMap_congr
          intro u hu
          exact merge_lookup_cons_ne t tokens u (htail_ne u hu)
        have htoks : ∀ x ∈ tokens, x.app_name ≠ t.app_name := by
          intro x hx e
          have := htlt x hx
          rw [e] at this
          exact app_name_lt_irrefl _ this
        rw [List.filterMap_cons, merge_lookup_cons_eq t tokens s hst.symm, htail_eq]
        simp only
        -- the state after the assignment to `static_search_results[j]`
        have hdrop2 : ∃ h, (sr.set j (merged_result s t)).drop (k + ((sr.drop k).takeWhile
            (fun s => decide (app_name_lt s.app_name t.app_name))).length) = h :: tail ∧
            h.app_name = t.app_name := by
          rcases Nat.lt_or_ge j (k + ((sr.drop k).takeWhile
              (fun s => decide (app_name_lt s.app_name t.app_name))).length) with hlt | hge
          · refine ⟨s, ?_, hst⟩
            rw [List.drop_set_of_lt _ _ hlt, hdropk, hdw]
          · have hjeq : j = k + ((sr.drop k).takeWhile
                (fun s => decide (app_name_lt s.app_name t.app_name))).length := by omega
            refine ⟨merged_result s t, ?_, hst⟩
            rw [← hjeq, List.set_eq_take_append_cons_drop, if_pos (by omega),
              List.drop_append_of_le_length (by rw [List.length_take]; omega)]
            have hlen : (List.take j sr).length = j := by
              rw [List.length_take]
              omega
            rw [List.drop_of_length_le (by omega), List.nil_append]
            congr 1
            have := hdropk
            rw [← hjeq, hdw, List.drop_eq_getElem_cons (by omega)] at this
            exact (List.cons.inj this).2
        obtain ⟨h, hdrop2, hhname⟩ := hdrop2
        rw [ih (sr.set j (merged_result s t)) (j + 1) _ htok'
          (by
            rw [hdrop2]
            unfold StrictlySorted
            rw [List.pairwise_cons]
            refine ⟨?_, htailsorted⟩
            intro u hu
            rw [hhname, ← hst]
            exact hstail u hu)
          (by
            rcases Nat.lt_or_ge j (k + ((sr.drop k).takeWhile
                (fun s => decide (app_name_lt s.app_name t.app_name))).length) with hlt | hge
            · exact Or.inl (by omega)
            · right
              refine ⟨by omega, h, ?_, ?_⟩
              · rw [← List.head?_drop, hdrop2]
                rfl
              · intro x hx
                rw [hhname]
                exact htlt x hx),
          hdrop2, take_succ_set sr j _ (by omega), List.filterMap_cons,
          merge_lookup_none tokens h (by
            intro x hx
            rw [hhname]
            exact htoks x hx)]
        simp
      · rw [if_neg hst]
        have hts : app_name_lt t.app_name s.app_name :=
          app_name_lt_of_not_lt_of_ne hnotlt (fun e => hst e.symm)
        have hall_eq : (s :: tail).filterMap (merge_lookup (t :: tokens)) =
            (s :: tail).filterMap (merge_lookup tokens) := by
          apply List.filterMap_congr
          intro u hu
          apply merge_lookup_cons_ne
          rw [List.mem_cons] at hu
          rcases hu with hu | hu
          · rw [hu]
            exact fun e => hst e.symm
          · intro e
            have := app_name_lt_trans hts (hstail u hu)
            rw [e] at this
            exact app_name_lt_irrefl _ this
        rw [hall_eq, ih sr j _ htok'
          (by
            rw [hdropk, hdw]
            unfold StrictlySorted
            rw [List.pairwise_cons]
            exact ⟨hstail, htailsorted⟩)
          (Or.inl hjk), hdropk, hdw]

/-! ## `merge_token_results` as a whole -/

theorem merge_token_results_sorted_tokens (st : SearchState) :
    (if st.static_token_results.length ≠ 0 then qsort compare_results st.static_token_results
      else st.static_token_results) = qsort compare_results st.static_token_results := by
  split
  · rfl
  · rename_i h
    simp only [ne_eq, not_not, List.length_eq_zero] at h
    rw [h]
    rfl

theorem merge_token_results_first (st : SearchState) :
    merge_token_results true st =
      { st with
        static_token_results := [],
        static_search_results := st.static_search_results ++
          token_runs none (qsort compare_results st.static_token_results) } := by
  unfold merge_token_results
  simp only [if_true, merge_token_results_sorted_tokens, merge_first_loop_eq]

theorem sorted_tokens_facts (tokens : List search_result) :
    (qsort compare_results tokens).Pairwise
        (fun a b => ¬ app_name_lt b.app_name a.app_name) ∧
      (∀ a, (none : Option String) = some a →
        ∀ t ∈ qsort compare_results tokens, ¬ app_name_lt t.app_name a) :=
  ⟨names_sorted_of_compare_results _ (qsort_compare_results_sorted tokens),
    fun _ h => absurd h (by simp)⟩

theorem merge_lookup_token_runs (tokens : List search_result) (s : search_result) :
    merge_lookup (token_runs none (qsort compare_results tokens)) s =
      merge_lookup (qsort compare_results tokens) s := by
  unfold merge_lookup
  rw [token_runs_find _ s.app_name none (sorted_tokens_facts tokens).1
    (sorted_tokens_facts tokens).2 (by simp)]

/-- The second branch of `merge_token_results` on an accumulator with strictly increasing
names: every record is combined with the first record of its application in the sorted
token results, and dropped when the application has no token result. -/
theorem merge_token_results_next (st : SearchState)
    (hsorted : StrictlySorted st.static_search_results) :
    merge_token_results false st =
      { st with
        static_token_results := [],
        static_search_results := st.static_search_results.filterMap
          (merge_lookup (qsort compare_results st.static_token_results)) } := by
  unfold merge_token_results
  simp only [Bool.false_eq_true, if_false, merge_token_results_sorted_tokens,
    merge_next_loop_eq]
  have h := merge_fold_spec (token_runs none (qsort compare_results st.static_token_results))
    st.static_search_results 0 0
    (token_runs_sorted _ none (sorted_tokens_facts _).1 (sorted_tokens_facts _).2).1
    (by simpa using hsorted) (Or.inl (Nat.le_refl _))
  rw [h]
  simp only [List.take_zero, List.nil_append, List.drop_zero]
  congr 1
  apply List.filterMap_congr
  intro s _
  exact merge_lookup_token_runs _ s

theorem merge_lookup_name (tokens : List search_result) (s r : search_result)
    (h : merge_lookup tokens s = some r) : r.app_name = s.app_name := by
  unfold merge_lookup at h
  cases hf : tokens.find? (fun t => decide (t.app_name = s.app_name)) with
  | none =>
    rw [hf] at h
    exact absurd h (by simp)
  | some t =>
    rw [hf] at h
    simp only [Option.map_some', Option.some.injEq] at h
    rw [← h]
    rfl

theorem merge_lookup_isSome_iff (tokens : List search_result) (s : search_result) :
    (merge_lookup tokens s).isSome = true ↔ ∃ t ∈ tokens, t.app_name = s.app_name := by
  unfold merge_lookup
  rw [Option.isSome_map', List.find?_isSome]
  simp

theorem filterMap_merge_lookup_names (tokens acc : List search_result) :
    (acc.filterMap (merge_lookup tokens)).map (fun x => x.app_name) =
      (acc.filter (fun s => (merge_lookup tokens s).isSome)).map (fun x => x.app_name) := by
  induction acc with
  | nil => rfl
  | cons s acc ih =>
    rw [List.filterMap_cons, List.filter_cons]
    cases h : merge_lookup tokens s with
    | none =>
      simp only [Option.isSome_none, Bool.false_eq_true, if_false]
      exact ih
    | some r =>
      simp only [Option.isSome_some, if_true, List.map_cons, ih]
      rw [merge_lookup_name tokens s r h]

theorem filterMap_merge_lookup_sorted (tokens acc : List search_result)
    (h : StrictlySorted acc) : StrictlySorted (acc.filterMap (merge_lookup tokens)) := by
  unfold StrictlySorted at h ⊢
  have hn : ((acc.filterMap (merge_lookup tokens)).map (fun x => x.app_name)).Pairwise
      app_name_lt := by
    rw [filterMap_merge_lookup_names]
    have h' : (acc.map (fun x => x.app_name)).Pairwise app_name_lt := by
      rw [List.pairwise_map]
      exact h
    exact List.Pairwise.sublist (List.Sublist.map _ (List.filter_sublist _)) h'
  rw [List.pairwise_map] at hn
  exact hn

theorem strictlySorted_names_nodup (acc : List search_result) (h : StrictlySorted acc) :
    (acc.map (fun x => x.app_name)).Nodup := by
  unfold StrictlySorted at h
  rw [List.Nodup, List.pairwise_map]
  refine List.Pairwise.imp ?_ h
  intro a b hab e
  rw [e] at hab
  exact app_name_lt_irrefl _ hab

/-! ## Merging a later token: the claim -/

theorem merge_lookup_fields (tokens : List search_result) (s r : search_result)
    (h : merge_lookup tokens s = some r) :
    ∃ t, tokens.find? (fun x => decide (x.app_name = r.app_name)) = some t ∧
      s.app_name = r.app_name ∧
      r.match_type = max s.match_type t.match_type ∧
      r.category = max s.category t.category ∧
      r.token_pos = max s.token_pos t.token_pos ∧
      s.match_type ≤ r.match_type ∧ s.category ≤ r.category ∧ s.token_pos ≤ r.token_pos := by
  have hname := merge_lookup_name tokens s r h
  unfold merge_lookup at h
  cases hf : tokens.find? (fun t => decide (t.app_name = s.app_name)) with
  | none =>
    rw [hf] at h
    exact absurd h (by simp)
  | some t =>
    rw [hf] at h
    simp only [Option.map_some', Option.some.injEq] at h
    refine ⟨t, by rw [hname]; exact hf, hname.symm, ?_⟩
    rw [← h]
    exact ⟨rfl, rfl, rfl, le_max_left _ _, le_max_left _ _, le_max_left _ _⟩

/-- Merging any number of further token buffers, one after the other, never lowers a field
of a record that is kept. -/
theorem merge_further_tokens_monotone (buffers : List (List search_result)) :
    ∀ (st : SearchState), StrictlySorted st.static_search_results →
      ∀ r ∈ (buffers.foldl (fun st buffer =>
          merge_token_results false { st with static_token_results := buffer })
          st).static_search_results,
        ∃ s ∈ st.static_search_results, s.app_name = r.app_name ∧
          s.match_type ≤ r.match_type ∧ s.category ≤ r.category ∧
          s.token_pos ≤ r.token_pos := by
  induction buffers with
  | nil =>
    intro st _ r hr
    exact ⟨r, hr, rfl, le_refl _, le_refl _, le_refl _⟩
  | cons buffer buffers ih =>
    intro st hsorted r hr
    rw [List.foldl_cons, merge_token_results_next _ (by simpa using hsorted)] at hr
    obtain ⟨s', hs', hname', h1, h2, h3⟩ := ih _ (by
      simpa using filterMap_merge_lookup_sorted (qsort compare_results buffer) _ hsorted) r hr
    simp only [List.mem_filterMap] at hs'
    obtain ⟨s, hs, hlook⟩ := hs'
    obtain ⟨t, _, hname, _, _, _, g1, g2, g3⟩ := merge_lookup_fields _ s s' hlook
    exact ⟨s, hs, hname.trans hname', le_trans g1 h1, le_trans g2 h2, le_trans g3 h3⟩

/-- C8: when `merge_token_results` merges a token that is not the first into an accumulator
with strictly increasing names, the new accumulator is the old one with every record
either dropped or replaced by the record of the same name whose match kind, category and
position are each the larger of the old value and the value of the first record of that
application in the sorted token buffer; no field of a kept record decreases, also over any
number of further merges. -/
theorem merge_token_results_keeps_worse (st : SearchState)
    (hsorted : StrictlySorted st.static_search_results) :
    (merge_token_results false st).static_search_results =
      st.static_search_results.filterMap
        (merge_lookup (qsort compare_results st.static_token_results)) ∧
    (∀ r ∈ (merge_token_results false st).static_search_results,
      ∃ s t, s ∈ st.static_search_results ∧ s.app_name = r.app_name ∧
        (qsort compare_results st.static_token_results).find?
          (fun x => decide (x.app_name = r.app_name)) = some t ∧
        r.match_type = max s.match_type t.match_type ∧
        r.category = max s.category t.category ∧
        r.token_pos = max s.token_pos t.token_pos ∧
        s.match_type ≤ r.match_type ∧ s.category ≤ r.category ∧
        s.token_pos ≤ r.token_pos) ∧
    (∀ (buffers : List (List search_result)),
      ∀ r ∈ (buffers.foldl (fun st buffer =>
          merge_token_results false { st with static_token_results := buffer })
          st).static_search_results,
        ∃ s ∈ st.static_search_results, s.app_name = r.app_name ∧
          s.match_type ≤ r.match_type ∧ s.category ≤ r.category ∧
          s.token_pos ≤ r.token_pos) := by
  have heq := merge_token_results_next st hsorted
  refine ⟨by rw [heq], ?_, fun buffers => merge_further_tokens_monotone buffers st hsorted⟩
  intro r hr
  rw [heq] at hr
  simp only [List.mem_filterMap] at hr
  obtain ⟨s, hs, hlook⟩ := hr
  obtain ⟨t, hfind, hname, h⟩ := merge_lookup_fields _ s r hlook
  exact ⟨s, t, hs, hname, hfind, h⟩

/-- C8 on a small state: `a.desktop` has no token result and is dropped, `b.desktop` is
combined with its best token record (prefix, category 2, position 5). -/
theorem merge_token_results_keeps_worse_witness :
    StrictlySorted merge_sample_state.static_search_results ∧
    ((merge_token_results false merge_sample_state).static_search_results =
      merge_sample_state.static_search_results.filterMap
        (merge_lookup (qsort compare_results merge_sample_state.static_token_results)) ∧
    (∀ r ∈ (merge_token_results false merge_sample_state).static_search_results,
      ∃ s t, s ∈ merge_sample_state.static_search_results ∧ s.app_name = r.app_name ∧
        (qsort compare_results merge_sample_state.static_token_results).find?
          (fun x => decide (x.app_name = r.app_name)) = some t ∧
        r.match_type = max s.match_type t.match_type ∧
        r.category = max s.category t.category ∧
        r.token_pos = max s.token_pos t.token_pos ∧
        s.match_type ≤ r.match_type ∧ s.category ≤ r.category ∧
        s.token_pos ≤ r.token_pos) ∧
    (∀ (buffers : List (List search_result)),
      ∀ r ∈ (buffers.foldl (fun st buffer =>
          merge_token_results false { st with static_token_results := buffer })
          merge_sample_state).static_search_results,
        ∃ s ∈ merge_sample_state.static_search_results, s.app_name = r.app_name ∧
          s.match_type ≤ r.match_type ∧ s.category ≤ r.category ∧
          s.token_pos ≤ r.token_pos)) ∧
    (merge_token_results false merge_sample_state).static_search_results =
      [⟨"b.desktop", 3, 1, 5⟩] :=
  ⟨by decide, merge_token_results_keeps_worse merge_sample_state (by decide), by decide⟩

/-! ## Searching one directory for several tokens -/

theorem strstr_from_isSome_iff (needle : List Char) (haystack : List Char) :
    ∀ offset, (strstr_from needle haystack offset).isSome = true ↔ needle <:+: haystack := by
  induction haystack with
  | nil =>
    intro offset
    unfold strstr_from
    rw [List.infix_nil]
    cases needle with
    | nil => simp
    | cons c needle => simp [List.isPrefixOf]
  | cons c haystack ih =>
    intro offset
    unfold strstr_from
    rw [List.infix_cons_iff]
    by_cases h : needle.isPrefixOf (c :: haystack) = true
    · rw [if_pos h]
      simp only [Option.isSome_some, true_iff]
      exact Or.inl (List.isPrefixOf_iff_prefix.mp h)
    · rw [if_neg h, ih]
      constructor
      · intro hi
        exact Or.inr hi
      · rintro (hp | hi)
        · exact absurd (List.isPrefixOf_iff_prefix.mpr hp) h
        · exact hi

theorem strstr_isSome_iff (haystack needle : String) :
    (strstr haystack needle).isSome = true ↔ needle.data <:+: haystack.data := by
  unfold strstr
  exact strstr_from_isSome_iff _ _ 0

theorem add_token_results_fold_eq (match_type : Int) (chain : List MemoryIndexEntry) :
    ∀ st : SearchState,
      chain.foldl (fun st mie =>
        add_token_result st mie.app_name mie.match_category match_type mie.token_pos) st =
      { st with static_token_results := st.static_token_results ++
          chain.map (fun mie =>
            { app_name := mie.app_name,
              category := to_guint16 mie.match_category,
              match_type := to_guint16 match_type,
              token_pos := to_guint16 mie.token_pos }) } := by
  induction chain with
  | nil =>
    intro st
    simp
  | cons mie chain ih =>
    intro st
    rw [List.foldl_cons, ih]
    simp [add_token_result]

theorem search_index_key_eq (search_token : String) (st : SearchState)
    (entry : String × List MemoryIndexEntry) :
    search_index_key search_token st entry =
      { st with static_token_results :=
          st.static_token_results ++ index_key_results search_token entry } := by
  unfold search_index_key index_key_results
  cases strstr entry.1 search_token with
  | none => simp
  | some p =>
    simp only
    rw [add_token_results_fold_eq]

theorem search_index_fold_eq (search_token : String) (index : MemoryIndex) :
    ∀ st : SearchState,
      index.foldl (search_index_key search_token) st =
        { st with static_token_results :=
            st.static_token_results ++ index.flatMap (index_key_results search_token) } := by
  induction index with
  | nil =>
    intro st
    simp
  | cons e index ih =>
    intro st
    rw [List.foldl_cons, ih, search_index_key_eq, List.flatMap_cons]
    simp

theorem mem_index_results_names (search_token : String) (index : MemoryIndex) (app : String) :
    app ∈ (index.flatMap (index_key_results search_token)).map (fun x => x.app_name) ↔
      HasPosting index search_token app := by
  unfold HasPosting
  rw [List.mem_map]
  constructor
  · rintro ⟨r, hr, hname⟩
    rw [List.mem_flatMap] at hr
    obtain ⟨⟨key, chain⟩, hmem, hrk⟩ := hr
    unfold index_key_results at hrk
    cases hs : strstr key search_token with
    | none =>
      simp only [hs] at hrk
      exact absurd hrk (by simp)
    | some p =>
      simp only [hs, List.mem_map] at hrk
      obtain ⟨mie, hmie, hr'⟩ := hrk
      refine ⟨key, chain, mie, hmem, ?_, hmie, ?_⟩
      · apply (strstr_isSome_iff key search_token).mp
        rw [hs]
        rfl
      · rw [← hname, ← hr']
  · rintro ⟨key, chain, mie, hmem, hinfix, hmie, hname⟩
    obtain ⟨p, hp⟩ := Option.isSome_iff_exists.mp
      ((strstr_isSome_iff key search_token).mpr hinfix)
    refine ⟨⟨mie.app_name, to_guint16 mie.match_category,
      to_guint16 (if p = 0 ∧ search_token ≠ "" then MATCH_TYPE_PREFIX
        else MATCH_TYPE_SUBSTRING), to_guint16 mie.token_pos⟩, ?_, hname⟩
    rw [List.mem_flatMap]
    refine ⟨(key, chain), hmem, ?_⟩
    unfold index_key_results
    simp only [hp, List.mem_map]
    exact ⟨mie, hmie, rfl⟩

theorem ensure_index_idem (env : Env) (desktop_file_dirs : List DesktopFileDir) (dir : Nat) :
    desktop_file_dir_ensure_index env (desktop_file_dir_ensure_index env desktop_file_dirs dir)
      dir = desktop_file_dir_ensure_index env desktop_file_dirs dir := by
  cases hd : desktop_file_dirs[dir]? with
  | none =>
    have h1 : desktop_file_dir_ensure_index env desktop_file_dirs dir = desktop_file_dirs := by
      unfold desktop_file_dir_ensure_index
      rw [hd]
    rw [h1, h1]
  | some d =>
    cases hm : d.memory_index with
    | some mi =>
      have h1 : desktop_file_dir_ensure_index env desktop_file_dirs dir = desktop_file_dirs := by
        unfold desktop_file_dir_ensure_index
        rw [hd]
        simp only [hm]
      rw [h1, h1]
    | none =>
      have hlen : dir < desktop_file_dirs.length := by
        by_contra hcon
        rw [List.getElem?_eq_none (by omega)] at hd
        exact absurd hd (by simp)
      have h1 : desktop_file_dir_ensure_index env desktop_file_dirs dir =
          desktop_file_dirs.set dir
            { d with
              memory_index :=
                some (desktop_file_dir_unindexed_setup_search env desktop_file_dirs dir).1,
              memory_implementations :=
                some (desktop_file_dir_unindexed_setup_search env desktop_file_dirs dir).2 }
          := by
        unfold desktop_file_dir_ensure_index
        rw [hd]
        simp only [hm]
      rw [h1]
      unfold desktop_file_dir_ensure_index
      rw [List.getElem?_set_self hlen]

theorem index_ensure (env : Env) (desktop_file_dirs : List DesktopFileDir) (dir : Nat) :
    desktop_file_dir_index env (desktop_file_dir_ensure_index env desktop_file_dirs dir) dir =
      desktop_file_dir_index env desktop_file_dirs dir := by
  unfold desktop_file_dir_index
  rw [ensure_index_idem]

/-- One call of `desktop_file_dir_unindexed_search` followed by the merge of a token that
is not the first. -/
theorem search_next_token (env : Env) (desktop_file_dirs : List DesktopFileDir) (k : Nat)
    (token : String) (st : SearchState) (htok : st.static_token_results = [])
    (hsorted : StrictlySorted st.static_search_results) :
    (merge_token_results false
      (desktop_file_dir_unindexed_search env desktop_file_dirs k token st).2) =
      { st with
        static_token_results := [],
        static_search_results := st.static_search_results.filterMap
          (merge_lookup (qsort compare_results
            ((desktop_file_dir_index env desktop_file_dirs k).flatMap
              (index_key_results token)))) } := by
  unfold desktop_file_dir_unindexed_search
  simp only
  rw [search_index_fold_eq, merge_token_results_next _ (by simpa using hsorted)]
  simp [htok]

/-- The loop over the tokens after the first one: the accumulator keeps exactly the
applications that have a posting for every further token. -/
theorem search_tokens_loop_next (env : Env) (k : Nat) (index : MemoryIndex)
    (tokens : List String) :
    ∀ (j : Nat) (desktop_file_dirs : List DesktopFileDir) (st : SearchState),
      j ≠ 0 → desktop_file_dir_index env desktop_file_dirs k = index →
      st.static_token_results = [] → StrictlySorted st.static_search_results →
      StrictlySorted
        (search_tokens_loop env k tokens j (desktop_file_dirs, st)).2.static_search_results ∧
      (search_tokens_loop env k tokens j (desktop_file_dirs, st)).2.static_token_results = [] ∧
      ∀ app,
        app ∈ (search_tokens_loop env k tokens j
            (desktop_file_dirs, st)).2.static_search_results.map (fun x => x.app_name) ↔
          (app ∈ st.static_search_results.map (fun x => x.app_name) ∧
            ∀ t ∈ tokens, HasPosting index t app) := by
  induction tokens with
  | nil =>
    intro j dirs st _ _ htok hsorted
    refine ⟨hsorted, htok, ?_⟩
    intro app
    simp [search_tokens_loop]
  | cons token tokens ih =>
    intro j dirs st hj hindex htok hsorted
    unfold search_tokens_loop
    have hjf : (j == 0) = false := by
      cases j with
      | zero => exact absurd rfl hj
      | succ n => rfl
    simp only [hjf]
    rw [search_next_token env dirs k token st htok hsorted]
    have hdirs : (desktop_file_dir_unindexed_search env dirs k token st).1 =
        desktop_file_dir_ensure_index env dirs k := rfl
    rw [hdirs]
    obtain ⟨h1, h2, h3⟩ := ih (j + 1) (desktop_file_dir_ensure_index env dirs k)
      { st with
        static_token_results := [],
        static_search_results := st.static_search_results.filterMap
          (merge_lookup (qsort compare_results
            ((desktop_file_dir_index env dirs k).flatMap (index_key_results token)))) }
      (by omega) (by rw [index_ensure, hindex]) rfl
      (filterMap_merge_lookup_sorted _ _ hsorted)
    refine ⟨h1, h2, ?_⟩
    intro app
    rw [h3 app]
    simp only [filterMap_merge_lookup_names, List.mem_map, List.mem_filter,
      merge_lookup_isSome_iff, List.mem_cons, forall_eq_or_imp]
    have hpost : ∀ s : search_result,
        (∃ t ∈ qsort compare_results
            ((desktop_file_dir_index env dirs k).flatMap (index_key_results token)),
          t.app_name = s.app_name) ↔ HasPosting index token s.app_name := by
      intro s
      rw [← hindex, ← mem_index_results_names, List.mem_map]
      constructor
      · rintro ⟨t, ht, hn⟩
        exact ⟨t, (qsort_perm _ _).mem_iff.mp ht, hn⟩
      · rintro ⟨t, ht, hn⟩
        exact ⟨t, (qsort_perm _ _).mem_iff.mpr ht, hn⟩
    constructor
    · rintro ⟨⟨s, ⟨hs, hex⟩, hname⟩, hall⟩
      refine ⟨⟨s, hs, hname⟩, ?_, hall⟩
      rw [← hname]
      exact (hpost s).mp hex
    · rintro ⟨⟨s, hs, hname⟩, hfirst, hall⟩
      refine ⟨⟨s, ⟨hs, ?_⟩, hname⟩, hall⟩
      apply (hpost s).mpr
      rw [hname]
      exact hfirst

theorem token_runs_names (tokens : List search_result) (app : String) :
    app ∈ (token_runs none (qsort compare_results tokens)).map (fun x => x.app_name) ↔
      app ∈ tokens.map (fun x => x.app_name) := by
  have hfind := token_runs_find (qsort compare_results tokens) app none
    (sorted_tokens_facts tokens).1 (sorted_tokens_facts tokens).2 (by simp)
  have h1 : app ∈ (token_runs none (qsort compare_results tokens)).map
      (fun x => x.app_name) ↔
      ((token_runs none (qsort compare_results tokens)).find?
        (fun t => decide (t.app_name = app))).isSome = true := by
    rw [List.find?_isSome, List.mem_map]
    simp
  have h2 : app ∈ tokens.map (fun x => x.app_name) ↔
      ((qsort compare_results tokens).find?
        (fun t => decide (t.app_name = app))).isSome = true := by
    rw [List.find?_isSome, List.mem_map]
    constructor
    · rintro ⟨t, ht, hn⟩
      exact ⟨t, (qsort_perm _ _).mem_iff.mpr ht, by simpa using hn⟩
    · rintro ⟨t, ht, hn⟩
      exact ⟨t, (qsort_perm _ _).mem_iff.mp ht, by simpa using hn⟩
  rw [h1, h2, hfind]

/-- C7: started between two searches, after the tokens `t1 .. tn` (`n ≥ 1`) of a query have
been searched and merged for the record `k`, the per-directory accumulator holds every
application at most once, and it holds an application exactly when, for every token, the
application has a posting under a key of the index of that record that contains the token
as a substring. -/
theorem search_tokens_loop_intersection (env : Env)
    (desktop_file_dirs : List DesktopFileDir) (k : Nat) (st : SearchState)
    (tokens : List String) (hidle : st.Idle) (hne : tokens ≠ []) :
    ((search_tokens_loop env k tokens 0
        (desktop_file_dirs, st)).2.static_search_results.map (fun x => x.app_name)).Nodup ∧
    ∀ app,
      app ∈ (search_tokens_loop env k tokens 0
          (desktop_file_dirs, st)).2.static_search_results.map (fun x => x.app_name) ↔
        ∀ t ∈ tokens, HasPosting (desktop_file_dir_index env desktop_file_dirs k) t app := by
  cases tokens with
  | nil => exact absurd rfl hne
  | cons token tokens =>
    obtain ⟨htok, hsr⟩ := hidle
    unfold search_tokens_loop
    have hfirst : merge_token_results (0 == 0)
        (desktop_file_dir_unindexed_search env desktop_file_dirs k token st).2 =
        { st with
          static_token_results := [],
          static_search_results := token_runs none (qsort compare_results
            ((desktop_file_dir_index env desktop_file_dirs k).flatMap
              (index_key_results token))) } := by
      have h0 : ((0 : Nat) == 0) = true := rfl
      rw [h0, merge_token_results_first]
      unfold desktop_file_dir_unindexed_search
      simp only
      rw [search_index_fold_eq]
      simp [htok, hsr]
    simp only [hfirst]
    have hdirs : (desktop_file_dir_unindexed_search env desktop_file_dirs k token st).1 =
        desktop_file_dir_ensure_index env desktop_file_dirs k := rfl
    rw [hdirs]
    obtain ⟨h1, _, h3⟩ := search_tokens_loop_next env k
      (desktop_file_dir_index env desktop_file_dirs k) tokens (0 + 1)
      (desktop_file_dir_ensure_index env desktop_file_dirs k)
      { st with
        static_token_results := [],
        static_search_results := token_runs none (qsort compare_results
          ((desktop_file_dir_index env desktop_file_dirs k).flatMap
            (index_key_results token))) }
      (by omega) (index_ensure env desktop_file_dirs k) rfl
      (token_runs_sorted _ none (sorted_tokens_facts _).1 (sorted_tokens_facts _).2).1
    refine ⟨strictlySorted_names_nodup _ h1, ?_⟩
    intro app
    rw [h3 app]
    simp only [token_runs_names, mem_index_results_names, List.mem_cons, forall_eq_or_imp]

/-- C7 on the query `term con` in the record of `term_dirs`: only `console.desktop` has a
posting for both tokens. -/
theorem search_tokens_loop_intersection_witness :
    SearchState.initial.Idle ∧ ["term", "con"] ≠ ([] : List String) ∧
    (((search_tokens_loop term_env 0 ["term", "con"] 0
        (term_dirs, SearchState.initial)).2.static_search_results.map
          (fun x => x.app_name)).Nodup ∧
    ∀ app,
      app ∈ (search_tokens_loop term_env 0 ["term", "con"] 0
          (term_dirs, SearchState.initial)).2.static_search_results.map
            (fun x => x.app_name) ↔
        ∀ t ∈ ["term", "con"], HasPosting (desktop_file_dir_index term_env term_dirs 0) t app) ∧
    (search_tokens_loop term_env 0 ["term", "con"] 0
        (term_dirs, SearchState.initial)).2.static_search_results.map (fun x => x.app_name) =
      ["console.desktop"] :=
  ⟨by decide, by decide,
    search_tokens_loop_intersection term_env term_dirs 0 SearchState.initial ["term", "con"]
      (by decide) (by decide),
    by decide⟩

/-! ## Type associations: one record -/

theorem array_contains_iff (array : List String) (str : String) :
    array_contains array str = true ↔ str ∈ array := by
  unfold array_contains
  rw [List.any_eq_true]
  constructor
  · rintro ⟨s, hs, he⟩
    have : s = str := by simpa using he
    rw [← this]
    exact hs
  · intro h
    exact ⟨str, h, by simp⟩

theorem array_contains_eq_false_iff (array : List String) (str : String) :
    array_contains array str = false ↔ str ∉ array := by
  rw [← array_contains_iff]
  simp

theorem mem_first_occurrences (l : List String) :
    ∀ (seen : List String) (x : String),
      x ∈ first_occurrences seen l ↔ x ∈ l ∧ x ∉ seen := by
  induction l with
  | nil =>
    intro seen x
    simp [first_occurrences]
  | cons a l ih =>
    intro seen x
    rw [first_occurrences]
    by_cases h : array_contains seen a = true
    · rw [if_pos h, ih]
      have ha : a ∈ seen := (array_contains_iff _ _).mp h
      constructor
      · rintro ⟨h1, h2⟩
        exact ⟨List.mem_cons_of_mem _ h1, h2⟩
      · rintro ⟨h1, h2⟩
        rw [List.mem_cons] at h1
        rcases h1 with h1 | h1
        · rw [h1] at h2
          exact absurd ha h2
        · exact ⟨h1, h2⟩
    · rw [if_neg h, List.mem_cons, ih]
      have ha : a ∉ seen := fun hm => h ((array_contains_iff _ _).mpr hm)
      constructor
      · rintro (h1 | ⟨h1, h2⟩)
        · rw [h1]
          exact ⟨List.mem_cons_self _ _, ha⟩
        · exact ⟨List.mem_cons_of_mem _ h1, fun hm => h2 (List.mem_append_left _ hm)⟩
      · rintro ⟨h1, h2⟩
        rw [List.mem_cons] at h1
        by_cases hxa : x = a
        · exact Or.inl hxa
        · rcases h1 with h1 | h1
          · exact absurd h1 hxa
          · right
            refine ⟨h1, ?_⟩
            intro hm
            rw [List.mem_append, List.mem_singleton] at hm
            rcases hm with hm | hm
            · exact h2 hm
            · exact hxa hm

theorem first_occurrences_nodup (l : List String) :
    ∀ (seen : List String), (first_occurrences seen l).Nodup := by
  induction l with
  | nil =>
    intro seen
    simp [first_occurrences]
  | cons a l ih =>
    intro seen
    rw [first_occurrences]
    split
    · exact ih seen
    · rw [List.nodup_cons]
      refine ⟨?_, ih _⟩
      intro hm
      have := ((mem_first_occurrences l _ a).mp hm).2
      exact this (List.mem_append_right _ (List.mem_singleton_self a))

theorem first_occurrences_append (l1 l2 : List String) :
    ∀ (seen : List String),
      first_occurrences seen (l1 ++ l2) =
        first_occurrences seen l1 ++
          first_occurrences (seen ++ first_occurrences seen l1) l2 := by
  induction l1 with
  | nil =>
    intro seen
    simp [first_occurrences]
  | cons a l1 ih =>
    intro seen
    rw [List.cons_append, first_occurrences, first_occurrences]
    split
    · exact ih seen
    · rw [ih, List.cons_append]
      simp

theorem first_occurrences_congr (l : List String) :
    ∀ (seen seen' : List String), (∀ x, x ∈ seen ↔ x ∈ seen') →
      first_occurrences seen l = first_occurrences seen' l := by
  induction l with
  | nil =>
    intro seen seen' _
    rfl
  | cons a l ih =>
    intro seen seen' h
    rw [first_occurrences, first_occurrences]
    have hc : array_contains seen a = array_contains seen' a := by
      rw [Bool.eq_iff_iff, array_contains_iff, array_contains_iff]
      exact h a
    rw [hc]
    split
    · exact ih _ _ h
    · rw [ih (seen ++ [a]) (seen' ++ [a])]
      intro x
      simp only [List.mem_append, List.mem_singleton]
      rw [h x]

theorem mime_lookup_additions_eq (desktop_file_dirs : List DesktopFileDir) (dir : Nat)
    (additions : List String) :
    ∀ (hb : List String × List String),
      mime_lookup_additions desktop_file_dirs dir additions hb =
        (hb.1 ++ first_occurrences hb.1 (additions.filter (fun x =>
          !desktop_file_dir_app_name_is_masked desktop_file_dirs dir x &&
            !array_contains hb.2 x)), hb.2) := by
  induction additions with
  | nil =>
    intro hb
    simp [mime_lookup_additions, first_occurrences]
  | cons a additions ih =>
    intro hb
    unfold mime_lookup_additions at ih ⊢
    rw [List.foldl_cons]
    by_cases hc : (!desktop_file_dir_app_name_is_masked desktop_file_dirs dir a &&
        !array_contains hb.2 a) = true
    · rw [List.filter_cons, if_pos hc, first_occurrences]
      by_cases hh : array_contains hb.1 a = true
      · rw [if_pos hh]
        have : (!desktop_file_dir_app_name_is_masked desktop_file_dirs dir a &&
            !array_contains hb.2 a && !array_contains hb.1 a) = false := by
          rw [hh]
          simp
        rw [this]
        simp only [Bool.false_eq_true, if_false]
        exact ih hb
      · rw [if_neg hh]
        have hh' : array_contains hb.1 a = false := by
          simpa using hh
        have : (!desktop_file_dir_app_name_is_masked desktop_file_dirs dir a &&
            !array_contains hb.2 a && !array_contains hb.1 a) = true := by
          rw [hc, hh']
          rfl
        rw [this]
        simp only [if_true]
        rw [ih]
        simp
    · rw [List.filter_cons, if_neg hc]
      have hc' : (!desktop_file_dir_app_name_is_masked desktop_file_dirs dir a &&
          !array_contains hb.2 a) = false := by
        simpa using hc
      have : (!desktop_file_dir_app_name_is_masked desktop_file_dirs dir a &&
          !array_contains hb.2 a && !array_contains hb.1 a) = false := by
        rw [hc']
        rfl
      rw [this]
      simp only [Bool.false_eq_true, if_false]
      exact ih hb

theorem mime_lookup_removals_eq (desktop_file_dirs : List DesktopFileDir) (dir : Nat)
    (removals : List String) :
    ∀ (hb : List String × List String),
      mime_lookup_removals desktop_file_dirs dir removals hb =
        (hb.1, hb.2 ++ first_occurrences hb.2 (removals.filter (fun x =>
          !desktop_file_dir_app_name_is_masked desktop_file_dirs dir x &&
            !array_contains hb.1 x))) := by
  induction removals with
  | nil =>
    intro hb
    simp [mime_lookup_removals, first_occurrences]
  | cons a removals ih =>
    intro hb
    unfold mime_lookup_removals at ih ⊢
    rw [List.foldl_cons]
    by_cases hc : (!desktop_file_dir_app_name_is_masked desktop_file_dirs dir a &&
        !array_contains hb.1 a) = true
    · rw [List.filter_cons, if_pos hc, first_occurrences]
      have hc1 : (!desktop_file_dir_app_name_is_masked desktop_file_dirs dir a) = true := by
        simp only [Bool.and_eq_true] at hc
        exact hc.1
      have hc2 : (!array_contains hb.1 a) = true := by
        simp only [Bool.and_eq_true] at hc
        exact hc.2
      by_cases hh : array_contains hb.2 a = true
      · rw [if_pos hh]
        have : (!desktop_file_dir_app_name_is_masked desktop_file_dirs dir a &&
            !array_contains hb.2 a && !array_contains hb.1 a) = false := by
          rw [hh]
          simp
        rw [this]
        simp only [Bool.false_eq_true, if_false]
        exact ih hb
      · rw [if_neg hh]
        have hh' : array_contains hb.2 a = false := by
          simpa using hh
        have : (!desktop_file_dir_app_name_is_masked desktop_file_dirs dir a &&
            !array_contains hb.2 a && !array_contains hb.1 a) = true := by
          rw [hc1, hc2, hh']
          rfl
        rw [this]
        simp only [if_true]
        rw [ih]
        simp
    · rw [List.filter_cons, if_neg hc]
      have : (!desktop_file_dir_app_name_is_masked desktop_file_dirs dir a &&
          !array_contains hb.2 a && !array_contains hb.1 a) = false := by
        have hc' : (!desktop_file_dir_app_name_is_masked desktop_file_dirs dir a &&
            !array_contains hb.1 a) = false := by
          simpa using hc
        cases h1 : desktop_file_dir_app_name_is_masked desktop_file_dirs dir a <;>
          cases h2 : array_contains hb.1 a <;> cases h3 : array_contains hb.2 a <;>
          simp_all
      rw [this]
      simp only [Bool.false_eq_true, if_false]
      exact ih hb

theorem mime_lookup_eq (desktop_file_dirs : List DesktopFileDir) (dir : Nat)
    (mime_type : String) (hb : List String × List String) :
    desktop_file_dir_unindexed_mime_lookup desktop_file_dirs dir mime_type hb =
      mime_lookup_removals desktop_file_dirs dir
        (removals_for desktop_file_dirs dir mime_type)
        (mime_lookup_additions desktop_file_dirs dir
          (additions_for desktop_file_dirs dir mime_type) hb) := by
  unfold desktop_file_dir_unindexed_mime_lookup additions_for removals_for
  cases ht : desktop_file_dir_tweaks desktop_file_dirs dir mime_type with
  | none => simp [mime_lookup_additions, mime_lookup_removals]
  | some tweaks =>
    simp only [Option.some_bind]
    cases ha : tweaks.additions with
    | none =>
      cases hr : tweaks.removals with
      | none => simp [mime_lookup_additions, mime_lookup_removals]
      | some removals => simp [mime_lookup_additions]
    | some additions =>
      cases hr : tweaks.removals with
      | none => simp [mime_lookup_removals]
      | some removals => simp

theorem mime_lookup_dirs_succ (desktop_file_dirs : List DesktopFileDir) (mime_type : String)
    (n : Nat) (hb : List String × List String) :
    mime_lookup_dirs desktop_file_dirs mime_type (n + 1) hb =
      desktop_file_dir_unindexed_mime_lookup desktop_file_dirs n mime_type
        (mime_lookup_dirs desktop_file_dirs mime_type n hb) := by
  unfold mime_lookup_dirs
  rw [List.range_succ, List.foldl_append]
  rfl

/-! ## Type associations: along the chain -/

theorem mime_lookup_hits (desktop_file_dirs : List DesktopFileDir) (dir : Nat)
    (mime_type : String) (hb : List String × List String) :
    (desktop_file_dir_unindexed_mime_lookup desktop_file_dirs dir mime_type hb).1 =
      hb.1 ++ first_occurrences hb.1
        ((additions_for desktop_file_dirs dir mime_type).filter (fun x =>
          !desktop_file_dir_app_name_is_masked desktop_file_dirs dir x &&
            !array_contains hb.2 x)) := by
  rw [mime_lookup_eq, mime_lookup_removals_eq, mime_lookup_additions_eq]

theorem mime_lookup_blocklist (desktop_file_dirs : List DesktopFileDir) (dir : Nat)
    (mime_type : String) (hb : List String × List String) :
    (desktop_file_dir_unindexed_mime_lookup desktop_file_dirs dir mime_type hb).2 =
      hb.2 ++ first_occurrences hb.2
        ((removals_for desktop_file_dirs dir mime_type).filter (fun x =>
          !desktop_file_dir_app_name_is_masked desktop_file_dirs dir x &&
            !array_contains
              (desktop_file_dir_unindexed_mime_lookup desktop_file_dirs dir mime_type hb).1
              x)) := by
  rw [mime_lookup_hits, mime_lookup_eq, mime_lookup_removals_eq, mime_lookup_additions_eq]

theorem mem_mime_lookup_hits (desktop_file_dirs : List DesktopFileDir) (dir : Nat)
    (mime_type : String) (hb : List String × List String) (x : String) :
    x ∈ (desktop_file_dir_unindexed_mime_lookup desktop_file_dirs dir mime_type hb).1 ↔
      x ∈ hb.1 ∨ (x ∈ additions_for desktop_file_dirs dir mime_type ∧
        desktop_file_dir_app_name_is_masked desktop_file_dirs dir x = false ∧ x ∉ hb.2) := by
  rw [mime_lookup_hits, List.mem_append, mem_first_occurrences, List.mem_filter]
  simp only [Bool.and_eq_true, Bool.not_eq_true', array_contains_eq_false_iff]
  constructor
  · rintro (h | ⟨⟨h1, h2, h3⟩, _⟩)
    · exact Or.inl h
    · exact Or.inr ⟨h1, h2, h3⟩
  · rintro (h | ⟨h1, h2, h3⟩)
    · exact Or.inl h
    · by_cases hx : x ∈ hb.1
      · exact Or.inl hx
      · exact Or.inr ⟨⟨h1, h2, h3⟩, hx⟩

theorem mem_mime_lookup_blocklist (desktop_file_dirs : List DesktopFileDir) (dir : Nat)
    (mime_type : String) (hb : List String × List String) (x : String) :
    x ∈ (desktop_file_dir_unindexed_mime_lookup desktop_file_dirs dir mime_type hb).2 ↔
      x ∈ hb.2 ∨ (x ∈ removals_for desktop_file_dirs dir mime_type ∧
        desktop_file_dir_app_name_is_masked desktop_file_dirs dir x = false ∧
        x ∉ (desktop_file_dir_unindexed_mime_lookup desktop_file_dirs dir mime_type hb).1) := by
  rw [mime_lookup_blocklist, List.mem_append, mem_first_occurrences, List.mem_filter]
  simp only [Bool.and_eq_true, Bool.not_eq_true', array_contains_eq_false_iff]
  constructor
  · rintro (h | ⟨⟨h1, h2, h3⟩, _⟩)
    · exact Or.inl h
    · exact Or.inr ⟨h1, h2, h3⟩
  · rintro (h | ⟨h1, h2, h3⟩)
    · exact Or.inl h
    · by_cases hx : x ∈ hb.2
      · exact Or.inl hx
      · exact Or.inr ⟨⟨h1, h2, h3⟩, hx⟩

theorem is_masked_false_mono (desktop_file_dirs : List DesktopFileDir) (dir dir' : Nat)
    (app_name : String) (hle : dir ≤ dir')
    (h : desktop_file_dir_app_name_is_masked desktop_file_dirs dir' app_name = false) :
    desktop_file_dir_app_name_is_masked desktop_file_dirs dir app_name = false := by
  cases hm : desktop_file_dir_app_name_is_masked desktop_file_dirs dir app_name with
  | false => rfl
  | true =>
    rw [is_masked_mono desktop_file_dirs dir dir' app_name hle hm] at h
    exact absurd h (by simp)

theorem addedBefore_mono (desktop_file_dirs : List DesktopFileDir) (mime_type : String)
    (n m : Nat) (x : String) (hnm : n ≤ m)
    (h : AddedBefore desktop_file_dirs mime_type n x) :
    AddedBefore desktop_file_dirs mime_type m x := by
  obtain ⟨d, hd, h1, h2, h3⟩ := h
  exact ⟨d, by omega, h1, h2, h3⟩

/-- The hits and the blocklist after the first `n` records of the chain, started empty. -/
theorem mime_lookup_dirs_mem (desktop_file_dirs : List DesktopFileDir) (mime_type : String)
    (x : String) :
    ∀ n,
      (x ∈ (mime_lookup_dirs desktop_file_dirs mime_type n ([], [])).1 ↔
        AddedBefore desktop_file_dirs mime_type n x) ∧
      (x ∈ (mime_lookup_dirs desktop_file_dirs mime_type n ([], [])).2 ↔
        RemovedBefore desktop_file_dirs mime_type n x) := by
  intro n
  induction n with
  | zero =>
    constructor
    · simp [mime_lookup_dirs, AddedBefore]
    · simp [mime_lookup_dirs, RemovedBefore]
  | succ n ih =>
    obtain ⟨ihh, ihb⟩ := ih
    have hhits : x ∈ (mime_lookup_dirs desktop_file_dirs mime_type (n + 1) ([], [])).1 ↔
        AddedBefore desktop_file_dirs mime_type (n + 1) x := by
      rw [mime_lookup_dirs_succ, mem_mime_lookup_hits, ihh, ihb]
      constructor
      · rintro (h | ⟨h1, h2, h3⟩)
        · exact addedBefore_mono _ _ n (n + 1) x (by omega) h
        · by_cases hadd : AddedBefore desktop_file_dirs mime_type n x
          · exact addedBefore_mono _ _ n (n + 1) x (by omega) hadd
          · refine ⟨n, by omega, h1, h2, ?_⟩
            intro h hh hrem
            exact h3 ⟨h, hh, hrem, is_masked_false_mono _ h n x (by omega) h2,
              fun hc => hadd (addedBefore_mono _ _ (h + 1) n x (by omega) hc)⟩
      · rintro ⟨d, hd, h1, h2, h3⟩
        by_cases hdn : d = n
        · subst hdn
          right
          refine ⟨h1, h2, ?_⟩
          rintro ⟨h, hh, hrem, _, _⟩
          exact h3 h hh hrem
        · exact Or.inl ⟨d, by omega, h1, h2, h3⟩
    refine ⟨hhits, ?_⟩
    rw [mime_lookup_dirs_succ, mem_mime_lookup_blocklist, ← mime_lookup_dirs_succ, hhits, ihb]
    constructor
    · rintro (⟨h, hh, h1, h2, h3⟩ | ⟨h1, h2, h3⟩)
      · exact ⟨h, by omega, h1, h2, h3⟩
      · exact ⟨n, by omega, h1, h2, h3⟩
    · rintro ⟨h, hh, h1, h2, h3⟩
      by_cases hhn : h = n
      · subst hhn
        exact Or.inr ⟨h1, h2, h3⟩
      · exact Or.inl ⟨h, by omega, h1, h2, h3⟩

theorem removedBefore_mono (desktop_file_dirs : List DesktopFileDir) (mime_type : String)
    (n m : Nat) (x : String) (hnm : n ≤ m)
    (h : RemovedBefore desktop_file_dirs mime_type n x) :
    RemovedBefore desktop_file_dirs mime_type m x := by
  obtain ⟨d, hd, h1, h2, h3⟩ := h
  exact ⟨d, by omega, h1, h2, h3⟩

theorem removals_for_lt_length (desktop_file_dirs : List DesktopFileDir) (mime_type : String)
    (h : Nat) (x : String) (hx : x ∈ removals_for desktop_file_dirs h mime_type) :
    h < desktop_file_dirs.length := by
  by_contra hcon
  unfold removals_for desktop_file_dir_tweaks at hx
  rw [List.getElem?_eq_none (by omega)] at hx
  simp at hx

theorem additions_for_lt_length (desktop_file_dirs : List DesktopFileDir) (mime_type : String)
    (d : Nat) (x : String) (hx : x ∈ additions_for desktop_file_dirs d mime_type) :
    d < desktop_file_dirs.length := by
  by_contra hcon
  unfold additions_for desktop_file_dir_tweaks at hx
  rw [List.getElem?_eq_none (by omega)] at hx
  simp at hx

theorem get_desktop_ids_exact (env : Env) (fuel : Nat) (desktop_file_dirs : List DesktopFileDir)
    (content_type : String) :
    g_desktop_app_info_get_desktop_ids_for_content_type env fuel desktop_file_dirs
        content_type false =
      some (mime_lookup_dirs desktop_file_dirs (env.g_unix_content_type_unalias content_type)
        desktop_file_dirs.length ([], [])).1 := by
  simp [g_desktop_app_info_get_desktop_ids_for_content_type, get_list_of_mimetypes,
    mime_lookup_types]

/-- After the record `H` that removes `x`, no later record adds `x` to the hits. -/
theorem hits_after_removal (desktop_file_dirs : List DesktopFileDir) (mime_type : String)
    (H : Nat) (x : String)
    (hstate : x ∈ (mime_lookup_dirs desktop_file_dirs mime_type (H + 1) ([], [])).2 ∨
      x ∈ (mime_lookup_dirs desktop_file_dirs mime_type (H + 1) ([], [])).1 ∨
      desktop_file_dir_app_name_is_masked desktop_file_dirs H x = true) :
    ∀ m, ∃ rest,
      (mime_lookup_dirs desktop_file_dirs mime_type (H + 1 + m) ([], [])).1 =
        (mime_lookup_dirs desktop_file_dirs mime_type (H + 1) ([], [])).1 ++ rest ∧
      x ∉ rest := by
  intro m
  induction m with
  | zero => exact ⟨[], by simp, by simp⟩
  | succ m ih =>
    obtain ⟨rest, hrest, hx⟩ := ih
    have hstep : H + 1 + (m + 1) = (H + 1 + m) + 1 := by omega
    rw [hstep, mime_lookup_dirs_succ, mime_lookup_hits, hrest, List.append_assoc]
    refine ⟨_, rfl, ?_⟩
    rw [List.mem_append]
    rintro (hm | hm)
    · exact hx hm
    · rw [mem_first_occurrences, List.mem_filter] at hm
      obtain ⟨⟨_, hc⟩, hnot⟩ := hm
      simp only [Bool.and_eq_true, Bool.not_eq_true', array_contains_eq_false_iff] at hc
      obtain ⟨hmask, hbl⟩ := hc
      rcases hstate with h | h | h
      · apply hbl
        rw [(mime_lookup_dirs_mem desktop_file_dirs mime_type x (H + 1 + m)).2]
        exact removedBefore_mono _ _ (H + 1) _ x (by omega)
          ((mime_lookup_dirs_mem desktop_file_dirs mime_type x (H + 1)).2.mp h)
      · apply hnot
        rw [← hrest, (mime_lookup_dirs_mem desktop_file_dirs mime_type x (H + 1 + m)).1]
        exact addedBefore_mono _ _ (H + 1) _ x (by omega)
          ((mime_lookup_dirs_mem desktop_file_dirs mime_type x (H + 1)).1.mp h)
      · rw [is_masked_mono desktop_file_dirs H (H + 1 + m) x (by omega) h] at hmask
        exact absurd hmask (by simp)

/-- C9: in the id resolution at the exact type, when the record `H` lists `x` in its
removals for the type, then after `H` is processed `x` is blocklisted, or already a hit
(from `H` or a record before it), or masked in `H` and so in every later record; and the
hits that the records after `H` add never contain `x`: the final id list is the list of
hits after `H` followed by ids other than `x`. -/
theorem removal_blocks_later_additions (env : Env) (fuel : Nat)
    (desktop_file_dirs : List DesktopFileDir) (content_type : String) (H : Nat) (x : String)
    (hrem : x ∈ removals_for desktop_file_dirs H
      (env.g_unix_content_type_unalias content_type)) :
    (x ∈ (mime_lookup_dirs desktop_file_dirs (env.g_unix_content_type_unalias content_type)
          (H + 1) ([], [])).2 ∨
      x ∈ (mime_lookup_dirs desktop_file_dirs (env.g_unix_content_type_unalias content_type)
          (H + 1) ([], [])).1 ∨
      desktop_file_dir_app_name_is_masked desktop_file_dirs H x = true) ∧
    (desktop_file_dir_app_name_is_masked desktop_file_dirs H x = true →
      ∀ d, H ≤ d → desktop_file_dir_app_name_is_masked desktop_file_dirs d x = true) ∧
    (∀ n, H + 1 ≤ n → ∃ rest,
      (mime_lookup_dirs desktop_file_dirs (env.g_unix_content_type_unalias content_type)
          n ([], [])).1 =
        (mime_lookup_dirs desktop_file_dirs (env.g_unix_content_type_unalias content_type)
          (H + 1) ([], [])).1 ++ rest ∧
      x ∉ rest) ∧
    ∃ rest,
      g_desktop_app_info_get_desktop_ids_for_content_type env fuel desktop_file_dirs
          content_type false =
        some ((mime_lookup_dirs desktop_file_dirs
          (env.g_unix_content_type_unalias content_type) (H + 1) ([], [])).1 ++ rest) ∧
      x ∉ rest := by
  have hstate : x ∈ (mime_lookup_dirs desktop_file_dirs
        (env.g_unix_content_type_unalias content_type) (H + 1) ([], [])).2 ∨
      x ∈ (mime_lookup_dirs desktop_file_dirs (env.g_unix_content_type_unalias content_type)
          (H + 1) ([], [])).1 ∨
      desktop_file_dir_app_name_is_masked desktop_file_dirs H x = true := by
    rw [(mime_lookup_dirs_mem desktop_file_dirs _ x (H + 1)).1,
      (mime_lookup_dirs_mem desktop_file_dirs _ x (H + 1)).2]
    cases hm : desktop_file_dir_app_name_is_masked desktop_file_dirs H x with
    | true => exact Or.inr (Or.inr rfl)
    | false =>
      by_cases hadd : AddedBefore desktop_file_dirs
          (env.g_unix_content_type_unalias content_type) (H + 1) x
      · exact Or.inr (Or.inl hadd)
      · exact Or.inl ⟨H, by omega, hrem, hm, hadd⟩
  have hlater := hits_after_removal desktop_file_dirs
    (env.g_unix_content_type_unalias content_type) H x hstate
  refine ⟨hstate, ?_, ?_, ?_⟩
  · intro hm d hd
    exact is_masked_mono desktop_file_dirs H d x hd hm
  · intro n hn
    obtain ⟨rest, h1, h2⟩ := hlater (n - (H + 1))
    have : H + 1 + (n - (H + 1)) = n := by omega
    rw [this] at h1
    exact ⟨rest, h1, h2⟩
  · have hlen := removals_for_lt_length desktop_file_dirs _ H x hrem
    obtain ⟨rest, h1, h2⟩ := hlater (desktop_file_dirs.length - (H + 1))
    have : H + 1 + (desktop_file_dirs.length - (H + 1)) = desktop_file_dirs.length := by
      omega
    rw [this] at h1
    refine ⟨rest, ?_, h2⟩
    rw [get_desktop_ids_exact, h1]

/-- C9 on the scenario of the specification: the first record removes `geany.desktop`, the
second adds it, and it is not among the ids. -/
theorem removal_blocks_later_additions_witness :
    "geany.desktop" ∈ removals_for assoc_dirs 0 (assoc_env.g_unix_content_type_unalias "T") ∧
    ((  "geany.desktop" ∈ (mime_lookup_dirs assoc_dirs
          (assoc_env.g_unix_content_type_unalias "T") (0 + 1) ([], [])).2 ∨
      "geany.desktop" ∈ (mime_lookup_dirs assoc_dirs
          (assoc_env.g_unix_content_type_unalias "T") (0 + 1) ([], [])).1 ∨
      desktop_file_dir_app_name_is_masked assoc_dirs 0 "geany.desktop" = true) ∧
    (desktop_file_dir_app_name_is_masked assoc_dirs 0 "geany.desktop" = true →
      ∀ d, 0 ≤ d → desktop_file_dir_app_name_is_masked assoc_dirs d "geany.desktop" = true) ∧
    (∀ n, 0 + 1 ≤ n → ∃ rest,
      (mime_lookup_dirs assoc_dirs (assoc_env.g_unix_content_type_unalias "T")
          n ([], [])).1 =
        (mime_lookup_dirs assoc_dirs (assoc_env.g_unix_content_type_unalias "T")
          (0 + 1) ([], [])).1 ++ rest ∧
      "geany.desktop" ∉ rest) ∧
    ∃ rest,
      g_desktop_app_info_get_desktop_ids_for_content_type assoc_env 0 assoc_dirs "T" false =
        some ((mime_lookup_dirs assoc_dirs
          (assoc_env.g_unix_content_type_unalias "T") (0 + 1) ([], [])).1 ++ rest) ∧
      "geany.desktop" ∉ rest) ∧
    "geany.desktop" ∈ additions_for assoc_dirs 1 "T" ∧
    g_desktop_app_info_get_desktop_ids_for_content_type assoc_env 0 assoc_dirs "T" false =
      some ["firefox.desktop", "emacs.desktop"] :=
  ⟨by decide,
    removal_blocks_later_additions assoc_env 0 assoc_dirs "T" 0 "geany.desktop" (by decide),
    by decide, by decide⟩

/-! ## The recommended id list -/

theorem first_occurrences_filter_sublist (good : String → Bool) (l : List String) :
    ∀ (seen1 seen2 : List String), (∀ y, good y = true → y ∈ seen2 → y ∈ seen1) →
      (first_occurrences seen1 (l.filter good)).Sublist (first_occurrences seen2 l) := by
  induction l with
  | nil =>
    intro seen1 seen2 _
    simp [first_occurrences]
  | cons a l ih =>
    intro seen1 seen2 h
    rw [List.filter_cons]
    by_cases hg : good a = true
    · rw [if_pos hg, first_occurrences, first_occurrences]
      by_cases h1 : array_contains seen1 a = true
      · rw [if_pos h1]
        by_cases h2 : array_contains seen2 a = true
        · rw [if_pos h2]
          exact ih seen1 seen2 h
        · rw [if_neg h2]
          apply List.Sublist.cons
          apply ih
          intro y hy hm
          rw [List.mem_append, List.mem_singleton] at hm
          rcases hm with hm | hm
          · exact h y hy hm
          · rw [hm]
            exact (array_contains_iff _ _).mp h1
      · rw [if_neg h1]
        have h2 : ¬ array_contains seen2 a = true := by
          intro hc
          exact h1 ((array_contains_iff _ _).mpr (h a hg ((array_contains_iff _ _).mp hc)))
        rw [if_neg h2]
        apply List.Sublist.cons₂
        apply ih
        intro y hy hm
        rw [List.mem_append, List.mem_singleton] at hm ⊢
        rcases hm with hm | hm
        · exact Or.inl (h y hy hm)
        · exact Or.inr hm
    · rw [if_neg hg, first_occurrences]
      by_cases h2 : array_contains seen2 a = true
      · rw [if_pos h2]
        exact ih seen1 seen2 h
      · rw [if_neg h2]
        apply List.Sublist.cons
        apply ih
        intro y hy hm
        rw [List.mem_append, List.mem_singleton] at hm
        rcases hm with hm | hm
        · exact h y hy hm
        · rw [hm] at hy
          exact absurd hy hg

theorem first_occurrences_sublist (l : List String) :
    ∀ (seen : List String), (first_occurrences seen l).Sublist l := by
  induction l with
  | nil =>
    intro seen
    simp [first_occurrences]
  | cons a l ih =>
    intro seen
    rw [first_occurrences]
    split
    · exact List.Sublist.cons _ (ih seen)
    · exact List.Sublist.cons₂ _ (ih _)

theorem sublist_eq_filter {α : Type} (p : α → Bool) (L M : List α) (hsub : L.Sublist M) :
    M.Nodup → (∀ x, x ∈ L ↔ x ∈ M ∧ p x = true) → L = M.filter p := by
  induction hsub with
  | slnil =>
    intro _ _
    rfl
  | @cons L M a hsub ih =>
    intro hnd hmem
    rw [List.nodup_cons] at hnd
    have hpa : ¬ p a = true := by
      intro hc
      have : a ∈ L := (hmem a).mpr ⟨List.mem_cons_self _ _, hc⟩
      exact hnd.1 (hsub.subset this)
    rw [List.filter_cons, if_neg hpa]
    apply ih hnd.2
    intro x
    constructor
    · intro hx
      exact ⟨hsub.subset hx, ((hmem x).mp hx).2⟩
    · rintro ⟨hx, hp⟩
      exact (hmem x).mpr ⟨List.mem_cons_of_mem _ hx, hp⟩
  | @cons₂ L M a hsub ih =>
    intro hnd hmem
    rw [List.nodup_cons] at hnd
    have hpa : p a = true := ((hmem a).mp (List.mem_cons_self _ _)).2
    rw [List.filter_cons, if_pos hpa]
    congr 1
    apply ih hnd.2
    intro x
    constructor
    · intro hx
      exact ⟨hsub.subset hx, ((hmem x).mp (List.mem_cons_of_mem _ hx)).2⟩
    · rintro ⟨hx, hp⟩
      have := (hmem x).mpr ⟨List.mem_cons_of_mem _ hx, hp⟩
      rw [List.mem_cons] at this
      rcases this with h | h
      · rw [h] at hx
        exact absurd hx hnd.1
      · exact h

theorem addition_candidates_succ (desktop_file_dirs : List DesktopFileDir)
    (mime_type : String) (n : Nat) :
    addition_candidates desktop_file_dirs mime_type (n + 1) =
      addition_candidates desktop_file_dirs mime_type n ++
        additions_for desktop_file_dirs n mime_type := by
  unfold addition_candidates
  rw [List.range_succ, List.flatMap_append]
  simp

theorem mem_addition_candidates (desktop_file_dirs : List DesktopFileDir)
    (mime_type : String) (n : Nat) (x : String) :
    x ∈ addition_candidates desktop_file_dirs mime_type n ↔
      ∃ d, d < n ∧ x ∈ additions_for desktop_file_dirs d mime_type := by
  unfold addition_candidates
  rw [List.mem_flatMap]
  constructor
  · rintro ⟨d, hd, hx⟩
    exact ⟨d, List.mem_range.mp hd, hx⟩
  · rintro ⟨d, hd, hx⟩
    exact ⟨d, List.mem_range.mpr hd, hx⟩

/-- A candidate that is neither masked in the record `n` nor blocklisted before it is
already a hit. -/
theorem candidate_is_hit (desktop_file_dirs : List DesktopFileDir) (mime_type : String)
    (n : Nat) (y : String)
    (hmask : desktop_file_dir_app_name_is_masked desktop_file_dirs n y = false)
    (hbl : ¬ RemovedBefore desktop_file_dirs mime_type n y)
    (hcand : y ∈ addition_candidates desktop_file_dirs mime_type n) :
    AddedBefore desktop_file_dirs mime_type n y := by
  by_contra hadd
  obtain ⟨d, hd, hy⟩ := (mem_addition_candidates _ _ _ _).mp hcand
  have hmd := is_masked_false_mono desktop_file_dirs d n y (by omega) hmask
  have hex : ∃ h, h < d ∧ y ∈ removals_for desktop_file_dirs h mime_type := by
    by_contra hne
    apply hadd
    refine ⟨d, hd, hy, hmd, ?_⟩
    intro h hh hr
    exact hne ⟨h, hh, hr⟩
  obtain ⟨h, hh, hr⟩ := hex
  apply hbl
  refine ⟨h, by omega, hr, is_masked_false_mono desktop_file_dirs h n y (by omega) hmask, ?_⟩
  intro hc
  exact hadd (addedBefore_mono _ _ (h + 1) n y (by omega) hc)

theorem hits_sublist_candidates (desktop_file_dirs : List DesktopFileDir)
    (mime_type : String) :
    ∀ n, ((mime_lookup_dirs desktop_file_dirs mime_type n ([], [])).1).Sublist
      (first_occurrences [] (addition_candidates desktop_file_dirs mime_type n)) := by
  intro n
  induction n with
  | zero => simp [mime_lookup_dirs, addition_candidates, first_occurrences]
  | succ n ih =>
    rw [mime_lookup_dirs_succ, mime_lookup_hits, addition_candidates_succ,
      first_occurrences_append]
    apply List.Sublist.append ih
    apply first_occurrences_filter_sublist
    intro y hy hm
    simp only [Bool.and_eq_true, Bool.not_eq_true', array_contains_eq_false_iff] at hy
    rw [List.nil_append, mem_first_occurrences] at hm
    rw [(mime_lookup_dirs_mem desktop_file_dirs mime_type y n).1]
    apply candidate_is_hit desktop_file_dirs mime_type n y hy.1 _ hm.1
    rw [← (mime_lookup_dirs_mem desktop_file_dirs mime_type y n).2]
    exact hy.2

theorem find_range'_eq_some (p : Nat → Bool) (d : Nat) (hp : p d = true) :
    ∀ m s, s ≤ d → d < s + m → (∀ j, s ≤ j → j < d → p j = false) →
      (List.range' s m).find? p = some d := by
  intro m
  induction m with
  | zero =>
    intro s h1 h2 _
    omega
  | succ m ih =>
    intro s h1 h2 hbefore
    rw [List.range'_succ]
    by_cases hs : s = d
    · subst hs
      rw [List.find?_cons_of_pos _ hp]
    · rw [List.find?_cons_of_neg _ (by rw [hbefore s (Nat.le_refl _) (by omega)]; simp)]
      exact ih (s + 1) (by omega) (by omega) (fun j hj hjd => hbefore j (by omega) hjd)

theorem find_range_eq_some (p : Nat → Bool) (n d : Nat) (hd : d < n) (hp : p d = true)
    (hbefore : ∀ j, j < d → p j = false) : (List.range n).find? p = some d := by
  rw [List.range_eq_range']
  exact find_range'_eq_some p d hp n 0 (Nat.zero_le _) (by omega) (fun j _ hj => hbefore j hj)

/-- The least index below `n` at which `p` holds, when there is one. -/
theorem exists_first_index (p : Nat → Bool) :
    ∀ n, (∃ d, d < n ∧ p d = true) →
      ∃ d, d < n ∧ p d = true ∧ ∀ j, j < d → p j = false := by
  intro n
  induction n with
  | zero =>
    rintro ⟨d, hd, _⟩
    omega
  | succ n ih =>
    rintro ⟨d, hd, hp⟩
    by_cases hex : ∃ d', d' < n ∧ p d' = true
    · obtain ⟨d0, h0, h1, h2⟩ := ih hex
      exact ⟨d0, by omega, h1, h2⟩
    · have hdn : d = n := by
        by_contra hne
        exact hex ⟨d, by omega, hp⟩
      subst hdn
      refine ⟨d, hd, hp, ?_⟩
      intro j hj
      cases hpj : p j with
      | false => rfl
      | true => exact absurd ⟨j, hj, hpj⟩ hex

theorem find_range_cases (p : Nat → Bool) (n : Nat) :
    ((List.range n).find? p = none ∧ ∀ j, j < n → p j = false) ∨
    ∃ d, (List.range n).find? p = some d ∧ d < n ∧ p d = true ∧ ∀ j, j < d → p j = false := by
  by_cases hex : ∃ d, d < n ∧ p d = true
  · obtain ⟨d, hd, hp, hbefore⟩ := exists_first_index p n hex
    exact Or.inr ⟨d, find_range_eq_some p n d hd hp hbefore, hd, hp, hbefore⟩
  · left
    have hall : ∀ j, j < n → p j = false := by
      intro j hj
      cases hpj : p j with
      | false => rfl
      | true => exact absurd ⟨j, hj, hpj⟩ hex
    refine ⟨?_, hall⟩
    rw [List.find?_eq_none]
    intro j hj
    rw [hall j (List.mem_range.mp hj)]
    simp

/-- The condition `recommended_ok`, in words: there is a first record that lists `x` in
its additions with `x` not masked there, and no record before it lists `x` in its
removals. -/
theorem recommended_ok_iff (desktop_file_dirs : List DesktopFileDir) (mime_type : String)
    (x : String) :
    recommended_ok desktop_file_dirs mime_type x = true ↔
      ∃ d, (x ∈ additions_for desktop_file_dirs d mime_type ∧
          desktop_file_dir_app_name_is_masked desktop_file_dirs d x = false) ∧
        (∀ d', d' < d → ¬ (x ∈ additions_for desktop_file_dirs d' mime_type ∧
          desktop_file_dir_app_name_is_masked desktop_file_dirs d' x = false)) ∧
        ∀ h, h < d → x ∉ removals_for desktop_file_dirs h mime_type := by
  have hp : ∀ j, (array_contains (additions_for desktop_file_dirs j mime_type) x &&
      !desktop_file_dir_app_name_is_masked desktop_file_dirs j x) = true ↔
      (x ∈ additions_for desktop_file_dirs j mime_type ∧
        desktop_file_dir_app_name_is_masked desktop_file_dirs j x = false) := by
    intro j
    simp only [Bool.and_eq_true, Bool.not_eq_true', array_contains_iff]
  unfold recommended_ok
  rcases find_range_cases (fun d =>
      array_contains (additions_for desktop_file_dirs d mime_type) x &&
        !desktop_file_dir_app_name_is_masked desktop_file_dirs d x)
      desktop_file_dirs.length with ⟨hnone, hall⟩ | ⟨d, hsome, hd, hpd, hbefore⟩
  · rw [hnone]
    simp only [Bool.false_eq_true, false_iff]
    rintro ⟨d, hd, _, _⟩
    have hlt := additions_for_lt_length _ _ d x hd.1
    have := hall d hlt
    rw [(hp d).mpr hd] at this
    exact absurd this (by simp)
  · rw [hsome]
    simp only [List.all_eq_true, List.mem_range, Bool.not_eq_true',
      array_contains_eq_false_iff]
    constructor
    · intro hrem
      refine ⟨d, (hp d).mp hpd, ?_, hrem⟩
      intro d' hd' hc
      have := hbefore d' hd'
      simp only at this
      rw [(hp d').mpr hc] at this
      exact absurd this (by simp)
    · rintro ⟨d0, hd0, hfirst, hrem⟩
      have hdd : d = d0 := by
        rcases Nat.lt_trichotomy d d0 with h | h | h
        · exact absurd ((hp d).mp hpd) (hfirst d h)
        · exact h
        · have := hbefore d0 h
          simp only at this
          rw [(hp d0).mpr hd0] at this
          exact absurd this (by simp)
      rw [hdd]
      exact hrem

theorem recommended_ok_iff_added (desktop_file_dirs : List DesktopFileDir)
    (mime_type : String) (x : String) :
    recommended_ok desktop_file_dirs mime_type x = true ↔
      AddedBefore desktop_file_dirs mime_type desktop_file_dirs.length x := by
  rw [recommended_ok_iff]
  constructor
  · rintro ⟨d, hd, _, hrem⟩
    exact ⟨d, additions_for_lt_length _ _ d x hd.1, hd.1, hd.2, hrem⟩
  · rintro ⟨d, hd, hadd, hmask, hrem⟩
    obtain ⟨d0, h0, hp0, hb0⟩ := exists_first_index (fun j =>
      decide (x ∈ additions_for desktop_file_dirs j mime_type ∧
        desktop_file_dir_app_name_is_masked desktop_file_dirs j x = false))
      (d + 1) ⟨d, by omega, by simpa using ⟨hadd, hmask⟩⟩
    refine ⟨d0, by simpa using hp0, ?_, ?_⟩
    · intro d' hd' hc
      have := hb0 d' hd'
      simp only [decide_eq_false_iff_not] at this
      exact this hc
    · intro h hh
      exact hrem h (by omega)

/-- The id list for the exact type is the list of the specification. -/
theorem mime_lookup_dirs_eq_spec (desktop_file_dirs : List DesktopFileDir)
    (mime_type : String) :
    (mime_lookup_dirs desktop_file_dirs mime_type desktop_file_dirs.length ([], [])).1 =
      recommended_spec desktop_file_dirs mime_type := by
  unfold recommended_spec
  apply sublist_eq_filter _ _ _ (hits_sublist_candidates desktop_file_dirs mime_type _)
    (first_occurrences_nodup _ _)
  intro x
  rw [(mime_lookup_dirs_mem desktop_file_dirs mime_type x _).1, mem_first_occurrences,
    recommended_ok_iff_added]
  constructor
  · intro h
    refine ⟨⟨?_, by simp⟩, h⟩
    obtain ⟨d, hd, hadd, _, _⟩ := h
    exact (mem_addition_candidates _ _ _ _).mpr ⟨d, hd, hadd⟩
  · rintro ⟨_, h⟩
    exact h

/-- C10: the id list that `g_desktop_app_info_get_desktop_ids_for_content_type` computes
for the exact type (the recommended id list) is the list of the specification: in chain
order and without duplicates, the ids `x` for which the first record that lists `x` in its
additions for the type with `x` not masked there has no record of strictly higher
precedence that lists `x` in its removals for the type;
`g_app_info_get_recommended_for_type_impl` resolves these ids in this order; and in the
scenario of the specification the list is `firefox`, `emacs`. -/
theorem recommended_ids_spec :
    (∀ (env : Env) (fuel : Nat) (desktop_file_dirs : List DesktopFileDir)
        (content_type : String),
      g_desktop_app_info_get_desktop_ids_for_content_type env fuel desktop_file_dirs
          content_type false =
        some (recommended_spec desktop_file_dirs
          (env.g_unix_content_type_unalias content_type)) ∧
      (recommended_spec desktop_file_dirs
          (env.g_unix_content_type_unalias content_type)).Nodup ∧
      (recommended_spec desktop_file_dirs
          (env.g_unix_content_type_unalias content_type)).Sublist
        (addition_candidates desktop_file_dirs
          (env.g_unix_content_type_unalias content_type) desktop_file_dirs.length) ∧
      (∀ x, x ∈ recommended_spec desktop_file_dirs
            (env.g_unix_content_type_unalias content_type) ↔
          ∃ d, (x ∈ additions_for desktop_file_dirs d
                (env.g_unix_content_type_unalias content_type) ∧
              desktop_file_dir_app_name_is_masked desktop_file_dirs d x = false) ∧
            (∀ d', d' < d → ¬ (x ∈ additions_for desktop_file_dirs d'
                (env.g_unix_content_type_unalias content_type) ∧
              desktop_file_dir_app_name_is_masked desktop_file_dirs d' x = false)) ∧
            ∀ h, h < d → x ∉ removals_for desktop_file_dirs h
              (env.g_unix_content_type_unalias content_type)) ∧
      g_app_info_get_recommended_for_type_impl env fuel desktop_file_dirs content_type =
        some ((recommended_spec desktop_file_dirs
          (env.g_unix_content_type_unalias content_type)).filterMap
            (g_desktop_app_info_new env desktop_file_dirs))) ∧
    g_desktop_app_info_get_desktop_ids_for_content_type assoc_env 0 assoc_dirs "T" false =
      some ["firefox.desktop", "emacs.desktop"] ∧
    (g_app_info_get_recommended_for_type_impl assoc_env 0 assoc_dirs "T").map
        (fun infos => infos.map (fun info => info.desktop_id)) =
      some [some "firefox.desktop", some "emacs.desktop"] := by
  refine ⟨?_, by decide, by decide⟩
  intro env fuel desktop_file_dirs content_type
  have hids : g_desktop_app_info_get_desktop_ids_for_content_type env fuel desktop_file_dirs
      content_type false =
      some (recommended_spec desktop_file_dirs
        (env.g_unix_content_type_unalias content_type)) := by
    rw [get_desktop_ids_exact, mime_lookup_dirs_eq_spec]
  refine ⟨hids, ?_, ?_, ?_, ?_⟩
  · unfold recommended_spec
    exact List.Nodup.filter _ (first_occurrences_nodup _ _)
  · unfold recommended_spec
    exact List.Sublist.trans (List.filter_sublist _) (first_occurrences_sublist _ _)
  · intro x
    unfold recommended_spec
    rw [List.mem_filter, mem_first_occurrences, recommended_ok_iff]
    constructor
    · rintro ⟨_, h⟩
      exact h
    · intro h
      refine ⟨⟨?_, by simp⟩, h⟩
      obtain ⟨d, hd, _, _⟩ := h
      exact (mem_addition_candidates _ _ _ _).mpr
        ⟨d, additions_for_lt_length _ _ d x hd.1, hd.1⟩
  · unfold g_app_info_get_recommended_for_type_impl
    rw [hids]
    rfl


/-! ## The list of types walked with ancestors -/

/-- One pass over the parents of a type keeps the array as a prefix, keeps it duplicate
free, and adds only parents. -/
theorem parents_fold_spec (parents : List String) :
    ∀ array : List String,
      array <+: parents.foldl
          (fun array parent => if array_contains array parent then array else array ++ [parent])
          array ∧
      (array.Nodup → (parents.foldl
          (fun array parent => if array_contains array parent then array else array ++ [parent])
          array).Nodup) ∧
      ∀ x ∈ parents.foldl
          (fun array parent => if array_contains array parent then array else array ++ [parent])
          array, x ∈ array ∨ x ∈ parents := by
  induction parents with
  | nil =>
    intro array
    exact ⟨List.prefix_refl _, fun h => h, fun x hx => Or.inl hx⟩
  | cons p ps ih =>
    intro array
    simp only [List.foldl_cons]
    by_cases hc : array_contains array p = true
    · rw [if_pos hc]
      obtain ⟨h1, h2, h3⟩ := ih array
      refine ⟨h1, h2, fun x hx => ?_⟩
      rcases h3 x hx with h | h
      · exact Or.inl h
      · exact Or.inr (List.mem_cons_of_mem _ h)
    · rw [if_neg hc]
      obtain ⟨h1, h2, h3⟩ := ih (array ++ [p])
      have hnot : p ∉ array := by
        intro hp
        exact hc ((array_contains_iff array p).mpr hp)
      refine ⟨(List.prefix_append array [p]).trans h1, fun hnd => h2 ?_, fun x hx => ?_⟩
      · rw [List.nodup_append]
        refine ⟨hnd, List.nodup_singleton p, ?_⟩
        intro a ha hb
        rw [List.mem_singleton] at hb
        exact hnot (hb ▸ ha)
      · rcases h3 x hx with h | h
        · rcases List.mem_append.mp h with h | h
          · exact Or.inl h
          · rw [List.mem_singleton] at h
            exact Or.inr (h ▸ List.mem_cons_self _ _)
        · exact Or.inr (List.mem_cons_of_mem _ h)

/-- The walk of `get_list_of_mimetypes` ends within `universe_types.length + 1` steps when
the parents of every type of the finite set `universe_types` are in the set. -/
theorem get_list_of_mimetypes_loop_some (env : Env) (universe_types : List String)
    (hclosed : ∀ t ∈ universe_types, ∀ p ∈ env.g_unix_content_type_get_parents t,
      p ∈ universe_types) :
    ∀ (fuel i : Nat) (array : List String), array.Nodup →
      (∀ x ∈ array, x ∈ universe_types) → i ≤ array.length →
      universe_types.length + 1 ≤ fuel + i →
      ∃ types, get_list_of_mimetypes_loop env fuel i array = some types ∧ array <+: types := by
  intro fuel
  induction fuel with
  | zero =>
    intro i array hnd hsub hi hfuel
    have hlen : array.length ≤ universe_types.length :=
      (List.Nodup.subperm hnd hsub).length_le
    omega
  | succ fuel ih =>
    intro i array hnd hsub hi hfuel
    rw [get_list_of_mimetypes_loop]
    cases hget : array[i]? with
    | none => exact ⟨array, rfl, List.prefix_refl _⟩
    | some ty =>
      simp only []
      have hty : ty ∈ array := List.getElem?_mem hget
      obtain ⟨h1, h2, h3⟩ := parents_fold_spec (env.g_unix_content_type_get_parents ty) array
      have hsub' : ∀ x ∈ (env.g_unix_content_type_get_parents ty).foldl
          (fun array parent => if array_contains array parent then array else array ++ [parent])
          array, x ∈ universe_types := by
        intro x hx
        rcases h3 x hx with h | h
        · exact hsub x h
        · exact hclosed ty (hsub ty hty) x h
      have hlt : i < array.length := by
        rcases List.getElem?_eq_some_iff.mp hget with ⟨h, _⟩
        exact h
      have hlen := h1.length_le
      obtain ⟨types, ht, hp⟩ := ih (i + 1) _ (h2 hnd) hsub' (by omega) (by omega)
      exact ⟨types, ht, h1.trans hp⟩

/-- With enough fuel `get_list_of_mimetypes` returns a list that starts with the type
itself (after alias resolution). -/
theorem get_list_of_mimetypes_some (env : Env) (fuel : Nat) (content_type : String)
    (universe_types : List String) (hclosed : TypesClosed env universe_types content_type)
    (hfuel : universe_types.length < fuel) :
    ∃ rest, get_list_of_mimetypes env fuel content_type true =
      some (env.g_unix_content_type_unalias content_type :: rest) := by
  obtain ⟨hmem, hcl⟩ := hclosed
  obtain ⟨types, ht, hp⟩ := get_list_of_mimetypes_loop_some env universe_types hcl fuel 0
    [env.g_unix_content_type_unalias content_type] (List.nodup_singleton _)
    (by
      intro x hx
      rw [List.mem_singleton] at hx
      exact hx ▸ hmem)
    (Nat.zero_le _) (by omega)
  obtain ⟨rest, hrest⟩ := hp
  refine ⟨rest, ?_⟩
  simp only [get_list_of_mimetypes, if_true]
  rw [ht, ← hrest]
  rfl

/-- Looking a type up in more records only appends hits. -/
theorem mime_lookup_dirs_keeps_hits (desktop_file_dirs : List DesktopFileDir)
    (mime_type : String) (n : Nat) :
    ∀ hb : List String × List String,
      hb.1 <+: (mime_lookup_dirs desktop_file_dirs mime_type n hb).1 := by
  induction n with
  | zero =>
    intro hb
    simp [mime_lookup_dirs]
  | succ n ih =>
    intro hb
    rw [mime_lookup_dirs_succ, mime_lookup_hits]
    exact (ih hb).trans (List.prefix_append _ _)

/-- Looking more types up only appends hits. -/
theorem mime_lookup_types_keeps_hits (desktop_file_dirs : List DesktopFileDir)
    (types : List String) :
    ∀ hb : List String × List String,
      hb.1 <+: (mime_lookup_types desktop_file_dirs types hb).1 := by
  induction types with
  | nil =>
    intro hb
    simp [mime_lookup_types]
  | cons ty types ih =>
    intro hb
    have h := ih (mime_lookup_dirs desktop_file_dirs ty desktop_file_dirs.length hb)
    simp only [mime_lookup_types, List.foldl_cons] at h ⊢
    exact (mime_lookup_dirs_keeps_hits desktop_file_dirs ty _ hb).trans h

/-- With enough fuel both id lists exist and the list without ancestors is a prefix of the
list with ancestors. -/
theorem desktop_ids_recommended_first (env : Env) (fuel : Nat)
    (desktop_file_dirs : List DesktopFileDir)
    (content_type : String) (universe_types : List String)
    (hclosed : TypesClosed env universe_types content_type)
    (hfuel : universe_types.length < fuel) :
    ∃ recommended_ids all_ids,
      g_desktop_app_info_get_desktop_ids_for_content_type env fuel desktop_file_dirs
        content_type false = some recommended_ids ∧
      g_desktop_app_info_get_desktop_ids_for_content_type env fuel desktop_file_dirs
        content_type true = some all_ids ∧
      recommended_ids <+: all_ids := by
  obtain ⟨rest, hrest⟩ := get_list_of_mimetypes_some env fuel content_type universe_types
    hclosed hfuel
  refine ⟨_, (mime_lookup_types desktop_file_dirs
      (env.g_unix_content_type_unalias content_type :: rest) ([], [])).1,
    get_desktop_ids_exact env fuel desktop_file_dirs content_type, ?_, ?_⟩
  · simp only [g_desktop_app_info_get_desktop_ids_for_content_type, hrest, Option.map_some']
  · have h := mime_lookup_types_keeps_hits desktop_file_dirs rest
      (mime_lookup_dirs desktop_file_dirs (env.g_unix_content_type_unalias content_type)
        desktop_file_dirs.length ([], []))
    simp only [mime_lookup_types, List.foldl_cons] at h ⊢
    exact h

/-- An entry made by `g_desktop_app_info_new` carries the id it was asked for. -/
theorem g_desktop_app_info_new_desktop_id (env : Env) (desktop_file_dirs : List DesktopFileDir)
    (desktop_id : String) (info : GDesktopAppInfo)
    (h : g_desktop_app_info_new env desktop_file_dirs desktop_id = some info) :
    info.desktop_id = some desktop_id := by
  unfold g_desktop_app_info_new at h
  cases hf : (List.range desktop_file_dirs.length).findSome?
      (fun i => desktop_file_dir_get_app env desktop_file_dirs i desktop_id) with
  | none => simp [hf] at h
  | some appinfo =>
    simp only [hf] at h
    by_cases hh : appinfo.hidden = true
    · simp [hh] at h
    · simp only [hh] at h
      simp only [Bool.false_eq_true, if_false, Option.some.injEq] at h
      rw [← h]

/-- Filtering the arguments before `filterMap` is filtering the values after it, when the
two tests agree along the map. -/
theorem filterMap_filter_comm {α β : Type} (f : α → Option β) (p : α → Bool) (q : β → Bool)
    (h : ∀ a b, f a = some b → p a = q b) (l : List α) :
    (l.filter p).filterMap f = (l.filterMap f).filter q := by
  induction l with
  | nil => rfl
  | cons a l ih =>
    rw [List.filter_cons]
    cases hf : f a with
    | none =>
      rw [List.filterMap_cons_none hf]
      by_cases hp : p a = true
      · rw [if_pos hp, List.filterMap_cons_none hf, ih]
      · rw [if_neg hp, ih]
    | some b =>
      rw [List.filterMap_cons_some hf, List.filter_cons]
      have hpq := h a b hf
      by_cases hp : p a = true
      · rw [if_pos hp, if_pos (hpq ▸ hp), List.filterMap_cons_some hf, ih]
      · rw [if_neg hp, if_neg (hpq ▸ hp), ih]

/-! ## Recommended ⊆ all, fallback = all − recommended -/

/-- C11: for every type and every chain, once the walk over the ancestors has enough fuel
(the reachable part of the MIME database is finite), both id lists exist and every id of
the list computed without ancestor expansion is in the list computed with ancestor
expansion; the same holds for the entries that `recommended` and `all` return. -/
theorem recommended_ids_subset_all_ids (env : Env) (fuel : Nat)
    (desktop_file_dirs : List DesktopFileDir) (content_type : String)
    (universe_types : List String) (hclosed : TypesClosed env universe_types content_type)
    (hfuel : universe_types.length < fuel) :
    ∃ recommended_ids all_ids,
      g_desktop_app_info_get_desktop_ids_for_content_type env fuel desktop_file_dirs
        content_type false = some recommended_ids ∧
      g_desktop_app_info_get_desktop_ids_for_content_type env fuel desktop_file_dirs
        content_type true = some all_ids ∧
      (∀ id ∈ recommended_ids, id ∈ all_ids) ∧
      ∃ recommended all,
        g_app_info_get_recommended_for_type_impl env fuel desktop_file_dirs content_type =
          some recommended ∧
        g_app_info_get_all_for_type_impl env fuel desktop_file_dirs content_type = some all ∧
        ∀ info ∈ recommended, info ∈ all := by
  obtain ⟨recommended_ids, all_ids, hrec, hall, hpre⟩ :=
    desktop_ids_recommended_first env fuel desktop_file_dirs content_type universe_types
      hclosed hfuel
  refine ⟨recommended_ids, all_ids, hrec, hall, fun id hid => hpre.subset hid,
    recommended_ids.filterMap (g_desktop_app_info_new env desktop_file_dirs),
    all_ids.filterMap (g_desktop_app_info_new env desktop_file_dirs), ?_, ?_, ?_⟩
  · simp only [g_app_info_get_recommended_for_type_impl, hrec, Option.map_some']
  · simp only [g_app_info_get_all_for_type_impl, hall, Option.map_some']
  · intro info hinfo
    rw [List.mem_filterMap] at hinfo ⊢
    obtain ⟨id, hid, hnew⟩ := hinfo
    exact ⟨id, hpre.subset hid, hnew⟩

/-- C11 at the chain `parent_dirs`, where `P` is the parent of `T`. -/
theorem recommended_ids_subset_all_ids_witness :
    TypesClosed parent_env ["T", "P"] "T" ∧ ["T", "P"].length < 3 ∧
    g_desktop_app_info_get_desktop_ids_for_content_type parent_env 3 parent_dirs "T" true =
      some ["firefox.desktop", "emacs.desktop", "gedit.desktop"] ∧
    ∃ recommended_ids all_ids,
      g_desktop_app_info_get_desktop_ids_for_content_type parent_env 3 parent_dirs
        "T" false = some recommended_ids ∧
      g_desktop_app_info_get_desktop_ids_for_content_type parent_env 3 parent_dirs
        "T" true = some all_ids ∧
      (∀ id ∈ recommended_ids, id ∈ all_ids) ∧
      ∃ recommended all,
        g_app_info_get_recommended_for_type_impl parent_env 3 parent_dirs "T" =
          some recommended ∧
        g_app_info_get_all_for_type_impl parent_env 3 parent_dirs "T" = some all ∧
        ∀ info ∈ recommended, info ∈ all :=
  ⟨by decide, by decide, by decide,
    recommended_ids_subset_all_ids parent_env 3 parent_dirs "T" ["T", "P"]
      (by decide) (by decide)⟩

/-- C12: for every type and every chain, once the walk over the ancestors has enough fuel,
`fallback` resolves exactly the ids of the list with ancestors that are not on the
recommended id list, in the order of that list; it is the list of `all` without the
entries of `recommended`, and no id is both in `fallback` and in `recommended`. -/
theorem fallback_is_all_minus_recommended (env : Env) (fuel : Nat)
    (desktop_file_dirs : List DesktopFileDir) (content_type : String)
    (universe_types : List String) (hclosed : TypesClosed env universe_types content_type)
    (hfuel : universe_types.length < fuel) :
    ∃ recommended_ids all_ids recommended all fallback,
      g_desktop_app_info_get_desktop_ids_for_content_type env fuel desktop_file_dirs
        content_type false = some recommended_ids ∧
      g_desktop_app_info_get_desktop_ids_for_content_type env fuel desktop_file_dirs
        content_type true = some all_ids ∧
      g_app_info_get_recommended_for_type_impl env fuel desktop_file_dirs content_type =
        some recommended ∧
      g_app_info_get_all_for_type_impl env fuel desktop_file_dirs content_type = some all ∧
      g_app_info_get_fallback_for_type_impl env fuel desktop_file_dirs content_type =
        some fallback ∧
      fallback = (all_ids.filter (fun id => decide (id ∉ recommended_ids))).filterMap
        (g_desktop_app_info_new env desktop_file_dirs) ∧
      fallback = all.filter (fun info => decide (info ∉ recommended)) ∧
      ∀ info ∈ fallback, ∀ r ∈ recommended, info.desktop_id ≠ r.desktop_id := by
  obtain ⟨recommended_ids, all_ids, hrec, hall, _⟩ :=
    desktop_ids_recommended_first env fuel desktop_file_dirs content_type universe_types
      hclosed hfuel
  have hfilter : (fun id => !recommended_ids.any (fun r => decide (id = r))) =
      (fun id => decide (id ∉ recommended_ids)) := by
    funext id
    by_cases hid : id ∈ recommended_ids
    · simp [hid]
    · simp only [hid, not_false_eq_true, decide_True, Bool.not_eq_true', List.any_eq_false,
        decide_eq_true_eq]
      intro r hr heq
      exact hid (heq ▸ hr)
  have hfb : g_app_info_get_fallback_for_type_impl env fuel desktop_file_dirs content_type =
      some ((all_ids.filter (fun id => decide (id ∉ recommended_ids))).filterMap
        (g_desktop_app_info_new env desktop_file_dirs)) := by
    simp only [g_app_info_get_fallback_for_type_impl, hrec, hall, hfilter]
  refine ⟨recommended_ids, all_ids,
    recommended_ids.filterMap (g_desktop_app_info_new env desktop_file_dirs),
    all_ids.filterMap (g_desktop_app_info_new env desktop_file_dirs), _, hrec, hall, ?_, ?_,
    hfb, rfl, ?_, ?_⟩
  · simp only [g_app_info_get_recommended_for_type_impl, hrec, Option.map_some']
  · simp only [g_app_info_get_all_for_type_impl, hall, Option.map_some']
  · apply filterMap_filter_comm
    intro id info hnew
    have hid := g_desktop_app_info_new_desktop_id env desktop_file_dirs id info hnew
    by_cases hmem : id ∈ recommended_ids
    · have : info ∈ recommended_ids.filterMap (g_desktop_app_info_new env desktop_file_dirs) :=
        List.mem_filterMap.mpr ⟨id, hmem, hnew⟩
      simp [hmem, this]
    · have : info ∉ recommended_ids.filterMap (g_desktop_app_info_new env desktop_file_dirs) := by
        intro h
        obtain ⟨r, hr, hnew'⟩ := List.mem_filterMap.mp h
        have hr' := g_desktop_app_info_new_desktop_id env desktop_file_dirs r info hnew'
        rw [hid] at hr'
        exact hmem ((Option.some.inj hr') ▸ hr)
      simp [hmem, this]
  · intro info hinfo r hr heq
    obtain ⟨id, hid, hnew⟩ := List.mem_filterMap.mp hinfo
    obtain ⟨id', hid', hnew'⟩ := List.mem_filterMap.mp hr
    have h1 := g_desktop_app_info_new_desktop_id env desktop_file_dirs id info hnew
    have h2 := g_desktop_app_info_new_desktop_id env desktop_file_dirs id' r hnew'
    rw [h1, h2] at heq
    have hnot : id ∉ recommended_ids := by
      have := (List.mem_filter.mp hid).2
      simpa using this
    exact hnot ((Option.some.inj heq) ▸ hid')

/-- C12 at the chain `parent_dirs`: the fallback list is the entry of `gedit.desktop`. -/
theorem fallback_is_all_minus_recommended_witness :
    TypesClosed parent_env ["T", "P"] "T" ∧ ["T", "P"].length < 3 ∧
    (g_app_info_get_fallback_for_type_impl parent_env 3 parent_dirs "T").map
      (fun l => l.map (fun info => info.desktop_id)) = some [some "gedit.desktop"] ∧
    ∃ recommended_ids all_ids recommended all fallback,
      g_desktop_app_info_get_desktop_ids_for_content_type parent_env 3 parent_dirs
        "T" false = some recommended_ids ∧
      g_desktop_app_info_get_desktop_ids_for_content_type parent_env 3 parent_dirs
        "T" true = some all_ids ∧
      g_app_info_get_recommended_for_type_impl parent_env 3 parent_dirs "T" =
        some recommended ∧
      g_app_info_get_all_for_type_impl parent_env 3 parent_dirs "T" = some all ∧
      g_app_info_get_fallback_for_type_impl parent_env 3 parent_dirs "T" = some fallback ∧
      fallback = (all_ids.filter (fun id => decide (id ∉ recommended_ids))).filterMap
        (g_desktop_app_info_new parent_env parent_dirs) ∧
      fallback = all.filter (fun info => decide (info ∉ recommended)) ∧
      ∀ info ∈ fallback, ∀ r ∈ recommended, info.desktop_id ≠ r.desktop_id :=
  ⟨by decide, by decide, by decide,
    fallback_is_all_minus_recommended parent_env 3 parent_dirs "T" ["T", "P"]
      (by decide) (by decide)⟩

/-! ## Reading association files -/

/-- A loop of `desktop_file_dir_unindexed_read_mimeapps_list` leaves alone every vector
that its `expand_strv` call does not write. -/
theorem read_mimeapps_group_proj (env : Env) (key_file : GKeyFile) (group : String)
    (expand : UnindexedMimeTweaks → List String → UnindexedMimeTweaks)
    (proj : UnindexedMimeTweaks → Option (List String))
    (hzero : proj { additions := none, removals := none, defaults := none } = none)
    (hexpand : ∀ tweaks ids, proj (expand tweaks ids) = proj tweaks)
    (mime_types : List String) :
    ∀ (mime_tweaks : GHashTable UnindexedMimeTweaks) (ty : String),
      (g_hash_table_lookup
        (read_mimeapps_group env key_file group expand mime_types mime_tweaks) ty).bind proj =
      (g_hash_table_lookup mime_tweaks ty).bind proj := by
  induction mime_types with
  | nil =>
    intro mime_tweaks ty
    rfl
  | cons k ks ih =>
    intro mime_tweaks ty
    simp only [read_mimeapps_group, List.foldl_cons] at ih ⊢
    cases hl : key_file.get_string_list group k with
    | none => exact ih mime_tweaks ty
    | some ids =>
      simp only []
      rw [ih, g_hash_table_lookup_insert]
      by_cases hk : env.g_unix_content_type_unalias k = ty
      · rw [if_pos hk, Option.some_bind, hexpand, desktop_file_dir_unindexed_get_tweaks, hk]
        cases g_hash_table_lookup mime_tweaks ty with
        | none => simp [hzero]
        | some tweaks => rfl
      · rw [if_neg hk]

/-- A file read with `tweaks_permitted = FALSE` only goes through the loop of the
`Default Applications` group. -/
theorem read_mimeapps_list_not_permitted (env : Env)
    (mime_tweaks : GHashTable UnindexedMimeTweaks) (filename added_group : String) :
    desktop_file_dir_unindexed_read_mimeapps_list env mime_tweaks filename added_group false =
      (match env.g_key_file_load_from_file filename with
       | none => mime_tweaks
       | some key_file =>
         match key_file.get_keys DEFAULT_APPLICATIONS_GROUP with
         | none => mime_tweaks
         | some mime_types =>
           read_mimeapps_group env key_file DEFAULT_APPLICATIONS_GROUP expand_defaults
             mime_types mime_tweaks) := by
  unfold desktop_file_dir_unindexed_read_mimeapps_list
  cases env.g_key_file_load_from_file filename with
  | none => rfl
  | some key_file =>
    simp only []
    cases key_file.get_keys added_group <;>
      cases key_file.get_keys REMOVED_ASSOCIATIONS_GROUP <;>
      cases key_file.get_keys DEFAULT_APPLICATIONS_GROUP <;> simp

/-- A file read with `tweaks_permitted = FALSE` changes neither additions nor removals. -/
theorem read_mimeapps_list_not_permitted_proj (env : Env)
    (mime_tweaks : GHashTable UnindexedMimeTweaks) (filename added_group ty : String) :
    tweaks_additions (desktop_file_dir_unindexed_read_mimeapps_list env mime_tweaks filename
      added_group false) ty = tweaks_additions mime_tweaks ty ∧
    tweaks_removals (desktop_file_dir_unindexed_read_mimeapps_list env mime_tweaks filename
      added_group false) ty = tweaks_removals mime_tweaks ty := by
  rw [read_mimeapps_list_not_permitted]
  cases env.g_key_file_load_from_file filename with
  | none => exact ⟨rfl, rfl⟩
  | some key_file =>
    simp only []
    cases key_file.get_keys DEFAULT_APPLICATIONS_GROUP with
    | none => exact ⟨rfl, rfl⟩
    | some mime_types =>
      simp only []
      exact ⟨read_mimeapps_group_proj env key_file _ expand_defaults (fun t => t.additions)
          rfl (fun _ _ => rfl) mime_types mime_tweaks ty,
        read_mimeapps_group_proj env key_file _ expand_defaults (fun t => t.removals)
          rfl (fun _ _ => rfl) mime_types mime_tweaks ty⟩

/-- After the files of the current desktops no type has additions or removals. -/
theorem read_desktop_mimeapps_lists_proj (env : Env) (dir : DesktopFileDir) (ty : String) :
    tweaks_additions (read_desktop_mimeapps_lists env dir) ty = none ∧
    tweaks_removals (read_desktop_mimeapps_lists env dir) ty = none := by
  unfold read_desktop_mimeapps_lists
  have key : ∀ (desktops : List String) (mime_tweaks : GHashTable UnindexedMimeTweaks),
      tweaks_additions mime_tweaks ty = none ∧ tweaks_removals mime_tweaks ty = none →
      tweaks_additions (desktops.foldl (fun mime_tweaks desktop =>
        desktop_file_dir_unindexed_read_mimeapps_list env mime_tweaks
          (dir.path ++ "/" ++ desktop ++ "-mimeapps.list") ADDED_ASSOCIATIONS_GROUP false)
        mime_tweaks) ty = none ∧
      tweaks_removals (desktops.foldl (fun mime_tweaks desktop =>
        desktop_file_dir_unindexed_read_mimeapps_list env mime_tweaks
          (dir.path ++ "/" ++ desktop ++ "-mimeapps.list") ADDED_ASSOCIATIONS_GROUP false)
        mime_tweaks) ty = none := by
    intro desktops
    induction desktops with
    | nil =>
      intro mime_tweaks h
      exact h
    | cons d ds ih =>
      intro mime_tweaks h
      simp only [List.foldl_cons]
      apply ih
      obtain ⟨h1, h2⟩ := read_mimeapps_list_not_permitted_proj env mime_tweaks
        (dir.path ++ "/" ++ d ++ "-mimeapps.list") ADDED_ASSOCIATIONS_GROUP ty
      exact ⟨h1.trans h.1, h2.trans h.2⟩
  exact key _ [] ⟨rfl, rfl⟩

/-! ## What the association files of one directory leave in the tweaks -/

/-- C18: the user's `mimeapps.list` lists `a.desktop` for `T` under `Added Associations`
and under `Removed Associations`.  After `desktop_file_dir_unindexed_read_mimeapps_lists`
the id is in the additions and in the removals of `T`: the removals vector is still `NULL`
when the file is read, and `expand_strv` then takes the new list as it is, without looking
at the blocklist. -/
theorem expand_strv_first_removals_unfiltered :
    (desktop_file_dir_unindexed_read_mimeapps_lists add_remove_env config_dir).mime_tweaks =
      some [("T", { additions := some ["a.desktop"], removals := some ["a.desktop"],
                    defaults := none })] ∧
    expand_strv none ["a.desktop"] (some ["a.desktop"]) = some ["a.desktop"] ∧
    expand_strv (some []) ["a.desktop"] (some ["a.desktop"]) = some [] := by
  decide

/-- C19: the user's `mimeapps.list` lists `a.desktop` twice for `T` under
`Added Associations`.  After `desktop_file_dir_unindexed_read_mimeapps_lists` the additions
of `T` hold the id twice: the additions vector is still `NULL` when the file is read, and
`expand_strv` then takes the new list as it is, duplicates included; a vector that exists
already would take the id once. -/
theorem expand_strv_first_list_keeps_duplicates :
    (desktop_file_dir_unindexed_read_mimeapps_lists add_twice_env config_dir).mime_tweaks =
      some [("T", { additions := some ["a.desktop", "a.desktop"], removals := none,
                    defaults := none })] ∧
    expand_strv none ["a.desktop", "a.desktop"] none = some ["a.desktop", "a.desktop"] ∧
    expand_strv (some []) ["a.desktop", "a.desktop"] none = some ["a.desktop"] := by
  decide

/-- C20, as stated, fails: with the current desktop `GNOME`, the file `gnome-mimeapps.list`
of the user adds `a.desktop` for `T`, removes `c.desktop` and makes `b.desktop` the
default; after the association files are read the tweaks of `T` have no additions and no
removals, and the defaults are `b.desktop`. -/
theorem per_desktop_file_additions_not_read :
    get_lowercase_current_desktops gnome_env = ["gnome"] ∧
    (desktop_file_dir_unindexed_read_mimeapps_lists gnome_env config_dir).mime_tweaks =
      some [("T", { additions := none, removals := none, defaults := some ["b.desktop"] })] := by
  decide

/-- C20, amended: a per-environment associations file is read with
`tweaks_permitted = FALSE`, so it contributes only its `Default Applications` section:
reading it is the loop over that group alone, it leaves the additions and the removals of
every type as they were, and after all per-environment files of a directory no type has
additions or removals. -/
theorem per_desktop_file_gives_defaults_only (env : Env) (dir : DesktopFileDir)
    (mime_tweaks : GHashTable UnindexedMimeTweaks) (desktop ty : String) :
    desktop_file_dir_unindexed_read_mimeapps_list env mime_tweaks
        (dir.path ++ "/" ++ desktop ++ "-mimeapps.list") ADDED_ASSOCIATIONS_GROUP false =
      (match env.g_key_file_load_from_file (dir.path ++ "/" ++ desktop ++ "-mimeapps.list") with
       | none => mime_tweaks
       | some key_file =>
         match key_file.get_keys DEFAULT_APPLICATIONS_GROUP with
         | none => mime_tweaks
         | some mime_types =>
           read_mimeapps_group env key_file DEFAULT_APPLICATIONS_GROUP expand_defaults
             mime_types mime_tweaks) ∧
    tweaks_additions (desktop_file_dir_unindexed_read_mimeapps_list env mime_tweaks
        (dir.path ++ "/" ++ desktop ++ "-mimeapps.list") ADDED_ASSOCIATIONS_GROUP false) ty =
      tweaks_additions mime_tweaks ty ∧
    tweaks_removals (desktop_file_dir_unindexed_read_mimeapps_list env mime_tweaks
        (dir.path ++ "/" ++ desktop ++ "-mimeapps.list") ADDED_ASSOCIATIONS_GROUP false) ty =
      tweaks_removals mime_tweaks ty ∧
    tweaks_additions (read_desktop_mimeapps_lists env dir) ty = none ∧
    tweaks_removals (read_desktop_mimeapps_lists env dir) ty = none :=
  ⟨read_mimeapps_list_not_permitted env mime_tweaks _ _,
    (read_mimeapps_list_not_permitted_proj env mime_tweaks _ _ ty).1,
    (read_mimeapps_list_not_permitted_proj env mime_tweaks _ _ ty).2,
    (read_desktop_mimeapps_lists_proj env dir ty).1,
    (read_desktop_mimeapps_lists_proj env dir ty).2⟩

/-! ## The rewritten `mimeapps.list` -/

theorem added_ne_default : ADDED_ASSOCIATIONS_GROUP ≠ DEFAULT_APPLICATIONS_GROUP := by decide

theorem removed_ne_default : REMOVED_ASSOCIATIONS_GROUP ≠ DEFAULT_APPLICATIONS_GROUP := by decide

theorem removed_ne_added : REMOVED_ASSOCIATIONS_GROUP ≠ ADDED_ASSOCIATIONS_GROUP := by decide

/-- The first loop body writes only in the `Default Applications` group. -/
theorem update_default_applications_other (desktop_id : Option String) (state : GKeyFile × Nat)
    (content_type group : String) (hg : group ≠ DEFAULT_APPLICATIONS_GROUP) :
    (update_default_applications desktop_id state content_type).1.get_string_list group =
      state.1.get_string_list group ∧
    (update_default_applications desktop_id state content_type).1.get_keys group =
      state.1.get_keys group := by
  unfold update_default_applications
  simp only []
  split <;> simp [g_key_file_set_string, g_key_file_remove_key, hg]

/-- The second loop body writes only in the `Added Associations` group. -/
theorem update_added_associations_other (desktop_id : Option String) (state : GKeyFile × Nat)
    (content_type group : String) (hg : group ≠ ADDED_ASSOCIATIONS_GROUP) :
    (update_added_associations desktop_id state content_type).1.get_string_list group =
      state.1.get_string_list group ∧
    (update_added_associations desktop_id state content_type).1.get_keys group =
      state.1.get_keys group ∧
    (update_added_associations desktop_id state content_type).1.get_string group =
      state.1.get_string group := by
  unfold update_added_associations
  simp only []
  split <;> simp [g_key_file_set_string_list, g_key_file_remove_key, hg]

/-- The third loop body writes only in the `Removed Associations` group. -/
theorem update_removed_associations_other (desktop_id : Option String) (state : GKeyFile × Nat)
    (content_type group : String) (hg : group ≠ REMOVED_ASSOCIATIONS_GROUP) :
    (update_removed_associations desktop_id state content_type).1.get_string_list group =
      state.1.get_string_list group ∧
    (update_removed_associations desktop_id state content_type).1.get_keys group =
      state.1.get_keys group ∧
    (update_removed_associations desktop_id state content_type).1.get_string group =
      state.1.get_string group := by
  unfold update_removed_associations
  simp only []
  split <;> simp [g_key_file_set_string_list, g_key_file_remove_key, hg]

/-- The third loop body keeps the flags. -/
theorem update_removed_associations_flags (desktop_id : Option String) (state : GKeyFile × Nat)
    (content_type : String) :
    (update_removed_associations desktop_id state content_type).2 = state.2 := by
  unfold update_removed_associations
  simp only []
  split <;> rfl

/-- The key file of `update_mimeapps_list` for one type: the three loop bodies in turn. -/
theorem update_mimeapps_list_key_file_one (key_file : GKeyFile) (desktop_id : Option String)
    (content_type : String) (flags : Nat) :
    update_mimeapps_list_key_file key_file desktop_id (some content_type) flags =
      (update_removed_associations desktop_id
        (update_added_associations desktop_id
          (update_default_applications desktop_id (key_file, flags) content_type)
          content_type) content_type).1 := by
  simp [update_mimeapps_list_key_file]

/-- A list of `g_strdup` results whose first element is not `NULL` has a first string. -/
theorem reduceOption_ne_nil (list : List (Option String))
    (h : ((list.headD none).isNone) = false) : list.reduceOption ≠ [] := by
  cases list with
  | nil => simp at h
  | cons x rest =>
    cases x with
    | none => simp at h
    | some s => simp [List.reduceOption_cons_of_some]

/-- What a loop body of the second kind leaves under its key: no value and no key, or a
list that is not empty. -/
theorem update_added_associations_key (desktop_id : Option String) (state : GKeyFile × Nat)
    (content_type : String) :
    ((update_added_associations desktop_id state content_type).1.get_string_list
        ADDED_ASSOCIATIONS_GROUP content_type = none ∧
      content_type ∉ ((update_added_associations desktop_id state content_type).1.get_keys
        ADDED_ASSOCIATIONS_GROUP).getD []) ∨
    ∃ list, list ≠ [] ∧
      (update_added_associations desktop_id state content_type).1.get_string_list
        ADDED_ASSOCIATIONS_GROUP content_type = some list ∧
      content_type ∈ ((update_added_associations desktop_id state content_type).1.get_keys
        ADDED_ASSOCIATIONS_GROUP).getD [] := by
  unfold update_added_associations
  simp only []
  split
  · left
    refine ⟨by simp [g_key_file_remove_key], ?_⟩
    simp only [g_key_file_remove_key, if_true]
    cases state.1.get_keys ADDED_ASSOCIATIONS_GROUP <;> simp
  · rename_i hcond
    right
    simp only [Bool.or_eq_true, not_or, Bool.not_eq_true] at hcond
    refine ⟨_, reduceOption_ne_nil _ hcond.1, by simp [g_key_file_set_string_list], ?_⟩
    simp only [g_key_file_set_string_list, if_true]
    cases state.1.get_keys ADDED_ASSOCIATIONS_GROUP with
    | none => simp
    | some keys =>
      simp only []
      split <;> simp_all

/-- The same for the third loop body. -/
theorem update_removed_associations_key (desktop_id : Option String) (state : GKeyFile × Nat)
    (content_type : String) :
    ((update_removed_associations desktop_id state content_type).1.get_string_list
        REMOVED_ASSOCIATIONS_GROUP content_type = none ∧
      content_type ∉ ((update_removed_associations desktop_id state content_type).1.get_keys
        REMOVED_ASSOCIATIONS_GROUP).getD []) ∨
    ∃ list, list ≠ [] ∧
      (update_removed_associations desktop_id state content_type).1.get_string_list
        REMOVED_ASSOCIATIONS_GROUP content_type = some list ∧
      content_type ∈ ((update_removed_associations desktop_id state content_type).1.get_keys
        REMOVED_ASSOCIATIONS_GROUP).getD [] := by
  unfold update_removed_associations
  simp only []
  split
  · left
    refine ⟨by simp [g_key_file_remove_key], ?_⟩
    simp only [g_key_file_remove_key, if_true]
    cases state.1.get_keys REMOVED_ASSOCIATIONS_GROUP <;> simp
  · rename_i hcond
    right
    simp only [Bool.or_eq_true, not_or, Bool.not_eq_true] at hcond
    refine ⟨_, reduceOption_ne_nil _ hcond.1, by simp [g_key_file_set_string_list], ?_⟩
    simp only [g_key_file_set_string_list, if_true]
    cases state.1.get_keys REMOVED_ASSOCIATIONS_GROUP with
    | none => simp
    | some keys =>
      simp only []
      split <;> simp_all

/-! ## Removing an association, and lists that become empty -/

/-- C17: after any `update_mimeapps_list` call for the type `content_type` (any prior
document, any id or none, any flags), in the rewritten document the key `content_type` of
`Added Associations` either has no value and is not among the keys of the group, or holds
a list that is not empty; the same holds for `Removed Associations`.  A list that would be
empty is not stored: its key is removed. -/
theorem update_mimeapps_list_no_empty_list (key_file : GKeyFile) (desktop_id : Option String)
    (content_type : String) (flags : Nat) :
    (((update_mimeapps_list_key_file key_file desktop_id (some content_type) flags).get_string_list
          ADDED_ASSOCIATIONS_GROUP content_type = none ∧
        content_type ∉
          ((update_mimeapps_list_key_file key_file desktop_id (some content_type) flags).get_keys
            ADDED_ASSOCIATIONS_GROUP).getD []) ∨
      ∃ list, list ≠ [] ∧
        (update_mimeapps_list_key_file key_file desktop_id (some content_type) flags).get_string_list
          ADDED_ASSOCIATIONS_GROUP content_type = some list ∧
        content_type ∈
          ((update_mimeapps_list_key_file key_file desktop_id (some content_type) flags).get_keys
            ADDED_ASSOCIATIONS_GROUP).getD []) ∧
    (((update_mimeapps_list_key_file key_file desktop_id (some content_type) flags).get_string_list
          REMOVED_ASSOCIATIONS_GROUP content_type = none ∧
        content_type ∉
          ((update_mimeapps_list_key_file key_file desktop_id (some content_type) flags).get_keys
            REMOVED_ASSOCIATIONS_GROUP).getD []) ∨
      ∃ list, list ≠ [] ∧
        (update_mimeapps_list_key_file key_file desktop_id (some content_type) flags).get_string_list
          REMOVED_ASSOCIATIONS_GROUP content_type = some list ∧
        content_type ∈
          ((update_mimeapps_list_key_file key_file desktop_id (some content_type) flags).get_keys
            REMOVED_ASSOCIATIONS_GROUP).getD []) := by
  rw [update_mimeapps_list_key_file_one]
  constructor
  · obtain ⟨h1, h2, _⟩ := update_removed_associations_other desktop_id
      (update_added_associations desktop_id
        (update_default_applications desktop_id (key_file, flags) content_type) content_type)
      content_type ADDED_ASSOCIATIONS_GROUP (fun h => removed_ne_added h.symm)
    rw [h1, h2]
    exact update_added_associations_key desktop_id _ content_type
  · exact update_removed_associations_key desktop_id _ content_type

/-- Without the flag `UPDATE_MIME_SET_NON_DEFAULT` the walk over the old list of the second
loop keeps the strings other than the id and the flags. -/
theorem update_added_fold_plain (id : String) (old_list : List String) :
    ∀ (list : List (Option String)) (flags : Nat),
      flags &&& UPDATE_MIME_SET_NON_DEFAULT = 0 →
      old_list.foldl (fun (list_flags : List (Option String) × Nat) old =>
        if some old ≠ some id then (list_flags.1 ++ [some old], list_flags.2)
        else if list_flags.2 &&& UPDATE_MIME_SET_NON_DEFAULT ≠ 0 then
          (list_flags.1 ++ [some old], list_flags.2 ^^^ UPDATE_MIME_SET_NON_DEFAULT)
        else list_flags) (list, flags) =
      (list ++ (old_list.filter (fun s => decide (s ≠ id))).map some, flags) := by
  induction old_list with
  | nil =>
    intro list flags _
    simp
  | cons old rest ih =>
    intro list flags hflags
    simp only [List.foldl_cons]
    by_cases hold : old = id
    · subst hold
      simp only [ne_eq, not_true_eq_false, if_false, hflags]
      rw [ih list flags hflags]
      simp
    · have hne : some old ≠ some id := fun h => hold (Option.some.inj h)
      rw [if_pos hne, ih _ flags hflags]
      simp [hold]

/-- The walk over the old list of the third loop keeps the strings other than the id. -/
theorem update_removed_fold (id : String) (old_list : List String) :
    ∀ list : List (Option String),
      old_list.foldl (fun (list : List (Option String)) old =>
        if some old ≠ some id then list ++ [some old] else list) list =
      list ++ (old_list.filter (fun s => decide (s ≠ id))).map some := by
  induction old_list with
  | nil =>
    intro list
    simp
  | cons old rest ih =>
    intro list
    simp only [List.foldl_cons]
    by_cases hold : old = id
    · subst hold
      simp only [ne_eq, not_true_eq_false, if_false]
      rw [ih list]
      simp
    · have hne : some old ≠ some id := fun h => hold (Option.some.inj h)
      rw [if_pos hne, ih]
      simp [hold]

theorem reduceOption_map_some (l : List String) : (l.map some).reduceOption = l := by
  induction l with
  | nil => rfl
  | cons a l ih => rw [List.map_cons, List.reduceOption_cons_of_some, ih]

/-- The second loop body for a removal: the list without the id. -/
theorem update_added_associations_remove (id : String) (state : GKeyFile × Nat)
    (content_type : String) (hflags : state.2 = UPDATE_MIME_REMOVE) :
    ((update_added_associations (some id) state content_type).1.get_string_list
        ADDED_ASSOCIATIONS_GROUP content_type).getD [] =
      ((state.1.get_string_list ADDED_ASSOCIATIONS_GROUP content_type).getD []).filter
        (fun s => decide (s ≠ id)) ∧
    (update_added_associations (some id) state content_type).2 = UPDATE_MIME_REMOVE := by
  have hlist : update_added_list (some id)
      (state.1.get_string_list ADDED_ASSOCIATIONS_GROUP content_type) state.2 =
      ((((state.1.get_string_list ADDED_ASSOCIATIONS_GROUP content_type).getD []).filter
        (fun s => decide (s ≠ id))).map some, UPDATE_MIME_REMOVE) := by
    unfold update_added_list
    rw [hflags]
    have h1 : ¬ (UPDATE_MIME_REMOVE &&& UPDATE_MIME_SET_LAST_USED ≠ 0) := by decide
    have h2 : UPDATE_MIME_REMOVE &&& UPDATE_MIME_SET_NON_DEFAULT = 0 := by decide
    simp only [if_neg h1]
    rw [update_added_fold_plain id _ [] UPDATE_MIME_REMOVE h2]
    simp only [h2, ne_eq, not_true_eq_false, if_false, List.nil_append]
  unfold update_added_associations
  simp only [hlist]
  cases hf : ((state.1.get_string_list ADDED_ASSOCIATIONS_GROUP content_type).getD []).filter
      (fun s => decide (s ≠ id)) with
  | nil => simp [g_key_file_remove_key]
  | cons a l =>
    simp [g_key_file_set_string_list, List.reduceOption_cons_of_some, reduceOption_map_some]

/-- The third loop body for a removal: the id, then the old list without the id. -/
theorem update_removed_associations_remove (id : String) (state : GKeyFile × Nat)
    (content_type : String) (hflags : state.2 = UPDATE_MIME_REMOVE) :
    (update_removed_associations (some id) state content_type).1.get_string_list
        REMOVED_ASSOCIATIONS_GROUP content_type =
      some (id :: ((state.1.get_string_list REMOVED_ASSOCIATIONS_GROUP content_type).getD []).filter
        (fun s => decide (s ≠ id))) := by
  have hlist : update_removed_list (some id)
      (state.1.get_string_list REMOVED_ASSOCIATIONS_GROUP content_type) state.2 =
      some id :: (((state.1.get_string_list REMOVED_ASSOCIATIONS_GROUP content_type).getD []).filter
        (fun s => decide (s ≠ id))).map some := by
    unfold update_removed_list
    rw [hflags]
    have h1 : UPDATE_MIME_REMOVE &&& UPDATE_MIME_REMOVE ≠ 0 := by decide
    simp only [if_pos h1]
    rw [update_removed_fold]
    rfl
  unfold update_removed_associations
  simp only [hlist]
  simp [g_key_file_set_string_list, List.reduceOption_cons_of_some, reduceOption_map_some]

/-- The first loop body without `UPDATE_MIME_SET_DEFAULT` keeps the flags. -/
theorem update_default_applications_flags (desktop_id : Option String) (state : GKeyFile × Nat)
    (content_type : String) (hflags : state.2 &&& UPDATE_MIME_SET_DEFAULT = 0) :
    (update_default_applications desktop_id state content_type).2 = state.2 := by
  unfold update_default_applications
  simp only [hflags, ne_eq, not_true_eq_false, and_false, if_false]
  split <;> rfl

/-- C16: for every prior document, after `update_mimeapps_list` with `UPDATE_MIME_REMOVE`
for the id and the type, the `Added Associations` list of the type is the old list without
the id, and the `Removed Associations` list of the type is the id followed by the old list
without the id: the id is not in the first list, it is in the second list exactly once, as
its first element, and the other elements of both lists keep their order. -/
theorem remove_supports_type_rewrites_lists (key_file : GKeyFile) (id content_type : String) :
    ((update_mimeapps_list_key_file key_file (some id) (some content_type)
        UPDATE_MIME_REMOVE).get_string_list ADDED_ASSOCIATIONS_GROUP content_type).getD [] =
      ((key_file.get_string_list ADDED_ASSOCIATIONS_GROUP content_type).getD []).filter
        (fun s => decide (s ≠ id)) ∧
    (update_mimeapps_list_key_file key_file (some id) (some content_type)
        UPDATE_MIME_REMOVE).get_string_list REMOVED_ASSOCIATIONS_GROUP content_type =
      some (id :: ((key_file.get_string_list REMOVED_ASSOCIATIONS_GROUP content_type).getD []).filter
        (fun s => decide (s ≠ id))) ∧
    id ∉ ((update_mimeapps_list_key_file key_file (some id) (some content_type)
        UPDATE_MIME_REMOVE).get_string_list ADDED_ASSOCIATIONS_GROUP content_type).getD [] ∧
    (((update_mimeapps_list_key_file key_file (some id) (some content_type)
        UPDATE_MIME_REMOVE).get_string_list REMOVED_ASSOCIATIONS_GROUP content_type).getD []).count
      id = 1 := by
  rw [update_mimeapps_list_key_file_one]
  have hbit : UPDATE_MIME_REMOVE &&& UPDATE_MIME_SET_DEFAULT = 0 := by decide
  have hf1 : (update_default_applications (some id) (key_file, UPDATE_MIME_REMOVE)
      content_type).2 = UPDATE_MIME_REMOVE :=
    update_default_applications_flags (some id) (key_file, UPDATE_MIME_REMOVE) content_type hbit
  obtain ⟨ha, hf2⟩ := update_added_associations_remove id
    (update_default_applications (some id) (key_file, UPDATE_MIME_REMOVE) content_type)
    content_type hf1
  have hr := update_removed_associations_remove id
    (update_added_associations (some id)
      (update_default_applications (some id) (key_file, UPDATE_MIME_REMOVE) content_type)
      content_type) content_type hf2
  obtain ⟨h3, _, _⟩ := update_removed_associations_other (some id)
    (update_added_associations (some id)
      (update_default_applications (some id) (key_file, UPDATE_MIME_REMOVE) content_type)
      content_type) content_type ADDED_ASSOCIATIONS_GROUP (fun h => removed_ne_added h.symm)
  obtain ⟨h4, _, _⟩ := update_added_associations_other (some id)
    (update_default_applications (some id) (key_file, UPDATE_MIME_REMOVE) content_type)
    content_type REMOVED_ASSOCIATIONS_GROUP removed_ne_added
  obtain ⟨h5, _⟩ := update_default_applications_other (some id) (key_file, UPDATE_MIME_REMOVE)
    content_type ADDED_ASSOCIATIONS_GROUP added_ne_default
  obtain ⟨h6, _⟩ := update_default_applications_other (some id) (key_file, UPDATE_MIME_REMOVE)
    content_type REMOVED_ASSOCIATIONS_GROUP removed_ne_default
  rw [h3, ha, h5, hr, h4, h6]
  refine ⟨rfl, rfl, ?_, ?_⟩
  · simp [List.mem_filter]
  · simp only [Option.getD_some, List.count_cons_self]
    have : id ∉ ((key_file.get_string_list REMOVED_ASSOCIATIONS_GROUP content_type).getD []).filter
        (fun s => decide (s ≠ id)) := by
      simp [List.mem_filter]
    rw [List.count_eq_zero_of_not_mem this]

/-! ## Setting the default twice -/

/-- C15: in the document `default_key_file` the id `id.desktop` is the default for `T` and
the first of the added associations of `T`.  After `update_mimeapps_list` with
`UPDATE_MIME_SET_DEFAULT` for that id and type the default is still `id.desktop`, but the
`Added Associations` list of `T` is `other.desktop` alone: the flag
`UPDATE_MIME_SET_NON_DEFAULT` is raised only when the recorded default differs from the
id, and without it the second loop drops the id.  With a default that differs (here
`other.desktop` is made the default) the id is kept in the list. -/
theorem set_default_again_drops_added_association :
    default_key_file.get_string DEFAULT_APPLICATIONS_GROUP "T" = some "id.desktop" ∧
    default_key_file.get_string_list ADDED_ASSOCIATIONS_GROUP "T" =
      some ["id.desktop", "other.desktop"] ∧
    (update_mimeapps_list_key_file default_key_file (some "id.desktop") (some "T")
      UPDATE_MIME_SET_DEFAULT).get_string DEFAULT_APPLICATIONS_GROUP "T" = some "id.desktop" ∧
    (update_mimeapps_list_key_file default_key_file (some "id.desktop") (some "T")
      UPDATE_MIME_SET_DEFAULT).get_string_list ADDED_ASSOCIATIONS_GROUP "T" =
        some ["other.desktop"] ∧
    (update_mimeapps_list_key_file default_key_file (some "other.desktop") (some "T")
      UPDATE_MIME_SET_DEFAULT).get_string DEFAULT_APPLICATIONS_GROUP "T" = some "other.desktop" ∧
    (update_mimeapps_list_key_file default_key_file (some "other.desktop") (some "T")
      UPDATE_MIME_SET_DEFAULT).get_string_list ADDED_ASSOCIATIONS_GROUP "T" =
        some ["id.desktop", "other.desktop"] := by
  decide

/-! ## Setting a default and reading it back -/

/-- A value without `;` is one piece, or none when it is empty. -/
theorem g_key_file_value_pieces_plain (cs : List Char) (hcs : ';' ∉ cs) :
    ∀ piece : List Char,
      g_key_file_value_pieces cs piece =
        if piece.reverse ++ cs = [] then [] else [String.mk (piece.reverse ++ cs)] := by
  induction cs with
  | nil =>
    intro piece
    simp [g_key_file_value_pieces]
  | cons c cs ih =>
    intro piece
    have hc : c ≠ ';' := fun h => hcs (h ▸ List.mem_cons_self _ _)
    have hcs' : ';' ∉ cs := fun h => hcs (List.mem_cons_of_mem _ h)
    rw [g_key_file_value_pieces, if_neg hc, ih hcs' (c :: piece)]
    simp

/-- An id that is not empty and has no `;` reads back as the list of that one id. -/
theorem g_key_file_value_pieces_id (id : String) (hne : id ≠ "") (hsep : ';' ∉ id.data) :
    g_key_file_value_pieces id.data [] = [id] := by
  rw [g_key_file_value_pieces_plain id.data hsep []]
  have hdata : id.data ≠ [] := by
    intro h
    apply hne
    cases id
    simp_all
  simp [hdata]

/-- After the first loop body with `UPDATE_MIME_SET_DEFAULT` the default of the type is the
id, in the string view and in the list view, and the type is among the keys. -/
theorem update_default_applications_set (id content_type : String) (key_file : GKeyFile) :
    (update_default_applications (some id) (key_file, UPDATE_MIME_SET_DEFAULT)
        content_type).1 =
      g_key_file_set_string key_file DEFAULT_APPLICATIONS_GROUP content_type id := by
  unfold update_default_applications
  have hbit : UPDATE_MIME_SET_DEFAULT &&& UPDATE_MIME_SET_DEFAULT ≠ 0 := by decide
  by_cases hs : key_file.get_string DEFAULT_APPLICATIONS_GROUP content_type = some id
  · simp [hs]
  · simp only []
    rw [if_pos (And.intro hs hbit)]

/-- The `Default Applications` group of the document that `update_mimeapps_list` writes
for `UPDATE_MIME_SET_DEFAULT`. -/
theorem update_mimeapps_list_key_file_default (key_file : GKeyFile) (id content_type : String) :
    (update_mimeapps_list_key_file key_file (some id) (some content_type)
        UPDATE_MIME_SET_DEFAULT).get_string_list DEFAULT_APPLICATIONS_GROUP content_type =
      some (g_key_file_value_pieces id.data []) ∧
    (update_mimeapps_list_key_file key_file (some id) (some content_type)
        UPDATE_MIME_SET_DEFAULT).get_keys DEFAULT_APPLICATIONS_GROUP =
      (match key_file.get_keys DEFAULT_APPLICATIONS_GROUP with
       | none => some [content_type]
       | some keys => if content_type ∈ keys then some keys else some (keys ++ [content_type])) := by
  rw [update_mimeapps_list_key_file_one]
  obtain ⟨h1, h2, _⟩ := update_removed_associations_other (some id)
    (update_added_associations (some id)
      (update_default_applications (some id) (key_file, UPDATE_MIME_SET_DEFAULT) content_type)
      content_type) content_type DEFAULT_APPLICATIONS_GROUP (fun h => removed_ne_default h.symm)
  obtain ⟨h3, h4, _⟩ := update_added_associations_other (some id)
    (update_default_applications (some id) (key_file, UPDATE_MIME_SET_DEFAULT) content_type)
    content_type DEFAULT_APPLICATIONS_GROUP (fun h => added_ne_default h.symm)
  rw [h1, h2, h3, h4, update_default_applications_set]
  simp [g_key_file_set_string]

/-- A loop of `desktop_file_dir_unindexed_read_mimeapps_list` leaves alone the record of a
type that none of its keys resolves to. -/
theorem read_mimeapps_group_lookup_other (env : Env) (key_file : GKeyFile) (group : String)
    (expand : UnindexedMimeTweaks → List String → UnindexedMimeTweaks) (ty : String)
    (mime_types : List String) :
    ∀ mime_tweaks : GHashTable UnindexedMimeTweaks,
      (∀ k ∈ mime_types, env.g_unix_content_type_unalias k ≠ ty) →
      g_hash_table_lookup
        (read_mimeapps_group env key_file group expand mime_types mime_tweaks) ty =
      g_hash_table_lookup mime_tweaks ty := by
  induction mime_types with
  | nil =>
    intro mime_tweaks _
    rfl
  | cons k ks ih =>
    intro mime_tweaks hks
    simp only [read_mimeapps_group, List.foldl_cons] at ih ⊢
    have hk := hks k (List.mem_cons_self _ _)
    have hks' : ∀ k' ∈ ks, env.g_unix_content_type_unalias k' ≠ ty :=
      fun k' h => hks k' (List.mem_cons_of_mem _ h)
    cases hl : key_file.get_string_list group k with
    | none => exact ih mime_tweaks hks'
    | some ids =>
      simp only []
      rw [ih _ hks', g_hash_table_lookup_insert, if_neg hk]

/-- The loop over the `Default Applications` group of a document in which `content_type`
is the only key of its type and holds the one id: once the key has been read the defaults
of the type are that id. -/
theorem read_default_group_sets (env : Env) (key_file : GKeyFile) (id content_type : String)
    (hlist : key_file.get_string_list DEFAULT_APPLICATIONS_GROUP content_type = some [id])
    (mime_types : List String) :
    ∀ mime_tweaks : GHashTable UnindexedMimeTweaks,
      (∀ k ∈ mime_types, env.g_unix_content_type_unalias k =
        env.g_unix_content_type_unalias content_type → k = content_type) →
      (tweaks_defaults mime_tweaks (env.g_unix_content_type_unalias content_type) = some [id] →
        tweaks_defaults (read_mimeapps_group env key_file DEFAULT_APPLICATIONS_GROUP
          expand_defaults mime_types mime_tweaks)
          (env.g_unix_content_type_unalias content_type) = some [id]) ∧
      (tweaks_defaults mime_tweaks (env.g_unix_content_type_unalias content_type) = none →
        content_type ∈ mime_types →
        tweaks_defaults (read_mimeapps_group env key_file DEFAULT_APPLICATIONS_GROUP
          expand_defaults mime_types mime_tweaks)
          (env.g_unix_content_type_unalias content_type) = some [id]) := by
  induction mime_types with
  | nil =>
    intro mime_tweaks _
    exact ⟨fun h => h, fun _ h => absurd h (List.not_mem_nil _)⟩
  | cons k ks ih =>
    intro mime_tweaks hks
    have hks' : ∀ k' ∈ ks, env.g_unix_content_type_unalias k' =
        env.g_unix_content_type_unalias content_type → k' = content_type :=
      fun k' h => hks k' (List.mem_cons_of_mem _ h)
    simp only [read_mimeapps_group, List.foldl_cons] at ih ⊢
    by_cases hk : env.g_unix_content_type_unalias k = env.g_unix_content_type_unalias content_type
    · have hkeq : k = content_type := hks k (List.mem_cons_self _ _) hk
      subst hkeq
      rw [hlist]
      simp only []
      have hstep : ∀ prior : Option (List String),
          (prior = none ∨ prior = some [id]) →
          tweaks_defaults mime_tweaks (env.g_unix_content_type_unalias k) = prior →
          tweaks_defaults (g_hash_table_insert mime_tweaks (env.g_unix_content_type_unalias k)
            (expand_defaults (desktop_file_dir_unindexed_get_tweaks env mime_tweaks k) [id]))
            (env.g_unix_content_type_unalias k) = some [id] := by
        intro prior hprior hd
        unfold tweaks_defaults at hd ⊢
        rw [g_hash_table_lookup_insert, if_pos rfl, Option.some_bind]
        unfold expand_defaults desktop_file_dir_unindexed_get_tweaks
        cases hl : g_hash_table_lookup mime_tweaks (env.g_unix_content_type_unalias k) with
        | none => simp [expand_strv]
        | some tweaks =>
          rw [hl, Option.some_bind] at hd
          simp only []
          rcases hprior with h | h
          · rw [hd, h]
            simp [expand_strv]
          · rw [hd, h]
            simp [expand_strv]
      constructor
      · intro h
        exact (ih _ hks').1 (hstep _ (Or.inr rfl) h)
      · intro h _
        exact (ih _ hks').1 (hstep _ (Or.inl rfl) h)
    · have hkne : k ≠ content_type := fun h => hk (h ▸ rfl)
      have hsame : tweaks_defaults
          (match key_file.get_string_list DEFAULT_APPLICATIONS_GROUP k with
           | none => mime_tweaks
           | some desktop_file_ids =>
             g_hash_table_insert mime_tweaks (env.g_unix_content_type_unalias k)
               (expand_defaults (desktop_file_dir_unindexed_get_tweaks env mime_tweaks k)
                 desktop_file_ids))
          (env.g_unix_content_type_unalias content_type) =
          tweaks_defaults mime_tweaks (env.g_unix_content_type_unalias content_type) := by
        cases key_file.get_string_list DEFAULT_APPLICATIONS_GROUP k with
        | none => rfl
        | some ids =>
          simp only [tweaks_defaults]
          rw [g_hash_table_lookup_insert, if_neg hk]
      constructor
      · intro h
        exact (ih _ hks').1 (hsame.trans h)
      · intro h hmem
        have hmem' : content_type ∈ ks := by
          rcases List.mem_cons.mp hmem with h' | h'
          · exact absurd h'.symm hkne
          · exact h'
        exact (ih _ hks').2 (hsame.trans h) hmem'

/-- The path of a per-environment file is not the path of `mimeapps.list`. -/
theorem desktop_mimeapps_list_ne (config_dir desktop : String) :
    config_dir ++ "/" ++ desktop ++ "-mimeapps.list" ≠ config_dir ++ "/mimeapps.list" := by
  intro h
  have hlen := congrArg String.length h
  simp only [String.length_append] at hlen
  have h1 : "-mimeapps.list".length = 14 := by decide
  have h2 : "/mimeapps.list".length = 14 := by decide
  have h3 : "/".length = 1 := by decide
  omega

/-- After a write of `mimeapps.list` the per-environment files of the directory are read
as before, and they leave no defaults for a type that none of their keys resolves to. -/
theorem read_desktop_mimeapps_lists_defaults (env : Env) (dir : DesktopFileDir)
    (key_file : GKeyFile) (ty : String)
    (hdesktops : ∀ desktop ∈ get_lowercase_current_desktops env,
      ∀ k ∈ ((env.g_key_file_load_from_file
          (dir.path ++ "/" ++ desktop ++ "-mimeapps.list")).bind
          (fun key_file => key_file.get_keys DEFAULT_APPLICATIONS_GROUP)).getD [],
        env.g_unix_content_type_unalias k ≠ ty) :
    tweaks_defaults (read_desktop_mimeapps_lists
      (file_written env (dir.path ++ "/mimeapps.list") key_file) dir) ty = none := by
  unfold read_desktop_mimeapps_lists
  have hsame : get_lowercase_current_desktops
      (file_written env (dir.path ++ "/mimeapps.list") key_file) =
      get_lowercase_current_desktops env := rfl
  rw [hsame]
  have key : ∀ (desktops : List String) (mime_tweaks : GHashTable UnindexedMimeTweaks),
      (∀ desktop ∈ desktops,
        ∀ k ∈ ((env.g_key_file_load_from_file
            (dir.path ++ "/" ++ desktop ++ "-mimeapps.list")).bind
            (fun key_file => key_file.get_keys DEFAULT_APPLICATIONS_GROUP)).getD [],
          env.g_unix_content_type_unalias k ≠ ty) →
      tweaks_defaults mime_tweaks ty = none →
      tweaks_defaults (desktops.foldl (fun mime_tweaks desktop =>
        desktop_file_dir_unindexed_read_mimeapps_list
          (file_written env (dir.path ++ "/mimeapps.list") key_file) mime_tweaks
          (dir.path ++ "/" ++ desktop ++ "-mimeapps.list") ADDED_ASSOCIATIONS_GROUP false)
        mime_tweaks) ty = none := by
    intro desktops
    induction desktops with
    | nil =>
      intro mime_tweaks _ h
      exact h
    | cons d ds ih =>
      intro mime_tweaks hds h
      simp only [List.foldl_cons]
      apply ih _ (fun desktop hd => hds desktop (List.mem_cons_of_mem _ hd))
      rw [read_mimeapps_list_not_permitted]
      have hload : (file_written env (dir.path ++ "/mimeapps.list")
          key_file).g_key_file_load_from_file (dir.path ++ "/" ++ d ++ "-mimeapps.list") =
          env.g_key_file_load_from_file (dir.path ++ "/" ++ d ++ "-mimeapps.list") := by
        simp only [file_written]
        rw [if_neg (desktop_mimeapps_list_ne dir.path d)]
      rw [hload]
      have hd := hds d (List.mem_cons_self _ _)
      cases hl : env.g_key_file_load_from_file (dir.path ++ "/" ++ d ++ "-mimeapps.list") with
      | none => exact h
      | some kf =>
        simp only []
        rw [hl, Option.some_bind] at hd
        cases hk : kf.get_keys DEFAULT_APPLICATIONS_GROUP with
        | none => exact h
        | some keys =>
          simp only []
          rw [hk, Option.getD_some] at hd
          unfold tweaks_defaults at h ⊢
          rw [read_mimeapps_group_lookup_other
            (file_written env (dir.path ++ "/mimeapps.list") key_file) kf _ _ ty keys
            mime_tweaks hd]
          exact h
  exact key _ [] hdesktops rfl

/-- Reading the `mimeapps.list` that was just written for a new default: the defaults of
the type are the id. -/
theorem read_written_mimeapps_list_defaults (env : Env) (filename : String)
    (key_file : GKeyFile) (id content_type : String)
    (mime_tweaks : GHashTable UnindexedMimeTweaks)
    (hlist : key_file.get_string_list DEFAULT_APPLICATIONS_GROUP content_type = some [id])
    (hkeys : ∃ keys, key_file.get_keys DEFAULT_APPLICATIONS_GROUP = some keys ∧
      content_type ∈ keys ∧
      ∀ k ∈ keys, env.g_unix_content_type_unalias k =
        env.g_unix_content_type_unalias content_type → k = content_type)
    (hnone : tweaks_defaults mime_tweaks (env.g_unix_content_type_unalias content_type) = none) :
    tweaks_defaults (desktop_file_dir_unindexed_read_mimeapps_list
      (file_written env filename key_file) mime_tweaks filename ADDED_ASSOCIATIONS_GROUP true)
      (env.g_unix_content_type_unalias content_type) = some [id] := by
  obtain ⟨keys, hk, hmem, halias⟩ := hkeys
  unfold desktop_file_dir_unindexed_read_mimeapps_list
  have hload : (file_written env filename key_file).g_key_file_load_from_file filename =
      some key_file := by
    simp [file_written]
  rw [hload]
  simp only [Bool.not_true, Bool.and_false, Bool.false_eq_true, if_false, hk]
  have hunalias : (file_written env filename key_file).g_unix_content_type_unalias =
      env.g_unix_content_type_unalias := rfl
  have hadded : tweaks_defaults
      (match key_file.get_keys ADDED_ASSOCIATIONS_GROUP with
       | some mime_types =>
         read_mimeapps_group (file_written env filename key_file) key_file
           ADDED_ASSOCIATIONS_GROUP expand_additions mime_types mime_tweaks
       | none => mime_tweaks) (env.g_unix_content_type_unalias content_type) = none := by
    cases key_file.get_keys ADDED_ASSOCIATIONS_GROUP with
    | none => exact hnone
    | some mime_types =>
      simp only []
      unfold tweaks_defaults at hnone ⊢
      rw [read_mimeapps_group_proj _ key_file _ expand_additions (fun t => t.defaults) rfl
        (fun _ _ => rfl)]
      exact hnone
  have hremoved : ∀ mt : GHashTable UnindexedMimeTweaks,
      tweaks_defaults mt (env.g_unix_content_type_unalias content_type) = none →
      tweaks_defaults
        (match key_file.get_keys REMOVED_ASSOCIATIONS_GROUP with
         | some mime_types =>
           read_mimeapps_group (file_written env filename key_file) key_file
             REMOVED_ASSOCIATIONS_GROUP expand_removals mime_types mt
         | none => mt) (env.g_unix_content_type_unalias content_type) = none := by
    intro mt hmt
    cases key_file.get_keys REMOVED_ASSOCIATIONS_GROUP with
    | none => exact hmt
    | some mime_types =>
      simp only []
      unfold tweaks_defaults at hmt ⊢
      rw [read_mimeapps_group_proj _ key_file _ expand_removals (fun t => t.defaults) rfl
        (fun _ _ => rfl)]
      exact hmt
  exact (read_default_group_sets (file_written env filename key_file) key_file id content_type
    hlist keys _ halias).2 (hremoved _ hadded) hmem

/-- The association files of the user's configuration record, read after a new default
has been written: the record gets a table of tweaks in which the defaults of the type are
the id, and keeps its other fields. -/
theorem read_mimeapps_lists_after_write (env : Env) (dir : DesktopFileDir)
    (key_file : GKeyFile) (id content_type : String) (hconfig : dir.is_config = true)
    (hlist : key_file.get_string_list DEFAULT_APPLICATIONS_GROUP content_type = some [id])
    (hkeys : ∃ keys, key_file.get_keys DEFAULT_APPLICATIONS_GROUP = some keys ∧
      content_type ∈ keys ∧
      ∀ k ∈ keys, env.g_unix_content_type_unalias k =
        env.g_unix_content_type_unalias content_type → k = content_type)
    (hdesktops : ∀ desktop ∈ get_lowercase_current_desktops env,
      ∀ k ∈ ((env.g_key_file_load_from_file
          (dir.path ++ "/" ++ desktop ++ "-mimeapps.list")).bind
          (fun key_file => key_file.get_keys DEFAULT_APPLICATIONS_GROUP)).getD [],
        env.g_unix_content_type_unalias k ≠ env.g_unix_content_type_unalias content_type) :
    ∃ mime_tweaks,
      desktop_file_dir_unindexed_read_mimeapps_lists
        (file_written env (dir.path ++ "/mimeapps.list") key_file) dir =
        { dir with mime_tweaks := some mime_tweaks } ∧
      tweaks_defaults mime_tweaks (env.g_unix_content_type_unalias content_type) = some [id] := by
  refine ⟨_, ?_, read_written_mimeapps_list_defaults env (dir.path ++ "/mimeapps.list") key_file
    id content_type
    (read_desktop_mimeapps_lists (file_written env (dir.path ++ "/mimeapps.list") key_file) dir)
    hlist hkeys
    (read_desktop_mimeapps_lists_defaults env dir key_file _ hdesktops)⟩
  unfold desktop_file_dir_unindexed_read_mimeapps_lists
  simp only [hconfig, if_true]

/-- Records that are set up go through `desktop_file_dirs_lock` unchanged. -/
theorem mapM_init_of_setup (env : Env) (fuel : Nat) (rest : List DesktopFileDir)
    (hrest : ∀ d ∈ rest, d.is_setup = true) :
    rest.mapM (fun dir =>
      if !dir.is_setup then desktop_file_dir_init env fuel dir else some dir) = some rest := by
  induction rest with
  | nil => rfl
  | cons d ds ih =>
    have hd := hrest d (List.mem_cons_self _ _)
    have hds := ih (fun d' h => hrest d' (List.mem_cons_of_mem _ h))
    rw [List.mapM_cons, hds]
    simp [hd]

/-- The chain after `desktop_file_dirs_invalidate_user_config` and the next
`desktop_file_dirs_lock`, when the user's configuration directory is accessible and the
other records are set up: the first record is reset and its association files are read
again. -/
theorem lock_after_invalidate (env : Env) (fuel : Nat) (user_config : DesktopFileDir)
    (rest : List DesktopFileDir) (hconfig : user_config.is_config = true)
    (haccess : env.g_access user_config.path = true)
    (hrest : ∀ d ∈ rest, d.is_setup = true) :
    desktop_file_dirs_lock env fuel
        (desktop_file_dirs_invalidate_user_config (user_config :: rest)) =
      some ({ desktop_file_dir_unindexed_read_mimeapps_lists env
                { desktop_file_dir_reset user_config with
                  alternatively_watching := none
                  monitor := env.g_local_file_monitor_new_in_worker user_config.path } with
              is_setup := true } :: rest) := by
  unfold desktop_file_dirs_lock desktop_file_dirs_invalidate_user_config
  simp only [List.length_cons, Nat.add_one_ne_zero, if_false]
  rw [List.mapM_cons, mapM_init_of_setup env fuel rest hrest]
  have hinit : desktop_file_dir_init env fuel (desktop_file_dir_reset user_config) =
      some { desktop_file_dir_unindexed_read_mimeapps_lists env
                { desktop_file_dir_reset user_config with
                  alternatively_watching := none
                  monitor := env.g_local_file_monitor_new_in_worker user_config.path } with
              is_setup := true } := by
    unfold desktop_file_dir_init desktop_file_dir_get_alternative_dir
    have hp : (desktop_file_dir_reset user_config).path = user_config.path := rfl
    have hc : (desktop_file_dir_reset user_config).is_config = true := hconfig
    rw [hp, if_pos haccess]
    simp only [desktop_file_dir_unindexed_init, hc, Bool.not_true, Bool.false_eq_true, if_false,
      Option.map_some', hp]
  have hsetup : (desktop_file_dir_reset user_config).is_setup = false := rfl
  simp [hsetup, hinit]

/-- The defaults of one record are appended to the results. -/
theorem default_lookup_keeps_results (desktop_file_dirs : List DesktopFileDir) (dir : Nat)
    (mime_type : String) (results : List String) :
    results <+:
      desktop_file_dir_unindexed_default_lookup desktop_file_dirs dir mime_type results := by
  unfold desktop_file_dir_unindexed_default_lookup
  cases desktop_file_dir_tweaks desktop_file_dirs dir mime_type with
  | none => exact List.prefix_refl _
  | some tweaks =>
    simp only []
    cases tweaks.defaults with
    | none => exact List.prefix_refl _
    | some defaults =>
      simp only []
      have key : ∀ (defaults results : List String),
          results <+: defaults.foldl (fun results app_name =>
            if !array_contains results app_name then results ++ [app_name] else results)
            results := by
        intro defaults
        induction defaults with
        | nil =>
          intro results
          exact List.prefix_refl _
        | cons a l ih =>
          intro results
          simp only [List.foldl_cons]
          split
          · exact (List.prefix_append results [a]).trans (ih _)
          · exact ih _
      exact key defaults results

theorem default_lookup_dirs_succ (desktop_file_dirs : List DesktopFileDir) (mime_type : String)
    (n : Nat) (results : List String) :
    default_lookup_dirs desktop_file_dirs mime_type (n + 1) results =
      desktop_file_dir_unindexed_default_lookup desktop_file_dirs n mime_type
        (default_lookup_dirs desktop_file_dirs mime_type n results) := by
  simp [default_lookup_dirs, List.range_succ, List.foldl_append]

/-- The defaults collected from the first record stay at the front. -/
theorem default_lookup_dirs_first (desktop_file_dirs : List DesktopFileDir) (mime_type : String)
    (n : Nat) :
    default_lookup_dirs desktop_file_dirs mime_type 1 [] <+:
      default_lookup_dirs desktop_file_dirs mime_type (n + 1) [] := by
  induction n with
  | zero => exact List.prefix_refl _
  | succ n ih =>
    rw [default_lookup_dirs_succ desktop_file_dirs mime_type (n + 1)]
    exact ih.trans (default_lookup_keeps_results _ _ _ _)

/-- A first record whose defaults of the type are one id gives that id as first result. -/
theorem default_lookup_dirs_head (dir : DesktopFileDir) (rest : List DesktopFileDir)
    (mime_tweaks : GHashTable UnindexedMimeTweaks) (mime_type id : String)
    (htweaks : dir.mime_tweaks = some mime_tweaks)
    (hdefaults : tweaks_defaults mime_tweaks mime_type = some [id]) :
    ∃ tail, default_lookup_dirs (dir :: rest) mime_type (dir :: rest).length [] = id :: tail := by
  have hone : default_lookup_dirs (dir :: rest) mime_type 1 [] = [id] := by
    unfold tweaks_defaults at hdefaults
    cases hl : g_hash_table_lookup mime_tweaks mime_type with
    | none => simp [hl] at hdefaults
    | some tweaks =>
      rw [hl, Option.some_bind] at hdefaults
      have hrange : List.range 1 = [0] := rfl
      simp [default_lookup_dirs, desktop_file_dir_unindexed_default_lookup,
        desktop_file_dir_tweaks, htweaks, hl, hdefaults, array_contains, hrange]
  have hpre := default_lookup_dirs_first (dir :: rest) mime_type rest.length
  rw [hone] at hpre
  obtain ⟨tail, htail⟩ := hpre
  exact ⟨tail, by rw [List.length_cons, ← htail]; rfl⟩

/-- A value found by `g_hash_table_lookup` is in the table. -/
theorem g_hash_table_lookup_mem {V : Type} (t : GHashTable V) (key : String) (value : V)
    (h : g_hash_table_lookup t key = some value) : (key, value) ∈ t := by
  induction t with
  | nil => simp [g_hash_table_lookup] at h
  | cons p rest ih =>
    obtain ⟨k, v⟩ := p
    rw [g_hash_table_lookup] at h
    by_cases hk : k = key
    · rw [if_pos hk] at h
      rw [← hk, ← Option.some.inj h]
      exact List.mem_cons_self _ _
    · rw [if_neg hk] at h
      exact List.mem_cons_of_mem _ (ih h)

/-- The id of a file name does not depend on a first record without id table, nor on the
documents of the file system. -/
theorem desktop_id_for_filename_after_write (env : Env) (written : String)
    (key_file : GKeyFile) (dir dir' : DesktopFileDir) (rest : List DesktopFileDir)
    (filename : String) (hnames : dir.app_names = none) (hnames' : dir'.app_names = none) :
    g_desktop_app_info_get_desktop_id_for_filename (file_written env written key_file)
        (dir' :: rest) filename =
      g_desktop_app_info_get_desktop_id_for_filename env (dir :: rest) filename := by
  unfold g_desktop_app_info_get_desktop_id_for_filename
  simp only [List.findSome?_cons, hnames, hnames']
  rfl

/-- An entry loaded from a key file does not depend on a first record without id table,
nor on the documents of the file system. -/
theorem load_from_keyfile_after_write (env : Env) (written : String)
    (key_file : GKeyFile) (dir dir' : DesktopFileDir) (rest : List DesktopFileDir)
    (filename : String) (document : GKeyFile)
    (hnames : dir.app_names = none) (hnames' : dir'.app_names = none) :
    g_desktop_app_info_load_from_keyfile (file_written env written key_file)
        (dir' :: rest) filename document =
      g_desktop_app_info_load_from_keyfile env (dir :: rest) filename document := by
  unfold g_desktop_app_info_load_from_keyfile
  rw [desktop_id_for_filename_after_write env written key_file dir dir' rest filename hnames
    hnames']
  rfl

/-- Resolving an id for `g_app_info_get_default_for_type_impl` gives the same entry before
and after the write of `mimeapps.list`, when the first record has no id table and no id
table names the written file as a document. -/
theorem default_for_type_app_after_write (env : Env) (written : String)
    (key_file : GKeyFile) (dir dir' : DesktopFileDir) (rest : List DesktopFileDir)
    (must_support_uris : Bool) (id : String)
    (hnames : dir.app_names = none) (hnames' : dir'.app_names = none)
    (hdocs : ∀ d ∈ rest, ∀ entry ∈ d.app_names.getD [], entry.2 ≠ written) :
    default_for_type_app (file_written env written key_file) (dir' :: rest)
        must_support_uris id =
      default_for_type_app env (dir :: rest) must_support_uris id := by
  have hget : ∀ k, desktop_file_dir_get_app (file_written env written key_file) (dir' :: rest)
      k id = desktop_file_dir_get_app env (dir :: rest) k id := by
    intro k
    unfold desktop_file_dir_get_app
    cases k with
    | zero => simp [hnames, hnames']
    | succ k =>
      simp only [List.getElem?_cons_succ]
      cases hd : rest[k]? with
      | none => rfl
      | some d =>
        simp only []
        cases ht : d.app_names with
        | none => rfl
        | some t =>
          simp only []
          unfold desktop_file_dir_unindexed_get_app
          cases hl : g_hash_table_lookup t id with
          | none => rfl
          | some fname =>
            simp only []
            have hmem : d ∈ rest := List.getElem?_mem hd
            have hentry : (id, fname) ∈ d.app_names.getD [] := by
              rw [ht]
              exact g_hash_table_lookup_mem t id fname hl
            have hne : fname ≠ written := hdocs d hmem (id, fname) hentry
            unfold g_desktop_app_info_new_from_filename_unlocked
            have hload : (file_written env written key_file).g_key_file_load_from_file fname =
                env.g_key_file_load_from_file fname := by
              simp only [file_written]
              rw [if_neg hne]
            rw [hload]
            cases env.g_key_file_load_from_file fname with
            | none => rfl
            | some document =>
              exact load_from_keyfile_after_write env written key_file dir dir' rest fname
                document hnames hnames'
  unfold default_for_type_app
  simp only [List.length_cons, hget]

/-- The statement of `read_mimeapps_lists_after_write` with the path of the record named. -/
theorem read_mimeapps_lists_after_write_at (env : Env) (dir : DesktopFileDir)
    (config_dir : String) (hpath : dir.path = config_dir)
    (key_file : GKeyFile) (id content_type : String) (hconfig : dir.is_config = true)
    (hlist : key_file.get_string_list DEFAULT_APPLICATIONS_GROUP content_type = some [id])
    (hkeys : ∃ keys, key_file.get_keys DEFAULT_APPLICATIONS_GROUP = some keys ∧
      content_type ∈ keys ∧
      ∀ k ∈ keys, env.g_unix_content_type_unalias k =
        env.g_unix_content_type_unalias content_type → k = content_type)
    (hdesktops : ∀ desktop ∈ get_lowercase_current_desktops env,
      ∀ k ∈ ((env.g_key_file_load_from_file
          (config_dir ++ "/" ++ desktop ++ "-mimeapps.list")).bind
          (fun key_file => key_file.get_keys DEFAULT_APPLICATIONS_GROUP)).getD [],
        env.g_unix_content_type_unalias k ≠ env.g_unix_content_type_unalias content_type) :
    ∃ mime_tweaks,
      desktop_file_dir_unindexed_read_mimeapps_lists
        (file_written env (config_dir ++ "/mimeapps.list") key_file) dir =
        { dir with mime_tweaks := some mime_tweaks } ∧
      tweaks_defaults mime_tweaks (env.g_unix_content_type_unalias content_type) = some [id] := by
  subst hpath
  exact read_mimeapps_lists_after_write env dir key_file id content_type hconfig hlist hkeys
    hdesktops

/-- A successful `update_mimeapps_list` writes the rewritten document to the user's
`mimeapps.list` and resets the first record of the chain. -/
theorem update_mimeapps_list_ok (env : Env) (desktop_file_dirs : List DesktopFileDir)
    (desktop_id content_type : Option String) (flags : Nat)
    (hdir : env.g_build_filename [env.g_get_user_config_dir] = env.g_get_user_config_dir)
    (hfile : env.g_build_filename [env.g_get_user_config_dir, "mimeapps.list"] =
      env.g_get_user_config_dir ++ "/mimeapps.list")
    (hok : (update_mimeapps_list env desktop_file_dirs desktop_id content_type flags).1 = true) :
    update_mimeapps_list env desktop_file_dirs desktop_id content_type flags =
      (true,
        file_written env (env.g_get_user_config_dir ++ "/mimeapps.list")
          (update_mimeapps_list_key_file
            (update_mimeapps_list_load env (env.g_get_user_config_dir ++ "/mimeapps.list"))
            desktop_id content_type flags),
        desktop_file_dirs_invalidate_user_config desktop_file_dirs) := by
  unfold update_mimeapps_list ensure_dir at hok ⊢
  simp only [hdir] at hok ⊢
  by_cases hm : env.g_mkdir_with_parents env.g_get_user_config_dir = true
  · simp only [hm, if_true, hfile] at hok ⊢
    simp only [hok, if_true]
  · simp [hm] at hok

/-! ## The default application after `set_default` -/

/-- C14: in the chain `default_foo_dirs` the first record declares `foo.desktop` the
default of `T` and both records hold that id.  When the document of the first record is
hidden, `g_app_info_get_default_for_type_impl` returns that hidden entry (while
`g_desktop_app_info_new` gives nothing for the id); when the document of the first record
does not load, it returns the entry of the second record, where the id is masked. -/
theorem default_for_type_returns_hidden_entry :
    (g_app_info_get_default_for_type_impl foo_env_hidden 2 default_foo_dirs "T" false).map
        (fun result => result.map (fun info => (info.filename, info.hidden))) =
      some (some (some "/home/u/applications/foo.desktop", true)) ∧
    g_desktop_app_info_new foo_env_hidden default_foo_dirs "foo.desktop" = none ∧
    (g_app_info_get_default_for_type_impl foo_env_unloadable 2 default_foo_dirs "T" false).map
        (fun result => result.map (fun info => info.filename)) =
      some (some (some "/usr/applications/foo.desktop")) ∧
    desktop_file_dir_app_name_is_masked default_foo_dirs 1 "foo.desktop" = true := by
  decide

/-- C13, as stated, fails: the current desktop is `GNOME` and the user's
`gnome-mimeapps.list` makes `other.desktop` the default of `T`.  The call of
`update_mimeapps_list` with `UPDATE_MIME_SET_DEFAULT` for `id.desktop` succeeds, and the
next `g_app_info_get_default_for_type_impl` for `T` returns the entry of `other.desktop`:
the defaults of the per-environment file are read before those of `mimeapps.list`. -/
theorem set_default_behind_desktop_default :
    (update_mimeapps_list gnome_default_env gnome_default_dirs (some "id.desktop") (some "T")
      UPDATE_MIME_SET_DEFAULT).1 = true ∧
    (desktop_file_dirs_lock
        (update_mimeapps_list gnome_default_env gnome_default_dirs (some "id.desktop")
          (some "T") UPDATE_MIME_SET_DEFAULT).2.1 2
        (update_mimeapps_list gnome_default_env gnome_default_dirs (some "id.desktop")
          (some "T") UPDATE_MIME_SET_DEFAULT).2.2).bind
      (fun desktop_file_dirs =>
        (g_app_info_get_default_for_type_impl
          (update_mimeapps_list gnome_default_env gnome_default_dirs (some "id.desktop")
            (some "T") UPDATE_MIME_SET_DEFAULT).2.1 2 desktop_file_dirs "T" false).map
          (fun result => result.map (fun info => info.filename))) =
      some (some (some "/usr/applications/other.desktop")) := by
  decide

/-- C13, amended: a successful `update_mimeapps_list` with `UPDATE_MIME_SET_DEFAULT` for
`id` and `content_type`, followed by the next lock of the chain and
`g_app_info_get_default_for_type_impl` for the type, returns the entry that the id
resolves to, provided that no per-environment associations file of the user's
configuration directory and no alias key of the user's `mimeapps.list` declares a default
for the type, the id is not empty and has no `;`, and the id resolves to an entry that
meets the URI constraint.  The chain is the user's configuration record (accessible, no
id table) followed by records that are set up; no id table names the written file. -/
theorem set_default_then_default_for (env : Env) (fuel : Nat) (user_config : DesktopFileDir)
    (rest : List DesktopFileDir) (id content_type : String) (must_support_uris : Bool)
    (universe_types : List String) (info : GDesktopAppInfo)
    (hconfig : user_config.is_config = true)
    (hpath : user_config.path = env.g_get_user_config_dir)
    (hnames : user_config.app_names = none)
    (hrest : ∀ d ∈ rest, d.is_setup = true)
    (hdocs : ∀ d ∈ rest, ∀ entry ∈ d.app_names.getD [],
      entry.2 ≠ env.g_get_user_config_dir ++ "/mimeapps.list")
    (hdir : env.g_build_filename [env.g_get_user_config_dir] = env.g_get_user_config_dir)
    (hfile : env.g_build_filename [env.g_get_user_config_dir, "mimeapps.list"] =
      env.g_get_user_config_dir ++ "/mimeapps.list")
    (haccess : env.g_access env.g_get_user_config_dir = true)
    (hne : id ≠ "") (hsep : ';' ∉ id.data)
    (hdesktops : ∀ desktop ∈ get_lowercase_current_desktops env,
      ∀ k ∈ ((env.g_key_file_load_from_file
          (env.g_get_user_config_dir ++ "/" ++ desktop ++ "-mimeapps.list")).bind
          (fun key_file => key_file.get_keys DEFAULT_APPLICATIONS_GROUP)).getD [],
        env.g_unix_content_type_unalias k ≠ env.g_unix_content_type_unalias content_type)
    (halias : ∀ k ∈ ((update_mimeapps_list_load env
          (env.g_get_user_config_dir ++ "/mimeapps.list")).get_keys
          DEFAULT_APPLICATIONS_GROUP).getD [],
      env.g_unix_content_type_unalias k = env.g_unix_content_type_unalias content_type →
        k = content_type)
    (hclosed : TypesClosed env universe_types content_type)
    (hfuel : universe_types.length < fuel)
    (hresolves : default_for_type_app env (user_config :: rest) must_support_uris id = some info)
    (hok : (update_mimeapps_list env (user_config :: rest) (some id) (some content_type)
      UPDATE_MIME_SET_DEFAULT).1 = true) :
    ∃ desktop_file_dirs,
      desktop_file_dirs_lock
        (update_mimeapps_list env (user_config :: rest) (some id) (some content_type)
          UPDATE_MIME_SET_DEFAULT).2.1 fuel
        (update_mimeapps_list env (user_config :: rest) (some id) (some content_type)
          UPDATE_MIME_SET_DEFAULT).2.2 = some desktop_file_dirs ∧
      g_app_info_get_default_for_type_impl
        (update_mimeapps_list env (user_config :: rest) (some id) (some content_type)
          UPDATE_MIME_SET_DEFAULT).2.1 fuel desktop_file_dirs content_type must_support_uris =
        some (some info) := by
  rw [update_mimeapps_list_ok env _ _ _ _ hdir hfile hok]
  simp only []
  -- the document that was written
  obtain ⟨hlist, hkeys⟩ := update_mimeapps_list_key_file_default
    (update_mimeapps_list_load env (env.g_get_user_config_dir ++ "/mimeapps.list")) id
    content_type
  rw [g_key_file_value_pieces_id id hne hsep] at hlist
  have hkeys' : ∃ keys,
      (update_mimeapps_list_key_file
        (update_mimeapps_list_load env (env.g_get_user_config_dir ++ "/mimeapps.list"))
        (some id) (some content_type) UPDATE_MIME_SET_DEFAULT).get_keys
        DEFAULT_APPLICATIONS_GROUP = some keys ∧
      content_type ∈ keys ∧
      ∀ k ∈ keys, env.g_unix_content_type_unalias k =
        env.g_unix_content_type_unalias content_type → k = content_type := by
    rw [hkeys]
    cases hold : (update_mimeapps_list_load env
        (env.g_get_user_config_dir ++ "/mimeapps.list")).get_keys DEFAULT_APPLICATIONS_GROUP with
    | none =>
      refine ⟨[content_type], rfl, List.mem_singleton.mpr rfl, ?_⟩
      intro k hk _
      exact List.mem_singleton.mp hk
    | some keys =>
      rw [hold, Option.getD_some] at halias
      simp only []
      by_cases hmem : content_type ∈ keys
      · exact ⟨keys, by rw [if_pos hmem], hmem, halias⟩
      · refine ⟨keys ++ [content_type], by rw [if_neg hmem], by simp, ?_⟩
        intro k hk hal
        rcases List.mem_append.mp hk with h | h
        · exact halias k h hal
        · exact List.mem_singleton.mp h
  -- the chain after the next lock
  have haccess' : (file_written env (env.g_get_user_config_dir ++ "/mimeapps.list")
      (update_mimeapps_list_key_file
        (update_mimeapps_list_load env (env.g_get_user_config_dir ++ "/mimeapps.list"))
        (some id) (some content_type) UPDATE_MIME_SET_DEFAULT)).g_access user_config.path =
      true := by
    rw [hpath]
    exact haccess
  rw [lock_after_invalidate _ fuel user_config rest hconfig haccess' hrest]
  refine ⟨_, rfl, ?_⟩
  obtain ⟨mime_tweaks, hread, hdefaults⟩ := read_mimeapps_lists_after_write_at env
    { desktop_file_dir_reset user_config with
      alternatively_watching := none
      monitor := env.g_local_file_monitor_new_in_worker user_config.path }
    env.g_get_user_config_dir hpath _ id content_type hconfig hlist hkeys' hdesktops
  have hread' : desktop_file_dir_unindexed_read_mimeapps_lists
      (file_written env (env.g_get_user_config_dir ++ "/mimeapps.list")
        (update_mimeapps_list_key_file
          (update_mimeapps_list_load env (env.g_get_user_config_dir ++ "/mimeapps.list"))
          (some id) (some content_type) UPDATE_MIME_SET_DEFAULT))
      { desktop_file_dir_reset user_config with
        alternatively_watching := none
        monitor := (file_written env (env.g_get_user_config_dir ++ "/mimeapps.list")
          (update_mimeapps_list_key_file
            (update_mimeapps_list_load env (env.g_get_user_config_dir ++ "/mimeapps.list"))
            (some id) (some content_type)
            UPDATE_MIME_SET_DEFAULT)).g_local_file_monitor_new_in_worker user_config.path } =
      _ := hread
  rw [hread']
  -- the types and the collected results
  obtain ⟨types, htypes⟩ := get_list_of_mimetypes_some
    (file_written env (env.g_get_user_config_dir ++ "/mimeapps.list")
      (update_mimeapps_list_key_file
        (update_mimeapps_list_load env (env.g_get_user_config_dir ++ "/mimeapps.list"))
        (some id) (some content_type) UPDATE_MIME_SET_DEFAULT))
    fuel content_type universe_types hclosed hfuel
  unfold g_app_info_get_default_for_type_impl
  rw [htypes, Option.map_some', default_for_types]
  simp only []
  obtain ⟨tail, htail⟩ := default_lookup_dirs_head
    { { desktop_file_dir_reset user_config with
        alternatively_watching := none
        monitor := env.g_local_file_monitor_new_in_worker user_config.path } with
      mime_tweaks := some mime_tweaks, is_setup := true } rest mime_tweaks
    (env.g_unix_content_type_unalias content_type) id rfl hdefaults
  have hresults := mime_lookup_dirs_keeps_hits
    ({ { desktop_file_dir_reset user_config with
        alternatively_watching := none
        monitor := env.g_local_file_monitor_new_in_worker user_config.path } with
      mime_tweaks := some mime_tweaks, is_setup := true } :: rest)
    (env.g_unix_content_type_unalias content_type)
    ({ { desktop_file_dir_reset user_config with
        alternatively_watching := none
        monitor := env.g_local_file_monitor_new_in_worker user_config.path } with
      mime_tweaks := some mime_tweaks, is_setup := true } :: rest).length
    (id :: tail, [])
  obtain ⟨more, hmore⟩ := hresults
  have happ := default_for_type_app_after_write env
    (env.g_get_user_config_dir ++ "/mimeapps.list")
    (update_mimeapps_list_key_file
      (update_mimeapps_list_load env (env.g_get_user_config_dir ++ "/mimeapps.list"))
      (some id) (some content_type) UPDATE_MIME_SET_DEFAULT)
    user_config
    { { desktop_file_dir_reset user_config with
        alternatively_watching := none
        monitor := env.g_local_file_monitor_new_in_worker user_config.path } with
      mime_tweaks := some mime_tweaks, is_setup := true } rest must_support_uris id hnames rfl
    hdocs
  rw [hresolves] at happ
  have hunalias : (file_written env (env.g_get_user_config_dir ++ "/mimeapps.list")
      (update_mimeapps_list_key_file
        (update_mimeapps_list_load env (env.g_get_user_config_dir ++ "/mimeapps.list"))
        (some id) (some content_type)
        UPDATE_MIME_SET_DEFAULT)).g_unix_content_type_unalias content_type =
      env.g_unix_content_type_unalias content_type := rfl
  rw [hunalias]
  erw [htail, ← hmore]
  simp only [List.cons_append, List.findSome?_cons]
  erw [happ]

/-- C13, amended, at the chain `set_default_dirs`: the current desktop is `GNOME`, its
file declares a default for another type only, the user has no `mimeapps.list` yet, and
`id.desktop` is made the default of `T`. -/
theorem set_default_then_default_for_witness :
    get_lowercase_current_desktops set_default_env = ["gnome"] ∧
    default_for_type_app set_default_env set_default_dirs false "id.desktop" =
      some id_desktop_entry ∧
    (update_mimeapps_list set_default_env set_default_dirs (some "id.desktop") (some "T")
      UPDATE_MIME_SET_DEFAULT).1 = true ∧
    ∃ desktop_file_dirs,
      desktop_file_dirs_lock
        (update_mimeapps_list set_default_env set_default_dirs (some "id.desktop") (some "T")
          UPDATE_MIME_SET_DEFAULT).2.1 2
        (update_mimeapps_list set_default_env set_default_dirs (some "id.desktop") (some "T")
          UPDATE_MIME_SET_DEFAULT).2.2 = some desktop_file_dirs ∧
      g_app_info_get_default_for_type_impl
        (update_mimeapps_list set_default_env set_default_dirs (some "id.desktop") (some "T")
          UPDATE_MIME_SET_DEFAULT).2.1 2 desktop_file_dirs "T" false =
        some (some id_desktop_entry) :=
  ⟨by decide, by decide, by decide,
    set_default_then_default_for set_default_env 2
      set_default_config
      [sample_dir "/usr/applications"
        (some [("id.desktop", "/usr/applications/id.desktop"),
               ("other.desktop", "/usr/applications/other.desktop")]) []]
      "id.desktop" "T" false ["T"] id_desktop_entry
      (by decide) (by decide) (by decide) (by decide) (by decide) (by decide) (by decide)
      (by decide) (by decide) (by decide) (by decide) (by decide) (by decide) (by decide)
      (by decide) (by decide)⟩

/-! ## Object paths and visibility -/

theorem object_path_char_eq (c : Char) :
    (if (if c = '.' then '/' else c) = '-' then '_' else (if c = '.' then '/' else c)) =
      object_path_char c := by
  unfold object_path_char
  by_cases h : c = '.'
  · subst h
    decide
  · simp only [h, if_false]

/-- The characters that `object_path_char` writes are neither `.` nor `-`. -/
theorem object_path_char_ne (c : Char) :
    object_path_char c ≠ '.' ∧ object_path_char c ≠ '-' := by
  unfold object_path_char
  by_cases h : c = '.'
  · simp only [h, if_true]
    decide
  · by_cases h' : c = '-'
    · simp only [h, h', if_false, if_true]
      decide
    · simp only [h, h', if_false]
      exact ⟨h, h'⟩

/-- C23: for every activation name `appid`, `object_path_from_appid` is `/` followed by
the name with every `.` replaced by `/`, every `-` replaced by `_` and every other
character unchanged; its length is the length of the name plus one, and it contains no
`.` and no `-`. -/
theorem object_path_from_appid_spec (appid : String) :
    object_path_from_appid appid = "/" ++ String.mk (appid.data.map object_path_char) ∧
    (object_path_from_appid appid).length = appid.length + 1 ∧
    '.' ∉ (object_path_from_appid appid).data ∧
    '-' ∉ (object_path_from_appid appid).data := by
  have hfun : (fun c : Char =>
      let c := if c = '.' then '/' else c
      if c = '-' then '_' else c) = object_path_char := by
    funext c
    exact object_path_char_eq c
  have hdata : (object_path_from_appid appid).data =
      '/' :: appid.data.map object_path_char := by
    unfold object_path_from_appid
    rw [hfun]
    simp only [String.data_append, List.map_append]
    rfl
  refine ⟨?_, ?_, ?_, ?_⟩
  · apply String.ext
    rw [hdata]
    simp only [String.data_append]
    rfl
  · rw [String.length, hdata, List.length_cons, List.length_map]
    rfl
  · rw [hdata]
    intro h
    rcases List.mem_cons.mp h with h | h
    · exact absurd h (by decide)
    · obtain ⟨c, _, hc⟩ := List.mem_map.mp h
      exact (object_path_char_ne c).1 hc
  · rw [hdata]
    intro h
    rcases List.mem_cons.mp h with h | h
    · exact absurd h (by decide)
    · obtain ⟨c, _, hc⟩ := List.mem_map.mp h
      exact (object_path_char_ne c).2 hc

/-- The loop of `g_desktop_app_info_get_show_in` for one environment. -/
theorem get_show_in_loop_one (info : GDesktopAppInfo) (e : String) :
    get_show_in_loop info [e] =
      (if e ∈ info.only_show_in.getD [] then true
       else if e ∈ info.not_show_in.getD [] then false
       else info.only_show_in.isNone) := by
  have hany : ∀ l : List String, l.any (fun s => decide (s = e)) = decide (e ∈ l) := by
    intro l
    induction l with
    | nil => simp
    | cons a l ih =>
      simp only [List.any_cons, ih, List.mem_cons]
      by_cases h : a = e
      · simp [h]
      · have h' : ¬ e = a := fun h'' => h h''.symm
        simp [h, h']
  rw [get_show_in_loop, get_show_in_loop]
  cases ho : info.only_show_in with
  | none =>
    cases hn : info.not_show_in with
    | none => simp
    | some not_show_in => simp [hany]
  | some only_show_in =>
    cases hn : info.not_show_in with
    | none => simp [hany]
    | some not_show_in => simp [hany]

/-- C30: for an explicitly given environment name `e`, `g_desktop_app_info_get_show_in`
returns `TRUE` if `e` is in the `OnlyShowIn` list of the entry, otherwise `FALSE` if `e`
is in its `NotShowIn` list, otherwise `TRUE` exactly when the entry has no `OnlyShowIn`
list; `g_desktop_app_info_should_show` is `FALSE` when `NoDisplay` is set and otherwise
the answer of `g_desktop_app_info_get_show_in` for the current environments. -/
theorem g_desktop_app_info_get_show_in_spec (env : Env) (result : Option (List String))
    (info : GDesktopAppInfo) (e : String) :
    g_desktop_app_info_get_show_in env result info (some e) =
      (if e ∈ info.only_show_in.getD [] then true
       else if e ∈ info.not_show_in.getD [] then false
       else info.only_show_in.isNone) ∧
    g_desktop_app_info_should_show env result info =
      (if info.nodisplay = true then false
       else g_desktop_app_info_get_show_in env result info none) ∧
    g_desktop_app_info_get_show_in env result info none =
      get_show_in_loop info (get_current_desktops env result none) :=
  ⟨get_show_in_loop_one info e, rfl, rfl⟩

/-! ## Reference counts -/

/-- A value in the range of `gint` is stored as it is. -/
theorem to_gint_of_range (x : Int) (h1 : G_MININT ≤ x) (h2 : x ≤ G_MAXINT) : to_gint x = x := by
  unfold to_gint
  unfold G_MININT at h1
  unfold G_MAXINT at h2
  omega

/-- The stored value after `n` calls of `g_ref_count_inc` on a new counter, as long as
the counter does not saturate. -/
theorem g_ref_count_inc_iterate (n : Nat) (hn : (n : Int) ≤ G_MAXINT) :
    g_ref_count_inc^[n] g_ref_count_init = -((n : Int) + 1) := by
  induction n with
  | zero => rfl
  | succ n ih =>
    have hn' : (n : Int) ≤ G_MAXINT := by
      push_cast at hn
      omega
    rw [Function.iterate_succ_apply', ih hn']
    unfold g_ref_count_inc
    unfold G_MAXINT at hn hn'
    push_cast at hn
    have h1 : -((n : Int) + 1) < 0 := by omega
    have h2 : ¬ -((n : Int) + 1) = G_MININT := by
      unfold G_MININT
      omega
    simp only [h1, not_true_eq_false, if_false, h2]
    rw [to_gint_of_range _ (by unfold G_MININT; omega) (by unfold G_MAXINT; omega)]
    push_cast
    omega

/-- One call of `g_ref_count_dec` on a counter that holds more than one reference. -/
theorem g_ref_count_dec_of_many (rc : Int) (h1 : G_MININT ≤ rc) (h2 : rc < -1) :
    g_ref_count_dec rc = (false, rc + 1) := by
  unfold g_ref_count_dec
  have h3 : rc < 0 := by omega
  have h4 : to_gint (rc + 1) = rc + 1 :=
    to_gint_of_range _ (by unfold G_MININT at *; omega) (by unfold G_MAXINT; omega)
  have h5 : ¬ rc + 1 = 0 := by omega
  simp only [h3, not_true_eq_false, if_false, h4, h5]

/-- The stored value after `j` calls of `g_ref_count_dec` on a counter that holds more
than `j` references. -/
theorem g_ref_count_dec_iterate (rc : Int) (h1 : G_MININT ≤ rc) (j : Nat)
    (hj : rc + j < 0) :
    (fun rc => (g_ref_count_dec rc).2)^[j] rc = rc + j := by
  induction j with
  | zero => simp
  | succ j ih =>
    have hj' : rc + (j : Int) < 0 := by
      push_cast at hj
      omega
    rw [Function.iterate_succ_apply', ih hj']
    push_cast at hj
    rw [g_ref_count_dec_of_many (rc + j) (by omega) (by omega)]
    push_cast
    omega

/-- C26: starting from `g_ref_count_init`, for every `n` below `2^31 - 1`, after `n` calls
of `g_ref_count_inc` the stored value is `-(n + 1)`; each of the next `n` calls of
`g_ref_count_dec` returns `FALSE`, and the call after them returns `TRUE`.  On a valid
counter `g_ref_count_dec` returns `TRUE` exactly when it releases the last reference. -/
theorem g_ref_count_dec_after_inc (n : Nat) (hn : (n : Int) < G_MAXINT) :
    g_ref_count_inc^[n] g_ref_count_init = -((n : Int) + 1) ∧
    (∀ j, j < n →
      (g_ref_count_dec ((fun rc => (g_ref_count_dec rc).2)^[j]
        (g_ref_count_inc^[n] g_ref_count_init))).1 = false) ∧
    (g_ref_count_dec ((fun rc => (g_ref_count_dec rc).2)^[n]
      (g_ref_count_inc^[n] g_ref_count_init))).1 = true ∧
    ∀ rc, ref_count_valid rc →
      ((g_ref_count_dec rc).1 = true ↔ ref_count_value rc - 1 = 0) := by
  have hinc := g_ref_count_inc_iterate n (le_of_lt hn)
  have hmin : G_MININT ≤ -((n : Int) + 1) := by
    unfold G_MININT
    unfold G_MAXINT at hn
    omega
  refine ⟨hinc, ?_, ?_, ?_⟩
  · intro j hj
    rw [hinc, g_ref_count_dec_iterate _ hmin j (by omega),
      g_ref_count_dec_of_many _ (by omega) (by omega)]
  · rw [hinc, g_ref_count_dec_iterate _ hmin n (by omega)]
    have h : -((n : Int) + 1) + n = -1 := by omega
    rw [h]
    decide
  · intro rc hrc
    obtain ⟨h1, h2⟩ := hrc
    unfold ref_count_value
    by_cases h : rc = -1
    · subst h
      decide
    · rw [g_ref_count_dec_of_many rc h1 (by omega)]
      constructor
      · intro h'
        exact absurd h' Bool.false_ne_true
      · intro h'
        omega

/-- C26 for three references taken after the first. -/
theorem g_ref_count_dec_after_inc_witness :
    ((3 : Nat) : Int) < G_MAXINT ∧
    g_ref_count_inc^[3] g_ref_count_init = -(((3 : Nat) : Int) + 1) ∧
    (∀ j, j < 3 →
      (g_ref_count_dec ((fun rc => (g_ref_count_dec rc).2)^[j]
        (g_ref_count_inc^[3] g_ref_count_init))).1 = false) ∧
    (g_ref_count_dec ((fun rc => (g_ref_count_dec rc).2)^[3]
      (g_ref_count_inc^[3] g_ref_count_init))).1 = true ∧
    ∀ rc, ref_count_valid rc →
      ((g_ref_count_dec rc).1 = true ↔ ref_count_value rc - 1 = 0) :=
  ⟨by decide, g_ref_count_dec_after_inc 3 (by decide)⟩

/-- C27: a counter that holds exactly `G_MAXINT` references (reached from
`g_ref_count_init` by `G_MAXINT - 1` calls of `g_ref_count_inc`) has the stored value
`-G_MAXINT`, and `g_ref_count_compare` with `G_MAXINT` returns `FALSE` for it: for this
value the function tests the stored value against `G_MININT`, which stands for
`G_MAXINT + 1` references.  For every smaller value the comparison is exact on a valid
counter. -/
theorem g_ref_count_compare_maxint :
    g_ref_count_inc^[2147483646] g_ref_count_init = -2147483647 ∧
    ref_count_valid (-2147483647) ∧
    ref_count_value (-2147483647) = G_MAXINT ∧
    g_ref_count_compare (-2147483647) G_MAXINT = false ∧
    g_ref_count_compare G_MININT G_MAXINT = true ∧
    ref_count_value G_MININT = G_MAXINT + 1 ∧
    ∀ rc val, ref_count_valid rc → 0 ≤ val → val < G_MAXINT →
      (g_ref_count_compare rc val = true ↔ ref_count_value rc = val) := by
  refine ⟨?_, by decide, by decide, by decide, by decide, by decide, ?_⟩
  · have h := g_ref_count_inc_iterate 2147483646 (by decide)
    rw [h]
    norm_num
  · intro rc val hrc h0 hmax
    obtain ⟨h1, h2⟩ := hrc
    unfold g_ref_count_compare ref_count_value
    have h3 : ¬ val = G_MAXINT := by omega
    have h4 : to_gint (-val) = -val :=
      to_gint_of_range _ (by unfold G_MININT G_MAXINT at *; omega)
        (by unfold G_MAXINT at *; omega)
    simp only [ge_iff_le, h0, not_true_eq_false, if_false, h3, h4, decide_eq_true_eq]
    constructor <;> intro h <;> omega

/-! ## The terminal in front of the command -/

/-- The search of `prepend_terminal_to_vector` returns the first entry of the table whose
program is found. -/
theorem find_terminal_spec (env : Env) (path working_dir : Option String) :
    ∀ (table : List (String × Option String)) (found : String) (term_arg : Option String),
      find_terminal env path working_dir table = some (found, term_arg) →
      ∃ (i : Nat) (exec : String), table[i]? = some (exec, term_arg) ∧
        env.g_find_program_for_path exec path working_dir = some found ∧
        ∀ j : Nat, j < i → ∀ t : String × Option String, table[j]? = some t →
          env.g_find_program_for_path t.1 path working_dir = none := by
  intro table
  induction table with
  | nil =>
    intro found term_arg h
    simp [find_terminal] at h
  | cons terminal rest ih =>
    intro found term_arg h
    rw [find_terminal] at h
    cases hf : env.g_find_program_for_path terminal.1 path working_dir with
    | some found_terminal =>
      rw [hf] at h
      simp only [Option.some.injEq, Prod.mk.injEq] at h
      refine ⟨0, terminal.1, ?_, ?_, ?_⟩
      · rw [← h.2]
        simp
      · rw [hf, h.1]
      · intro j hj
        omega
    | none =>
      rw [hf] at h
      obtain ⟨i, exec, hi, hfound, hbefore⟩ := ih found term_arg h
      refine ⟨i + 1, exec, ?_, hfound, ?_⟩
      · simpa using hi
      · intro j hj t ht
        cases j with
        | zero =>
          simp only [List.getElem?_cons_zero, Option.some.injEq] at ht
          rw [← ht]
          exact hf
        | succ j =>
          simp only [List.getElem?_cons_succ] at ht
          exact hbefore j (by omega) t ht

/-- Only the first terminal of the table takes no separator argument. -/
theorem known_terminals_term_arg :
    ∀ t ∈ known_terminals, (t.2 = none ↔ t.1 = "xdg-terminal-exec") := by
  decide

/-- C24, the code at an input where the claim fails: when `xdg-terminal-exec` is installed,
the new argument vector is the path of that terminal followed directly by the original
arguments, and the argument count grows from two to three. -/
theorem prepend_terminal_without_separator :
    prepend_terminal_to_vector (launch_env ["xdg-terminal-exec", "xterm"] (fun _ => true))
      2 (some ["app", "x"]) none none =
      some (3, ["/usr/bin/xdg-terminal-exec", "app", "x"]) := by
  decide

/-- C24, amended: when `prepend_terminal_to_vector` succeeds on an argument vector whose
count is given (or negative, so that it is computed), the new vector is the path of the
first terminal of the table that is found, followed by the separator argument of that
terminal if it has one, followed by the original arguments in order; the terminal
`xdg-terminal-exec` has no separator argument and the count grows by one for it, and by
two for every other terminal of the table. -/
theorem prepend_terminal_to_vector_spec (env : Env) (argc : Int) (argv : List String)
    (path working_dir : Option String) (real_argc : Int) (real_argv : List String)
    (hargc : argc < 0 ∨ argc = argv.length)
    (h : prepend_terminal_to_vector env argc (some argv) path working_dir =
      some (real_argc, real_argv)) :
    ∃ (i : Nat) (exec : String) (term_arg : Option String) (found : String),
      known_terminals[i]? = some (exec, term_arg) ∧
      env.g_find_program_for_path exec path working_dir = some found ∧
      (∀ j : Nat, j < i → ∀ t : String × Option String, known_terminals[j]? = some t →
        env.g_find_program_for_path t.1 path working_dir = none) ∧
      real_argv = found :: (term_arg.toList ++ argv) ∧
      (term_arg = none ↔ exec = "xdg-terminal-exec") ∧
      real_argc = (argv.length : Int) + (if exec = "xdg-terminal-exec" then 1 else 2) := by
  unfold prepend_terminal_to_vector at h
  simp only [Option.isNone_some, Bool.false_eq_true, if_false, Option.getD_some] at h
  have hlen : (if argc < 0 then (argv.length : Int) else argc) = argv.length := by
    rcases hargc with hneg | heq
    · rw [if_pos hneg]
    · rw [heq]
      simp
  rw [hlen] at h
  cases hf : find_terminal env path working_dir known_terminals with
  | none =>
    rw [hf] at h
    simp at h
  | some r =>
    obtain ⟨found, term_arg⟩ := r
    rw [hf] at h
    simp only [Option.some.injEq, Prod.mk.injEq, Int.toNat_ofNat, List.take_length] at h
    obtain ⟨i, exec, hi, hfound, hbefore⟩ :=
      find_terminal_spec env path working_dir known_terminals found term_arg hf
    have hmem : (exec, term_arg) ∈ known_terminals := List.getElem?_mem hi
    have harg := known_terminals_term_arg (exec, term_arg) hmem
    refine ⟨i, exec, term_arg, found, hi, hfound, hbefore, ?_, harg, ?_⟩
    · rw [← h.2]
      cases term_arg <;> rfl
    · rw [← h.1]
      cases term_arg with
      | none =>
        rw [if_pos (harg.mp rfl)]
        simp
        omega
      | some a =>
        have hne : exec ≠ "xdg-terminal-exec" := by
          intro he
          have := harg.mpr he
          simp at this
        rw [if_neg hne]
        simp
        omega

/-- C24, amended, at an argument vector of two entries when only `xterm` is installed. -/
theorem prepend_terminal_to_vector_spec_witness :
    prepend_terminal_to_vector (launch_env ["xterm"] (fun _ => true)) 2 (some ["app", "x"])
      none none = some (4, ["/usr/bin/xterm", "-e", "app", "x"]) ∧
    ∃ (i : Nat) (exec : String) (term_arg : Option String) (found : String),
      known_terminals[i]? = some (exec, term_arg) ∧
      (launch_env ["xterm"] (fun _ => true)).g_find_program_for_path exec none none =
        some found ∧
      (∀ j : Nat, j < i → ∀ t : String × Option String, known_terminals[j]? = some t →
        (launch_env ["xterm"] (fun _ => true)).g_find_program_for_path t.1 none none = none) ∧
      ["/usr/bin/xterm", "-e", "app", "x"] = found :: (term_arg.toList ++ ["app", "x"]) ∧
      (term_arg = none ↔ exec = "xdg-terminal-exec") ∧
      (4 : Int) = ((["app", "x"] : List String).length : Int) +
        (if exec = "xdg-terminal-exec" then 1 else 2) :=
  ⟨by decide,
    prepend_terminal_to_vector_spec (launch_env ["xterm"] (fun _ => true)) 2 ["app", "x"]
      none none 4 ["/usr/bin/xterm", "-e", "app", "x"] (Or.inr (by decide)) (by decide)⟩

/-! ## Expanding a command template -/

/-- The loop of `expand_application_parameters` handles the pieces of the template one
after the other. -/
theorem expand_exec_line_tokens (env : Env) (info : GDesktopAppInfo) :
    ∀ (n : Nat) (p : List Char), p.length ≤ n → ∀ (acc : List Char) (uris : List String),
      expand_exec_line env info p acc uris =
        (exec_tokens p).foldl (expand_token env info) (acc, uris) := by
  intro n
  induction n with
  | zero =>
    intro p hp acc uris
    have : p = [] := List.eq_nil_of_length_eq_zero (by omega)
    subst this
    rfl
  | succ n ih =>
    intro p hp acc uris
    cases p with
    | nil => rfl
    | cons c p =>
      by_cases hc : c = '%'
      · cases p with
        | nil =>
          simp only [expand_exec_line, exec_tokens, hc, if_true, List.foldl_cons,
            List.foldl_nil, expand_token]
        | cons m p =>
          simp only [expand_exec_line, exec_tokens, hc, if_true, List.foldl_cons, expand_token]
          simp only [List.length_cons] at hp
          have h := ih p (by omega) ( expand_macro env m acc info uris).1
            ( expand_macro env m acc info uris).2
          exact h
      · simp only [List.length_cons] at hp
        have h := ih p (by omega) (acc ++ [c]) uris
        cases p with
        | nil =>
          simp only [expand_exec_line, exec_tokens, hc, if_false, List.foldl_cons,
            List.foldl_nil, expand_token]
        | cons m p =>
          simp only [expand_exec_line, exec_tokens, hc, if_false, List.foldl_cons,
            expand_token] at h ⊢
          exact h

/-- A macro that consumes no target appends a text that does not depend on the pending
targets, and leaves them alone. -/
theorem expand_macro_no_target (env : Env) (info : GDesktopAppInfo) (m : Char)
    (hm : is_target_letter m = false) (exec : List Char) (uris : List String) :
    expand_macro env m exec info uris = (exec ++ ( expand_macro env m [] info []).1, uris) := by
  simp only [is_target_letter, Bool.or_eq_false_iff, decide_eq_false_iff_not] at hm
  obtain ⟨⟨⟨⟨⟨⟨⟨h1, h2⟩, h3⟩, h4⟩, h5⟩, h6⟩, h7⟩, h8⟩ := hm
  unfold expand_macro
  simp only [h1, h2, h3, h4, h5, h6, h7, h8, or_self, if_false]
  by_cases hi : m = 'i'
  · simp only [hi, if_true]
    cases info.icon_name <;> simp
  · simp only [hi, if_false]
    by_cases hcc : m = 'c'
    · simp only [hcc, if_true]
      cases info.name <;> simp
    · simp only [hcc, if_false]
      by_cases hk : m = 'k'
      · simp only [hk, if_true]
        cases info.filename <;> simp
      · simp only [hk, if_false]
        by_cases hmm : m = 'm'
        · simp [hmm]
        · simp only [hmm, if_false]
          by_cases hp : m = '%'
          · simp [hp]
          · simp [hp]

/-- A piece that consumes no target appends its own expansion. -/
theorem expand_token_no_target (env : Env) (info : GDesktopAppInfo) (t : Char ⊕ Char)
    (ht : token_consumes t = false) (acc : List Char) (uris : List String) :
    expand_token env info (acc, uris) t = (acc ++ expand_tokens env info [t], uris) := by
  cases t with
  | inl c => simp [expand_token, expand_tokens]
  | inr m =>
    simp only [token_consumes] at ht
    simp only [expand_token, expand_tokens, List.foldl_cons, List.foldl_nil]
    exact expand_macro_no_target env info m ht acc uris

/-- Pieces that consume no target append their own expansion. -/
theorem expand_tokens_no_target (env : Env) (info : GDesktopAppInfo) :
    ∀ (tokens : List (Char ⊕ Char)), (∀ t ∈ tokens, token_consumes t = false) →
      ∀ (acc : List Char) (uris : List String),
        tokens.foldl (expand_token env info) (acc, uris) =
          (acc ++ expand_tokens env info tokens, uris) := by
  intro tokens
  induction tokens with
  | nil =>
    intro _ acc uris
    simp [expand_tokens]
  | cons t tokens ih =>
    intro h acc uris
    have ht := h t (List.mem_cons_self _ _)
    have hrest : ∀ t ∈ tokens, token_consumes t = false :=
      fun x hx => h x (List.mem_cons_of_mem _ hx)
    rw [List.foldl_cons, expand_token_no_target env info t ht, ih hrest]
    have h2 : expand_tokens env info (t :: tokens) =
        expand_tokens env info [t] ++ expand_tokens env info tokens := by
      have h3 := expand_token_no_target env info t ht [] []
      have h4 := ih hrest (expand_tokens env info [t]) []
      simp only [List.nil_append] at h3
      conv_lhs => rw [expand_tokens, List.foldl_cons, h3, h4]
    rw [h2, List.append_assoc]

/-- A template has no target macro exactly when none of its pieces consumes targets. -/
theorem target_macros_nil (tokens : List (Char ⊕ Char)) :
    tokens.filterMap (fun t =>
      match t with
      | Sum.inl _ => none
      | Sum.inr m => if is_target_letter m then some m else none) = [] ↔
    ∀ t ∈ tokens, token_consumes t = false := by
  rw [List.filterMap_eq_nil_iff]
  constructor
  · intro h t ht
    have := h t ht
    cases t with
    | inl c => rfl
    | inr m =>
      simp only [token_consumes]
      by_cases hm : is_target_letter m = true
      · simp [hm] at this
      · simpa using hm
  · intro h t ht
    have := h t ht
    cases t with
    | inl c => rfl
    | inr m =>
      simp only [token_consumes] at this
      simp [this]

/-- The macro `%f` appends the quoted local path of the first pending target, if it has
one, and consumes the target. -/
theorem expand_macro_f (env : Env) (info : GDesktopAppInfo) (exec : List Char)
    (uri : String) (uris : List String) :
    expand_macro env 'f' exec info (uri :: uris) = (exec ++ quoted_path env uri, uris) := by
  have h1 : ¬ ('f' = 'u') := by decide
  have h2 : ¬ ('f' = 'U') := by decide
  simp only [ expand_macro, h1, h2, if_false, ite_self, expand_macro_uri, Bool.not_false,
    Bool.true_or, if_true, true_or, or_true, expand_macro_single, false_or, quoted_path]
  cases env.g_file_get_path uri <;> simp

/-- C22: for every command template without a target macro and every list of pending
targets that is not empty, the line that `expand_application_parameters` hands to the
shell parser is the expansion of the template on its own, followed by a space and the
shell-quoted local path of the first target (by nothing when that target has no local
path), and exactly the first target is consumed. -/
theorem expand_application_parameters_appends_path (env : Env) (info : GDesktopAppInfo)
    (exec_line : String) (first : String) (rest : List String)
    (hnone : target_macros exec_line.data = []) :
    expand_application_parameters_line env info exec_line (first :: rest) =
      (expand_tokens env info (exec_tokens exec_line.data) ++ [' '] ++ quoted_path env first,
        rest) ∧
    expand_application_parameters env info (some exec_line) (first :: rest) =
      (env.g_shell_parse_argv (String.mk
          (expand_tokens env info (exec_tokens exec_line.data) ++ [' '] ++
            quoted_path env first)),
        rest) := by
  have hline : expand_application_parameters_line env info exec_line (first :: rest) =
      (expand_tokens env info (exec_tokens exec_line.data) ++ [' '] ++ quoted_path env first,
        rest) := by
    unfold expand_application_parameters_line
    simp only []
    rw [expand_exec_line_tokens env info exec_line.data.length exec_line.data (Nat.le_refl _),
      expand_tokens_no_target env info _ ((target_macros_nil _).mp hnone)]
    simp only [List.nil_append, ne_eq, not_false_eq_true, and_self, if_true, reduceCtorEq]
    exact expand_macro_f env info _ first rest
  refine ⟨hline, ?_⟩
  simp only [expand_application_parameters, hline]

/-- C22 at the template `app --new` and two targets. -/
theorem expand_application_parameters_appends_path_witness :
    target_macros "app --new".data = [] ∧
    expand_application_parameters_line (launch_env ["app"] (fun _ => true))
      (launch_info "app --new" false) "app --new" ["file:///a", "file:///b"] =
      ("app --new '/a'".data, ["file:///b"]) ∧
    expand_application_parameters (launch_env ["app"] (fun _ => true))
      (launch_info "app --new" false) (some "app --new") ["file:///a", "file:///b"] =
      (some ["app", "--new", "'/a'"], ["file:///b"]) ∧
    expand_application_parameters_line (launch_env ["app"] (fun _ => true))
      (launch_info "app --new" false) "app --new" ["file:///a", "file:///b"] =
      (expand_tokens (launch_env ["app"] (fun _ => true)) (launch_info "app --new" false)
          (exec_tokens "app --new".data) ++ [' '] ++
        quoted_path (launch_env ["app"] (fun _ => true)) "file:///a", ["file:///b"]) :=
  ⟨by decide, by decide, by decide,
    (expand_application_parameters_appends_path (launch_env ["app"] (fun _ => true))
      (launch_info "app --new" false) "app --new" "file:///a" ["file:///b"] (by decide)).1⟩

/-! ## The spawn loop -/

/-- The processes noted in a list of events that was put together from two lists. -/
theorem spawned_batches_append (a b : List LaunchEvent) :
    spawned_batches (a ++ b) = spawned_batches a ++ spawned_batches b := by
  induction a with
  | nil => rfl
  | cons e a ih => cases e <;> simp [spawned_batches, ih]

/-- A batch that fails starts no process; it leaves the targets that its expansion left. -/
theorem launch_batch_failed (env : Env) (info : GDesktopAppInfo) (session_bus : Bool)
    (exec_line : Option String) (launch_context : Option GAppLaunchContext)
    (pid_callback : Bool) (st st' : LaunchState)
    (h : launch_batch env info session_bus exec_line launch_context pid_callback st =
      BatchResult.failed st') :
    st'.dup_uris = (expand_application_parameters env info exec_line st.dup_uris).2 ∧
    spawned_batches st'.events = spawned_batches st.events ∧ st'.batch = st.batch := by
  unfold launch_batch at h
  simp only [] at h
  repeat' split at h
  all_goals try (simp only [reduceCtorEq] at h)
  all_goals
    simp only [BatchResult.failed.injEq] at h
    subst h
    simp [spawned_batches_append, spawned_batches]

/-- A batch that gets to the end of the loop body starts exactly one process, with the
targets that its expansion consumed, and leaves the targets that the expansion left. -/
theorem launch_batch_spawned (env : Env) (info : GDesktopAppInfo) (session_bus : Bool)
    (exec_line : Option String) (launch_context : Option GAppLaunchContext)
    (pid_callback : Bool) (st st' : LaunchState)
    (h : launch_batch env info session_bus exec_line launch_context pid_callback st =
      BatchResult.spawned st') :
    st'.dup_uris = (expand_application_parameters env info exec_line st.dup_uris).2 ∧
    spawned_batches st'.events = spawned_batches st.events ++
      [st.dup_uris.take (st.dup_uris.length - st'.dup_uris.length)] ∧
    st'.batch = st.batch + 1 ∧ exec_line.isSome = true := by
  have hexec : exec_line.isSome = true := by
    cases exec_line with
    | none => simp [launch_batch, expand_application_parameters] at h
    | some _ => rfl
  unfold launch_batch at h
  simp only [] at h
  split at h
  · simp only [reduceCtorEq] at h
  split at h
  · simp only [reduceCtorEq] at h
  split at h
  · simp only [reduceCtorEq] at h
  split at h
  · simp only [reduceCtorEq] at h
  split at h
  · simp only [reduceCtorEq] at h
  simp only [BatchResult.spawned.injEq] at h
  subst h
  refine ⟨rfl, ?_, rfl, hexec⟩
  cases session_bus <;> cases pid_callback <;> cases launch_context <;>
    simp [spawned_batches_append, spawned_batches]

/-- A macro consumes pending targets from the front. -/
theorem expand_macro_suffix (env : Env) (info : GDesktopAppInfo) (m : Char)
    (exec : List Char) (uris : List String) :
    ( expand_macro env m exec info uris).2 <:+ uris := by
  unfold expand_macro
  simp only []
  split_ifs <;> (repeat' split) <;> simp [List.suffix_cons]

/-- The pieces of a template consume pending targets from the front. -/
theorem expand_tokens_suffix (env : Env) (info : GDesktopAppInfo) :
    ∀ (tokens : List (Char ⊕ Char)) (acc : List Char) (uris : List String),
      (tokens.foldl (expand_token env info) (acc, uris)).2 <:+ uris := by
  intro tokens
  induction tokens with
  | nil =>
    intro acc uris
    exact List.suffix_refl _
  | cons t tokens ih =>
    intro acc uris
    rw [List.foldl_cons]
    have h := ih (expand_token env info (acc, uris) t).1 (expand_token env info (acc, uris) t).2
    refine h.trans ?_
    cases t with
    | inl c => exact List.suffix_refl _
    | inr m => exact expand_macro_suffix env info m acc uris

/-- The expansion consumes pending targets from the front, and at least one of them when
there is one. -/
theorem expand_application_parameters_line_suffix (env : Env) (info : GDesktopAppInfo)
    (exec_line : String) (uris : List String) :
    (expand_application_parameters_line env info exec_line uris).2 <:+ uris ∧
    (uris ≠ [] →
      (expand_application_parameters_line env info exec_line uris).2.length < uris.length) := by
  have hs : (expand_exec_line env info exec_line.data [] uris).2 <:+ uris := by
    rw [expand_exec_line_tokens env info exec_line.data.length exec_line.data (Nat.le_refl _)]
    exact expand_tokens_suffix env info _ [] uris
  unfold expand_application_parameters_line
  simp only []
  by_cases hc : uris.length = (expand_exec_line env info exec_line.data [] uris).2.length ∧
      uris ≠ []
  · rw [if_pos hc]
    have heq : (expand_exec_line env info exec_line.data [] uris).2 = uris :=
      List.IsSuffix.eq_of_length hs hc.1.symm
    rw [heq]
    cases uris with
    | nil => exact absurd rfl hc.2
    | cons u rest =>
      rw [expand_macro_f]
      exact ⟨List.suffix_cons u rest, fun _ => by simp⟩
  · rw [if_neg hc]
    refine ⟨hs, fun hne => ?_⟩
    have hle := hs.length_le
    have hne2 : uris.length ≠ (expand_exec_line env info exec_line.data [] uris).2.length :=
      fun h => hc ⟨h, hne⟩
    omega

/-- The targets that a batch consumed, followed by the targets it left, are the targets
it started from. -/
theorem take_append_suffix {α : Type} (l l2 : List α) (h : l2 <:+ l) :
    l.take (l.length - l2.length) ++ l2 = l := by
  obtain ⟨t, ht⟩ := h
  subst ht
  simp

/-- A batch that spawned a process left a tail of the targets it started from, and a
shorter list when there were targets. -/
theorem launch_batch_spawned_suffix (env : Env) (info : GDesktopAppInfo) (session_bus : Bool)
    (exec_line : Option String) (launch_context : Option GAppLaunchContext)
    (pid_callback : Bool) (st st' : LaunchState)
    (h : launch_batch env info session_bus exec_line launch_context pid_callback st =
      BatchResult.spawned st') :
    st'.dup_uris <:+ st.dup_uris ∧
    (st.dup_uris ≠ [] → st'.dup_uris.length < st.dup_uris.length) := by
  obtain ⟨hdup, _, _, hexec⟩ :=
    launch_batch_spawned env info session_bus exec_line launch_context pid_callback st st' h
  cases exec_line with
  | none => simp at hexec
  | some line =>
    rw [hdup]
    exact expand_application_parameters_line_suffix env info line st.dup_uris

/-- What `k` batches that each spawned a process and left targets pending have done: `k`
processes, whose targets together with the pending ones are the targets at the start. -/
theorem launch_batches_spec (env : Env) (info : GDesktopAppInfo) (session_bus : Bool)
    (exec_line : Option String) (launch_context : Option GAppLaunchContext)
    (pid_callback : Bool) :
    ∀ (k : Nat) (st0 st : LaunchState),
      launch_batches env info session_bus exec_line launch_context pid_callback k st0 =
        some st →
      st.batch = st0.batch + k ∧
      st.dup_uris.length + k ≤ st0.dup_uris.length ∧
      ∃ batches : List (List String), batches.length = k ∧
        spawned_batches st.events = spawned_batches st0.events ++ batches ∧
        batches.flatten ++ st.dup_uris = st0.dup_uris := by
  intro k
  induction k with
  | zero =>
    intro st0 st h
    simp only [launch_batches, Option.some.injEq] at h
    subst h
    exact ⟨rfl, Nat.le_refl _, [], rfl, by simp, by simp⟩
  | succ k ih =>
    intro st0 st h
    rw [launch_batches] at h
    cases hb : launch_batch env info session_bus exec_line launch_context pid_callback st0 with
    | failed st1 => simp [hb] at h
    | aborted => simp [hb] at h
    | spawned st1 =>
      simp only [hb] at h
      by_cases hne : st1.dup_uris ≠ []
      · rw [if_pos hne] at h
        obtain ⟨hbatch, hlen, batches, hk, hev, hjoin⟩ := ih st1 st h
        obtain ⟨_, hev1, hbatch1, _⟩ :=
          launch_batch_spawned env info session_bus exec_line launch_context pid_callback
            st0 st1 hb
        obtain ⟨hsuf, hshort⟩ :=
          launch_batch_spawned_suffix env info session_bus exec_line launch_context
            pid_callback st0 st1 hb
        have hne0 : st0.dup_uris ≠ [] := by
          intro h0
          rw [h0] at hsuf
          exact hne (List.suffix_nil.mp hsuf)
        have hlt := hshort hne0
        refine ⟨by omega, by omega,
          st0.dup_uris.take (st0.dup_uris.length - st1.dup_uris.length) :: batches,
          by simp [hk], ?_, ?_⟩
        · rw [hev, hev1]
          simp
        · rw [List.flatten_cons, List.append_assoc, hjoin]
          exact take_append_suffix _ _ hsuf
      · rw [if_neg hne] at h
        simp at h

/-- The loop after `k` batches that each spawned a process and left targets pending goes
on from the state they reached. -/
theorem launch_loop_after_batches (env : Env) (info : GDesktopAppInfo) (session_bus : Bool)
    (exec_line : Option String) (launch_context : Option GAppLaunchContext)
    (pid_callback : Bool) :
    ∀ (k fuel : Nat) (st0 st : LaunchState),
      launch_batches env info session_bus exec_line launch_context pid_callback k st0 =
        some st →
      launch_loop env info session_bus exec_line launch_context pid_callback (fuel + k) st0 =
        launch_loop env info session_bus exec_line launch_context pid_callback fuel st := by
  intro k
  induction k with
  | zero =>
    intro fuel st0 st h
    simp only [launch_batches, Option.some.injEq] at h
    subst h
    rfl
  | succ k ih =>
    intro fuel st0 st h
    rw [launch_batches] at h
    cases hb : launch_batch env info session_bus exec_line launch_context pid_callback st0 with
    | failed st1 => simp [hb] at h
    | aborted => simp [hb] at h
    | spawned st1 =>
      simp only [hb] at h
      by_cases hne : st1.dup_uris ≠ []
      · rw [if_pos hne] at h
        rw [← Nat.add_assoc, launch_loop]
        simp only [hb]
        rw [if_pos hne]
        exact ih fuel st1 st h
      · rw [if_neg hne] at h
        simp at h

/-- One more batch that spawns a process and leaves targets pending. -/
theorem launch_batches_succ (env : Env) (info : GDesktopAppInfo) (session_bus : Bool)
    (exec_line : Option String) (launch_context : Option GAppLaunchContext)
    (pid_callback : Bool) :
    ∀ (k : Nat) (st0 st st' : LaunchState),
      launch_batches env info session_bus exec_line launch_context pid_callback k st0 =
        some st →
      launch_batch env info session_bus exec_line launch_context pid_callback st =
        BatchResult.spawned st' →
      st'.dup_uris ≠ [] →
      launch_batches env info session_bus exec_line launch_context pid_callback (k + 1) st0 =
        some st' := by
  intro k
  induction k with
  | zero =>
    intro st0 st st' h hb hne
    simp only [launch_batches, Option.some.injEq] at h
    subst h
    simp only [launch_batches, hb]
    rw [if_pos hne]
  | succ k ih =>
    intro st0 st st' h hb hne
    rw [launch_batches] at h ⊢
    cases hb0 : launch_batch env info session_bus exec_line launch_context pid_callback st0 with
    | failed st1 => simp [hb0] at h
    | aborted => simp [hb0] at h
    | spawned st1 =>
      simp only [hb0] at h ⊢
      by_cases hne1 : st1.dup_uris ≠ []
      · rw [if_pos hne1] at h ⊢
        exact ih st1 st st' h hb hne
      · rw [if_neg hne1] at h
        simp at h

/-- The loop ends within as many iterations as there are targets, and within one
iteration when there is none. -/
theorem launch_loop_returns (env : Env) (info : GDesktopAppInfo) (session_bus : Bool)
    (exec_line : Option String) (launch_context : Option GAppLaunchContext)
    (pid_callback : Bool) :
    ∀ (fuel : Nat) (st : LaunchState), st.dup_uris.length < fuel →
      launch_loop env info session_bus exec_line launch_context pid_callback fuel st ≠
        LaunchResult.out_of_fuel := by
  intro fuel
  induction fuel with
  | zero =>
    intro st h
    omega
  | succ fuel ih =>
    intro st h
    rw [launch_loop]
    cases hb : launch_batch env info session_bus exec_line launch_context pid_callback st with
    | failed st1 => simp
    | aborted => simp
    | spawned st1 =>
      simp only []
      by_cases hne : st1.dup_uris ≠ []
      · rw [if_pos hne]
        obtain ⟨hsuf, hshort⟩ :=
          launch_batch_spawned_suffix env info session_bus exec_line launch_context
            pid_callback st st1 hb
        have hne0 : st.dup_uris ≠ [] := by
          intro h0
          rw [h0] at hsuf
          exact hne (List.suffix_nil.mp hsuf)
        have hlt := hshort hne0
        exact ih st1 (by omega)
      · rw [if_neg hne]
        simp

/-- C25: take a launch in the spawn path whose first `k` batches each spawned a process
and left targets pending, and give the loop more fuel than there are targets.  The launch
returns.  If the next batch (batch `k + 1`) fails, in its expand, terminal, program lookup
or spawn step, the launch returns failure with the events up to that failure: exactly the
`k` earlier processes were spawned and no later batch is attempted.  If its assertion
fails, the launch aborts.  If it spawns a process, `k + 1` processes were spawned, and the
launch returns success exactly when no target is pending any more: then every target was
handed to one of the processes; otherwise the loop goes on with batch `k + 2`. -/
theorem launch_stops_at_failed_batch (env : Env) (fuel : Nat) (info : GDesktopAppInfo)
    (session_bus : Bool) (exec_line : Option String) (uris : List String)
    (launch_context : Option GAppLaunchContext) (pid_callback : Bool) (k : Nat)
    (st : LaunchState)
    (hk : launch_batches env info session_bus exec_line launch_context pid_callback k
      (launch_initial_state env uris launch_context) = some st)
    (hfuel : uris.length < fuel) :
    g_desktop_app_info_launch_uris_with_spawn env fuel info session_bus exec_line uris
      launch_context pid_callback ≠ LaunchResult.out_of_fuel ∧
    match launch_batch env info session_bus exec_line launch_context pid_callback st with
    | BatchResult.failed st' =>
      g_desktop_app_info_launch_uris_with_spawn env fuel info session_bus exec_line uris
        launch_context pid_callback = LaunchResult.finished false st'.events ∧
      (spawned_batches st'.events).length = k ∧ st'.batch = k
    | BatchResult.aborted =>
      g_desktop_app_info_launch_uris_with_spawn env fuel info session_bus exec_line uris
        launch_context pid_callback = LaunchResult.aborted
    | BatchResult.spawned st' =>
      (spawned_batches st'.events).length = k + 1 ∧ st'.batch = k + 1 ∧
      if st'.dup_uris = [] then
        g_desktop_app_info_launch_uris_with_spawn env fuel info session_bus exec_line uris
          launch_context pid_callback = LaunchResult.finished true st'.events ∧
        (spawned_batches st'.events).flatten = uris
      else
        launch_batches env info session_bus exec_line launch_context pid_callback (k + 1)
          (launch_initial_state env uris launch_context) = some st' := by
  have hloop : g_desktop_app_info_launch_uris_with_spawn env fuel info session_bus exec_line
      uris launch_context pid_callback =
      launch_loop env info session_bus exec_line launch_context pid_callback fuel
        (launch_initial_state env uris launch_context) := rfl
  obtain ⟨hbatch, hlen, batches, hbk, hev, hjoin⟩ :=
    launch_batches_spec env info session_bus exec_line launch_context pid_callback k _ st hk
  have hinit_uris : (launch_initial_state env uris launch_context).dup_uris = uris := rfl
  have hinit_batch : (launch_initial_state env uris launch_context).batch = 0 := rfl
  have hinit_events : (launch_initial_state env uris launch_context).events = [] := rfl
  rw [hinit_uris] at hlen hjoin
  rw [hinit_batch] at hbatch
  rw [hinit_events] at hev
  simp only [spawned_batches, List.nil_append] at hev
  refine ⟨?_, ?_⟩
  · rw [hloop]
    exact launch_loop_returns env info session_bus exec_line launch_context pid_callback fuel
      _ (by rw [hinit_uris]; exact hfuel)
  have hfuel2 : fuel = (fuel - k - 1) + 1 + k := by omega
  have hunroll := launch_loop_after_batches env info session_bus exec_line launch_context
    pid_callback k ((fuel - k - 1) + 1) _ st hk
  rw [← hfuel2] at hunroll
  rw [hloop, hunroll, launch_loop]
  cases hb : launch_batch env info session_bus exec_line launch_context pid_callback st with
  | failed st' =>
    obtain ⟨_, hev2, hbatch2⟩ :=
      launch_batch_failed env info session_bus exec_line launch_context pid_callback st st' hb
    simp only []
    refine ⟨trivial, ?_, ?_⟩
    · rw [hev2, hev, hbk]
    · omega
  | aborted => simp only []
  | spawned st' =>
    obtain ⟨_, hev2, hbatch2, _⟩ :=
      launch_batch_spawned env info session_bus exec_line launch_context pid_callback st st' hb
    obtain ⟨hsuf, _⟩ :=
      launch_batch_spawned_suffix env info session_bus exec_line launch_context pid_callback
        st st' hb
    simp only []
    refine ⟨?_, by omega, ?_⟩
    · rw [hev2, hev]
      simp [hbk]
    · by_cases hnil : st'.dup_uris = []
      · rw [if_pos hnil, if_neg (not_not.mpr hnil)]
        refine ⟨rfl, ?_⟩
        have htake := take_append_suffix _ _ hsuf
        rw [hnil, List.append_nil] at htake
        rw [hev2, hev, hnil]
        simp only [List.flatten_append, List.flatten_cons, List.flatten_nil, List.append_nil]
        rw [htake]
        exact hjoin
      · rw [if_neg hnil]
        exact launch_batches_succ env info session_bus exec_line launch_context pid_callback
          k _ st st' hk hb hnil

/-- C25 at the template `app %f` with three targets when the second spawn call fails:
the launch returns failure after the first process, and the third target is never
reached. -/
theorem launch_stops_at_failed_batch_witness :
    launch_batches (launch_env ["app"] (fun n => decide (n < 1))) (launch_info "app %f" false)
      false (some "app %f") none false 1
      (launch_initial_state (launch_env ["app"] (fun n => decide (n < 1))) launch_uris none) =
      some launch_state_one ∧
    launch_uris.length < 4 ∧
    g_desktop_app_info_launch_uris_with_spawn (launch_env ["app"] (fun n => decide (n < 1))) 4
      (launch_info "app %f" false) false (some "app %f") launch_uris none false =
      LaunchResult.finished false
        [LaunchEvent.spawn none ["gio-launch-desktop", "/usr/bin/app", "'/a'"] []
          ["file:///a"] 100] ∧
    (g_desktop_app_info_launch_uris_with_spawn (launch_env ["app"] (fun n => decide (n < 1))) 4
      (launch_info "app %f" false) false (some "app %f") launch_uris none false ≠
        LaunchResult.out_of_fuel ∧
      match launch_batch (launch_env ["app"] (fun n => decide (n < 1)))
        (launch_info "app %f" false) false (some "app %f") none false launch_state_one with
      | BatchResult.failed st' =>
        g_desktop_app_info_launch_uris_with_spawn
          (launch_env ["app"] (fun n => decide (n < 1))) 4 (launch_info "app %f" false) false
          (some "app %f") launch_uris none false = LaunchResult.finished false st'.events ∧
        (spawned_batches st'.events).length = 1 ∧ st'.batch = 1
      | BatchResult.aborted =>
        g_desktop_app_info_launch_uris_with_spawn
          (launch_env ["app"] (fun n => decide (n < 1))) 4 (launch_info "app %f" false) false
          (some "app %f") launch_uris none false = LaunchResult.aborted
      | BatchResult.spawned st' =>
        (spawned_batches st'.events).length = 1 + 1 ∧ st'.batch = 1 + 1 ∧
        if st'.dup_uris = [] then
          g_desktop_app_info_launch_uris_with_spawn
            (launch_env ["app"] (fun n => decide (n < 1))) 4 (launch_info "app %f" false)
            false (some "app %f") launch_uris none false =
            LaunchResult.finished true st'.events ∧
          (spawned_batches st'.events).flatten = launch_uris
        else
          launch_batches (launch_env ["app"] (fun n => decide (n < 1)))
            (launch_info "app %f" false) false (some "app %f") none false (1 + 1)
            (launch_initial_state (launch_env ["app"] (fun n => decide (n < 1))) launch_uris
              none) = some st') :=
  ⟨by decide, by decide, by decide,
    launch_stops_at_failed_batch (launch_env ["app"] (fun n => decide (n < 1))) 4
      (launch_info "app %f" false) false (some "app %f") launch_uris none false 1
      launch_state_one (by decide) (by decide)⟩

/-! ## One target per process, or all targets for one process -/

/-- A list of which exactly one element passes a filter splits at that element. -/
theorem filterMap_singleton_split {α β : Type} (f : α → Option β) :
    ∀ (l : List α) (b : β), l.filterMap f = [b] →
      ∃ (before : List α) (x : α) (after : List α), l = before ++ [x] ++ after ∧
        f x = some b ∧ before.filterMap f = [] ∧ after.filterMap f = [] := by
  intro l
  induction l with
  | nil =>
    intro b h
    simp at h
  | cons a l ih =>
    intro b h
    cases hf : f a with
    | none =>
      rw [List.filterMap_cons_none hf] at h
      obtain ⟨before, x, after, hl, hx, hb, ha⟩ := ih b h
      refine ⟨a :: before, x, after, ?_, hx, ?_, ha⟩
      · rw [hl]
        simp
      · rw [List.filterMap_cons_none hf]
        exact hb
    | some c =>
      rw [List.filterMap_cons_some hf] at h
      simp only [List.cons.injEq] at h
      refine ⟨[], a, l, by simp, ?_, rfl, h.2⟩
      rw [hf, h.1]

/-- A template with exactly one target macro is made of pieces that consume no target,
the macro, and more pieces that consume no target. -/
theorem target_macros_singleton (exec_line : List Char) (m : Char)
    (h : target_macros exec_line = [m]) :
    ∃ before after : List (Char ⊕ Char),
      exec_tokens exec_line = before ++ [Sum.inr m] ++ after ∧
      (∀ t ∈ before, token_consumes t = false) ∧ (∀ t ∈ after, token_consumes t = false) := by
  obtain ⟨before, x, after, hl, hx, hb, ha⟩ := filterMap_singleton_split _ _ m h
  refine ⟨before, after, ?_, (target_macros_nil before).mp hb, (target_macros_nil after).mp ha⟩
  rw [hl]
  cases x with
  | inl c => simp at hx
  | inr m2 =>
    simp only [] at hx
    by_cases hm : is_target_letter m2 = true
    · rw [if_pos hm] at hx
      rw [Option.some.inj hx]
    · rw [if_neg hm] at hx
      simp at hx

/-- The expansion of a template with one target macro: the pieces before it, the macro,
the pieces after it. -/
theorem expand_exec_line_single (env : Env) (info : GDesktopAppInfo) (exec_line : List Char)
    (m : Char) (before after : List (Char ⊕ Char))
    (htokens : exec_tokens exec_line = before ++ [Sum.inr m] ++ after)
    (hbefore : ∀ t ∈ before, token_consumes t = false)
    (hafter : ∀ t ∈ after, token_consumes t = false) (uris : List String) :
    expand_exec_line env info exec_line [] uris =
      (( expand_macro env m (expand_tokens env info before) info uris).1 ++
          expand_tokens env info after,
        ( expand_macro env m (expand_tokens env info before) info uris).2) := by
  rw [expand_exec_line_tokens env info exec_line.length exec_line (Nat.le_refl _), htokens,
    List.foldl_append, List.foldl_append, expand_tokens_no_target env info before hbefore,
    List.foldl_cons, List.foldl_nil, List.nil_append]
  simp only [expand_token]
  exact expand_tokens_no_target env info after hafter _ _

/-- The macro `%F` appends the quoted local paths of all pending targets, with one space
between two of them. -/
theorem expand_macro_plural_paths (env : Env) :
    ∀ (uris : List String) (exec : List Char),
      (∀ u ∈ uris, (env.g_file_get_path u).isSome = true) →
      expand_macro_plural env 'F' false 'F' exec uris =
        exec ++ List.intercalate [' '] (uris.map (quoted_path env)) := by
  intro uris
  induction uris with
  | nil =>
    intro exec _
    simp [expand_macro_plural, List.intercalate]
  | cons u rest ih =>
    intro exec h
    have hu := h u (List.mem_cons_self _ _)
    have hrest : ∀ x ∈ rest, (env.g_file_get_path x).isSome = true :=
      fun x hx => h x (List.mem_cons_of_mem _ hx)
    obtain ⟨path, hpath⟩ := Option.isSome_iff_exists.mp hu
    have h1 : ¬ ('F' = 'u') := by decide
    have h2 : ¬ ('F' = 'U') := by decide
    have h3 : ¬ ('F' = 'f') := by decide
    have hexp : expand_macro_uri env 'F' u false 'F' = some (env.g_shell_quote path) := by
      simp [expand_macro_uri, expand_macro_single, h1, h2, hpath]
    have hq : quoted_path env u = (env.g_shell_quote path).data := by
      simp [quoted_path, hpath]
    rw [expand_macro_plural]
    simp only [hexp, Option.isSome_some, and_true]
    rw [ih _ hrest]
    cases rest with
    | nil => simp [List.intercalate, hq]
    | cons v rest => simp [List.intercalate, hq]

/-- When every batch consumes exactly one target, the processes of the loop get the
pending targets one each, in order, and the launch completes exactly when every target
got its process. -/
theorem launch_loop_one_target_per_batch (env : Env) (info : GDesktopAppInfo)
    (session_bus : Bool) (exec_line : Option String)
    (launch_context : Option GAppLaunchContext) (pid_callback : Bool)
    (hone : ∀ (u : String) (rest : List String),
      (expand_application_parameters env info exec_line (u :: rest)).2 = rest) :
    ∀ (uris : List String) (fuel : Nat) (st : LaunchState), st.dup_uris = uris → uris ≠ [] →
      uris.length ≤ fuel →
      launch_loop env info session_bus exec_line launch_context pid_callback fuel st =
        LaunchResult.aborted ∨
      ∃ (completed : Bool) (events : List LaunchEvent) (n : Nat),
        launch_loop env info session_bus exec_line launch_context pid_callback fuel st =
          LaunchResult.finished completed events ∧
        n ≤ uris.length ∧
        spawned_batches events =
          spawned_batches st.events ++ (uris.take n).map (fun u => [u]) ∧
        (completed = true ↔ n = uris.length) := by
  intro uris
  induction uris with
  | nil =>
    intro fuel st _ hne _
    exact absurd rfl hne
  | cons u rest ih =>
    intro fuel st hst _ hfuel
    cases fuel with
    | zero => simp at hfuel
    | succ fuel =>
      rw [launch_loop]
      cases hb : launch_batch env info session_bus exec_line launch_context pid_callback st with
      | failed st1 =>
        obtain ⟨_, hev, _⟩ :=
          launch_batch_failed env info session_bus exec_line launch_context pid_callback
            st st1 hb
        exact Or.inr ⟨false, st1.events, 0, rfl, Nat.zero_le _, by simp [hev], by simp⟩
      | aborted => exact Or.inl rfl
      | spawned st1 =>
        obtain ⟨hdup, hev, _, _⟩ :=
          launch_batch_spawned env info session_bus exec_line launch_context pid_callback
            st st1 hb
        rw [hst, hone u rest] at hdup
        rw [hdup, hst] at hev
        have htake : (u :: rest).take ((u :: rest).length - rest.length) = [u] := by
          simp
        rw [htake] at hev
        simp only []
        by_cases hrest : rest = []
        · rw [if_neg (by rw [hdup]; exact not_not.mpr hrest)]
          refine Or.inr ⟨true, st1.events, 1, rfl, by simp, ?_, by simp [hrest]⟩
          rw [hev]
          simp
        · rw [if_pos (by rw [hdup]; exact hrest)]
          simp only [List.length_cons] at hfuel
          rcases ih fuel st1 hdup hrest (by omega) with hab | ⟨completed, events, n, hr, hn, hsp, hc⟩
          · exact Or.inl hab
          · refine Or.inr ⟨completed, events, n + 1, hr, by simp [hn], ?_, ?_⟩
            · rw [hsp, hev]
              simp
            · rw [hc]
              simp

/-- The macro `%F` consumes every pending target. -/
theorem expand_macro_F (env : Env) (info : GDesktopAppInfo) (exec : List Char)
    (uris : List String) (hpaths : ∀ u ∈ uris, (env.g_file_get_path u).isSome = true) :
    expand_macro env 'F' exec info uris =
      (exec ++ List.intercalate [' '] (uris.map (quoted_path env)), []) := by
  have h1 : ¬ ('F' = 'u') := by decide
  have h2 : ¬ ('F' = 'U') := by decide
  have h3 : ¬ ('F' = 'f') := by decide
  have h4 : ¬ ('F' = 'd') := by decide
  have h5 : ¬ ('F' = 'n') := by decide
  simp only [ expand_macro, h1, h2, h3, h4, h5, if_false, ite_self, or_self, true_or, or_true,
    if_true]
  rw [expand_macro_plural_paths env uris exec hpaths]

/-- C21: take a command template whose only target macro is one `%f` or one `%F`, a list
of pending targets that is not empty and whose members all have a local path, and fuel
for as many iterations as there are targets.  The template is made of pieces `before`
the macro and pieces `after` it.  With `%f`, the expansion for the targets from the
`k`-th on is the text of `before`, the quoted path of the `k`-th target and the text of
`after`, and it consumes exactly that target; the spawn loop either aborts at its
assertion or returns after it spawned processes for the first `n` targets, one target
each in order, and it returns success exactly when `n` is the number of targets.  With
`%F`, the expansion holds the quoted paths of all targets in order with one space between
two of them and consumes all targets; the spawn loop either aborts or returns after one
iteration, with one process for all targets on success and none on failure. -/
theorem launch_file_macro_batches (env : Env) (fuel : Nat) (info : GDesktopAppInfo)
    (session_bus : Bool) (exec_line : String) (uris : List String)
    (launch_context : Option GAppLaunchContext) (pid_callback : Bool) (m : Char)
    (hm : m = 'f' ∨ m = 'F')
    (htargets : target_macros exec_line.data = [m])
    (hne : uris ≠ [])
    (hpaths : ∀ u ∈ uris, (env.g_file_get_path u).isSome = true)
    (hfuel : uris.length ≤ fuel) :
    ∃ before after : List (Char ⊕ Char),
      exec_tokens exec_line.data = before ++ [Sum.inr m] ++ after ∧
      ((m = 'f' ∧
        (∀ (k : Nat) (u : String), uris[k]? = some u →
          expand_application_parameters_line env info exec_line (uris.drop k) =
            (expand_tokens env info before ++ quoted_path env u ++
              expand_tokens env info after, uris.drop (k + 1))) ∧
        (g_desktop_app_info_launch_uris_with_spawn env fuel info session_bus (some exec_line)
            uris launch_context pid_callback = LaunchResult.aborted ∨
          ∃ (completed : Bool) (events : List LaunchEvent) (n : Nat),
            g_desktop_app_info_launch_uris_with_spawn env fuel info session_bus
              (some exec_line) uris launch_context pid_callback =
              LaunchResult.finished completed events ∧
            n ≤ uris.length ∧
            spawned_batches events = (uris.take n).map (fun u => [u]) ∧
            (completed = true ↔ n = uris.length))) ∨
       (m = 'F' ∧
        expand_application_parameters_line env info exec_line uris =
          (expand_tokens env info before ++
            List.intercalate [' '] (uris.map (quoted_path env)) ++
            expand_tokens env info after, []) ∧
        (g_desktop_app_info_launch_uris_with_spawn env fuel info session_bus (some exec_line)
            uris launch_context pid_callback = LaunchResult.aborted ∨
          ∃ (completed : Bool) (events : List LaunchEvent),
            g_desktop_app_info_launch_uris_with_spawn env fuel info session_bus
              (some exec_line) uris launch_context pid_callback =
              LaunchResult.finished completed events ∧
            spawned_batches events = if completed = true then [uris] else []))) := by
  obtain ⟨before, after, htokens, hbefore, hafter⟩ :=
    target_macros_singleton exec_line.data m htargets
  refine ⟨before, after, htokens, ?_⟩
  have hloop : g_desktop_app_info_launch_uris_with_spawn env fuel info session_bus
      (some exec_line) uris launch_context pid_callback =
      launch_loop env info session_bus (some exec_line) launch_context pid_callback fuel
        (launch_initial_state env uris launch_context) := rfl
  rcases hm with hm | hm
  · subst hm
    have hline : ∀ (u : String) (rest : List String),
        expand_application_parameters_line env info exec_line (u :: rest) =
          (expand_tokens env info before ++ quoted_path env u ++ expand_tokens env info after,
            rest) := by
      intro u rest
      unfold expand_application_parameters_line
      simp only []
      rw [expand_exec_line_single env info exec_line.data 'f' before after htokens hbefore
        hafter, expand_macro_f]
      simp
    refine Or.inl ⟨rfl, ?_, ?_⟩
    · intro k u hk
      obtain ⟨hlt, hget⟩ := List.getElem?_eq_some_iff.mp hk
      rw [List.drop_eq_getElem_cons hlt, hget]
      exact hline u _
    · rw [hloop]
      have h := launch_loop_one_target_per_batch env info session_bus (some exec_line)
        launch_context pid_callback
        (by
          intro u rest
          simp only [expand_application_parameters, hline])
        uris fuel (launch_initial_state env uris launch_context) rfl hne hfuel
      simpa [launch_initial_state, spawned_batches] using h
  · subst hm
    have hline : expand_application_parameters_line env info exec_line uris =
        (expand_tokens env info before ++
          List.intercalate [' '] (uris.map (quoted_path env)) ++
          expand_tokens env info after, []) := by
      unfold expand_application_parameters_line
      simp only []
      rw [expand_exec_line_single env info exec_line.data 'F' before after htokens hbefore
        hafter, expand_macro_F env info _ uris hpaths]
      have hlen : uris.length ≠ 0 := fun h => hne (List.eq_nil_of_length_eq_zero h)
      simp [hlen]
    refine Or.inr ⟨rfl, hline, ?_⟩
    rw [hloop]
    cases fuel with
    | zero =>
      have : uris.length = 0 := by omega
      exact absurd (List.eq_nil_of_length_eq_zero this) hne
    | succ fuel =>
      rw [launch_loop]
      cases hb : launch_batch env info session_bus (some exec_line) launch_context pid_callback
          (launch_initial_state env uris launch_context) with
      | failed st1 =>
        obtain ⟨_, hev, _⟩ :=
          launch_batch_failed env info session_bus (some exec_line) launch_context
            pid_callback _ st1 hb
        exact Or.inr ⟨false, st1.events, rfl, by simp [hev, launch_initial_state,
          spawned_batches]⟩
      | aborted => exact Or.inl rfl
      | spawned st1 =>
        obtain ⟨hdup, hev, _, _⟩ :=
          launch_batch_spawned env info session_bus (some exec_line) launch_context
            pid_callback _ st1 hb
        have hnil : st1.dup_uris = [] := by
          rw [hdup]
          simp only [expand_application_parameters, launch_initial_state, hline]
        simp only []
        rw [if_neg (not_not.mpr hnil)]
        refine Or.inr ⟨true, st1.events, rfl, ?_⟩
        rw [hev, hnil]
        simp [launch_initial_state, spawned_batches]

/-- C21 at the templates `app %f` and `app %F` with the three targets of `launch_uris`:
three processes with one target each, and one process with the three targets. -/
theorem launch_file_macro_batches_witness :
    target_macros "app %f".data = ['f'] ∧ target_macros "app %F".data = ['F'] ∧
    launch_uris ≠ [] ∧
    (∀ u ∈ launch_uris,
      ((launch_env ["app"] (fun _ => true)).g_file_get_path u).isSome = true) ∧
    spawned_batches_of_result
      (g_desktop_app_info_launch_uris_with_spawn (launch_env ["app"] (fun _ => true)) 3
        (launch_info "app %f" false) false (some "app %f") launch_uris none false) =
      some (true, [["file:///a"], ["file:///b"], ["file:///c"]]) ∧
    g_desktop_app_info_launch_uris_with_spawn (launch_env ["app"] (fun _ => true)) 3
      (launch_info "app %F" false) false (some "app %F") launch_uris none false =
      LaunchResult.finished true
        [LaunchEvent.spawn none ["gio-launch-desktop", "/usr/bin/app", "'/a'", "'/b'", "'/c'"]
          [] launch_uris 100] ∧
    (∃ before after : List (Char ⊕ Char),
      exec_tokens "app %f".data = before ++ [Sum.inr 'f'] ++ after ∧
      (('f' = 'f' ∧
        (∀ (k : Nat) (u : String), launch_uris[k]? = some u →
          expand_application_parameters_line (launch_env ["app"] (fun _ => true))
            (launch_info "app %f" false) "app %f" (launch_uris.drop k) =
            (expand_tokens (launch_env ["app"] (fun _ => true)) (launch_info "app %f" false)
                before ++
              quoted_path (launch_env ["app"] (fun _ => true)) u ++
              expand_tokens (launch_env ["app"] (fun _ => true)) (launch_info "app %f" false)
                after, launch_uris.drop (k + 1))) ∧
        (g_desktop_app_info_launch_uris_with_spawn (launch_env ["app"] (fun _ => true)) 3
            (launch_info "app %f" false) false (some "app %f") launch_uris none false =
            LaunchResult.aborted ∨
          ∃ (completed : Bool) (events : List LaunchEvent) (n : Nat),
            g_desktop_app_info_launch_uris_with_spawn (launch_env ["app"] (fun _ => true)) 3
              (launch_info "app %f" false) false (some "app %f") launch_uris none false =
              LaunchResult.finished completed events ∧
            n ≤ launch_uris.length ∧
            spawned_batches events = (launch_uris.take n).map (fun u => [u]) ∧
            (completed = true ↔ n = launch_uris.length))) ∨
       ('f' = 'F' ∧
        expand_application_parameters_line (launch_env ["app"] (fun _ => true))
          (launch_info "app %f" false) "app %f" launch_uris =
          (expand_tokens (launch_env ["app"] (fun _ => true)) (launch_info "app %f" false)
              before ++
            List.intercalate [' ']
              (launch_uris.map (quoted_path (launch_env ["app"] (fun _ => true)))) ++
            expand_tokens (launch_env ["app"] (fun _ => true)) (launch_info "app %f" false)
              after, []) ∧
        (g_desktop_app_info_launch_uris_with_spawn (launch_env ["app"] (fun _ => true)) 3
            (launch_info "app %f" false) false (some "app %f") launch_uris none false =
            LaunchResult.aborted ∨
          ∃ (completed : Bool) (events : List LaunchEvent),
            g_desktop_app_info_launch_uris_with_spawn (launch_env ["app"] (fun _ => true)) 3
              (launch_info "app %f" false) false (some "app %f") launch_uris none false =
              LaunchResult.finished completed events ∧
            spawned_batches events = if completed = true then [launch_uris] else [])))) ∧
    (∃ before after : List (Char ⊕ Char),
      exec_tokens "app %F".data = before ++ [Sum.inr 'F'] ++ after ∧
      (('F' = 'f' ∧
        (∀ (k : Nat) (u : String), launch_uris[k]? = some u →
          expand_application_parameters_line (launch_env ["app"] (fun _ => true))
            (launch_info "app %F" false) "app %F" (launch_uris.drop k) =
            (expand_tokens (launch_env ["app"] (fun _ => true)) (launch_info "app %F" false)
                before ++
              quoted_path (launch_env ["app"] (fun _ => true)) u ++
              expand_tokens (launch_env ["app"] (fun _ => true)) (launch_info "app %F" false)
                after, launch_uris.drop (k + 1))) ∧
        (g_desktop_app_info_launch_uris_with_spawn (launch_env ["app"] (fun _ => true)) 3
            (launch_info "app %F" false) false (some "app %F") launch_uris none false =
            LaunchResult.aborted ∨
          ∃ (completed : Bool) (events : List LaunchEvent) (n : Nat),
            g_desktop_app_info_launch_uris_with_spawn (launch_env ["app"] (fun _ => true)) 3
              (launch_info "app %F" false) false (some "app %F") launch_uris none false =
              LaunchResult.finished completed events ∧
            n ≤ launch_uris.length ∧
            spawned_batches events = (launch_uris.take n).map (fun u => [u]) ∧
            (completed = true ↔ n = launch_uris.length))) ∨
       ('F' = 'F' ∧
        expand_application_parameters_line (launch_env ["app"] (fun _ => true))
          (launch_info "app %F" false) "app %F" launch_uris =
          (expand_tokens (launch_env ["app"] (fun _ => true)) (launch_info "app %F" false)
              before ++
            List.intercalate [' ']
              (launch_uris.map (quoted_path (launch_env ["app"] (fun _ => true)))) ++
            expand_tokens (launch_env ["app"] (fun _ => true)) (launch_info "app %F" false)
              after, []) ∧
        (g_desktop_app_info_launch_uris_with_spawn (launch_env ["app"] (fun _ => true)) 3
            (launch_info "app %F" false) false (some "app %F") launch_uris none false =
            LaunchResult.aborted ∨
          ∃ (completed : Bool) (events : List LaunchEvent),
            g_desktop_app_info_launch_uris_with_spawn (launch_env ["app"] (fun _ => true)) 3
              (launch_info "app %F" false) false (some "app %F") launch_uris none false =
              LaunchResult.finished completed events ∧
            spawned_batches events = if completed = true then [launch_uris] else [])))) :=
  ⟨by decide, by decide, by decide, by decide, by decide, by decide,
    launch_file_macro_batches (launch_env ["app"] (fun _ => true)) 3
      (launch_info "app %f" false) false "app %f" launch_uris none false 'f'
      (Or.inl rfl) (by decide) (by decide) (by decide) (by decide),
    launch_file_macro_batches (launch_env ["app"] (fun _ => true)) 3
      (launch_info "app %F" false) false "app %F" launch_uris none false 'F'
      (Or.inr rfl) (by decide) (by decide) (by decide) (by decide)⟩

/-! ## The id table that a scan builds -/

/-- A name ending in `.desktop` that the directory lists is an entry of the scan. -/
theorem scanned_here (env : Env) (dirname pfx name : String) (names : List String)
    (hopen : env.g_dir_open dirname = some names) (hmem : name ∈ names)
    (hsuffix : ".desktop".data.isSuffixOf name.data = true) :
    Scanned env dirname pfx (pfx ++ name) (env.g_build_filename [dirname, name]) :=
  ⟨[], name, dirname, names, rfl, hopen, hmem, hsuffix, rfl, rfl⟩

/-- An entry of the scan of a subdirectory is an entry of the scan of the directory. -/
theorem scanned_below (env : Env) (dirname pfx d id path : String) (names : List String)
    (hopen : env.g_dir_open dirname = some names) (hmem : d ∈ names)
    (hsuffix : ".desktop".data.isSuffixOf d.data = false)
    (hdir : env.g_file_test_is_dir (env.g_build_filename [dirname, d]) = true)
    (h : Scanned env (env.g_build_filename [dirname, d]) (pfx ++ d ++ "-") id path) :
    Scanned env dirname pfx id path := by
  obtain ⟨dirs, name, dir, names2, hs, ho, hm, hsf, hid, hp⟩ := h
  refine ⟨d :: dirs, name, dir, names2, ?_, ho, hm, hsf, ?_, hp⟩
  · rw [scan_dir]
    simp only [hopen]
    rw [if_pos ⟨hmem, hsuffix, hdir⟩]
    exact hs
  · rw [hid]
    simp only [scan_id, String.append_assoc]

/-- An entry of the scan of a directory is a name of the directory or an entry of the
scan of one of its subdirectories. -/
theorem scanned_inv (env : Env) (dirname pfx id path : String)
    (h : Scanned env dirname pfx id path) :
    ∃ names, env.g_dir_open dirname = some names ∧
      ScannedVia env dirname pfx names id path := by
  obtain ⟨dirs, name, dir, names2, hs, ho, hm, hsf, hid, hp⟩ := h
  cases dirs with
  | nil =>
    simp only [scan_dir, Option.some.injEq] at hs
    subst hs
    exact ⟨names2, ho, Or.inl ⟨name, hm, hsf, hid, hp⟩⟩
  | cons d dirs =>
    rw [scan_dir] at hs
    cases hopen : env.g_dir_open dirname with
    | none => simp [hopen] at hs
    | some names =>
      simp only [hopen] at hs
      by_cases hc : d ∈ names ∧ ".desktop".data.isSuffixOf d.data = false ∧
          env.g_file_test_is_dir (env.g_build_filename [dirname, d]) = true
      · rw [if_pos hc] at hs
        refine ⟨names, rfl, Or.inr ⟨d, hc.1, hc.2.1, hc.2.2, dirs, name, dir, names2, hs, ho,
          hm, hsf, ?_, hp⟩⟩
        rw [hid]
        simp only [scan_id, String.append_assoc]
      · rw [if_neg hc] at hs
        simp at hs

/-- The loop of `get_apps_from_dir` over names of a directory, when the calls for the
subdirectories return: the table afterwards holds what it held before and the entries
that the scan comes across, and nothing else. -/
theorem get_apps_from_dir_loop (env : Env) (fuel : Nat) (dirname pfx : String)
    (names : List String)
    (ih : ∀ (apps0 : Option (GHashTable String)) (d : String), d ∈ names →
      ".desktop".data.isSuffixOf d.data = false →
      env.g_file_test_is_dir (env.g_build_filename [dirname, d]) = true →
      ∃ apps, get_apps_from_dir env fuel apps0 (env.g_build_filename [dirname, d])
          (pfx ++ d ++ "-") = some apps ∧
        (∀ id path, g_hash_table_lookup (apps.getD []) id = some path →
          g_hash_table_lookup (apps0.getD []) id = some path ∨
          Scanned env (env.g_build_filename [dirname, d]) (pfx ++ d ++ "-") id path) ∧
        (∀ id, (g_hash_table_lookup (apps0.getD []) id).isSome = true →
          (g_hash_table_lookup (apps.getD []) id).isSome = true) ∧
        (∀ id path, Scanned env (env.g_build_filename [dirname, d]) (pfx ++ d ++ "-") id path →
          (g_hash_table_lookup (apps.getD []) id).isSome = true)) :
    ∀ (ns : List String), (∀ n ∈ ns, n ∈ names) → ∀ (apps0 : Option (GHashTable String)),
      ∃ apps,
        ns.foldl (fun (apps : Option (Option (GHashTable String))) basename =>
          match apps with
          | none => none
          | some apps =>
            let filename := env.g_build_filename [dirname, basename]
            if ".desktop".data.isSuffixOf basename.data then
              some (some (g_hash_table_insert (apps.getD []) (pfx ++ basename) filename))
            else if env.g_file_test_is_dir filename then
              get_apps_from_dir env fuel apps filename (pfx ++ basename ++ "-")
            else some apps) (some apps0) = some apps ∧
        (∀ id path, g_hash_table_lookup (apps.getD []) id = some path →
          g_hash_table_lookup (apps0.getD []) id = some path ∨
          ScannedVia env dirname pfx ns id path) ∧
        (∀ id, (g_hash_table_lookup (apps0.getD []) id).isSome = true →
          (g_hash_table_lookup (apps.getD []) id).isSome = true) ∧
        (∀ id path, ScannedVia env dirname pfx ns id path →
          (g_hash_table_lookup (apps.getD []) id).isSome = true) := by
  intro ns
  induction ns with
  | nil =>
    intro _ apps0
    refine ⟨apps0, rfl, fun id path h => Or.inl h, fun id h => h, ?_⟩
    intro id path h
    rcases h with ⟨name, hm, _⟩ | ⟨d, hm, _⟩ <;> simp at hm
  | cons b ns ihns =>
    intro hsub apps0
    have hb : b ∈ names := hsub b (List.mem_cons_self _ _)
    have hrest : ∀ n ∈ ns, n ∈ names := fun n hn => hsub n (List.mem_cons_of_mem _ hn)
    rw [List.foldl_cons]
    simp only []
    by_cases hsuffix : ".desktop".data.isSuffixOf b.data = true
    · rw [if_pos hsuffix]
      obtain ⟨apps, hfold, h1, h2, h3⟩ := ihns hrest
        (some (g_hash_table_insert (apps0.getD []) (pfx ++ b) (env.g_build_filename [dirname, b])))
      refine ⟨apps, hfold, ?_, ?_, ?_⟩
      · intro id path hl
        rcases h1 id path hl with h | h
        · simp only [Option.getD_some, g_hash_table_lookup_insert] at h
          by_cases hid : pfx ++ b = id
          · rw [if_pos hid, Option.some.injEq] at h
            exact Or.inr (Or.inl ⟨b, List.mem_cons_self _ _, hsuffix, hid.symm, h.symm⟩)
          · rw [if_neg hid] at h
            exact Or.inl h
        · rcases h with ⟨name, hm, hr⟩ | ⟨d, hm, hr⟩
          · exact Or.inr (Or.inl ⟨name, List.mem_cons_of_mem _ hm, hr⟩)
          · exact Or.inr (Or.inr ⟨d, List.mem_cons_of_mem _ hm, hr⟩)
      · intro id hsome
        apply h2
        simp only [Option.getD_some, g_hash_table_lookup_insert]
        by_cases hid : pfx ++ b = id
        · rw [if_pos hid]
          rfl
        · rw [if_neg hid]
          exact hsome
      · intro id path hv
        rcases hv with ⟨name, hm, hsf, hid, hp⟩ | ⟨d, hm, hsf, hdir, hs⟩
        · rcases List.mem_cons.mp hm with heq | hm2
          · apply h2
            simp only [Option.getD_some, g_hash_table_lookup_insert]
            rw [if_pos (by rw [hid, heq])]
            rfl
          · exact h3 id path (Or.inl ⟨name, hm2, hsf, hid, hp⟩)
        · rcases List.mem_cons.mp hm with heq | hm2
          · rw [heq, hsuffix] at hsf
            exact absurd hsf (by decide)
          · exact h3 id path (Or.inr ⟨d, hm2, hsf, hdir, hs⟩)
    · rw [if_neg hsuffix]
      have hsuffix2 : ".desktop".data.isSuffixOf b.data = false :=
        Bool.eq_false_iff.mpr hsuffix
      by_cases hdir : env.g_file_test_is_dir (env.g_build_filename [dirname, b]) = true
      · rw [if_pos hdir]
        obtain ⟨apps1, hsubdir, s1, s2, s3⟩ := ih apps0 b hb hsuffix2 hdir
        rw [hsubdir]
        obtain ⟨apps, hfold, h1, h2, h3⟩ := ihns hrest apps1
        refine ⟨apps, hfold, ?_, ?_, ?_⟩
        · intro id path hl
          rcases h1 id path hl with h | h
          · rcases s1 id path h with h0 | hs
            · exact Or.inl h0
            · exact Or.inr (Or.inr ⟨b, List.mem_cons_self _ _, hsuffix2, hdir, hs⟩)
          · rcases h with ⟨name, hm, hr⟩ | ⟨d, hm, hr⟩
            · exact Or.inr (Or.inl ⟨name, List.mem_cons_of_mem _ hm, hr⟩)
            · exact Or.inr (Or.inr ⟨d, List.mem_cons_of_mem _ hm, hr⟩)
        · intro id hsome
          exact h2 id (s2 id hsome)
        · intro id path hv
          rcases hv with ⟨name, hm, hsf, hid, hp⟩ | ⟨d, hm, hsf, hdir2, hs⟩
          · rcases List.mem_cons.mp hm with heq | hm2
            · rw [heq, hsuffix2] at hsf
              exact absurd hsf (by decide)
            · exact h3 id path (Or.inl ⟨name, hm2, hsf, hid, hp⟩)
          · rcases List.mem_cons.mp hm with heq | hm2
            · rw [heq] at hs
              exact h2 id (s3 id path hs)
            · exact h3 id path (Or.inr ⟨d, hm2, hsf, hdir2, hs⟩)
      · rw [if_neg hdir]
        obtain ⟨apps, hfold, h1, h2, h3⟩ := ihns hrest apps0
        refine ⟨apps, hfold, ?_, h2, ?_⟩
        · intro id path hl
          rcases h1 id path hl with h | h
          · exact Or.inl h
          · rcases h with ⟨name, hm, hr⟩ | ⟨d, hm, hr⟩
            · exact Or.inr (Or.inl ⟨name, List.mem_cons_of_mem _ hm, hr⟩)
            · exact Or.inr (Or.inr ⟨d, List.mem_cons_of_mem _ hm, hr⟩)
        · intro id path hv
          rcases hv with ⟨name, hm, hsf, hid, hp⟩ | ⟨d, hm, hsf, hdir2, hs⟩
          · rcases List.mem_cons.mp hm with heq | hm2
            · rw [heq, hsuffix2] at hsf
              exact absurd hsf (by decide)
            · exact h3 id path (Or.inl ⟨name, hm2, hsf, hid, hp⟩)
          · rcases List.mem_cons.mp hm with heq | hm2
            · rw [heq] at hdir2
              exact absurd hdir2 hdir
            · exact h3 id path (Or.inr ⟨d, hm2, hsf, hdir2, hs⟩)

/-- With fuel for the depth of the tree, `get_apps_from_dir` returns, and the table
afterwards holds what it held before and the entries that the scan comes across, and
nothing else. -/
theorem get_apps_from_dir_scan (env : Env) :
    ∀ (fuel : Nat) (apps0 : Option (GHashTable String)) (dirname pfx : String),
      (∀ dirs dir, scan_dir env dirname dirs = some dir → dirs.length < fuel) →
      ∃ apps, get_apps_from_dir env fuel apps0 dirname pfx = some apps ∧
        (∀ id path, g_hash_table_lookup (apps.getD []) id = some path →
          g_hash_table_lookup (apps0.getD []) id = some path ∨
          Scanned env dirname pfx id path) ∧
        (∀ id, (g_hash_table_lookup (apps0.getD []) id).isSome = true →
          (g_hash_table_lookup (apps.getD []) id).isSome = true) ∧
        (∀ id path, Scanned env dirname pfx id path →
          (g_hash_table_lookup (apps.getD []) id).isSome = true) := by
  intro fuel
  induction fuel with
  | zero =>
    intro apps0 dirname pfx hdepth
    have := hdepth [] dirname rfl
    simp at this
  | succ fuel ih =>
    intro apps0 dirname pfx hdepth
    rw [get_apps_from_dir]
    cases hopen : env.g_dir_open dirname with
    | none =>
      refine ⟨apps0, rfl, fun id path h => Or.inl h, fun id h => h, ?_⟩
      intro id path hs
      obtain ⟨names, ho, _⟩ := scanned_inv env dirname pfx id path hs
      rw [hopen] at ho
      simp at ho
    | some names =>
      simp only []
      obtain ⟨apps, hfold, h1, h2, h3⟩ :=
        get_apps_from_dir_loop env fuel dirname pfx names
          (fun apps0 d hd hsf hdir =>
            ih apps0 (env.g_build_filename [dirname, d]) (pfx ++ d ++ "-")
              (fun dirs dir hs => by
                have hlen := hdepth (d :: dirs) dir (by
                  rw [scan_dir]
                  simp only [hopen]
                  rw [if_pos ⟨hd, hsf, hdir⟩]
                  exact hs)
                simp only [List.length_cons] at hlen
                omega))
          names (fun n hn => hn) apps0
      refine ⟨apps, hfold, ?_, h2, ?_⟩
      · intro id path hl
        rcases h1 id path hl with h | h
        · exact Or.inl h
        · refine Or.inr ?_
          rcases h with ⟨name, hm, hsf, hid, hp⟩ | ⟨d, hm, hsf, hdir, hs⟩
          · rw [hid, hp]
            exact scanned_here env dirname pfx name names hopen hm hsf
          · exact scanned_below env dirname pfx d id path names hopen hm hsf hdir hs
      · intro id path hs
        obtain ⟨names2, ho, hv⟩ := scanned_inv env dirname pfx id path hs
        rw [hopen, Option.some.injEq] at ho
        rw [← ho] at hv
        exact h3 id path hv

/-- The tree of `scan_env_plain` below `/apps` is one directory deep. -/
theorem scan_env_plain_depth :
    ∀ dirs dir, scan_dir scan_env_plain "/apps" dirs = some dir → dirs.length < 2 := by
  intro dirs dir h
  match dirs with
  | [] => simp
  | [d] => simp
  | d :: d2 :: rest =>
    exfalso
    rw [scan_dir] at h
    have hopen : scan_env_plain.g_dir_open "/apps" = some ["top.desktop", "sub", "notes.txt"] :=
      rfl
    simp only [hopen] at h
    by_cases hc : d ∈ ["top.desktop", "sub", "notes.txt"] ∧
        ".desktop".data.isSuffixOf d.data = false ∧
        scan_env_plain.g_file_test_is_dir (scan_env_plain.g_build_filename ["/apps", d]) = true
    · rw [if_pos hc] at h
      have hd : d = "sub" := by
        have hmem := hc.1
        have hsf := hc.2.1
        have hdir := hc.2.2
        simp only [List.mem_cons, List.mem_singleton, List.not_mem_nil, or_false] at hmem
        rcases hmem with hd | hd | hd
        · rw [hd] at hsf
          exact absurd hsf (by decide)
        · exact hd
        · rw [hd] at hdir
          exact absurd hdir (by decide)
      subst hd
      rw [scan_dir] at h
      have hopen2 : scan_env_plain.g_dir_open (scan_env_plain.g_build_filename ["/apps", "sub"]) =
          some ["low.desktop"] := by decide
      simp only [hopen2] at h
      by_cases hc2 : d2 ∈ ["low.desktop"] ∧ ".desktop".data.isSuffixOf d2.data = false ∧
          scan_env_plain.g_file_test_is_dir (scan_env_plain.g_build_filename
            [scan_env_plain.g_build_filename ["/apps", "sub"], d2]) = true
      · obtain ⟨hmem, hsf, _⟩ := hc2
        simp only [List.mem_singleton] at hmem
        rw [hmem] at hsf
        exact absurd hsf (by decide)
      · rw [if_neg hc2] at h
        simp at h
    · rw [if_neg hc] at h
      simp at h

/-- C29, the code at an input where the claim fails: `/apps` holds the file
`a-b.desktop`, the directory `a` with the file `b.desktop`, and the directory
`old.desktop` with the file `c.desktop`.  The scan maps the id `a-b.desktop` to the path
of `a/b.desktop`, so the file `a-b.desktop` of `/apps` is not mapped to its full path;
and it records the directory `old.desktop` and never looks into it, so `c.desktop` is
not recorded. -/
theorem get_apps_from_dir_id_collision :
    "a-b.desktop" ∈ (scan_env.g_dir_open "/apps").getD [] ∧
    scan_env.g_file_test_is_dir "/apps/a-b.desktop" = false ∧
    "c.desktop" ∈ (scan_env.g_dir_open "/apps/old.desktop").getD [] ∧
    get_apps_from_dir scan_env 2 none "/apps" "" =
      some (some [("a-b.desktop", "/apps/a/b.desktop"),
                  ("old.desktop", "/apps/old.desktop")]) := by
  decide

/-- C29, amended: when a directory tree is scanned with fuel for its depth,
`get_apps_from_dir` returns a table with these properties.  Every name ending in
`.desktop` that is listed by a directory the scan reaches (through subdirectories `d1`,
..., `dk` that can be listed and whose names do not end in `.desktop`) has its id
`d1-...-dk-name` in the table, mapped to the full path of an entry of the scan with that
id, which is its own full path when no entry with another path has the same id.
Nothing else is recorded: every id of the table is the id of such an entry, whose name
ends in `.desktop`, mapped to its full path. -/
theorem get_apps_from_dir_spec (env : Env) (fuel : Nat) (dirname : String)
    (hdepth : ∀ dirs dir, scan_dir env dirname dirs = some dir → dirs.length < fuel) :
    ∃ apps, get_apps_from_dir env fuel none dirname "" = some apps ∧
      (∀ (dirs : List String) (name dir : String) (names : List String),
        scan_dir env dirname dirs = some dir → env.g_dir_open dir = some names →
        name ∈ names → ".desktop".data.isSuffixOf name.data = true →
        ∃ path, g_hash_table_lookup (apps.getD []) (scan_id dirs name) = some path ∧
          Scanned env dirname "" (scan_id dirs name) path ∧
          ((∀ path2, Scanned env dirname "" (scan_id dirs name) path2 →
              path2 = env.g_build_filename [dir, name]) →
            path = env.g_build_filename [dir, name])) ∧
      (∀ id path, g_hash_table_lookup (apps.getD []) id = some path →
        ∃ (dirs : List String) (name dir : String) (names : List String),
          scan_dir env dirname dirs = some dir ∧ env.g_dir_open dir = some names ∧
          name ∈ names ∧ ".desktop".data.isSuffixOf name.data = true ∧
          id = scan_id dirs name ∧ path = env.g_build_filename [dir, name]) := by
  obtain ⟨apps, hscan, h1, _, h3⟩ := get_apps_from_dir_scan env fuel none dirname "" hdepth
  have hsound : ∀ id path, g_hash_table_lookup (apps.getD []) id = some path →
      Scanned env dirname "" id path := by
    intro id path hl
    rcases h1 id path hl with h | h
    · simp [g_hash_table_lookup] at h
    · exact h
  refine ⟨apps, hscan, ?_, ?_⟩
  · intro dirs name dir names hs ho hm hsf
    have hsc : Scanned env dirname "" (scan_id dirs name) (env.g_build_filename [dir, name]) :=
      ⟨dirs, name, dir, names, hs, ho, hm, hsf, by simp, rfl⟩
    have hsome := h3 _ _ hsc
    obtain ⟨path, hpath⟩ := Option.isSome_iff_exists.mp hsome
    exact ⟨path, hpath, hsound _ _ hpath, fun huniq => huniq path (hsound _ _ hpath)⟩
  · intro id path hl
    obtain ⟨dirs, name, dir, names, hs, ho, hm, hsf, hid, hp⟩ := hsound id path hl
    exact ⟨dirs, name, dir, names, hs, ho, hm, hsf, by simpa using hid, hp⟩

/-- C29, amended, at the tree of `scan_env_plain`: the table holds `top.desktop` and
`sub-low.desktop`. -/
theorem get_apps_from_dir_spec_witness :
    get_apps_from_dir scan_env_plain 2 none "/apps" "" =
      some (some [("top.desktop", "/apps/top.desktop"),
                  ("sub-low.desktop", "/apps/sub/low.desktop")]) ∧
    ∃ apps, get_apps_from_dir scan_env_plain 2 none "/apps" "" = some apps ∧
      (∀ (dirs : List String) (name dir : String) (names : List String),
        scan_dir scan_env_plain "/apps" dirs = some dir →
        scan_env_plain.g_dir_open dir = some names →
        name ∈ names → ".desktop".data.isSuffixOf name.data = true →
        ∃ path, g_hash_table_lookup (apps.getD []) (scan_id dirs name) = some path ∧
          Scanned scan_env_plain "/apps" "" (scan_id dirs name) path ∧
          ((∀ path2, Scanned scan_env_plain "/apps" "" (scan_id dirs name) path2 →
              path2 = scan_env_plain.g_build_filename [dir, name]) →
            path = scan_env_plain.g_build_filename [dir, name])) ∧
      (∀ id path, g_hash_table_lookup (apps.getD []) id = some path →
        ∃ (dirs : List String) (name dir : String) (names : List String),
          scan_dir scan_env_plain "/apps" dirs = some dir ∧
          scan_env_plain.g_dir_open dir = some names ∧
          name ∈ names ∧ ".desktop".data.isSuffixOf name.data = true ∧
          id = scan_id dirs name ∧ path = scan_env_plain.g_build_filename [dir, name]) :=
  ⟨by decide, get_apps_from_dir_spec scan_env_plain 2 "/apps" scan_env_plain_depth⟩

/-! ## The lazy tables of a record -/

/-- Reading the association files fills the association table and leaves the other
tables alone. -/
theorem read_mimeapps_lists_fields (env : Env) (d : DesktopFileDir) :
    (desktop_file_dir_unindexed_read_mimeapps_lists env d).mime_tweaks.isSome = true ∧
    (desktop_file_dir_unindexed_read_mimeapps_lists env d).app_names = d.app_names ∧
    (desktop_file_dir_unindexed_read_mimeapps_lists env d).memory_index = d.memory_index ∧
    (desktop_file_dir_unindexed_read_mimeapps_lists env d).memory_implementations =
      d.memory_implementations ∧
    (desktop_file_dir_unindexed_read_mimeapps_lists env d).is_config = d.is_config := by
  unfold desktop_file_dir_unindexed_read_mimeapps_lists
  simp only []
  split <;> simp

/-- What `desktop_file_dir_unindexed_init` does to the tables of a record: the
association table is filled, the indexes stay, and a configuration record keeps its id
table. -/
theorem desktop_file_dir_unindexed_init_fields (env : Env) (fuel : Nat)
    (d0 d1 : DesktopFileDir) (h : desktop_file_dir_unindexed_init env fuel d0 = some d1) :
    d1.mime_tweaks.isSome = true ∧ d1.memory_index = d0.memory_index ∧
    d1.memory_implementations = d0.memory_implementations ∧ d1.is_config = d0.is_config ∧
    (d0.is_config = true → d1.app_names = d0.app_names) := by
  unfold desktop_file_dir_unindexed_init at h
  by_cases hc : d0.is_config = true
  · simp only [hc, Bool.not_true, Bool.false_eq_true, if_false, Option.some.injEq] at h
    subst h
    obtain ⟨f1, f2, f3, f4, f5⟩ := read_mimeapps_lists_fields env d0
    exact ⟨f1, f3, f4, f5, fun _ => f2⟩
  · have hc2 : d0.is_config = false := by simpa using hc
    have hcond : (!d0.is_config) = true := by simp [hc2]
    rw [if_pos hcond] at h
    simp only [Option.map_eq_some'] at h
    obtain ⟨app_names, _, hd1⟩ := h
    subst hd1
    obtain ⟨f1, f2, f3, f4, f5⟩ :=
      read_mimeapps_lists_fields env { d0 with app_names := app_names }
    refine ⟨f1, f3, f4, ?_, fun hcfg => ?_⟩
    · rw [f5]
    · rw [hc2] at hcfg
      exact absurd hcfg (by decide)

/-- A record that `desktop_file_dir_init` has set up has its association table, and the
indexes it had before. -/
theorem desktop_file_dir_init_tables (env : Env) (fuel : Nat) (d d2 : DesktopFileDir)
    (h : desktop_file_dir_init env fuel d = some d2) (hok : DirTablesOk d)
    (hsetup : d.is_setup = false) : DirTablesOk d2 := by
  obtain ⟨_, hnone, himpl, hconfig⟩ := hok
  have hnames : d.app_names = none ∧ d.memory_index = none := by
    rcases hnone with h1 | h1
    · rw [hsetup] at h1
      exact absurd h1 (by decide)
    · exact h1
  unfold desktop_file_dir_init at h
  cases halt : desktop_file_dir_get_alternative_dir env fuel d with
  | none => simp [halt] at h
  | some alternatively_watching =>
    simp only [halt, Option.map_eq_some'] at h
    obtain ⟨d1, hinit, hd2⟩ := h
    subst hd2
    obtain ⟨f1, f3, f4, f5, f2⟩ := desktop_file_dir_unindexed_init_fields env fuel _ d1 hinit
    simp only [] at f3 f4 f5 f2
    refine ⟨?_, Or.inl rfl, ?_, ?_⟩
    · simp only [f1]
    · simp only [f3, f4]
      exact himpl
    · by_cases hc : d.is_config = true
      · refine Or.inr ?_
        simp only []
        rw [f2 hc]
        exact hnames.1
      · refine Or.inl ?_
        simp only [f5]
        simpa using hc

/-- Every element of the result of a `mapM` comes from an element of the list. -/
theorem mapM_some_mem {α β : Type} (f : α → Option β) :
    ∀ (l : List α) (l2 : List β), l.mapM f = some l2 →
      ∀ y ∈ l2, ∃ x ∈ l, f x = some y := by
  intro l
  induction l with
  | nil =>
    intro l2 h y hy
    simp only [List.mapM_nil] at h
    have : l2 = [] := (Option.some.inj h).symm
    subst this
    simp at hy
  | cons a l ih =>
    intro l2 h y hy
    rw [List.mapM_cons] at h
    cases hfa : f a with
    | none =>
      rw [hfa] at h
      simp at h
    | some b =>
      cases hl : l.mapM f with
      | none =>
        rw [hfa, hl] at h
        simp at h
      | some bs =>
        rw [hfa, hl] at h
        have hl2 : l2 = b :: bs := by
          simpa using h.symm
        subst hl2
        rcases List.mem_cons.mp hy with heq | hmem
        · exact ⟨a, List.mem_cons_self _ _, by rw [hfa, heq]⟩
        · obtain ⟨x, hx, hfx⟩ := ih bs hl y hmem
          exact ⟨x, List.mem_cons_of_mem _ hx, hfx⟩

/-- C28, the code at a state where the claim fails: after `desktop_file_dirs_lock` has
created the chain in `lock_env` and set up its records, and before the first search, the
record of `/usr/applications` has its id table and its association table and no token
index, and the user's configuration record has its association table only. -/
theorem tables_after_init_not_together :
    ReachableDirs lock_dirs ∧
    (lock_dirs[3]?).map (fun d => (d.app_names.isSome, d.memory_index.isSome,
      d.mime_tweaks.isSome)) = some (true, false, true) ∧
    (lock_dirs[0]?).map (fun d => (d.app_names.isSome, d.memory_index.isSome,
      d.mime_tweaks.isSome)) = some (false, false, true) :=
  ⟨ReachableDirs.lock lock_env 2 [] lock_dirs ReachableDirs.start (by decide), by decide,
    by decide⟩

/-- C28, amended: in every state of the chain that the program gets to (by creating the
chain, setting records up, searching and resetting records), every record satisfies: its
association table is populated exactly when the record is set up; a record that is not
set up has neither an id table nor a token index; its token index and its index of
implementations are populated together; and a configuration record has no id table. -/
theorem reachable_dirs_tables (dirs : List DesktopFileDir) (h : ReachableDirs dirs)
    (d : DesktopFileDir) (hd : d ∈ dirs) :
    d.mime_tweaks.isSome = d.is_setup ∧
    (d.is_setup = true ∨ (d.app_names = none ∧ d.memory_index = none)) ∧
    d.memory_implementations.isSome = d.memory_index.isSome ∧
    (d.is_config = false ∨ d.app_names = none) := by
  revert d
  show ∀ d ∈ dirs, DirTablesOk d
  induction h with
  | start =>
    intro d hd
    simp at hd
  | lock env fuel dirs dirs2 _ hlock ih =>
    intro d2 hd2
    unfold desktop_file_dirs_lock at hlock
    simp only [] at hlock
    obtain ⟨d, hd, hf⟩ := mapM_some_mem _ _ _ hlock d2 hd2
    have hok : DirTablesOk d := by
      by_cases hlen : dirs.length = 0
      · rw [if_pos hlen] at hd
        simp only [List.append_assoc, List.mem_append, List.mem_singleton, List.mem_map] at hd
        rcases hd with hd | ⟨p, _, hd⟩ | hd | ⟨p, _, hd⟩ <;> subst hd <;>
          simp [DirTablesOk, desktop_file_dir_new_for_config, desktop_file_dir_new,
            desktop_file_dir_zero]
      · rw [if_neg hlen] at hd
        exact ih d hd
    by_cases hs : d.is_setup = true
    · simp only [hs, Bool.not_true, Bool.false_eq_true, if_false, Option.some.injEq] at hf
      rw [← hf]
      exact hok
    · have hs2 : d.is_setup = false := by simpa using hs
      simp only [hs2, Bool.not_false, if_true] at hf
      exact desktop_file_dir_init_tables env fuel d d2 hf hok hs2
  | search env dirs i _ hsetup ih =>
    intro d2 hd2
    unfold desktop_file_dir_ensure_index at hd2
    cases hget : dirs[i]? with
    | none =>
      simp only [hget] at hd2
      exact ih d2 hd2
    | some d =>
      simp only [hget] at hd2
      cases hidx : d.memory_index with
      | some mi =>
        simp only [hidx] at hd2
        exact ih d2 hd2
      | none =>
        simp only [hidx] at hd2
        have hd : d ∈ dirs := List.getElem?_mem hget
        rcases List.mem_or_eq_of_mem_set hd2 with hmem | heq
        · exact ih d2 hmem
        · obtain ⟨h1, _, _, h4⟩ := ih d hd
          have hs := hsetup d hd
          subst heq
          exact ⟨h1, Or.inl hs, rfl, h4⟩
  | reset dirs i d _ hget ih =>
    intro d2 hd2
    rcases List.mem_or_eq_of_mem_set hd2 with hmem | heq
    · exact ih d2 hmem
    · subst heq
      simp [DirTablesOk, desktop_file_dir_reset]

/-- C28, amended, at the record of `/usr/applications` after the chain was created in
`lock_env` and that record was searched. -/
theorem reachable_dirs_tables_witness :
    ReachableDirs (desktop_file_dir_ensure_index lock_env lock_dirs 3) ∧
    lock_dir_searched ∈ desktop_file_dir_ensure_index lock_env lock_dirs 3 ∧
    lock_dir_searched.mime_tweaks.isSome = lock_dir_searched.is_setup ∧
    (lock_dir_searched.is_setup = true ∨
      (lock_dir_searched.app_names = none ∧ lock_dir_searched.memory_index = none)) ∧
    lock_dir_searched.memory_implementations.isSome = lock_dir_searched.memory_index.isSome ∧
    (lock_dir_searched.is_config = false ∨ lock_dir_searched.app_names = none) :=
  ⟨ReachableDirs.search lock_env lock_dirs 3
      (ReachableDirs.lock lock_env 2 [] lock_dirs ReachableDirs.start (by decide))
      (by decide),
    by decide,
    reachable_dirs_tables (desktop_file_dir_ensure_index lock_env lock_dirs 3)
      (ReachableDirs.search lock_env lock_dirs 3
        (ReachableDirs.lock lock_env 2 [] lock_dirs ReachableDirs.start (by decide))
        (by decide))
      lock_dir_searched (by decide)⟩

/-! ## Saturation of the reference count -/

/-- One call of `g_ref_count_inc` on a valid counter. -/
theorem g_ref_count_inc_valid (rc : Int) (hvalid : ref_count_valid rc) :
    g_ref_count_inc rc = (if rc = G_MININT then rc else rc - 1) ∧
    ref_count_valid (g_ref_count_inc rc) := by
  obtain ⟨h1, h2⟩ := hvalid
  unfold g_ref_count_inc
  simp only [h2, not_true_eq_false, if_false]
  by_cases h : rc = G_MININT
  · rw [if_pos h, if_pos h]
    exact ⟨rfl, h1, h2⟩
  · rw [if_neg h, if_neg h]
    have hr : to_gint (rc - 1) = rc - 1 :=
      to_gint_of_range _ (by unfold G_MININT at *; omega) (by unfold G_MAXINT; omega)
    rw [hr]
    refine ⟨rfl, ?_, ?_⟩
    · unfold G_MININT at *
      omega
    · omega

/-- C39: `g_ref_count_inc` saturates.  On a valid counter whose stored value is `G_MININT`
it leaves the value as it is, and on every other valid stored value `v` it stores `v - 1`,
without wrap-around; the result is valid again, so the stored value of a counter that was
initialised stays in `[G_MININT, -1]` under any number of calls. -/
theorem g_ref_count_inc_saturates (rc : Int) (hvalid : ref_count_valid rc) :
    g_ref_count_inc rc = (if rc = G_MININT then rc else rc - 1) ∧
    G_MININT ≤ g_ref_count_inc rc ∧ g_ref_count_inc rc ≤ -1 ∧
    g_ref_count_inc G_MININT = G_MININT ∧
    (∀ n : Nat, G_MININT ≤ g_ref_count_inc^[n] rc ∧ g_ref_count_inc^[n] rc ≤ -1) ∧
    ∀ n : Nat, G_MININT ≤ g_ref_count_inc^[n] g_ref_count_init ∧
      g_ref_count_inc^[n] g_ref_count_init ≤ -1 := by
  have hiter : ∀ (v : Int), ref_count_valid v → ∀ n : Nat,
      ref_count_valid (g_ref_count_inc^[n] v) := by
    intro v hv n
    induction n with
    | zero => exact hv
    | succ n ih =>
      rw [Function.iterate_succ_apply']
      exact (g_ref_count_inc_valid _ ih).2
  have hrange : ∀ v : Int, ref_count_valid v → G_MININT ≤ v ∧ v ≤ -1 := by
    intro v hv
    obtain ⟨h1, h2⟩ := hv
    exact ⟨h1, by omega⟩
  obtain ⟨heq, hv⟩ := g_ref_count_inc_valid rc hvalid
  refine ⟨heq, (hrange _ hv).1, (hrange _ hv).2, by decide, ?_, ?_⟩
  · intro n
    exact hrange _ (hiter rc hvalid n)
  · intro n
    exact hrange _ (hiter g_ref_count_init (by decide) n)

/-- C39 at the counter that holds `G_MAXINT` references, one call before saturation. -/
theorem g_ref_count_inc_saturates_witness :
    ref_count_valid (-2147483647) ∧
    g_ref_count_inc (-2147483647) = G_MININT ∧
    g_ref_count_inc (g_ref_count_inc (-2147483647)) = G_MININT ∧
    (g_ref_count_inc (-2147483647) =
        (if (-2147483647 : Int) = G_MININT then -2147483647 else -2147483647 - 1) ∧
      G_MININT ≤ g_ref_count_inc (-2147483647) ∧ g_ref_count_inc (-2147483647) ≤ -1 ∧
      g_ref_count_inc G_MININT = G_MININT ∧
      (∀ n : Nat, G_MININT ≤ g_ref_count_inc^[n] (-2147483647) ∧
        g_ref_count_inc^[n] (-2147483647) ≤ -1) ∧
      ∀ n : Nat, G_MININT ≤ g_ref_count_inc^[n] g_ref_count_init ∧
        g_ref_count_inc^[n] g_ref_count_init ≤ -1) :=
  ⟨by decide, by decide, by decide, g_ref_count_inc_saturates (-2147483647) (by decide)⟩

/-! ## The first token: one record per application, the best one -/

/-- In a list that is sorted by a relation, the first element that passes a test is equal
or related to every element that passes it. -/
theorem pairwise_find_first {α : Type} (R : α → α → Prop) (p : α → Bool) :
    ∀ (l : List α), l.Pairwise R → ∀ r, l.find? p = some r →
      ∀ t ∈ l, p t = true → r = t ∨ R r t := by
  intro l
  induction l with
  | nil =>
    intro _ r hfind
    simp at hfind
  | cons a l ih =>
    intro hpair r hfind t ht hpt
    rw [List.pairwise_cons] at hpair
    rw [List.find?_cons] at hfind
    by_cases hpa : p a = true
    · simp only [hpa, Option.some.injEq] at hfind
      subst hfind
      rcases List.mem_cons.mp ht with heq | hmem
      · exact Or.inl heq.symm
      · exact Or.inr (hpair.1 t hmem)
    · have hpa2 : p a = false := by simpa using hpa
      simp only [hpa2] at hfind
      rcases List.mem_cons.mp ht with heq | hmem
      · rw [heq] at hpt
        exact absurd hpt hpa
      · exact ih hpair.2 r hfind t hmem hpt

/-- The record that the first branch of `merge_token_results` copies for an application
is the first record of that application in the sorted token buffer, and no record of the
application in the buffer has a smaller pair of match kind and category. -/
theorem token_runs_best (tokens : List search_result) (t : search_result)
    (ht : t ∈ tokens) :
    ∃ r ∈ token_runs none (qsort compare_results tokens), r.app_name = t.app_name ∧
      (r.match_type < t.match_type ∨
        (r.match_type = t.match_type ∧ r.category ≤ t.category)) := by
  have hfind := token_runs_find (qsort compare_results tokens) t.app_name none
    (sorted_tokens_facts tokens).1 (sorted_tokens_facts tokens).2 (by simp)
  have hts : t ∈ qsort compare_results tokens := (qsort_perm _ _).mem_iff.mpr ht
  have hsome : ((qsort compare_results tokens).find?
      (fun x => decide (x.app_name = t.app_name))).isSome = true := by
    rw [List.find?_isSome]
    exact ⟨t, hts, by simp⟩
  obtain ⟨r, hr⟩ := Option.isSome_iff_exists.mp hsome
  have hrun : r ∈ token_runs none (qsort compare_results tokens) := by
    rw [← hfind] at hr
    exact List.mem_of_find?_eq_some hr
  have hname : r.app_name = t.app_name := by
    have := List.find?_some hr
    simpa using this
  refine ⟨r, hrun, hname, ?_⟩
  rcases pairwise_find_first (fun a b => compare_results a b ≤ 0) _ _
      (qsort_compare_results_sorted tokens) r hr t hts (by simp) with heq | hle
  · rw [heq]
    exact Or.inr ⟨rfl, le_refl _⟩
  · rcases (compare_results_le_iff r t).mp hle with hlt | ⟨_, hkey⟩
    · rw [hname] at hlt
      exact absurd hlt (app_name_lt_irrefl _)
    · exact hkey

/-- C31: when `merge_token_results` processes the first token, the accumulator receives
records `added` of the token buffer, each application of the buffer exactly once (no two
records of `added` have the same application, and every application of the buffer has
its record), and the record of an application has the lexicographically smallest pair
(match kind, category) among the records of that application in the buffer. -/
theorem merge_token_results_first_best (st : SearchState) :
    ∃ added : List search_result,
      (merge_token_results true st).static_search_results =
        st.static_search_results ++ added ∧
      (added.map (fun x => x.app_name)).Nodup ∧
      (∀ r ∈ added, r ∈ st.static_token_results) ∧
      (∀ app, app ∈ added.map (fun x => x.app_name) ↔
        app ∈ st.static_token_results.map (fun x => x.app_name)) ∧
      ∀ r ∈ added, ∀ t ∈ st.static_token_results, t.app_name = r.app_name →
        (r.match_type < t.match_type ∨
          (r.match_type = t.match_type ∧ r.category ≤ t.category)) := by
  have hsorted := token_runs_sorted (qsort compare_results st.static_token_results) none
    (sorted_tokens_facts st.static_token_results).1
    (sorted_tokens_facts st.static_token_results).2
  have hnodup := strictlySorted_names_nodup _ hsorted.1
  refine ⟨token_runs none (qsort compare_results st.static_token_results), ?_, hnodup,
    ?_, ?_, ?_⟩
  · rw [merge_token_results_first]
  · intro r hr
    exact (qsort_perm _ _).mem_iff.mp (token_runs_mem _ none r hr)
  · intro app
    exact token_runs_names st.static_token_results app
  · intro r hr t ht hname
    obtain ⟨r2, hr2, hname2, hbest⟩ := token_runs_best st.static_token_results t ht
    have heq : r2 = r := by
      have hinj := List.inj_on_of_nodup_map hnodup hr2 hr
      exact hinj (by rw [hname2, hname])
    rw [← heq]
    exact hbest

/-! ## Prefix and substring matches of one index key -/

/-- The offset that `strstr` returns is the start of the haystack exactly when the
haystack starts with the needle. -/
theorem strstr_from_offset (needle : List Char) (haystack : List Char) :
    ∀ (offset p : Nat), strstr_from needle haystack offset = some p →
      offset ≤ p ∧ (p = offset ↔ needle <+: haystack) := by
  induction haystack with
  | nil =>
    intro offset p h
    unfold strstr_from at h
    by_cases hp : needle.isPrefixOf [] = true
    · rw [if_pos hp, Option.some.injEq] at h
      subst h
      exact ⟨Nat.le_refl _, fun _ => List.isPrefixOf_iff_prefix.mp hp, fun _ => rfl⟩
    · rw [if_neg hp] at h
      simp at h
  | cons c haystack ih =>
    intro offset p h
    unfold strstr_from at h
    by_cases hp : needle.isPrefixOf (c :: haystack) = true
    · rw [if_pos hp, Option.some.injEq] at h
      subst h
      exact ⟨Nat.le_refl _, fun _ => List.isPrefixOf_iff_prefix.mp hp, fun _ => rfl⟩
    · rw [if_neg hp] at h
      obtain ⟨hle, _⟩ := ih (offset + 1) p h
      refine ⟨by omega, fun heq => by omega, fun hpre => ?_⟩
      exact absurd (List.isPrefixOf_iff_prefix.mpr hpre) hp

/-- The match kind that `desktop_file_dir_unindexed_search` computes for a key. -/
theorem strstr_zero_iff (key search_token : String) (p : Nat)
    (h : strstr key search_token = some p) : p = 0 ↔ search_token.data <+: key.data :=
  (strstr_from_offset search_token.data key.data 0 p h).2

/-- C33: for every index key with its postings and every query token,
`desktop_file_dir_unindexed_search` appends to the token buffer one record per posting
under the key when the key contains the token as a substring, and nothing otherwise; the
records are `MATCH_TYPE_PREFIX` when the token is not empty and the key starts with it,
and `MATCH_TYPE_SUBSTRING` in every other case (the token occurs only at a later offset,
or the token is empty); each record carries the application, category and position of
its posting.  The whole call appends these records key by key, in the order of the
index, and leaves the other arrays alone. -/
theorem desktop_file_dir_unindexed_search_spec (search_token : String) (st : SearchState)
    (entry : String × List MemoryIndexEntry) :
    (search_index_key search_token st entry).static_token_results =
      st.static_token_results ++
        (if search_token.data <:+: entry.1.data then
          entry.2.map (fun mie =>
            { app_name := mie.app_name,
              category := to_guint16 mie.match_category,
              match_type :=
                if search_token ≠ "" ∧ search_token.data <+: entry.1.data then
                  MATCH_TYPE_PREFIX
                else MATCH_TYPE_SUBSTRING,
              token_pos := to_guint16 mie.token_pos })
        else []) ∧
    ∀ (env : Env) (desktop_file_dirs : List DesktopFileDir) (dir : Nat),
      (desktop_file_dir_unindexed_search env desktop_file_dirs dir search_token
          st).2.static_token_results =
        st.static_token_results ++
          (desktop_file_dir_index env desktop_file_dirs dir).flatMap (fun entry =>
            if search_token.data <:+: entry.1.data then
              entry.2.map (fun mie =>
                { app_name := mie.app_name,
                  category := to_guint16 mie.match_category,
                  match_type :=
                    if search_token ≠ "" ∧ search_token.data <+: entry.1.data then
                      MATCH_TYPE_PREFIX
                    else MATCH_TYPE_SUBSTRING,
                  token_pos := to_guint16 mie.token_pos })
            else []) ∧
      (desktop_file_dir_unindexed_search env desktop_file_dirs dir search_token
          st).2.static_search_results = st.static_search_results ∧
      (desktop_file_dir_unindexed_search env desktop_file_dirs dir search_token
          st).2.static_total_results = st.static_total_results := by
  have hkey : ∀ entry : String × List MemoryIndexEntry,
      index_key_results search_token entry =
        (if search_token.data <:+: entry.1.data then
          entry.2.map (fun mie =>
            ({ app_name := mie.app_name,
               category := to_guint16 mie.match_category,
               match_type :=
                 if search_token ≠ "" ∧ search_token.data <+: entry.1.data then
                   MATCH_TYPE_PREFIX
                 else MATCH_TYPE_SUBSTRING,
               token_pos := to_guint16 mie.token_pos } : search_result))
        else []) := by
    intro entry
    unfold index_key_results
    cases hs : strstr entry.1 search_token with
    | none =>
      have hnot : ¬ search_token.data <:+: entry.1.data := by
        intro hin
        have := (strstr_isSome_iff entry.1 search_token).mpr hin
        rw [hs] at this
        simp at this
      rw [if_neg hnot]
    | some p =>
      have hin : search_token.data <:+: entry.1.data := by
        apply (strstr_isSome_iff entry.1 search_token).mp
        rw [hs]
        rfl
      rw [if_pos hin]
      have hzero := strstr_zero_iff entry.1 search_token p hs
      simp only []
      apply List.map_congr_left
      intro mie _
      by_cases hc : p = 0 ∧ search_token ≠ ""
      · rw [if_pos hc, if_pos ⟨hc.2, hzero.mp hc.1⟩]
        rfl
      · rw [if_neg hc, if_neg (fun h => hc ⟨hzero.mpr h.2, h.1⟩)]
        rfl
  refine ⟨?_, ?_⟩
  · rw [search_index_key_eq, hkey]
  · intro env desktop_file_dirs dir
    unfold desktop_file_dir_unindexed_search
    simp only []
    rw [search_index_fold_eq]
    refine ⟨?_, rfl, rfl⟩
    simp only []
    congr 1
    apply List.flatMap_congr
    intro entry _
    exact hkey entry

/-! ## The accumulator after every merge -/

/-- The loop over the tokens of a query for one record, started between two searches:
after every token the accumulator is strictly increasing in application identity and the
token buffer is empty. -/
theorem search_tokens_loop_sorted (env : Env) (k : Nat) (tokens : List String)
    (desktop_file_dirs : List DesktopFileDir) (st : SearchState) (hidle : st.Idle) :
    StrictlySorted
      (search_tokens_loop env k tokens 0 (desktop_file_dirs, st)).2.static_search_results ∧
    (search_tokens_loop env k tokens 0 (desktop_file_dirs, st)).2.static_token_results = [] := by
  obtain ⟨htok, hsr⟩ := hidle
  cases tokens with
  | nil =>
    simp only [search_tokens_loop]
    rw [hsr]
    exact ⟨List.Pairwise.nil, htok⟩
  | cons token tokens =>
    unfold search_tokens_loop
    have hfirst : merge_token_results (0 == 0)
        (desktop_file_dir_unindexed_search env desktop_file_dirs k token st).2 =
        { st with
          static_token_results := [],
          static_search_results := token_runs none (qsort compare_results
            ((desktop_file_dir_index env desktop_file_dirs k).flatMap
              (index_key_results token))) } := by
      have h0 : ((0 : Nat) == 0) = true := rfl
      rw [h0, merge_token_results_first]
      unfold desktop_file_dir_unindexed_search
      simp only
      rw [search_index_fold_eq]
      simp [htok, hsr]
    simp only [hfirst]
    have hdirs : (desktop_file_dir_unindexed_search env desktop_file_dirs k token st).1 =
        desktop_file_dir_ensure_index env desktop_file_dirs k := rfl
    rw [hdirs]
    obtain ⟨h1, h2, _⟩ := search_tokens_loop_next env k
      (desktop_file_dir_index env desktop_file_dirs k) tokens (0 + 1)
      (desktop_file_dir_ensure_index env desktop_file_dirs k)
      { st with
        static_token_results := [],
        static_search_results := token_runs none (qsort compare_results
          ((desktop_file_dir_index env desktop_file_dirs k).flatMap
            (index_key_results token))) }
      (by omega) (index_ensure env desktop_file_dirs k) rfl
      (token_runs_sorted _ none (sorted_tokens_facts _).1 (sorted_tokens_facts _).2).1
    exact ⟨h1, h2⟩

/-- C37: take a call of `merge_token_results` as the search makes it: for the first token
on an empty accumulator, for a later token on an accumulator that is strictly increasing
in application identity.  Afterwards the accumulator is strictly increasing in
application identity (sorted, no application twice), it is not longer than before when
the token is not the first, and the token buffer is empty.  In a search this holds after
every call: started between two searches, the loop over any number of tokens of a query
leaves the accumulator strictly increasing and the token buffer empty. -/
theorem merge_token_results_sorted (first : Bool) (st : SearchState)
    (hpre : if first = true then st.static_search_results = []
      else StrictlySorted st.static_search_results) :
    StrictlySorted (merge_token_results first st).static_search_results ∧
    ((merge_token_results first st).static_search_results.map (fun x => x.app_name)).Nodup ∧
    (first = true ∨ (merge_token_results first st).static_search_results.length ≤
      st.static_search_results.length) ∧
    (merge_token_results first st).static_token_results = [] ∧
    ∀ (env : Env) (k : Nat) (tokens : List String) (desktop_file_dirs : List DesktopFileDir)
      (st0 : SearchState), st0.Idle →
      StrictlySorted
        (search_tokens_loop env k tokens 0 (desktop_file_dirs, st0)).2.static_search_results ∧
      (search_tokens_loop env k tokens 0 (desktop_file_dirs, st0)).2.static_token_results =
        [] := by
  have hsorted : StrictlySorted (merge_token_results first st).static_search_results ∧
      (first = true ∨ (merge_token_results first st).static_search_results.length ≤
        st.static_search_results.length) := by
    cases first with
    | true =>
      simp only [if_true] at hpre
      rw [merge_token_results_first]
      simp only [hpre, List.nil_append]
      exact ⟨(token_runs_sorted _ none (sorted_tokens_facts _).1
        (sorted_tokens_facts _).2).1, Or.inl trivial⟩
    | false =>
      simp only [Bool.false_eq_true, if_false] at hpre
      rw [merge_token_results_next st hpre]
      exact ⟨filterMap_merge_lookup_sorted _ _ hpre,
        Or.inr (List.length_filterMap_le _ _)⟩
  exact ⟨hsorted.1, strictlySorted_names_nodup _ hsorted.1, hsorted.2,
    merge_token_results_token_results first st,
    fun env k tokens desktop_file_dirs st0 hidle =>
      search_tokens_loop_sorted env k tokens desktop_file_dirs st0 hidle⟩

/-- C37 on a small state with a token that is not the first: of the two records of the
accumulator one is kept. -/
theorem merge_token_results_sorted_witness :
    (if false = true then merge_sample_state.static_search_results = []
      else StrictlySorted merge_sample_state.static_search_results) ∧
    (merge_token_results false merge_sample_state).static_search_results =
      [⟨"b.desktop", 3, 1, 5⟩] ∧
    (StrictlySorted (merge_token_results false merge_sample_state).static_search_results ∧
    ((merge_token_results false merge_sample_state).static_search_results.map
      (fun x => x.app_name)).Nodup ∧
    (false = true ∨ (merge_token_results false merge_sample_state).static_search_results.length ≤
      merge_sample_state.static_search_results.length) ∧
    (merge_token_results false merge_sample_state).static_token_results = [] ∧
    ∀ (env : Env) (k : Nat) (tokens : List String) (desktop_file_dirs : List DesktopFileDir)
      (st0 : SearchState), st0.Idle →
      StrictlySorted
        (search_tokens_loop env k tokens 0 (desktop_file_dirs, st0)).2.static_search_results ∧
      (search_tokens_loop env k tokens 0 (desktop_file_dirs, st0)).2.static_token_results =
        []) :=
  ⟨by decide, by decide, merge_token_results_sorted false merge_sample_state (by decide)⟩

/-! ## The number of iterations of the spawn loop -/

/-- From every state the spawn loop gets to a last iteration, after at most as many
iterations as there are pending targets (one when there is none). -/
theorem launch_batches_last (env : Env) (info : GDesktopAppInfo) (session_bus : Bool)
    (exec_line : Option String) (launch_context : Option GAppLaunchContext)
    (pid_callback : Bool) :
    ∀ (n : Nat) (st : LaunchState), st.dup_uris.length ≤ n →
      ∃ (k : Nat) (st2 : LaunchState),
        launch_batches env info session_bus exec_line launch_context pid_callback k st =
          some st2 ∧
        launch_batches env info session_bus exec_line launch_context pid_callback (k + 1) st =
          none ∧
        k + 1 ≤ max 1 st.dup_uris.length := by
  intro n
  induction n with
  | zero =>
    intro st hlen
    refine ⟨0, st, rfl, ?_, by omega⟩
    rw [launch_batches]
    cases hb : launch_batch env info session_bus exec_line launch_context pid_callback st with
    | failed st1 => rfl
    | aborted => rfl
    | spawned st1 =>
      simp only []
      obtain ⟨hsuf, _⟩ :=
        launch_batch_spawned_suffix env info session_bus exec_line launch_context
          pid_callback st st1 hb
      have hnil : st.dup_uris = [] := List.eq_nil_of_length_eq_zero (by omega)
      rw [hnil] at hsuf
      rw [if_neg (not_not.mpr (List.suffix_nil.mp hsuf))]
  | succ n ih =>
    intro st hlen
    cases hb : launch_batch env info session_bus exec_line launch_context pid_callback st with
    | failed st1 =>
      refine ⟨0, st, rfl, ?_, by omega⟩
      rw [launch_batches]
      simp only [hb]
    | aborted =>
      refine ⟨0, st, rfl, ?_, by omega⟩
      rw [launch_batches]
      simp only [hb]
    | spawned st1 =>
      by_cases hne : st1.dup_uris ≠ []
      · obtain ⟨hsuf, hshort⟩ :=
          launch_batch_spawned_suffix env info session_bus exec_line launch_context
            pid_callback st st1 hb
        have hne0 : st.dup_uris ≠ [] := by
          intro h0
          rw [h0] at hsuf
          exact hne (List.suffix_nil.mp hsuf)
        have hlt := hshort hne0
        have hpos : 0 < st1.dup_uris.length := List.length_pos.mpr hne
        obtain ⟨k, st2, hk, hlast, hbound⟩ := ih st1 (by omega)
        refine ⟨k + 1, st2, ?_, ?_, by omega⟩
        · rw [launch_batches]
          simp only [hb]
          rw [if_pos hne]
          exact hk
        · rw [launch_batches]
          simp only [hb]
          rw [if_pos hne]
          exact hlast
      · refine ⟨0, st, rfl, ?_, by omega⟩
        rw [launch_batches]
        simp only [hb]
        rw [if_neg hne]

/-- The loop returns in the iteration after the last batch that left targets pending. -/
theorem launch_loop_last (env : Env) (info : GDesktopAppInfo) (session_bus : Bool)
    (exec_line : Option String) (launch_context : Option GAppLaunchContext)
    (pid_callback : Bool) (k : Nat) (st st2 : LaunchState)
    (hk : launch_batches env info session_bus exec_line launch_context pid_callback k st =
      some st2)
    (hlast : launch_batches env info session_bus exec_line launch_context pid_callback
      (k + 1) st = none) :
    launch_loop env info session_bus exec_line launch_context pid_callback k st =
      LaunchResult.out_of_fuel ∧
    ∀ fuel, launch_loop env info session_bus exec_line launch_context pid_callback
      (fuel + 1 + k) st ≠ LaunchResult.out_of_fuel := by
  refine ⟨?_, ?_⟩
  · have h := launch_loop_after_batches env info session_bus exec_line launch_context
      pid_callback k 0 st st2 hk
    rw [Nat.zero_add] at h
    rw [h]
    rfl
  · intro fuel
    rw [launch_loop_after_batches env info session_bus exec_line launch_context pid_callback
      k (fuel + 1) st st2 hk, launch_loop]
    cases hb : launch_batch env info session_bus exec_line launch_context pid_callback st2 with
    | failed st1 => simp
    | aborted => simp
    | spawned st1 =>
      simp only []
      by_cases hne : st1.dup_uris ≠ []
      · have hsucc := launch_batches_succ env info session_bus exec_line launch_context
          pid_callback k st st2 st1 hk hb hne
        rw [hlast] at hsucc
        simp at hsucc
      · rw [if_neg hne]
        simp

/-- C36: the spawn loop of `g_desktop_app_info_launch_uris_with_spawn` terminates for
every template, entry and target list.  An expansion that starts with pending targets
consumes at least one of them.  The loop performs a number `k + 1` of iterations (with
fuel for `k` iterations it has not returned, with fuel for `k + 1` or more it has) that is
at most the number of targets and at most one when there is no target: exactly one
iteration for an empty target list. -/
theorem launch_loop_terminates (env : Env) (info : GDesktopAppInfo) (session_bus : Bool)
    (exec_line : Option String) (uris : List String)
    (launch_context : Option GAppLaunchContext) (pid_callback : Bool) :
    (∀ (line : String) (pending : List String), pending ≠ [] →
      (expand_application_parameters env info (some line) pending).2.length <
        pending.length) ∧
    ∃ k : Nat,
      k + 1 ≤ max 1 uris.length ∧ (uris ≠ [] ∨ k + 1 = 1) ∧
      g_desktop_app_info_launch_uris_with_spawn env k info session_bus exec_line uris
        launch_context pid_callback = LaunchResult.out_of_fuel ∧
      ∀ fuel, k + 1 ≤ fuel →
        g_desktop_app_info_launch_uris_with_spawn env fuel info session_bus exec_line uris
          launch_context pid_callback ≠ LaunchResult.out_of_fuel := by
  refine ⟨?_, ?_⟩
  · intro line pending hne
    exact (expand_application_parameters_line_suffix env info line pending).2 hne
  · obtain ⟨k, st2, hk, hlast, hbound⟩ :=
      launch_batches_last env info session_bus exec_line launch_context pid_callback
        uris.length (launch_initial_state env uris launch_context) (Nat.le_refl _)
    have hlen : (launch_initial_state env uris launch_context).dup_uris.length =
        uris.length := rfl
    rw [hlen] at hbound
    obtain ⟨hout, hret⟩ := launch_loop_last env info session_bus exec_line launch_context
      pid_callback k _ st2 hk hlast
    refine ⟨k, hbound, ?_, hout, ?_⟩
    · by_cases hnil : uris = []
      · refine Or.inr ?_
        rw [hnil] at hbound
        simp only [List.length_nil] at hbound
        omega
      · exact Or.inl hnil
    · intro fuel hfuel
      have h := hret (fuel - (k + 1))
      have heq : fuel - (k + 1) + 1 + k = fuel := by omega
      rw [heq] at h
      exact h

/-! ## Resolving an id and listing all entries -/

/-- C40, the code at the failing input: both records hold `foo.desktop`, the document of
the first (highest-precedence) record does not load and the document of the second record
is a valid visible application.  `g_desktop_app_info_new` returns an entry for
`foo.desktop`, built from the second record, and `g_app_info_get_all_impl` holds no entry
with that id.  The other direction holds on every chain whose id tables are hash tables:
every entry of `g_app_info_get_all_impl` is what `g_desktop_app_info_new` returns for its
id. -/
theorem resolve_and_list_all_disagree :
    g_desktop_app_info_new_from_filename_unlocked foo_env_unloadable foo_dirs
      "/home/u/applications/foo.desktop" = none ∧
    (g_desktop_app_info_new_from_filename_unlocked foo_env_unloadable foo_dirs
      "/usr/applications/foo.desktop").map (fun info => info.hidden) = some false ∧
    (g_desktop_app_info_new foo_env_unloadable foo_dirs "foo.desktop").map
      (fun info => (info.desktop_id, info.filename)) =
      some (some "foo.desktop", some "/usr/applications/foo.desktop") ∧
    (∀ e ∈ g_app_info_get_all_impl foo_env_unloadable foo_dirs,
      e.desktop_id ≠ some "foo.desktop") ∧
    ∀ (env : Env) (desktop_file_dirs : List DesktopFileDir), ChainOk desktop_file_dirs →
      ∀ e ∈ g_app_info_get_all_impl env desktop_file_dirs,
        ∃ id, e.desktop_id = some id ∧
          g_desktop_app_info_new env desktop_file_dirs id = some e := by
  refine ⟨by decide, by decide, by decide, by decide, ?_⟩
  intro env desktop_file_dirs hok e he
  obtain ⟨id, i, path, info, htop, hentry, hload, hhidden, heq⟩ :=
    (mem_g_app_info_get_all_impl env desktop_file_dirs hok e).mp he
  refine ⟨id, ?_, ?_⟩
  · rw [heq]
  · rw [g_desktop_app_info_new_of_top_loads env desktop_file_dirs id path i info htop hentry
      hload, if_neg (by rw [hhidden]; exact Bool.false_ne_true), heq]

/-! ## The position that ranks an application -/

/-- A list with the elements of a pair is the pair, one way round or the other. -/
theorem perm_pair_cases {α : Type} (x y : α) (l : List α) (h : l.Perm [x, y]) :
    l = [x, y] ∨ l = [y, x] := by
  have hlen := h.length_eq
  match l, h, hlen with
  | [u, v], h, _ =>
    have hu : u = x ∨ u = y := by simpa using h.subset (List.mem_cons_self u [v])
    have hv : v = x ∨ v = y := by
      simpa using h.subset (List.mem_cons_of_mem u (List.mem_cons_self v []))
    have hx : x = u ∨ x = v := by simpa using h.symm.subset (List.mem_cons_self x [y])
    have hy : y = u ∨ y = v := by
      simpa using h.symm.subset (List.mem_cons_of_mem x (List.mem_cons_self y []))
    rcases hu with rfl | rfl <;> rcases hv with rfl | rfl
    · rcases hy with rfl | rfl <;> exact Or.inl rfl
    · exact Or.inl rfl
    · exact Or.inr rfl
    · rcases hx with rfl | rfl <;> exact Or.inl rfl

/-- C32, the code at the failing input.  `a.desktop` is named `calc`, `b.desktop` has the
two words `calculator` and `calc` in its name, and the query is the single token `calc`.
Both keys of the index start with the token, so `b.desktop` has two postings of the same
match kind and category, at the positions 0 and 1, and its best rank key is
(prefix, name, 0), the key of `a.desktop`.  `compare_results`, which sorts the token
buffer, does not read the position (first part), so the record that the first branch of
`merge_token_results` keeps for `b.desktop` is the one that the table of the index hands
out first.  When the table visits `calculator` first, the name `calc calculator` leaves
`b.desktop` with position 1 and in a later group than `a.desktop`; when it visits `calc`
first, the name `calculator calc` does.  The last part covers every order: whatever the
order in which the id table and the index hand out their keys, the same for both names,
the token buffers of the two names differ in the positions only, so `compare_results`
answers alike on both, and one of the two names leaves `b.desktop` with position 1 and
in a later group than `a.desktop`.  With the other order the same documents give one
group, so the result depends on the order of the table. -/
theorem single_token_rank_keeps_later_position :
    (∀ (ra rb : search_result) (pa pb : Int),
      compare_results { ra with token_pos := pa } { rb with token_pos := pb } =
        compare_results ra rb) ∧
    compare_categories ⟨"b.desktop", 1, 1, 0⟩ ⟨"b.desktop", 1, 1, 1⟩ < 0 ∧
    desktop_file_dir_index calc_env calc_dirs 0 =
      [("calc", [⟨"a.desktop", 1, 0⟩, ⟨"b.desktop", 1, 1⟩]),
       ("calculator", [⟨"b.desktop", 1, 0⟩])] ∧
    desktop_file_dir_index calc_env_swapped calc_dirs 0 =
      [("calc", [⟨"a.desktop", 1, 0⟩, ⟨"b.desktop", 1, 0⟩]),
       ("calculator", [⟨"b.desktop", 1, 1⟩])] ∧
    (desktop_file_dir_unindexed_search calc_env_swapped
        (calc_dirs_indexed
          [("calculator", [⟨"b.desktop", 1, 1⟩]),
           ("calc", [⟨"a.desktop", 1, 0⟩, ⟨"b.desktop", 1, 0⟩])])
        0 "calc" SearchState.initial).2.static_token_results =
      [⟨"b.desktop", 1, 1, 1⟩, ⟨"a.desktop", 1, 1, 0⟩, ⟨"b.desktop", 1, 1, 0⟩] ∧
    search_accumulator calc_env_swapped
        (calc_dirs_indexed
          [("calculator", [⟨"b.desktop", 1, 1⟩]),
           ("calc", [⟨"a.desktop", 1, 0⟩, ⟨"b.desktop", 1, 0⟩])])
        SearchState.initial "calc" =
      [⟨"a.desktop", 1, 1, 0⟩, ⟨"b.desktop", 1, 1, 1⟩] ∧
    g_desktop_app_info_search calc_env_swapped
        (calc_dirs_indexed
          [("calculator", [⟨"b.desktop", 1, 1⟩]),
           ("calc", [⟨"a.desktop", 1, 0⟩, ⟨"b.desktop", 1, 0⟩])])
        SearchState.initial "calc" =
      [["a.desktop"], ["b.desktop"]] ∧
    g_desktop_app_info_search calc_env_swapped calc_dirs SearchState.initial "calc" =
      [["a.desktop", "b.desktop"]] ∧
    search_accumulator calc_env calc_dirs SearchState.initial "calc" =
      [⟨"a.desktop", 1, 1, 0⟩, ⟨"b.desktop", 1, 1, 1⟩] ∧
    g_desktop_app_info_search calc_env calc_dirs SearchState.initial "calc" =
      [["a.desktop"], ["b.desktop"]] ∧
    g_desktop_app_info_search calc_env
        (calc_dirs_indexed
          [("calculator", [⟨"b.desktop", 1, 0⟩]),
           ("calc", [⟨"a.desktop", 1, 0⟩, ⟨"b.desktop", 1, 1⟩])])
        SearchState.initial "calc" =
      [["a.desktop", "b.desktop"]] ∧
    ∀ app_names : GHashTable String, app_names.Perm calc_app_names →
      ∀ mi mi_swapped : MemoryIndex,
        mi.Perm (desktop_file_dir_index calc_env (calc_dirs_of app_names) 0) →
        mi_swapped.Perm
          (desktop_file_dir_index calc_env_swapped (calc_dirs_of app_names) 0) →
        mi.map Prod.fst = mi_swapped.map Prod.fst →
        (desktop_file_dir_unindexed_search calc_env (calc_dirs_indexed mi) 0 "calc"
            SearchState.initial).2.static_token_results.map
            (fun r => (r.app_name, r.match_type, r.category)) =
          (desktop_file_dir_unindexed_search calc_env_swapped (calc_dirs_indexed mi_swapped)
            0 "calc" SearchState.initial).2.static_token_results.map
            (fun r => (r.app_name, r.match_type, r.category)) ∧
        ((search_accumulator calc_env (calc_dirs_indexed mi) SearchState.initial "calc" =
            [⟨"a.desktop", 1, 1, 0⟩, ⟨"b.desktop", 1, 1, 1⟩] ∧
          g_desktop_app_info_search calc_env (calc_dirs_indexed mi) SearchState.initial
            "calc" = [["a.desktop"], ["b.desktop"]]) ∨
        (search_accumulator calc_env_swapped (calc_dirs_indexed mi_swapped)
            SearchState.initial "calc" =
            [⟨"a.desktop", 1, 1, 0⟩, ⟨"b.desktop", 1, 1, 1⟩] ∧
          g_desktop_app_info_search calc_env_swapped (calc_dirs_indexed mi_swapped)
            SearchState.initial "calc" = [["a.desktop"], ["b.desktop"]])) := by
  refine ⟨?_, by decide, by decide, by decide, by decide, by decide, by decide, by decide,
    by decide, by decide, by decide, ?_⟩
  · intro ra rb pa pb
    rfl
  · intro app_names happ mi mi_swapped hmi hswapped hkeys
    have hi1 : desktop_file_dir_index calc_env (calc_dirs_of calc_app_names) 0 =
        [("calc", [⟨"a.desktop", 1, 0⟩, ⟨"b.desktop", 1, 1⟩]),
         ("calculator", [⟨"b.desktop", 1, 0⟩])] := by decide
    have hi2 : desktop_file_dir_index calc_env_swapped (calc_dirs_of calc_app_names) 0 =
        [("calc", [⟨"a.desktop", 1, 0⟩, ⟨"b.desktop", 1, 0⟩]),
         ("calculator", [⟨"b.desktop", 1, 1⟩])] := by decide
    have hi3 : desktop_file_dir_index calc_env
        (calc_dirs_of [("b.desktop", "/usr/applications/b.desktop"),
          ("a.desktop", "/usr/applications/a.desktop")]) 0 =
        [("calculator", [⟨"b.desktop", 1, 0⟩]),
         ("calc", [⟨"b.desktop", 1, 1⟩, ⟨"a.desktop", 1, 0⟩])] := by decide
    have hi4 : desktop_file_dir_index calc_env_swapped
        (calc_dirs_of [("b.desktop", "/usr/applications/b.desktop"),
          ("a.desktop", "/usr/applications/a.desktop")]) 0 =
        [("calc", [⟨"b.desktop", 1, 0⟩, ⟨"a.desktop", 1, 0⟩]),
         ("calculator", [⟨"b.desktop", 1, 1⟩])] := by decide
    rcases perm_pair_cases _ _ app_names happ with happ | happ
    · rw [happ] at hmi hswapped
      change mi.Perm (desktop_file_dir_index calc_env (calc_dirs_of calc_app_names) 0) at hmi
      change mi_swapped.Perm
        (desktop_file_dir_index calc_env_swapped (calc_dirs_of calc_app_names) 0) at hswapped
      rw [hi1] at hmi
      rw [hi2] at hswapped
      rcases perm_pair_cases _ _ mi hmi with h1 | h1 <;>
        rcases perm_pair_cases _ _ mi_swapped hswapped with h2 | h2 <;>
        subst h1 <;> subst h2
      · exact ⟨by decide, Or.inl (by decide)⟩
      · exact absurd hkeys (by decide)
      · exact absurd hkeys (by decide)
      · exact ⟨by decide, Or.inr (by decide)⟩
    · rw [happ, hi3] at hmi
      rw [happ, hi4] at hswapped
      rcases perm_pair_cases _ _ mi hmi with h1 | h1 <;>
        rcases perm_pair_cases _ _ mi_swapped hswapped with h2 | h2 <;>
        subst h1 <;> subst h2
      · exact absurd hkeys (by decide)
      · exact ⟨by decide, Or.inr (by decide)⟩
      · exact ⟨by decide, Or.inl (by decide)⟩
      · exact absurd hkeys (by decide)

/-! ## Last used: the id goes to the front of the additions -/

/-- Without `UPDATE_MIME_SET_DEFAULT` the first loop body writes back the string that the
type has in `Default Applications`, or removes a key that has none: the string view of
the key file stays as it is. -/
theorem update_default_applications_get_string (id : String) (state : GKeyFile × Nat)
    (content_type : String) (hflags : state.2 &&& UPDATE_MIME_SET_DEFAULT = 0) :
    (update_default_applications (some id) state content_type).1.get_string =
      state.1.get_string := by
  unfold update_default_applications
  simp only [hflags, ne_eq, not_true_eq_false, and_false, if_false]
  cases hs : state.1.get_string DEFAULT_APPLICATIONS_GROUP content_type with
  | none =>
    simp only [g_key_file_remove_key]
    funext g k
    by_cases hc : g = DEFAULT_APPLICATIONS_GROUP ∧ k = content_type
    · rw [if_pos hc, hc.1, hc.2, hs]
    · rw [if_neg hc]
  | some string =>
    simp only [g_key_file_set_string]
    funext g k
    by_cases hc : g = DEFAULT_APPLICATIONS_GROUP ∧ k = content_type
    · rw [if_pos hc, hc.1, hc.2, hs]
    · rw [if_neg hc]

/-- The vector of the second loop for a last-used hint: the id, then the old list without
the id; the flag `UPDATE_MIME_SET_NON_DEFAULT` is cleared. -/
theorem update_added_list_last_used (id : String) (old_list : Option (List String)) :
    update_added_list (some id) old_list
        (UPDATE_MIME_SET_NON_DEFAULT ||| UPDATE_MIME_SET_LAST_USED) =
      (some id :: ((old_list.getD []).filter (fun s => decide (s ≠ id))).map some,
        UPDATE_MIME_SET_LAST_USED) := by
  unfold update_added_list
  have h1 : (UPDATE_MIME_SET_NON_DEFAULT ||| UPDATE_MIME_SET_LAST_USED) &&&
      UPDATE_MIME_SET_LAST_USED ≠ 0 := by decide
  have h2 : (UPDATE_MIME_SET_NON_DEFAULT ||| UPDATE_MIME_SET_LAST_USED) &&&
      UPDATE_MIME_SET_NON_DEFAULT ≠ 0 := by decide
  have h3 : (UPDATE_MIME_SET_NON_DEFAULT ||| UPDATE_MIME_SET_LAST_USED) ^^^
      UPDATE_MIME_SET_NON_DEFAULT = UPDATE_MIME_SET_LAST_USED := by decide
  have h4 : UPDATE_MIME_SET_LAST_USED &&& UPDATE_MIME_SET_NON_DEFAULT = 0 := by decide
  simp only [if_pos h1, if_pos h2, h3]
  rw [update_added_fold_plain id _ [some id] UPDATE_MIME_SET_LAST_USED h4]
  simp only [h4, ne_eq, not_true_eq_false, if_false, List.singleton_append]

/-- C34: for every prior document, id and type, after `update_mimeapps_list` with the
flags of `g_desktop_app_info_set_as_last_used_for_type` (`UPDATE_MIME_SET_NON_DEFAULT |
UPDATE_MIME_SET_LAST_USED`) the `Added Associations` list of the type is the id followed
by the elements of the prior list (the empty list when the type had none) that differ
from the id, in their order, so the id occurs exactly once, at the front; and the string of
the type in `Default Applications` is the one it had before. -/
theorem set_as_last_used_puts_id_first (key_file : GKeyFile) (id content_type : String) :
    (update_mimeapps_list_key_file key_file (some id) (some content_type)
        (UPDATE_MIME_SET_NON_DEFAULT ||| UPDATE_MIME_SET_LAST_USED)).get_string_list
        ADDED_ASSOCIATIONS_GROUP content_type =
      some (id :: ((key_file.get_string_list ADDED_ASSOCIATIONS_GROUP content_type).getD
        []).filter (fun s => decide (s ≠ id))) ∧
    (((update_mimeapps_list_key_file key_file (some id) (some content_type)
        (UPDATE_MIME_SET_NON_DEFAULT ||| UPDATE_MIME_SET_LAST_USED)).get_string_list
        ADDED_ASSOCIATIONS_GROUP content_type).getD []).count id = 1 ∧
    (update_mimeapps_list_key_file key_file (some id) (some content_type)
        (UPDATE_MIME_SET_NON_DEFAULT ||| UPDATE_MIME_SET_LAST_USED)).get_string
        DEFAULT_APPLICATIONS_GROUP content_type =
      key_file.get_string DEFAULT_APPLICATIONS_GROUP content_type := by
  rw [update_mimeapps_list_key_file_one]
  have hbit : (UPDATE_MIME_SET_NON_DEFAULT ||| UPDATE_MIME_SET_LAST_USED) &&&
      UPDATE_MIME_SET_DEFAULT = 0 := by decide
  have hf1 := update_default_applications_flags (some id)
    (key_file, UPDATE_MIME_SET_NON_DEFAULT ||| UPDATE_MIME_SET_LAST_USED) content_type hbit
  have hs1 := update_default_applications_get_string id
    (key_file, UPDATE_MIME_SET_NON_DEFAULT ||| UPDATE_MIME_SET_LAST_USED) content_type hbit
  obtain ⟨h5, _⟩ := update_default_applications_other (some id)
    (key_file, UPDATE_MIME_SET_NON_DEFAULT ||| UPDATE_MIME_SET_LAST_USED) content_type
    ADDED_ASSOCIATIONS_GROUP added_ne_default
  obtain ⟨_, _, hs2⟩ := update_added_associations_other (some id)
    (update_default_applications (some id)
      (key_file, UPDATE_MIME_SET_NON_DEFAULT ||| UPDATE_MIME_SET_LAST_USED) content_type)
    content_type DEFAULT_APPLICATIONS_GROUP (fun h => added_ne_default h.symm)
  obtain ⟨h3, _, hs3⟩ := update_removed_associations_other (some id)
    (update_added_associations (some id)
      (update_default_applications (some id)
        (key_file, UPDATE_MIME_SET_NON_DEFAULT ||| UPDATE_MIME_SET_LAST_USED) content_type)
      content_type) content_type ADDED_ASSOCIATIONS_GROUP (fun h => removed_ne_added h.symm)
  obtain ⟨_, _, hs4⟩ := update_removed_associations_other (some id)
    (update_added_associations (some id)
      (update_default_applications (some id)
        (key_file, UPDATE_MIME_SET_NON_DEFAULT ||| UPDATE_MIME_SET_LAST_USED) content_type)
      content_type) content_type DEFAULT_APPLICATIONS_GROUP
    (fun h => removed_ne_default h.symm)
  have hadded : (update_added_associations (some id)
      (update_default_applications (some id)
        (key_file, UPDATE_MIME_SET_NON_DEFAULT ||| UPDATE_MIME_SET_LAST_USED) content_type)
      content_type).1.get_string_list ADDED_ASSOCIATIONS_GROUP content_type =
      some (id :: ((key_file.get_string_list ADDED_ASSOCIATIONS_GROUP content_type).getD
        []).filter (fun s => decide (s ≠ id))) := by
    unfold update_added_associations
    simp only [hf1, update_added_list_last_used, h5]
    simp [g_key_file_set_string_list, List.reduceOption_cons_of_some, reduceOption_map_some]
  refine ⟨?_, ?_, ?_⟩
  · rw [h3, hadded]
  · rw [h3, hadded]
    simp only [Option.getD_some, List.count_cons_self]
    have : id ∉ ((key_file.get_string_list ADDED_ASSOCIATIONS_GROUP content_type).getD
        []).filter (fun s => decide (s ≠ id)) := by
      simp [List.mem_filter]
    rw [List.count_eq_zero_of_not_mem this]
  · rw [hs4, hs2, hs1]

/-! ## Adding a supported type -/

/-- Removing a key that has no value and is not among the keys of its group gives the same
key file. -/
theorem g_key_file_remove_key_same (kf : GKeyFile) (g k : String)
    (h1 : kf.get_string g k = none) (h2 : kf.get_string_list g k = none)
    (h3 : k ∉ (kf.get_keys g).getD []) : g_key_file_remove_key kf g k = kf := by
  cases kf with
  | mk sg gs gls gb gsl glsl gk =>
    simp only [g_key_file_remove_key] at *
    congr 1
    · funext g1 k1
      by_cases hc : g1 = g ∧ k1 = k
      · rw [if_pos hc, hc.1, hc.2, h1]
      · rw [if_neg hc]
    · funext g1 k1
      by_cases hc : g1 = g ∧ k1 = k
      · rw [if_pos hc, hc.1, hc.2, h2]
      · rw [if_neg hc]
    · funext g1
      by_cases hc : g1 = g
      · rw [if_pos hc, hc]
        cases hk : gk g with
        | none => rfl
        | some keys =>
          rw [hk] at h3
          simp only [Option.getD_some] at h3
          simp only [Option.map_some', Option.some.injEq, List.filter_eq_self]
          intro a ha
          simp only [ne_eq, decide_not, Bool.not_eq_true', decide_eq_false_iff_not]
          intro h
          exact h3 (h ▸ ha)
      · rw [if_neg hc]

/-- Setting a key to the list that it has, in a key file that has a first group, gives
the same key file. -/
theorem g_key_file_set_string_list_same (kf : GKeyFile) (g k : String) (list : List String)
    (h0 : kf.start_group ≠ none)
    (h1 : kf.get_string g k = some (String.join (list.map (fun s => s ++ ";"))))
    (h2 : kf.get_string_list g k = some list)
    (h3 : k ∈ (kf.get_keys g).getD []) : g_key_file_set_string_list kf g k list = kf := by
  cases kf with
  | mk sg gs gls gb gsl glsl gk =>
    simp only [g_key_file_set_string_list] at *
    congr 1
    · cases sg with
      | none => exact absurd rfl h0
      | some s => rfl
    · funext g1 k1
      by_cases hc : g1 = g ∧ k1 = k
      · rw [if_pos hc, hc.1, hc.2, h1]
      · rw [if_neg hc]
    · funext g1 k1
      by_cases hc : g1 = g ∧ k1 = k
      · rw [if_pos hc, hc.1, hc.2, h2]
      · rw [if_neg hc]
    · funext g1
      by_cases hc : g1 = g
      · rw [if_pos hc, hc]
        cases hk : gk g with
        | none =>
          rw [hk] at h3
          simp at h3
        | some keys =>
          rw [hk] at h3
          simp only [Option.getD_some] at h3
          simp only [if_pos h3]
      · rw [if_neg hc]

/-- Setting a key to the string that it has gives the same key file. -/
theorem g_key_file_set_string_same (kf : GKeyFile) (g k string : String)
    (h0 : kf.start_group ≠ none)
    (h1 : kf.get_string g k = some string)
    (h2 : kf.get_string_list g k = some (g_key_file_value_pieces string.data []))
    (h3 : k ∈ (kf.get_keys g).getD []) : g_key_file_set_string kf g k string = kf := by
  cases kf with
  | mk sg gs gls gb gsl glsl gk =>
    simp only [g_key_file_set_string] at *
    congr 1
    · cases sg with
      | none => exact absurd rfl h0
      | some s => rfl
    · funext g1 k1
      by_cases hc : g1 = g ∧ k1 = k
      · rw [if_pos hc, hc.1, hc.2, h1]
      · rw [if_neg hc]
    · funext g1 k1
      by_cases hc : g1 = g ∧ k1 = k
      · rw [if_pos hc, hc.1, hc.2, h2]
      · rw [if_neg hc]
    · funext g1
      by_cases hc : g1 = g
      · rw [if_pos hc, hc]
        cases hk : gk g with
        | none =>
          rw [hk] at h3
          simp at h3
        | some keys =>
          rw [hk] at h3
          simp only [Option.getD_some] at h3
          simp only [if_pos h3]
      · rw [if_neg hc]

theorem added_list_spec_ne_nil (id : String) (l : List String) : added_list_spec id l ≠ [] := by
  cases l with
  | nil => simp [added_list_spec]
  | cons a l =>
    unfold added_list_spec
    split <;> simp

/-- The list of the specification has the id once. -/
theorem added_list_spec_count (id : String) (l : List String) :
    (added_list_spec id l).count id = 1 := by
  induction l with
  | nil => simp [added_list_spec]
  | cons a l ih =>
    unfold added_list_spec
    split
    · have : id ∉ l.filter (fun s => decide (s ≠ id)) := by simp [List.mem_filter]
      rw [List.count_cons_self, List.count_eq_zero_of_not_mem this]
    · rename_i hne
      rw [List.count_cons_of_ne (fun h => hne h.symm), ih]

/-- The id is where it first was, or at the end. -/
theorem added_list_spec_indexOf (id : String) (l : List String) :
    (added_list_spec id l).indexOf id = l.indexOf id := by
  induction l with
  | nil => simp [added_list_spec]
  | cons a l ih =>
    unfold added_list_spec
    split
    · rename_i h
      rw [h, List.indexOf_cons_self, List.indexOf_cons_self]
    · rename_i hne
      rw [List.indexOf_cons_ne _ hne, List.indexOf_cons_ne _ hne, ih]

/-- The strings other than the id are the old ones, in their order. -/
theorem added_list_spec_filter (id : String) (l : List String) :
    (added_list_spec id l).filter (fun s => decide (s ≠ id)) =
      l.filter (fun s => decide (s ≠ id)) := by
  induction l with
  | nil => simp [added_list_spec]
  | cons a l ih =>
    unfold added_list_spec
    split
    · rename_i h
      subst h
      simp
    · rename_i hne
      rw [List.filter_cons_of_pos (by simpa using hne),
        List.filter_cons_of_pos (by simpa using hne), ih]

/-- Adding the id a second time changes nothing. -/
theorem added_list_spec_idem (id : String) (l : List String) :
    added_list_spec id (added_list_spec id l) = added_list_spec id l := by
  induction l with
  | nil => simp [added_list_spec]
  | cons a l ih =>
    by_cases h : a = id
    · subst h
      simp [added_list_spec]
    · simp only [added_list_spec, if_neg h, ih]

/-- The walk over the old list of the second loop with the flag
`UPDATE_MIME_SET_NON_DEFAULT`, followed by the append of an id that was not met. -/
theorem update_added_fold_add (id : String) (old_list : List String) :
    ∀ list : List (Option String),
      (let list_flags := old_list.foldl (fun (list_flags : List (Option String) × Nat) old =>
        if some old ≠ some id then (list_flags.1 ++ [some old], list_flags.2)
        else if list_flags.2 &&& UPDATE_MIME_SET_NON_DEFAULT ≠ 0 then
          (list_flags.1 ++ [some old], list_flags.2 ^^^ UPDATE_MIME_SET_NON_DEFAULT)
        else list_flags) (list, UPDATE_MIME_SET_NON_DEFAULT)
       (if list_flags.2 &&& UPDATE_MIME_SET_NON_DEFAULT ≠ 0 then
          (list_flags.1 ++ [some id], list_flags.2)
        else list_flags).1) = list ++ (added_list_spec id old_list).map some := by
  have h4 : UPDATE_MIME_SET_NON_DEFAULT &&& UPDATE_MIME_SET_NON_DEFAULT ≠ 0 := by decide
  have h0 : (UPDATE_MIME_SET_NON_DEFAULT ^^^ UPDATE_MIME_SET_NON_DEFAULT) &&&
      UPDATE_MIME_SET_NON_DEFAULT = 0 := by decide
  induction old_list with
  | nil =>
    intro list
    simp only [List.foldl_nil, if_pos h4, added_list_spec, List.map]
  | cons old rest ih =>
    intro list
    simp only [List.foldl_cons]
    by_cases hold : old = id
    · subst hold
      simp only [ne_eq, not_true_eq_false, if_false, if_pos h4]
      rw [update_added_fold_plain old rest _ _ h0]
      simp [h0, added_list_spec]
    · have hne : some old ≠ some id := fun h => hold (Option.some.inj h)
      rw [if_pos hne]
      refine (ih (list ++ [some old])).trans ?_
      simp [added_list_spec, hold]

/-- The vector of the second loop for an added type is the list of the specification. -/
theorem update_added_list_add (id : String) (old_list : Option (List String)) :
    (update_added_list (some id) old_list UPDATE_MIME_SET_NON_DEFAULT).1 =
      (added_list_spec id (old_list.getD [])).map some := by
  unfold update_added_list
  have h : UPDATE_MIME_SET_NON_DEFAULT &&& UPDATE_MIME_SET_LAST_USED = 0 := by decide
  simp only [h, ne_eq, not_true_eq_false, if_false]
  exact (update_added_fold_add id (old_list.getD []) []).trans (by simp)

/-- The walk of the second loop leaves the flags at `UPDATE_MIME_SET_NON_DEFAULT` or at
zero when it starts from one of them. -/
theorem update_added_fold_flags (id : String) (old_list : List String) :
    ∀ (list : List (Option String)) (flags : Nat),
      flags = UPDATE_MIME_SET_NON_DEFAULT ∨ flags = 0 →
      (old_list.foldl (fun (list_flags : List (Option String) × Nat) old =>
        if some old ≠ some id then (list_flags.1 ++ [some old], list_flags.2)
        else if list_flags.2 &&& UPDATE_MIME_SET_NON_DEFAULT ≠ 0 then
          (list_flags.1 ++ [some old], list_flags.2 ^^^ UPDATE_MIME_SET_NON_DEFAULT)
        else list_flags) (list, flags)).2 &&& UPDATE_MIME_REMOVE = 0 := by
  have h4 : UPDATE_MIME_SET_NON_DEFAULT &&& UPDATE_MIME_REMOVE = 0 := by decide
  have h0 : UPDATE_MIME_SET_NON_DEFAULT ^^^ UPDATE_MIME_SET_NON_DEFAULT = 0 := by decide
  induction old_list with
  | nil =>
    intro list flags hflags
    rcases hflags with h | h <;> simp [h, h4]
  | cons old rest ih =>
    intro list flags hflags
    simp only [List.foldl_cons]
    split
    · exact ih _ _ hflags
    · split
      · refine ih _ _ (Or.inr ?_)
        rcases hflags with h | h
        · simp only [h, h0]
        · simp only [h, Nat.zero_xor] at *
          rename_i hbit
          exact absurd (Nat.zero_and _) hbit
      · exact ih _ _ hflags

/-- The second loop body for an added type keeps the flag `UPDATE_MIME_REMOVE` unset. -/
theorem update_added_associations_add_flags (id : String) (state : GKeyFile × Nat)
    (content_type : String) (hflags : state.2 = UPDATE_MIME_SET_NON_DEFAULT) :
    (update_added_associations (some id) state content_type).2 &&& UPDATE_MIME_REMOVE = 0 := by
  have h : UPDATE_MIME_SET_NON_DEFAULT &&& UPDATE_MIME_SET_LAST_USED = 0 := by decide
  have h4 : UPDATE_MIME_SET_NON_DEFAULT &&& UPDATE_MIME_REMOVE = 0 := by decide
  have hfold := update_added_fold_flags id
    ((state.1.get_string_list ADDED_ASSOCIATIONS_GROUP content_type).getD []) []
    UPDATE_MIME_SET_NON_DEFAULT (Or.inl rfl)
  have hlist : (update_added_list (some id)
      (state.1.get_string_list ADDED_ASSOCIATIONS_GROUP content_type)
      UPDATE_MIME_SET_NON_DEFAULT).2 &&& UPDATE_MIME_REMOVE = 0 := by
    unfold update_added_list
    simp only [h, ne_eq, not_true_eq_false, if_false]
    split
    · exact hfold
    · exact hfold
  unfold update_added_associations
  simp only [hflags]
  split <;> exact hlist

/-- The first loop body without `UPDATE_MIME_SET_DEFAULT`: the string of the type is
written back, and a type without a string loses its key. -/
theorem update_default_applications_keep (id : String) (state : GKeyFile × Nat)
    (content_type : String) (hflags : state.2 &&& UPDATE_MIME_SET_DEFAULT = 0) :
    (update_default_applications (some id) state content_type).1 =
      match state.1.get_string DEFAULT_APPLICATIONS_GROUP content_type with
      | some string =>
        g_key_file_set_string state.1 DEFAULT_APPLICATIONS_GROUP content_type string
      | none => g_key_file_remove_key state.1 DEFAULT_APPLICATIONS_GROUP content_type := by
  unfold update_default_applications
  simp only [hflags, ne_eq, not_true_eq_false, and_false, if_false]
  cases state.1.get_string DEFAULT_APPLICATIONS_GROUP content_type <;> rfl

/-- The second loop body for an added type sets the list of the specification. -/
theorem update_added_associations_add (id : String) (state : GKeyFile × Nat)
    (content_type : String) (hflags : state.2 = UPDATE_MIME_SET_NON_DEFAULT) :
    (update_added_associations (some id) state content_type).1 =
      g_key_file_set_string_list state.1 ADDED_ASSOCIATIONS_GROUP content_type
        (added_list_spec id
          ((state.1.get_string_list ADDED_ASSOCIATIONS_GROUP content_type).getD [])) := by
  unfold update_added_associations
  simp only [hflags, update_added_list_add, reduceOption_map_some]
  have hne := added_list_spec_ne_nil id
    ((state.1.get_string_list ADDED_ASSOCIATIONS_GROUP content_type).getD [])
  cases hl : added_list_spec id
      ((state.1.get_string_list ADDED_ASSOCIATIONS_GROUP content_type).getD []) with
  | nil => exact absurd hl hne
  | cons a rest => simp

/-- The third loop body without `UPDATE_MIME_REMOVE`: the old list without the id, and no
key when nothing is left. -/
theorem update_removed_associations_keep (id : String) (state : GKeyFile × Nat)
    (content_type : String) (hflags : state.2 &&& UPDATE_MIME_REMOVE = 0) :
    (update_removed_associations (some id) state content_type).1 =
      if ((state.1.get_string_list REMOVED_ASSOCIATIONS_GROUP content_type).getD []).filter
          (fun s => decide (s ≠ id)) = [] then
        g_key_file_remove_key state.1 REMOVED_ASSOCIATIONS_GROUP content_type
      else
        g_key_file_set_string_list state.1 REMOVED_ASSOCIATIONS_GROUP content_type
          (((state.1.get_string_list REMOVED_ASSOCIATIONS_GROUP content_type).getD []).filter
            (fun s => decide (s ≠ id))) := by
  unfold update_removed_associations update_removed_list
  simp only [hflags, ne_eq, not_true_eq_false, if_false, update_removed_fold, List.nil_append,
    reduceOption_map_some]
  cases hl : ((state.1.get_string_list REMOVED_ASSOCIATIONS_GROUP content_type).getD []).filter
      (fun s => decide (s ≠ id)) with
  | nil => simp [hl]
  | cons a rest => simp [hl]

/-- The key file of `update_mimeapps_list` for an added type, setter by setter. -/
theorem update_mimeapps_list_key_file_add (key_file : GKeyFile) (id content_type : String) :
    update_mimeapps_list_key_file key_file (some id) (some content_type)
        UPDATE_MIME_SET_NON_DEFAULT =
      (if ((key_file.get_string_list REMOVED_ASSOCIATIONS_GROUP content_type).getD []).filter
          (fun s => decide (s ≠ id)) = [] then
        g_key_file_remove_key
          (g_key_file_set_string_list
            (match key_file.get_string DEFAULT_APPLICATIONS_GROUP content_type with
              | some string =>
                g_key_file_set_string key_file DEFAULT_APPLICATIONS_GROUP content_type string
              | none => g_key_file_remove_key key_file DEFAULT_APPLICATIONS_GROUP content_type)
            ADDED_ASSOCIATIONS_GROUP content_type
            (added_list_spec id
              ((key_file.get_string_list ADDED_ASSOCIATIONS_GROUP content_type).getD [])))
          REMOVED_ASSOCIATIONS_GROUP content_type
      else
        g_key_file_set_string_list
          (g_key_file_set_string_list
            (match key_file.get_string DEFAULT_APPLICATIONS_GROUP content_type with
              | some string =>
                g_key_file_set_string key_file DEFAULT_APPLICATIONS_GROUP content_type string
              | none => g_key_file_remove_key key_file DEFAULT_APPLICATIONS_GROUP content_type)
            ADDED_ASSOCIATIONS_GROUP content_type
            (added_list_spec id
              ((key_file.get_string_list ADDED_ASSOCIATIONS_GROUP content_type).getD [])))
          REMOVED_ASSOCIATIONS_GROUP content_type
          (((key_file.get_string_list REMOVED_ASSOCIATIONS_GROUP content_type).getD []).filter
            (fun s => decide (s ≠ id)))) := by
  have hbit : UPDATE_MIME_SET_NON_DEFAULT &&& UPDATE_MIME_SET_DEFAULT = 0 := by decide
  have hf1 := update_default_applications_flags (some id)
    (key_file, UPDATE_MIME_SET_NON_DEFAULT) content_type hbit
  have hd := update_default_applications_keep id
    (key_file, UPDATE_MIME_SET_NON_DEFAULT) content_type hbit
  obtain ⟨hda, _⟩ := update_default_applications_other (some id)
    (key_file, UPDATE_MIME_SET_NON_DEFAULT) content_type
    ADDED_ASSOCIATIONS_GROUP added_ne_default
  obtain ⟨hdr, _⟩ := update_default_applications_other (some id)
    (key_file, UPDATE_MIME_SET_NON_DEFAULT) content_type
    REMOVED_ASSOCIATIONS_GROUP removed_ne_default
  obtain ⟨har, _, _⟩ := update_added_associations_other (some id)
    (update_default_applications (some id) (key_file, UPDATE_MIME_SET_NON_DEFAULT) content_type)
    content_type REMOVED_ASSOCIATIONS_GROUP removed_ne_added
  rw [update_mimeapps_list_key_file_one,
    update_removed_associations_keep id _ content_type
      (update_added_associations_add_flags id _ content_type hf1),
    update_added_associations_add id _ content_type hf1, ← update_added_associations_add id _ content_type hf1, har, hdr,
    update_added_associations_add id _ content_type hf1, hda, hd]

/-- What the getters answer for the type in the key file of an added type. -/
theorem update_mimeapps_list_key_file_add_fields (key_file : GKeyFile)
    (id content_type : String) :
    (update_mimeapps_list_key_file key_file (some id) (some content_type)
        UPDATE_MIME_SET_NON_DEFAULT).start_group ≠ none ∧
    (update_mimeapps_list_key_file key_file (some id) (some content_type)
        UPDATE_MIME_SET_NON_DEFAULT).get_string DEFAULT_APPLICATIONS_GROUP content_type =
      key_file.get_string DEFAULT_APPLICATIONS_GROUP content_type ∧
    (update_mimeapps_list_key_file key_file (some id) (some content_type)
        UPDATE_MIME_SET_NON_DEFAULT).get_string_list DEFAULT_APPLICATIONS_GROUP content_type =
      (key_file.get_string DEFAULT_APPLICATIONS_GROUP content_type).map
        (fun string => g_key_file_value_pieces string.data []) ∧
    (content_type ∈ ((update_mimeapps_list_key_file key_file (some id) (some content_type)
        UPDATE_MIME_SET_NON_DEFAULT).get_keys DEFAULT_APPLICATIONS_GROUP).getD [] ↔
      key_file.get_string DEFAULT_APPLICATIONS_GROUP content_type ≠ none) ∧
    (update_mimeapps_list_key_file key_file (some id) (some content_type)
        UPDATE_MIME_SET_NON_DEFAULT).get_string_list ADDED_ASSOCIATIONS_GROUP content_type =
      some (added_list_spec id
        ((key_file.get_string_list ADDED_ASSOCIATIONS_GROUP content_type).getD [])) ∧
    (update_mimeapps_list_key_file key_file (some id) (some content_type)
        UPDATE_MIME_SET_NON_DEFAULT).get_string ADDED_ASSOCIATIONS_GROUP content_type =
      some (String.join ((added_list_spec id
        ((key_file.get_string_list ADDED_ASSOCIATIONS_GROUP content_type).getD [])).map
          (fun s => s ++ ";"))) ∧
    content_type ∈ ((update_mimeapps_list_key_file key_file (some id) (some content_type)
        UPDATE_MIME_SET_NON_DEFAULT).get_keys ADDED_ASSOCIATIONS_GROUP).getD [] ∧
    (update_mimeapps_list_key_file key_file (some id) (some content_type)
        UPDATE_MIME_SET_NON_DEFAULT).get_string_list REMOVED_ASSOCIATIONS_GROUP content_type =
      (if ((key_file.get_string_list REMOVED_ASSOCIATIONS_GROUP content_type).getD []).filter
          (fun s => decide (s ≠ id)) = [] then none
       else some (((key_file.get_string_list REMOVED_ASSOCIATIONS_GROUP
          content_type).getD []).filter (fun s => decide (s ≠ id)))) ∧
    (update_mimeapps_list_key_file key_file (some id) (some content_type)
        UPDATE_MIME_SET_NON_DEFAULT).get_string REMOVED_ASSOCIATIONS_GROUP content_type =
      (if ((key_file.get_string_list REMOVED_ASSOCIATIONS_GROUP content_type).getD []).filter
          (fun s => decide (s ≠ id)) = [] then none
       else some (String.join ((((key_file.get_string_list REMOVED_ASSOCIATIONS_GROUP
          content_type).getD []).filter (fun s => decide (s ≠ id))).map
            (fun s => s ++ ";")))) ∧
    (content_type ∈ ((update_mimeapps_list_key_file key_file (some id) (some content_type)
        UPDATE_MIME_SET_NON_DEFAULT).get_keys REMOVED_ASSOCIATIONS_GROUP).getD [] ↔
      ((key_file.get_string_list REMOVED_ASSOCIATIONS_GROUP content_type).getD []).filter
          (fun s => decide (s ≠ id)) ≠ []) := by
  have h1 := added_ne_default
  have h2 := removed_ne_default
  have h3 := removed_ne_added
  have h1s := added_ne_default.symm
  have h2s := removed_ne_default.symm
  have h3s := removed_ne_added.symm
  rw [update_mimeapps_list_key_file_add]
  generalize ((key_file.get_string_list REMOVED_ASSOCIATIONS_GROUP content_type).getD []).filter
    (fun s => decide (s ≠ id)) = removed
  generalize added_list_spec id
    ((key_file.get_string_list ADDED_ASSOCIATIONS_GROUP content_type).getD []) = added
  have hkeys_set : ∀ (keys : Option (List String)) (key : String),
      key ∈ (match keys with
        | none => some [key]
        | some keys => if key ∈ keys then some keys else some (keys ++ [key])).getD [] := by
    intro keys key
    cases keys with
    | none => simp
    | some keys =>
      by_cases hk : key ∈ keys
      · simp [hk]
      · simp [hk]
  have hkeys_remove : ∀ (keys : Option (List String)) (key : String),
      key ∉ (keys.map (fun keys => keys.filter (fun k => decide (k ≠ key)))).getD [] := by
    intro keys key
    cases keys with
    | none => simp
    | some keys => simp
  by_cases hr : removed = []
  · rw [if_pos hr]
    cases hs : key_file.get_string DEFAULT_APPLICATIONS_GROUP content_type with
    | none =>
      simp only [g_key_file_remove_key, g_key_file_set_string_list, hs, h1, h2, h3, h1s, h2s,
        h3s, false_and, if_false, true_and, if_true, and_self, if_pos hr, ne_eq,
        not_true_eq_false, not_false_eq_true, Option.map_none', iff_false, iff_true,
        hkeys_set, hkeys_remove, and_true, hr]
      cases key_file.start_group <;> simp
    | some string =>
      simp only [g_key_file_remove_key, g_key_file_set_string_list, g_key_file_set_string, hs,
        h1, h2, h3, h1s, h2s, h3s, false_and, if_false, true_and, if_true, and_self, if_pos hr,
        ne_eq, not_true_eq_false, not_false_eq_true, Option.map_some', iff_false, iff_true,
        hkeys_set, hkeys_remove, and_true, hr, reduceCtorEq]
      cases key_file.start_group <;> simp
  · rw [if_neg hr]
    cases hs : key_file.get_string DEFAULT_APPLICATIONS_GROUP content_type with
    | none =>
      simp only [g_key_file_remove_key, g_key_file_set_string_list, hs, h1, h2, h3, h1s, h2s,
        h3s, false_and, if_false, true_and, if_true, and_self, if_neg hr, ne_eq,
        not_true_eq_false, not_false_eq_true, Option.map_none', iff_false, iff_true,
        hkeys_set, hkeys_remove, and_true, hr]
      cases key_file.start_group <;> simp
    | some string =>
      simp only [g_key_file_remove_key, g_key_file_set_string_list, g_key_file_set_string, hs,
        h1, h2, h3, h1s, h2s, h3s, false_and, if_false, true_and, if_true, and_self, if_neg hr,
        ne_eq, not_true_eq_false, not_false_eq_true, Option.map_some', iff_false, iff_true,
        hkeys_set, hkeys_remove, and_true, hr, reduceCtorEq]
      cases key_file.start_group <;> simp

/-- An id that is not in the list goes to its end. -/
theorem added_list_spec_not_mem (id : String) (l : List String) (h : id ∉ l) :
    added_list_spec id l = l ++ [id] := by
  induction l with
  | nil => rfl
  | cons a l ih =>
    have ha : ¬ a = id := fun e => h (e ▸ List.mem_cons_self a l)
    have hl : id ∉ l := fun e => h (List.mem_cons_of_mem a e)
    simp only [added_list_spec, if_neg ha, ih hl, List.cons_append]

/-- C38: for every prior document, id and type, `update_mimeapps_list` with
`UPDATE_MIME_SET_NON_DEFAULT` (the call of `g_desktop_app_info_add_supports_type`) leaves
as the `Added Associations` list of the type the list the specification describes: the id
occurs in it exactly once, at the index of its first occurrence in the prior list (which
is the length of the prior list, so the end, when it was absent), and the strings other
than the id are the prior ones in their order; the `Removed Associations` list of the
type is the prior one without the id; and a second call on the resulting document gives
that document again. -/
theorem add_supports_type_adds_once (key_file : GKeyFile) (id content_type : String) :
    (update_mimeapps_list_key_file key_file (some id) (some content_type)
        UPDATE_MIME_SET_NON_DEFAULT).get_string_list ADDED_ASSOCIATIONS_GROUP content_type =
      some (added_list_spec id
        ((key_file.get_string_list ADDED_ASSOCIATIONS_GROUP content_type).getD [])) ∧
    (((update_mimeapps_list_key_file key_file (some id) (some content_type)
        UPDATE_MIME_SET_NON_DEFAULT).get_string_list ADDED_ASSOCIATIONS_GROUP
        content_type).getD []).count id = 1 ∧
    (((update_mimeapps_list_key_file key_file (some id) (some content_type)
        UPDATE_MIME_SET_NON_DEFAULT).get_string_list ADDED_ASSOCIATIONS_GROUP
        content_type).getD []).indexOf id =
      ((key_file.get_string_list ADDED_ASSOCIATIONS_GROUP content_type).getD []).indexOf id ∧
    (id ∉ (key_file.get_string_list ADDED_ASSOCIATIONS_GROUP content_type).getD [] →
      ((update_mimeapps_list_key_file key_file (some id) (some content_type)
        UPDATE_MIME_SET_NON_DEFAULT).get_string_list ADDED_ASSOCIATIONS_GROUP
        content_type).getD [] =
      (key_file.get_string_list ADDED_ASSOCIATIONS_GROUP content_type).getD [] ++ [id]) ∧
    (((update_mimeapps_list_key_file key_file (some id) (some content_type)
        UPDATE_MIME_SET_NON_DEFAULT).get_string_list ADDED_ASSOCIATIONS_GROUP
        content_type).getD []).filter (fun s => decide (s ≠ id)) =
      ((key_file.get_string_list ADDED_ASSOCIATIONS_GROUP content_type).getD []).filter
        (fun s => decide (s ≠ id)) ∧
    ((update_mimeapps_list_key_file key_file (some id) (some content_type)
        UPDATE_MIME_SET_NON_DEFAULT).get_string_list REMOVED_ASSOCIATIONS_GROUP
        content_type).getD [] =
      ((key_file.get_string_list REMOVED_ASSOCIATIONS_GROUP content_type).getD []).filter
        (fun s => decide (s ≠ id)) ∧
    id ∉ ((update_mimeapps_list_key_file key_file (some id) (some content_type)
        UPDATE_MIME_SET_NON_DEFAULT).get_string_list REMOVED_ASSOCIATIONS_GROUP
        content_type).getD [] ∧
    update_mimeapps_list_key_file
        (update_mimeapps_list_key_file key_file (some id) (some content_type)
          UPDATE_MIME_SET_NON_DEFAULT) (some id) (some content_type)
        UPDATE_MIME_SET_NON_DEFAULT =
      update_mimeapps_list_key_file key_file (some id) (some content_type)
        UPDATE_MIME_SET_NON_DEFAULT := by
  obtain ⟨f1, f2, f3, f4, f5, f6, f7, f8, f9, f10⟩ :=
    update_mimeapps_list_key_file_add_fields key_file id content_type
  have hremoved : ((update_mimeapps_list_key_file key_file (some id) (some content_type)
        UPDATE_MIME_SET_NON_DEFAULT).get_string_list REMOVED_ASSOCIATIONS_GROUP
        content_type).getD [] =
      ((key_file.get_string_list REMOVED_ASSOCIATIONS_GROUP content_type).getD []).filter
        (fun s => decide (s ≠ id)) := by
    rw [f8]
    split
    · rename_i h
      rw [h]
      rfl
    · rfl
  refine ⟨f5, ?_, ?_, ?_, ?_, hremoved, ?_, ?_⟩
  · rw [f5, Option.getD_some, added_list_spec_count]
  · rw [f5, Option.getD_some, added_list_spec_indexOf]
  · intro h
    rw [f5, Option.getD_some, added_list_spec_not_mem id _ h]
  · rw [f5, Option.getD_some, added_list_spec_filter]
  · rw [hremoved]
    simp [List.mem_filter]
  · rw [update_mimeapps_list_key_file_add
      (update_mimeapps_list_key_file key_file (some id) (some content_type)
        UPDATE_MIME_SET_NON_DEFAULT) id content_type]
    rw [hremoved, List.filter_filter, f5, Option.getD_some, added_list_spec_idem, f2]
    simp only [Bool.and_self]
    generalize update_mimeapps_list_key_file key_file (some id) (some content_type)
      UPDATE_MIME_SET_NON_DEFAULT = doc at *
    have hdefault : (match key_file.get_string DEFAULT_APPLICATIONS_GROUP content_type with
        | some string =>
          g_key_file_set_string doc DEFAULT_APPLICATIONS_GROUP content_type string
        | none => g_key_file_remove_key doc DEFAULT_APPLICATIONS_GROUP content_type) = doc := by
      cases hs : key_file.get_string DEFAULT_APPLICATIONS_GROUP content_type with
      | none =>
        rw [hs] at f2 f3 f4
        exact g_key_file_remove_key_same doc _ _ f2 f3 (fun h => (f4.mp h) rfl)
      | some string =>
        rw [hs] at f2 f3 f4
        exact g_key_file_set_string_same doc _ _ string f1 f2 f3
          (f4.mpr (fun h => Option.noConfusion h))
    rw [hdefault, g_key_file_set_string_list_same doc _ _ _ f1 f6 f5 f7]
    by_cases hr : ((key_file.get_string_list REMOVED_ASSOCIATIONS_GROUP content_type).getD
        []).filter (fun s => decide (s ≠ id)) = []
    · rw [if_pos hr]
      rw [if_pos hr] at f8 f9
      exact g_key_file_remove_key_same doc _ _ f9 f8 (fun h => (f10.mp h) hr)
    · rw [if_neg hr]
      rw [if_neg hr] at f8 f9
      exact g_key_file_set_string_list_same doc _ _ _ f1 f9 f8 (f10.mpr hr)

/-! ## The blocklist of a default lookup -/

/-- One record of the second inner loop keeps what was collected, in front, and an id
that it collects is not on the blocklist it leaves. -/
theorem mime_lookup_step_blocklist (desktop_file_dirs : List DesktopFileDir) (dir : Nat)
    (mime_type : String) (hb : List String × List String) (base : List String)
    (hinv : ∀ x ∈ hb.1, x ∈ base ∨ x ∉ hb.2) :
    hb.1 <+: (desktop_file_dir_unindexed_mime_lookup desktop_file_dirs dir mime_type hb).1 ∧
    hb.2 <+: (desktop_file_dir_unindexed_mime_lookup desktop_file_dirs dir mime_type hb).2 ∧
    ∀ x ∈ (desktop_file_dir_unindexed_mime_lookup desktop_file_dirs dir mime_type hb).1,
      x ∈ base ∨
        x ∉ (desktop_file_dir_unindexed_mime_lookup desktop_file_dirs dir mime_type hb).2 := by
  refine ⟨?_, ?_, ?_⟩
  · rw [mime_lookup_hits]
    exact List.prefix_append _ _
  · rw [mime_lookup_blocklist]
    exact List.prefix_append _ _
  · intro x hx
    have hx' := (mem_mime_lookup_hits desktop_file_dirs dir mime_type hb x).mp hx
    have hnot : x ∉ hb.2 →
        x ∉ (desktop_file_dir_unindexed_mime_lookup desktop_file_dirs dir mime_type hb).2 := by
      intro hnb hmem
      rcases (mem_mime_lookup_blocklist desktop_file_dirs dir mime_type hb x).mp hmem with
        h | ⟨_, _, h⟩
      · exact hnb h
      · exact h hx
    rcases hx' with h | ⟨_, _, h⟩
    · rcases hinv x h with hb1 | hb2
      · exact Or.inl hb1
      · exact Or.inr (hnot hb2)
    · exact Or.inr (hnot h)

/-- The second inner loop over the records `0 .. n-1`: both arrays only grow at the end, and
an id of the results that was not in them at the start is not on the blocklist. -/
theorem mime_lookup_dirs_blocklist (desktop_file_dirs : List DesktopFileDir)
    (mime_type : String) (base blocklist : List String) :
    ∀ n,
      base <+: (mime_lookup_dirs desktop_file_dirs mime_type n (base, blocklist)).1 ∧
      blocklist <+: (mime_lookup_dirs desktop_file_dirs mime_type n (base, blocklist)).2 ∧
      ∀ x ∈ (mime_lookup_dirs desktop_file_dirs mime_type n (base, blocklist)).1,
        x ∈ base ∨ x ∉ (mime_lookup_dirs desktop_file_dirs mime_type n (base, blocklist)).2 := by
  intro n
  induction n with
  | zero =>
    refine ⟨?_, ?_, ?_⟩
    · simp [mime_lookup_dirs]
    · simp [mime_lookup_dirs]
    · intro x hx
      left
      simpa [mime_lookup_dirs] using hx
  | succ n ih =>
    obtain ⟨ih1, ih2, ih3⟩ := ih
    obtain ⟨s1, s2, s3⟩ := mime_lookup_step_blocklist desktop_file_dirs n mime_type
      (mime_lookup_dirs desktop_file_dirs mime_type n (base, blocklist)) base ih3
    rw [mime_lookup_dirs_succ]
    exact ⟨ih1.trans s1, ih2.trans s2, s3⟩

/-- The loop over the types gives what the first collected id that resolves gives, the
types taken in turn. -/
theorem default_for_types_lookups (env : Env) (desktop_file_dirs : List DesktopFileDir)
    (must_support_uris : Bool) :
    ∀ (types blocklist : List String),
      default_for_types env desktop_file_dirs must_support_uris types blocklist =
        (default_for_lookups desktop_file_dirs types blocklist).findSome? (fun lookup =>
          lookup.results.findSome?
            (default_for_type_app env desktop_file_dirs must_support_uris)) := by
  intro types
  induction types with
  | nil =>
    intro blocklist
    rfl
  | cons ty types ih =>
    intro blocklist
    simp only [default_for_types, default_for_lookups, List.findSome?_cons]
    cases (mime_lookup_dirs desktop_file_dirs ty desktop_file_dirs.length
        (default_lookup_dirs desktop_file_dirs ty desktop_file_dirs.length [],
          blocklist)).1.findSome?
        (default_for_type_app env desktop_file_dirs must_support_uris) with
    | none => exact ih _
    | some info => rfl

/-- The blocklist along the candidate types: it starts every type as the last one left it
and only grows, and an id that is on it is among the results of a type only as a default
of that type. -/
theorem default_for_lookups_blocklist (desktop_file_dirs : List DesktopFileDir) :
    ∀ (types blocklist : List String),
      (∀ lookup ∈ default_for_lookups desktop_file_dirs types blocklist,
        blocklist <+: lookup.blocklist ∧ lookup.defaults <+: lookup.results ∧
        ∀ id ∈ lookup.blocklist, id ∈ lookup.results → id ∈ lookup.defaults) ∧
      (default_for_lookups desktop_file_dirs types blocklist).Pairwise (fun earlier later =>
        earlier.blocklist <+: later.blocklist ∧
        ∀ id ∈ earlier.blocklist, id ∈ later.results → id ∈ later.defaults) := by
  intro types
  induction types with
  | nil =>
    intro blocklist
    simp [default_for_lookups]
  | cons ty types ih =>
    intro blocklist
    obtain ⟨h1, h2, h3⟩ := mime_lookup_dirs_blocklist desktop_file_dirs ty
      (default_lookup_dirs desktop_file_dirs ty desktop_file_dirs.length []) blocklist
      desktop_file_dirs.length
    obtain ⟨ihmem, ihpair⟩ := ih (mime_lookup_dirs desktop_file_dirs ty desktop_file_dirs.length
      (default_lookup_dirs desktop_file_dirs ty desktop_file_dirs.length [], blocklist)).2
    simp only [default_for_lookups]
    refine ⟨?_, ?_⟩
    · intro lookup hmem
      rcases List.mem_cons.mp hmem with h | h
      · subst h
        refine ⟨h2, h1, ?_⟩
        intro id hid hres
        rcases h3 id hres with h | h
        · exact h
        · exact absurd hid h
      · obtain ⟨p1, p2, p3⟩ := ihmem lookup h
        exact ⟨h2.trans p1, p2, p3⟩
    · refine List.Pairwise.cons ?_ ihpair
      intro later hlater
      obtain ⟨p1, _, p3⟩ := ihmem later hlater
      exact ⟨p1, fun id hid hres => p3 id (p1.subset hid) hres⟩

/-- Every candidate type starts from empty results: what it leaves is what the two inner
loops give for that type alone, from the blocklist that the type before it left. -/
theorem default_for_lookups_restart (desktop_file_dirs : List DesktopFileDir) :
    ∀ (types blocklist : List String) (i : Nat) (ty : String), types[i]? = some ty →
      ∃ lookup, (default_for_lookups desktop_file_dirs types blocklist)[i]? = some lookup ∧
        lookup.defaults =
          default_lookup_dirs desktop_file_dirs ty desktop_file_dirs.length [] ∧
        (lookup.results, lookup.blocklist) =
          mime_lookup_dirs desktop_file_dirs ty desktop_file_dirs.length
            (lookup.defaults,
              match i with
              | 0 => blocklist
              | j + 1 =>
                (((default_for_lookups desktop_file_dirs types blocklist)[j]?).map
                  (fun earlier => earlier.blocklist)).getD []) := by
  intro types
  induction types with
  | nil =>
    intro blocklist i ty h
    simp at h
  | cons t types ih =>
    intro blocklist i ty h
    cases i with
    | zero =>
      simp only [List.getElem?_cons_zero, Option.some.injEq] at h
      subst h
      refine ⟨
        { defaults := default_lookup_dirs desktop_file_dirs t desktop_file_dirs.length []
          results := (mime_lookup_dirs desktop_file_dirs t desktop_file_dirs.length
            (default_lookup_dirs desktop_file_dirs t desktop_file_dirs.length [],
              blocklist)).1
          blocklist := (mime_lookup_dirs desktop_file_dirs t desktop_file_dirs.length
            (default_lookup_dirs desktop_file_dirs t desktop_file_dirs.length [],
              blocklist)).2 },
        by simp only [default_for_lookups, List.getElem?_cons_zero], rfl, rfl⟩
    | succ k =>
      simp only [List.getElem?_cons_succ] at h
      obtain ⟨lookup, hl, hd, hr⟩ := ih (mime_lookup_dirs desktop_file_dirs t
        desktop_file_dirs.length
        (default_lookup_dirs desktop_file_dirs t desktop_file_dirs.length [], blocklist)).2
        k ty h
      refine ⟨lookup, by simp only [default_for_lookups, List.getElem?_cons_succ, hl], hd, ?_⟩
      rw [hr]
      cases k with
      | zero => simp [default_for_lookups]
      | succ k' => simp [default_for_lookups]

/-- C35: in one call of `g_app_info_get_default_for_type_impl` the candidate types are
looked up in turn and the call gives the first collected id that resolves.  Along the
types the blocklist only grows: the blocklist after an earlier type is the front part of
the blocklist after a later one.  An id that is on the blocklist after a type is among the
results of that type or of a later type only when it is a default of that type (collected
by the first inner loop), never as a hit of the additions.  The results are emptied
between the types: the results of a type are what the two inner loops collect for this
type alone, starting from no results and from the blocklist that the type before it
left (the empty blocklist for the first type). -/
theorem default_for_blocklist_grows (env : Env) (fuel : Nat)
    (desktop_file_dirs : List DesktopFileDir) (content_type : String)
    (must_support_uris : Bool) (types : List String) :
    g_app_info_get_default_for_type_impl env fuel desktop_file_dirs content_type
        must_support_uris =
      (get_list_of_mimetypes env fuel content_type true).map (fun types =>
        (default_for_lookups desktop_file_dirs types []).findSome? (fun lookup =>
          lookup.results.findSome?
            (default_for_type_app env desktop_file_dirs must_support_uris))) ∧
    default_for_types env desktop_file_dirs must_support_uris types [] =
      (default_for_lookups desktop_file_dirs types []).findSome? (fun lookup =>
        lookup.results.findSome?
          (default_for_type_app env desktop_file_dirs must_support_uris)) ∧
    (∀ lookup ∈ default_for_lookups desktop_file_dirs types [],
      lookup.defaults <+: lookup.results ∧
      ∀ id ∈ lookup.blocklist, id ∈ lookup.results → id ∈ lookup.defaults) ∧
    (default_for_lookups desktop_file_dirs types []).Pairwise (fun earlier later =>
      earlier.blocklist <+: later.blocklist ∧
      ∀ id ∈ earlier.blocklist, id ∈ later.results → id ∈ later.defaults) ∧
    (∀ (i : Nat) (ty : String), types[i]? = some ty →
      ∃ lookup, (default_for_lookups desktop_file_dirs types [])[i]? = some lookup ∧
        lookup.defaults =
          default_lookup_dirs desktop_file_dirs ty desktop_file_dirs.length [] ∧
        (lookup.results, lookup.blocklist) =
          mime_lookup_dirs desktop_file_dirs ty desktop_file_dirs.length
            (lookup.defaults,
              match i with
              | 0 => []
              | j + 1 =>
                (((default_for_lookups desktop_file_dirs types [])[j]?).map
                  (fun earlier => earlier.blocklist)).getD [])) := by
  refine ⟨?_, default_for_types_lookups env desktop_file_dirs must_support_uris types [],
    ?_, (default_for_lookups_blocklist desktop_file_dirs types []).2,
    default_for_lookups_restart desktop_file_dirs types []⟩
  · unfold g_app_info_get_default_for_type_impl
    congr 1
    funext types
    exact default_for_types_lookups env desktop_file_dirs must_support_uris types []
  · intro lookup hmem
    exact ((default_for_lookups_blocklist desktop_file_dirs types []).1 lookup hmem).2
end DesktopAppInfo
